import Mathlib

/-!
# MPEG-TS demultiplexer orchestrator (`lib/upipe-ts/upipe_ts_demux.c`)

Shallow embedding of the orchestrator.  The private context of the pipe, the
registry of PSI PIDs and the output subpipes are explicit state; the inner
pipes (split, sync, check, PSI split, ...) are collaborators and are kept as
handles in a small heap that records what the orchestrator configured on them
(output, flow definition), together with a chronological log of every call
made on a collaborator and of every event thrown.

Conventions
* a C pointer is an `Option Nat` (`none` is `NULL`);
* a function returns `none` when the C execution would abort or leave defined
  behaviour (failed `assert`, call on a `NULL` pipe, use of a `psi_pid`
  structure that is not allocated);
* every collaborator call that may fail (allocations, attribute writes,
  `upipe_set_flow_def` on an inner pipe) takes its outcome from the head of
  `World.script`; an exhausted script means success;
* collaborators do not call back inside a call: the reaction of an inner pipe
  (a probe event) is a separate step of the model.
-/

namespace TsDemux

/-- Value of `MAX_PIDS`. -/
def MAX_PIDS : Nat := 8192

/-- Value of `EXPECTED_FLOW_DEF`. -/
def EXPECTED_FLOW_DEF : String := "block."

/-- Value of `EXPECTED_FLOW_DEF_SYNC`. -/
def EXPECTED_FLOW_DEF_SYNC : String := "block.mpegts."

/-- Value of `EXPECTED_FLOW_DEF_CHECK`. -/
def EXPECTED_FLOW_DEF_CHECK : String := "block.mpegtsaligned."

/-- Conversion of an unsigned value to `uint16_t`. -/
def to_uint16 (n : Nat) : Nat := n % 65536

/-- Conversion of an unsigned value to `uint8_t`. -/
def to_uint8 (n : Nat) : Nat := n % 256

/-- Conversion of an unsigned value to `unsigned int` (32 bits). -/
def to_uint (n : Nat) : Nat := n % 4294967296

/-- Modelled from the spec: `ubase_ncmp(string, prefix)` of `upipe/ubase.h`
(the macro is not in the sources at hand).  It compares the beginning of
`string` with `pre`; the result is `true` (non-zero in C) exactly when `string`
does not begin with `pre`. -/
def ubase_ncmp (string pre : String) : Bool :=
  !(pre.data.isPrefixOf string.data)

/-- Input mode of a ts_demux pipe (`enum upipe_ts_demux_mode`). -/
inductive upipe_ts_demux_mode where
  | UPIPE_TS_DEMUX_OFF
  | UPIPE_TS_DEMUX_SYNC
  | UPIPE_TS_DEMUX_CHECK
  | UPIPE_TS_DEMUX_SCAN
  deriving DecidableEq, Repr

/-- Modelled from the spec: `enum upipe_ts_demux_conformance` of
`upipe-ts/upipe_ts_demux.h` (the header is not in the sources at hand).  The
five enumerators are the ones the source names; `unnamed raw` stands for an
object of the enumeration type whose value is none of the five. -/
inductive upipe_ts_demux_conformance where
  | CONFORMANCE_AUTO
  | CONFORMANCE_ISO
  | CONFORMANCE_DVB
  | CONFORMANCE_ATSC
  | CONFORMANCE_ISDB
  | unnamed (raw : Nat)
  deriving DecidableEq, Repr

/-- Message unit: the attributes the orchestrator reads or writes, and the
payload.  A unit is a flow definition exactly when `flow_def` is present. -/
structure uref where
  /-- flow definition string (`uref_flow_get_def`) -/
  flow_def : Option String
  /-- PID attribute (`uref_ts_flow_get_pid`), an unsigned 64-bit value -/
  pid : Option Nat
  /-- PSI filter attribute: filter bytes and mask bytes -/
  psi_filter : Option (List Nat × List Nat)
  /-- program attribute (`uref_flow_set_program_va`) -/
  program : Option String
  /-- payload bytes -/
  block : List Nat
  deriving DecidableEq, Repr

/-- Managers an inner pipe can be allocated from: the fields of
`struct upipe_ts_demux_mgr`, and the output manager of another inner pipe
(`upipe_alloc_output`). -/
inductive pipe_mgr where
  | ts_split_mgr
  | ts_sync_mgr
  | ts_check_mgr
  | ts_decaps_mgr
  | ts_psim_mgr
  | ts_psi_split_mgr
  | ts_patd_mgr
  | ts_pmtd_mgr
  | ts_pesd_mgr
  | output_of (parent : Nat)
  deriving DecidableEq, Repr

/-- Probes an inner pipe can be allocated with: the five probes embedded in
`struct upipe_ts_demux`, and the probe of the demux itself (`upipe->uprobe`). -/
inductive uprobe where
  | outer
  | plumber
  | psim_plumber
  | psi_split_plumber
  | patd_probe
  | pmtd_probe
  deriving DecidableEq, Repr

/-- Inner pipe as the orchestrator sees it. -/
structure upipe where
  id : Nat
  mgr : pipe_mgr
  uprobe : uprobe
  output : Option Nat
  flow_def : Option uref
  deriving DecidableEq, Repr

/-- Events thrown to the probe of the demux (or of one of its outputs). -/
inductive thrown where
  | ready
  | dead
  | aerror
  | need_uref_mgr
  | flow_def_error (u : uref)
  | split_add_flow (flow_id : Nat) (flow_def : uref)
  | split_del_flow (flow_id : Nat)
  deriving DecidableEq, Repr

/-- One entry of the chronological log: a call on a collaborator or an event
thrown.  `throw none e` is thrown by the demux, `throw (some o) e` by its
output subpipe `o`. -/
inductive Action where
  | upipe_alloc (mgr : pipe_mgr) (probe : uprobe) (result : Option Nat)
  | upipe_use (pipe : Nat)
  | upipe_release (pipe : Nat)
  | upipe_set_output (pipe : Nat) (output : Option Nat)
  | upipe_set_flow_def (pipe : Nat) (flow_def : uref) (ok : Bool)
  | upipe_input (pipe : Nat) (u : uref)
  | uref_free (u : uref)
  | uref_mgr_use (mgr : Nat)
  | uref_mgr_release (mgr : Nat)
  | ulog_debug (msg : String)
  | ulog_warning (msg : String)
  | ulog_aerror
  | throw (output : Option Nat) (e : thrown)
  deriving DecidableEq, Repr

/-- Context of a PID carrying PSI (`struct upipe_ts_demux_psi_pid`); `addr` is
the address of the structure, by which outputs refer to it. -/
structure upipe_ts_demux_psi_pid where
  addr : Nat
  pid : Nat
  psi_split : Nat
  split_output : Nat
  refcount : Nat
  deriving DecidableEq, Repr

/-- Private context of a ts_demux pipe (`struct upipe_ts_demux`). -/
structure upipe_ts_demux where
  uref_mgr : Option Nat
  flow_def_ok : Bool
  input_mode : upipe_ts_demux_mode
  input : Option Nat
  split : Option Nat
  psi_pid_pat : Option Nat
  psi_split_output_pat : Option Nat
  psi_pids : List upipe_ts_demux_psi_pid
  nit_pid : Nat
  auto_conformance : Bool
  conformance : upipe_ts_demux_conformance
  deriving DecidableEq, Repr

/-- Private context of an output of a ts_demux pipe
(`struct upipe_ts_demux_output`); `id` is its address. -/
structure upipe_ts_demux_output where
  id : Nat
  split_output : Option Nat
  psi_split_output : Option Nat
  psi_pid : Option Nat
  deriving DecidableEq, Repr

/-- The demux, its outputs and its surroundings. -/
structure World where
  demux : upipe_ts_demux
  /-- output subpipes allocated from the output manager of the demux -/
  outputs : List upipe_ts_demux_output
  /-- inner pipes allocated so far -/
  pipes : List upipe
  /-- next fresh address -/
  next : Nat
  /-- outcomes of the fallible collaborator calls to come -/
  script : List Bool
  /-- manager the outer probe supplies when it catches need-uref-mgr -/
  probe_uref_mgr : Option Nat
  /-- calls and events so far, oldest first -/
  log : List Action
  deriving DecidableEq, Repr

/-- Outcome of the next fallible collaborator call, and the world with that
outcome consumed. -/
def World.draw (w : World) : Bool × World :=
  match w.script with
  | [] => (true, w)
  | b :: rest => (b, { w with script := rest })

/-- Appends an entry to the log. -/
def World.emit (w : World) (a : Action) : World :=
  { w with log := w.log ++ [a] }

/-- Replaces the demux context. -/
def World.set_demux (w : World) (d : upipe_ts_demux) : World :=
  { w with demux := d }

/-! ## Collaborators -/

/-- Modelled from the spec: `upipe_alloc(mgr, probe, log)` of `upipe/upipe.h`
(base pipe operation, not in the sources at hand).  It returns a new pipe with a
fresh address, or `NULL`. -/
def upipe_alloc (w : World) (mgr : pipe_mgr) (probe : uprobe) : Option Nat × World :=
  let d := w.draw
  if d.1 then
    (some d.2.next,
     { d.2 with
       next := d.2.next + 1
       pipes := d.2.pipes ++ [{ id := d.2.next, mgr := mgr, uprobe := probe,
                                output := none, flow_def := none }]
       log := d.2.log ++ [Action.upipe_alloc mgr probe (some d.2.next)] })
  else
    (none, d.2.emit (Action.upipe_alloc mgr probe none))

/-- Modelled from the spec: `upipe_alloc_output(upipe, probe, log)` of
`upipe/upipe.h` (not in the sources at hand): allocates a subpipe from the
output manager of `parent`.  Undefined on a `NULL` parent. -/
def upipe_alloc_output (w : World) (parent : Option Nat) (probe : uprobe) :
    Option (Option Nat × World) :=
  match parent with
  | none => none
  | some p => some (upipe_alloc w (pipe_mgr.output_of p) probe)

/-- Modelled from the spec: `upipe_use` of `upipe/upipe.h` (not in the sources
at hand); the call is recorded. -/
def upipe_use (w : World) (pipe : Option Nat) : Option World :=
  match pipe with
  | none => none
  | some p => some (w.emit (Action.upipe_use p))

/-- Modelled from the spec: `upipe_release` of `upipe/upipe.h` (not in the
sources at hand); the call is recorded. -/
def upipe_release (w : World) (pipe : Option Nat) : Option World :=
  match pipe with
  | none => none
  | some p => some (w.emit (Action.upipe_release p))

/-- Modelled from the spec: `upipe_set_output(a, b)` of `upipe/upipe.h` (not in
the sources at hand): `b` becomes the output of `a`. -/
def upipe_set_output (w : World) (pipe : Option Nat) (output : Option Nat) :
    Option World :=
  match pipe with
  | none => none
  | some p =>
    some { w with
      pipes := w.pipes.map (fun q => if q.id = p then { q with output := output } else q)
      log := w.log ++ [Action.upipe_set_output p output] }

/-- Modelled from the spec: `upipe_set_flow_def(pipe, unit)` of `upipe/upipe.h`
(not in the sources at hand): on success the unit becomes the flow definition
of the inner pipe. -/
def upipe_set_flow_def (w : World) (pipe : Option Nat) (flow_def : uref) :
    Option (Bool × World) :=
  match pipe with
  | none => none
  | some p =>
    let d := w.draw
    if d.1 then
      some (true, { d.2 with
        pipes := d.2.pipes.map
          (fun q => if q.id = p then { q with flow_def := some flow_def } else q)
        log := d.2.log ++ [Action.upipe_set_flow_def p flow_def true] })
    else
      some (false, d.2.emit (Action.upipe_set_flow_def p flow_def false))

/-- Modelled from the spec: `upipe_get_flow_def(pipe, p)` of `upipe/upipe.h`
(not in the sources at hand): the flow definition last set on the inner pipe. -/
def upipe_get_flow_def (w : World) (pipe : Option Nat) : Option (Bool × Option uref) :=
  match pipe with
  | none => none
  | some p =>
    match w.pipes.find? (fun q => q.id = p) with
    | none => some (false, none)
    | some q => some (true, q.flow_def)

/-- Modelled from the spec: `upipe_input(pipe, unit, pump)` of `upipe/upipe.h`
(not in the sources at hand): hands the unit to the pipe. -/
def upipe_input (w : World) (pipe : Option Nat) (u : uref) : Option World :=
  match pipe with
  | none => none
  | some p => some (w.emit (Action.upipe_input p u))

/-- Modelled from the spec: `uref_free` of `upipe/uref.h` (not in the sources
at hand); the call is recorded. -/
def uref_free (w : World) (u : uref) : World :=
  w.emit (Action.uref_free u)

/-- Modelled from the spec: `uref_block_flow_alloc_def(mgr, def_suffix)` of
`upipe/uref_block_flow.h` (not in the sources at hand): a control unit whose
flow definition is `"block."` followed by the suffix, or `NULL`.  Undefined on
a `NULL` manager. -/
def uref_block_flow_alloc_def (w : World) (mgr : Option Nat) (def_suffix : String) :
    Option (Option uref × World) :=
  match mgr with
  | none => none
  | some _ =>
    let d := w.draw
    if d.1 then
      some (some { flow_def := some ("block." ++ def_suffix), pid := none,
                   psi_filter := none, program := none, block := [] }, d.2)
    else some (none, d.2)

/-- Modelled from the spec: `uref_ts_flow_set_pid` of `upipe-ts/uref_ts_flow.h`
(not in the sources at hand): writes the PID attribute; `none` is the `false`
return, the unit being left as it was. -/
def uref_ts_flow_set_pid (w : World) (u : uref) (pid : Nat) : Option uref × World :=
  let d := w.draw
  if d.1 then (some { u with pid := some pid }, d.2) else (none, d.2)

/-- Modelled from the spec: `uref_ts_flow_set_psi_filter` of
`upipe-ts/uref_ts_flow.h` (not in the sources at hand): writes the PSI filter
attribute (the first `size` bytes of filter and mask). -/
def uref_ts_flow_set_psi_filter (w : World) (u : uref) (filter mask : List Nat)
    (size : Nat) : Option uref × World :=
  let d := w.draw
  if d.1 then
    (some { u with psi_filter := some (filter.take size, mask.take size) }, d.2)
  else (none, d.2)

/-- Modelled from the spec: `uref_flow_set_program_va(unit, "%u", program)` of
`upipe/uref_flow.h` (not in the sources at hand): writes the program attribute,
the decimal string of the number. -/
def uref_flow_set_program_va (w : World) (u : uref) (program : Nat) :
    Option uref × World :=
  let d := w.draw
  if d.1 then (some { u with program := some (toString program) }, d.2) else (none, d.2)

/-- Throws an event from the demux. -/
def upipe_throw (w : World) (e : thrown) : World :=
  w.emit (Action.throw none e)

/-- Modelled from the spec: `upipe_ts_demux_get_uref_mgr` generated by
`UPIPE_HELPER_UREF_MGR` (`upipe/upipe_helper_uref_mgr.h`, not in the sources at
hand): returns the current manager. -/
def upipe_ts_demux_get_uref_mgr (w : World) : Bool × Option Nat :=
  (true, w.demux.uref_mgr)

/-- Modelled from the spec: `upipe_ts_demux_set_uref_mgr` generated by
`UPIPE_HELPER_UREF_MGR` (`upipe/upipe_helper_uref_mgr.h`, not in the sources at
hand): releases the previous manager, stores and uses the new one. -/
def upipe_ts_demux_set_uref_mgr (w : World) (uref_mgr : Option Nat) : Bool × World :=
  let w1 := match w.demux.uref_mgr with
    | some old => w.emit (Action.uref_mgr_release old)
    | none => w
  let w2 := w1.set_demux { w1.demux with uref_mgr := uref_mgr }
  let w3 := match uref_mgr with
    | some m => w2.emit (Action.uref_mgr_use m)
    | none => w2
  (true, w3)

/-- Modelled from the spec: `upipe_throw_need_uref_mgr` (`upipe/upipe.h`, not
in the sources at hand): the event is thrown, and a probe that has a manager
answers by setting it on the pipe. -/
def upipe_throw_need_uref_mgr (w : World) : World :=
  let w1 := upipe_throw w thrown.need_uref_mgr
  match w1.probe_uref_mgr with
  | none => w1
  | some m => (upipe_ts_demux_set_uref_mgr w1 (some m)).2

/-! ## Registry of PIDs carrying PSI -/

/-- Failure path of `upipe_ts_demux_psi_pid_alloc` once both inner pipes exist:
both are released and the structure is freed. -/
def psi_pid_alloc_abort (w : World) (split_output psi_split : Nat) :
    Option (Option Nat × World) := do
  let w1 ← upipe_release w (some split_output)
  let w2 ← upipe_release w1 (some psi_split)
  some (none, w2)

/-- Embeds `upipe_ts_demux_psi_pid_alloc`: allocates and initializes a new
PID-specific substructure; returns its address or `NULL`. -/
def upipe_ts_demux_psi_pid_alloc (w : World) (pid : Nat) : Option (Option Nat × World) :=
  let pid := to_uint16 pid
  let m := w.draw
  if m.1 = false then some (none, m.2) else
  let addr := m.2.next
  let w0 : World := { m.2 with next := addr + 1 }
  let a := upipe_alloc w0 pipe_mgr.ts_psi_split_mgr uprobe.psi_split_plumber
  match a.1 with
  | none => some (none, a.2)
  | some psi_split =>
    match upipe_alloc_output a.2 a.2.demux.split uprobe.plumber with
    | none => none
    | some (none, w1) => (upipe_release w1 (some psi_split)).map (fun w2 => (none, w2))
    | some (some split_output, w1) =>
      match uref_block_flow_alloc_def w1 w1.demux.uref_mgr "mpegts.mpegtspsi." with
      | none => none
      | some (none, w2) => psi_pid_alloc_abort w2 split_output psi_split
      | some (some u, w2) =>
        match uref_ts_flow_set_pid w2 u pid with
        | (none, w3) => psi_pid_alloc_abort (uref_free w3 u) split_output psi_split
        | (some u1, w3) =>
          match upipe_set_flow_def w3 (some split_output) u1 with
          | none => none
          | some (false, w4) => psi_pid_alloc_abort (uref_free w4 u1) split_output psi_split
          | some (true, w4) =>
            let w5 := uref_free w4 u1
            some (some addr, w5.set_demux { w5.demux with
              psi_pids := w5.demux.psi_pids ++
                [{ addr := addr, pid := pid, psi_split := psi_split,
                   split_output := split_output, refcount := 1 }] })

/-- Embeds `upipe_ts_demux_psi_pid_find`: the first entry of the registry with
the given PID. -/
def upipe_ts_demux_psi_pid_find (w : World) (pid : Nat) : Option upipe_ts_demux_psi_pid :=
  w.demux.psi_pids.find? (fun e => e.pid = to_uint16 pid)

/-- Embeds `upipe_ts_demux_psi_pid_use`: marks a PID as being used for PSI,
optionally allocates the substructure, and increments the refcount. -/
def upipe_ts_demux_psi_pid_use (w : World) (pid : Nat) : Option (Option Nat × World) :=
  match upipe_ts_demux_psi_pid_find w pid with
  | none => upipe_ts_demux_psi_pid_alloc w pid
  | some e =>
    some (some e.addr, w.set_demux { w.demux with
      psi_pids := w.demux.psi_pids.map
        (fun x => if x.addr = e.addr then { x with refcount := to_uint (x.refcount + 1) } else x) })

/-- Embeds `upipe_ts_demux_psi_pid_release`: decrements the refcount and, when
it reaches zero, unlinks the structure and releases its two inner pipes.
Undefined when the pointer is `NULL` or is not an allocated structure. -/
def upipe_ts_demux_psi_pid_release (w : World) (psi_pid : Option Nat) : Option World :=
  match psi_pid with
  | none => none
  | some addr =>
    match w.demux.psi_pids.find? (fun e => e.addr = addr) with
    | none => none
    | some e =>
      let rc := to_uint (e.refcount + 4294967295)
      if rc = 0 then do
        let w1 := w.set_demux { w.demux with
          psi_pids := w.demux.psi_pids.filter (fun x => x.addr ≠ addr) }
        let w2 ← upipe_release w1 (some e.split_output)
        upipe_release w2 (some e.psi_split)
      else
        some (w.set_demux { w.demux with
          psi_pids := w.demux.psi_pids.map
            (fun x => if x.addr = addr then { x with refcount := rc } else x) })

/-! ## PSI section header helpers -/

/-- Modelled from the spec: `PSI_HEADER_SIZE_SYNTAX1` of `bitstream/mpeg/psi.h`
(not in the sources at hand): size of a PSI header with the syntax section. -/
def PSI_HEADER_SIZE_SYNTAX1 : Nat := 8

/-- Modelled from the spec: `PAT_TABLE_ID` of `bitstream/mpeg/psi.h` (not in the
sources at hand); the source comment reads "set filter on table 0". -/
def PAT_TABLE_ID : Nat := 0

/-- Modelled from the spec: `PMT_TABLE_ID` of `bitstream/mpeg/psi.h` (not in the
sources at hand); the source comment reads "set filter on table 2". -/
def PMT_TABLE_ID : Nat := 2

/-- Modelled from the spec: `psi_set_syntax` of `bitstream/mpeg/psi.h` (not in the
sources at hand): sets the section syntax indicator, bit 7 of byte 1. -/
def psi_set_syntax (p_section : List Nat) : List Nat :=
  p_section.set 1 (p_section.getD 1 0 ||| 0x80)

/-- Modelled from the spec: `psi_set_tableid` of `bitstream/mpeg/psi.h` (not in
the sources at hand): the table id is byte 0. -/
def psi_set_tableid (p_section : List Nat) (i_table_id : Nat) : List Nat :=
  p_section.set 0 (to_uint8 i_table_id)

/-- Modelled from the spec: `psi_set_current` of `bitstream/mpeg/psi.h` (not in
the sources at hand): sets the current/next indicator, bit 0 of byte 5. -/
def psi_set_current (p_section : List Nat) : List Nat :=
  p_section.set 5 (p_section.getD 5 0 ||| 0x1)

/-- Modelled from the spec: `psi_set_tableidext` of `bitstream/mpeg/psi.h` (not
in the sources at hand): the 16-bit table id extension is bytes 3 and 4, high
byte first. -/
def psi_set_tableidext (p_section : List Nat) (i_table_id_ext : Nat) : List Nat :=
  (p_section.set 3 (to_uint16 i_table_id_ext >>> 8)).set 4
    (to_uint16 i_table_id_ext &&& 0xff)

/-! ## Conformance -/

/-- Embeds `upipe_ts_demux_conformance_guess`: tries to guess the conformance
of the stream from the NIT PID. -/
def upipe_ts_demux_conformance_guess (w : World) : World :=
  if w.demux.auto_conformance = false then w
  else if w.demux.nit_pid = 16 then
    w.set_demux { w.demux with conformance := upipe_ts_demux_conformance.CONFORMANCE_DVB }
  else if w.demux.nit_pid = 0x1ffb then
    w.set_demux { w.demux with conformance := upipe_ts_demux_conformance.CONFORMANCE_ATSC }
  else
    w.set_demux { w.demux with conformance := upipe_ts_demux_conformance.CONFORMANCE_ISO }

/-- Embeds `upipe_ts_demux_nit_pid`: sets the PID of the NIT (a `uint16_t`
parameter) and guesses again. -/
def upipe_ts_demux_nit_pid (w : World) (pid : Nat) : World :=
  upipe_ts_demux_conformance_guess
    (w.set_demux { w.demux with nit_pid := to_uint16 pid })

/-- Embeds `_upipe_ts_demux_get_conformance`: the return value and the value
stored through `conformance_p`. -/
def _upipe_ts_demux_get_conformance (w : World) : Bool × upipe_ts_demux_conformance :=
  (true, w.demux.conformance)

/-- Embeds `_upipe_ts_demux_set_conformance`. -/
def _upipe_ts_demux_set_conformance (w : World)
    (conformance : upipe_ts_demux_conformance) : Bool × World :=
  match conformance with
  | upipe_ts_demux_conformance.CONFORMANCE_AUTO =>
    (true, upipe_ts_demux_conformance_guess
      (w.set_demux { w.demux with auto_conformance := true }))
  | upipe_ts_demux_conformance.CONFORMANCE_ISO
  | upipe_ts_demux_conformance.CONFORMANCE_DVB
  | upipe_ts_demux_conformance.CONFORMANCE_ATSC
  | upipe_ts_demux_conformance.CONFORMANCE_ISDB =>
    (true, w.set_demux { w.demux with auto_conformance := false, conformance := conformance })
  | upipe_ts_demux_conformance.unnamed _ => (false, w)

/-! ## Probes on the PAT and PMT decoders -/

/-- Modelled from the spec: signatures of the pipe types (`UPIPE_TS_PATD_SIGNATURE`
and the like, constants of headers not in the sources at hand); `foreign` is
any other value. -/
inductive signature where
  | UPIPE_TS_DEMUX_SIGNATURE
  | UPIPE_TS_DEMUX_OUTPUT_SIGNATURE
  | UPIPE_TS_PATD_SIGNATURE
  | UPIPE_TS_PMTD_SIGNATURE
  | foreign (raw : Nat)
  deriving DecidableEq, Repr

/-- Events a probe of the demux receives, with their arguments in the order of
the `va_list` (the unit argument of the decoder events, which the handlers do
not read, is left out).  `UPROBE_NEED_OUTPUT` is the new flow definition event
of an inner pipe that wants an output; `other` is any event the handlers do not
name. -/
inductive uprobe_event where
  | UPROBE_TS_PATD_ADD_PROGRAM (sig : signature) (program pid : Nat)
  | UPROBE_TS_PATD_DEL_PROGRAM (sig : signature) (program : Nat)
  | UPROBE_TS_PMTD_HEADER (sig : signature) (pmtd_pcrpid pmtd_desc_offset pmtd_desc_size : Nat)
  | UPROBE_TS_PMTD_ADD_ES (sig : signature)
      (pid streamtype pmtd_desc_offset pmtd_desc_size : Nat)
  | UPROBE_TS_PMTD_DEL_ES (sig : signature) (pid : Nat)
  | UPROBE_NEED_OUTPUT (flow_def : uref)
  | other (code : Nat)
  deriving DecidableEq, Repr

/-- The filter of `upipe_ts_demux_patd_probe`: "table 2, current, program
number". -/
def patd_filter (program : Nat) : List Nat :=
  psi_set_tableidext
    (psi_set_current
      (psi_set_tableid ( psi_set_syntax (List.replicate PSI_HEADER_SIZE_SYNTAX1 0))
        PMT_TABLE_ID))
    program

/-- The mask of `upipe_ts_demux_patd_probe`. -/
def patd_mask : List Nat :=
  psi_set_tableidext
    (psi_set_current
      (psi_set_tableid ( psi_set_syntax (List.replicate PSI_HEADER_SIZE_SYNTAX1 0)) 0xff))
    0xffff

/-- Embeds `upipe_ts_demux_patd_probe`: catches events coming from the patd
subpipe; the Boolean is "the event was caught". -/
def upipe_ts_demux_patd_probe (w : World) (event : uprobe_event) : Option (Bool × World) :=
  match event with
  | uprobe_event.UPROBE_TS_PATD_ADD_PROGRAM sig program pid =>
    if sig ≠ signature.UPIPE_TS_PATD_SIGNATURE then none
    else if to_uint program = 0 then some (true, upipe_ts_demux_nit_pid w (to_uint pid))
    else
      match uref_block_flow_alloc_def w w.demux.uref_mgr "mpegtspsi.mpegtspmt." with
      | none => none
      | some (none, w1) => some (true, w1)
      | some (some fd, w1) =>
        match uref_ts_flow_set_psi_filter w1 fd (patd_filter (to_uint program)) patd_mask
            PSI_HEADER_SIZE_SYNTAX1 with
        | (none, w2) => some (true, uref_free w2 fd)
        | (some fd1, w2) =>
          match uref_ts_flow_set_pid w2 fd1 (to_uint pid) with
          | (none, w3) => some (true, uref_free w3 fd1)
          | (some fd2, w3) =>
            match uref_flow_set_program_va w3 fd2 (to_uint program) with
            | (none, w4) => some (true, uref_free w4 fd2)
            | (some fd3, w4) =>
              some (true,
                uref_free (upipe_throw w4 (thrown.split_add_flow (to_uint program) fd3)) fd3)
  | uprobe_event.UPROBE_TS_PATD_DEL_PROGRAM sig program =>
    if sig ≠ signature.UPIPE_TS_PATD_SIGNATURE then none
    else some (false, upipe_throw w (thrown.split_del_flow (to_uint program)))
  | _ => some (false, w)

/-- Embeds `upipe_ts_demux_pmtd_probe`: catches events coming from the pmtd
subpipe. -/
def upipe_ts_demux_pmtd_probe (w : World) (event : uprobe_event) : Option (Bool × World) :=
  match event with
  | uprobe_event.UPROBE_TS_PMTD_HEADER sig _ _ _ =>
    if sig ≠ signature.UPIPE_TS_PMTD_SIGNATURE then none
    else some (true, w.emit (Action.ulog_debug "new PMT header"))
  | uprobe_event.UPROBE_TS_PMTD_ADD_ES sig pid streamtype _ _ =>
    if sig ≠ signature.UPIPE_TS_PMTD_SIGNATURE then none
    else if to_uint streamtype = 0x2 then
      match uref_block_flow_alloc_def w w.demux.uref_mgr "mpegts.mpegtspes.mpegtsmp2v" with
      | none => none
      | some (none, w1) => some (false, w1)
      | some (some fd, w1) =>
        match uref_ts_flow_set_pid w1 fd (to_uint pid) with
        | (none, w2) => some (false, uref_free w2 fd)
        | (some fd1, w2) =>
          some (false,
            uref_free (upipe_throw w2 (thrown.split_add_flow (to_uint (to_uint pid <<< 16)) fd1))
              fd1)
    else some (false, w)
  | uprobe_event.UPROBE_TS_PMTD_DEL_ES sig pid =>
    if sig ≠ signature.UPIPE_TS_PMTD_SIGNATURE then none
    else some (false, upipe_throw w (thrown.split_del_flow (to_uint (to_uint pid <<< 16))))
  | _ => some (false, w)

/-! ## Output subpipes -/

/-- Stores the context of an output back at its address. -/
def World.put_output (w : World) (o : upipe_ts_demux_output) : World :=
  { w with outputs := w.outputs.map (fun x => if x.id = o.id then o else x) }

/-- Embeds `upipe_ts_demux_output_alloc`: allocates an output subpipe of a
ts_demux pipe (the `psi_pid` field, which the source leaves unset, starts as
`NULL`). -/
def upipe_ts_demux_output_alloc (w : World) : Option Nat × World :=
  let m := w.draw
  if m.1 = false then (none, m.2)
  else
    (some m.2.next,
     { m.2 with
       next := m.2.next + 1
       outputs := m.2.outputs ++
         [{ id := m.2.next, split_output := none, psi_split_output := none, psi_pid := none }]
       log := m.2.log ++ [Action.throw (some m.2.next) thrown.ready] })

/-- Embeds `upipe_ts_demux_output_get_flow_def`: the return value and the
value stored through `p`. -/
def upipe_ts_demux_output_get_flow_def (w : World) (output : Nat) :
    Option (Bool × Option uref) :=
  match w.outputs.find? (fun x => x.id = output) with
  | none => none
  | some o =>
    if o.split_output ≠ none then upipe_get_flow_def w o.split_output
    else if o.psi_split_output ≠ none then upipe_get_flow_def w o.psi_split_output
    else some (false, none)

/-- First block of `upipe_ts_demux_output_set_flow_def`: releases the
split output the subpipe holds, if any. -/
def output_drop_split_output (w : World) (o : upipe_ts_demux_output) :
    Option (World × upipe_ts_demux_output) :=
  match o.split_output with
  | none => some (w, o)
  | some p =>
    (upipe_release w (some p)).map
      (fun w1 => ((w1.put_output { o with split_output := none }),
                  { o with split_output := none }))

/-- Second block of `upipe_ts_demux_output_set_flow_def`: releases the PSI
split output the subpipe holds, if any, and its reference on the registry. -/
def output_drop_psi_split_output (w : World) (o : upipe_ts_demux_output) :
    Option (World × upipe_ts_demux_output) :=
  match o.psi_split_output with
  | none => some (w, o)
  | some p => do
    let w1 ← upipe_release w (some p)
    let w2 ← upipe_ts_demux_psi_pid_release
      (w1.put_output { o with psi_split_output := none }) o.psi_pid
    some (w2.put_output { o with psi_split_output := none, psi_pid := none },
          { o with psi_split_output := none, psi_pid := none })

/-- Embeds `upipe_ts_demux_output_set_flow_def`: sets the flow definition on
an output. -/
def upipe_ts_demux_output_set_flow_def (w : World) (output : Nat) (flow_def : uref) :
    Option (Bool × World) :=
  match w.outputs.find? (fun x => x.id = output) with
  | none => none
  | some o0 =>
    match output_drop_split_output w o0 with
    | none => none
    | some (wa, oa) =>
      match output_drop_psi_split_output wa oa with
      | none => none
      | some (w1, o1) =>
        match flow_def.pid with
        | none => some (false, w1)
        | some pid =>
          if pid ≥ MAX_PIDS then some (false, w1)
          else if flow_def.psi_filter ≠ none then
            match upipe_ts_demux_psi_pid_use w1 pid with
            | none => none
            | some (none, w2) => some (false, w2.put_output { o1 with psi_pid := none })
            | some (some addr, w2) =>
              match w2.demux.psi_pids.find? (fun e => e.addr = addr) with
              | none => none
              | some e =>
                match upipe_alloc_output (w2.put_output { o1 with psi_pid := some addr })
                    (some e.psi_split) uprobe.psi_split_plumber with
                | none => none
                | some (none, w3) =>
                  (upipe_ts_demux_psi_pid_release
                    (w3.put_output { o1 with psi_pid := some addr, psi_split_output := none })
                    (some addr)).map
                    (fun w4 => (false,
                      w4.put_output { o1 with psi_pid := none, psi_split_output := none }))
                | some (some pso, w3) =>
                  (upipe_set_flow_def
                    (w3.put_output { o1 with psi_pid := some addr, psi_split_output := some pso })
                    (some pso) flow_def).map (fun r => (true, r.2))
          else
            match upipe_alloc_output w1 w1.demux.split uprobe.plumber with
            | none => none
            | some (none, w2) => some (false, w2.put_output { o1 with split_output := none })
            | some (some so, w2) =>
              (upipe_set_flow_def (w2.put_output { o1 with split_output := some so })
                (some so) flow_def).map (fun r => (true, r.2))

/-- Commands of `enum upipe_command` with their arguments; `other` is any
command neither control function names. -/
inductive upipe_command where
  | UPIPE_GET_UREF_MGR
  | UPIPE_SET_UREF_MGR (uref_mgr : Option Nat)
  | UPIPE_GET_FLOW_DEF
  | UPIPE_SET_FLOW_DEF (flow_def : uref)
  | UPIPE_TS_DEMUX_GET_CONFORMANCE (sig : signature)
  | UPIPE_TS_DEMUX_SET_CONFORMANCE (sig : signature) (conformance : upipe_ts_demux_conformance)
  | other (code : Nat)
  deriving DecidableEq, Repr

/-- What a control function stores through its pointer argument. -/
inductive control_out where
  | nothing
  | uref_mgr (m : Option Nat)
  | flow_def (u : Option uref)
  | conformance (c : upipe_ts_demux_conformance)
  deriving DecidableEq, Repr

/-- Embeds `upipe_ts_demux_output_control`: processes control commands on an
output subpipe of a ts_demux pipe. -/
def upipe_ts_demux_output_control (w : World) (output : Nat) (command : upipe_command) :
    Option ((Bool × control_out) × World) :=
  match command with
  | upipe_command.UPIPE_GET_FLOW_DEF =>
    (upipe_ts_demux_output_get_flow_def w output).map
      (fun r => ((r.1, control_out.flow_def r.2), w))
  | upipe_command.UPIPE_SET_FLOW_DEF flow_def =>
    (upipe_ts_demux_output_set_flow_def w output flow_def).map
      (fun r => ((r.1, control_out.nothing), r.2))
  | _ => some ((false, control_out.nothing), w)

/-- Embeds `upipe_ts_demux_output_release` when the reference count of the
output drops to zero: the subpipe dies and gives back what it holds. -/
def upipe_ts_demux_output_release (w : World) (output : Nat) : Option World :=
  match w.outputs.find? (fun x => x.id = output) with
  | none => none
  | some o =>
    let w0 := w.emit (Action.throw (some output) thrown.dead)
    match (match o.split_output with
           | none => some w0
           | some p => upipe_release w0 (some p)) with
    | none => none
    | some w1 =>
      match (match o.psi_split_output with
             | none => some w1
             | some p =>
               (upipe_release w1 (some p)).bind
                 (fun w2 => upipe_ts_demux_psi_pid_release w2 o.psi_pid)) with
      | none => none
      | some w3 => some { w3 with outputs := w3.outputs.filter (fun x => x.id ≠ output) }

/-! ## The demux pipe -/

/-- Embeds `upipe_ts_demux_alloc`: allocates a ts_demux pipe in surroundings
given by the script of outcomes and the manager the outer probe can supply;
`none` is the `NULL` return. -/
def upipe_ts_demux_alloc (script : List Bool) (probe_uref_mgr : Option Nat) : Option World :=
  match script with
  | false :: _ => none
  | _ =>
    some
      { demux :=
          { uref_mgr := none
            flow_def_ok := false
            input_mode := upipe_ts_demux_mode.UPIPE_TS_DEMUX_OFF
            input := none
            split := none
            psi_pid_pat := none
            psi_split_output_pat := none
            psi_pids := []
            nit_pid := 0
            auto_conformance := true
            conformance := upipe_ts_demux_conformance.CONFORMANCE_ISO }
        outputs := []
        pipes := []
        next := 1
        script := script.tail
        probe_uref_mgr := probe_uref_mgr
        log := [Action.throw none thrown.ready] }

/-- Common tail of the failure paths of `upipe_ts_demux_init`: the split pipe
is released (the `split` field keeps the pointer) and an allocation error is
logged and thrown. -/
def init_abort (w : World) : Option World :=
  (upipe_release w w.demux.split).map
    (fun w1 => upipe_throw (w1.emit Action.ulog_aerror) thrown.aerror)

/-- The filter of `upipe_ts_demux_init`: "table 0, current". -/
def pat_filter : List Nat :=
  psi_set_current
    (psi_set_tableid ( psi_set_syntax (List.replicate PSI_HEADER_SIZE_SYNTAX1 0)) PAT_TABLE_ID)

/-- The mask of `upipe_ts_demux_init`. -/
def pat_mask : List Nat :=
  psi_set_current
    (psi_set_tableid ( psi_set_syntax (List.replicate PSI_HEADER_SIZE_SYNTAX1 0)) 0xff)

/-- Failure path of `upipe_ts_demux_init` once the PAT output exists. -/
def init_abort_pat (w : World) : Option World := do
  let w1 ← upipe_release w w.demux.psi_split_output_pat
  let w2 ← upipe_ts_demux_psi_pid_release w1 w1.demux.psi_pid_pat
  init_abort w2

/-- Embeds `upipe_ts_demux_init`: starts the split pipe. -/
def upipe_ts_demux_init (w : World) : Option World :=
  let a := upipe_alloc w pipe_mgr.ts_split_mgr uprobe.plumber
  let w1 := a.2.set_demux { a.2.demux with split := a.1 }
  match a.1 with
  | none => some (upipe_throw (w1.emit Action.ulog_aerror) thrown.aerror)
  | some _ =>
    match upipe_ts_demux_psi_pid_use w1 0 with
    | none => none
    | some (pat, wu) =>
      let w2 := wu.set_demux { wu.demux with psi_pid_pat := pat }
      match pat with
      | none => init_abort w2
      | some pat_addr =>
        match w2.demux.psi_pids.find? (fun e => e.addr = pat_addr) with
        | none => none
        | some e =>
          match upipe_alloc_output w2 (some e.psi_split) uprobe.psi_split_plumber with
          | none => none
          | some (pso, wo) =>
            let w3 := wo.set_demux { wo.demux with psi_split_output_pat := pso }
            match pso with
            | none =>
              (upipe_ts_demux_psi_pid_release w3 w3.demux.psi_pid_pat).bind init_abort
            | some _ =>
              match uref_block_flow_alloc_def w3 w3.demux.uref_mgr "mpegtspsi.mpegtspat." with
              | none => none
              | some (none, w4) => init_abort_pat w4
              | some (some fd, w4) =>
                match uref_ts_flow_set_psi_filter w4 fd pat_filter pat_mask
                    PSI_HEADER_SIZE_SYNTAX1 with
                | (none, w5) => init_abort_pat (uref_free w5 fd)
                | (some fd1, w5) =>
                  match uref_ts_flow_set_pid w5 fd1 0 with
                  | (none, w6) => init_abort_pat (uref_free w6 fd1)
                  | (some fd2, w6) =>
                    match upipe_set_flow_def w6 w6.demux.psi_split_output_pat fd2 with
                    | none => none
                    | some (false, w7) => init_abort_pat (uref_free w7 fd2)
                    | some (true, w7) => some (uref_free w7 fd2)

/-- Embeds `upipe_ts_demux_set_input_mode`: sets the input mode. -/
def upipe_ts_demux_set_input_mode (w : World) (input_mode : upipe_ts_demux_mode) :
    Option World :=
  match (if w.demux.input_mode ≠ upipe_ts_demux_mode.UPIPE_TS_DEMUX_OFF
         then upipe_release w w.demux.input else some w) with
  | none => none
  | some w0 =>
    let w1 := w0.set_demux { w0.demux with input_mode := input_mode }
    match input_mode with
    | upipe_ts_demux_mode.UPIPE_TS_DEMUX_OFF =>
      some (w1.set_demux { w1.demux with input := none })
    | upipe_ts_demux_mode.UPIPE_TS_DEMUX_SYNC =>
      upipe_use (w1.set_demux { w1.demux with input := w1.demux.split }) w1.demux.split
    | upipe_ts_demux_mode.UPIPE_TS_DEMUX_CHECK
    | upipe_ts_demux_mode.UPIPE_TS_DEMUX_SCAN =>
      let a := upipe_alloc w1
        (if input_mode = upipe_ts_demux_mode.UPIPE_TS_DEMUX_CHECK
         then pipe_mgr.ts_check_mgr else pipe_mgr.ts_sync_mgr)
        uprobe.outer
      let w2 := a.2.set_demux { a.2.demux with input := a.1 }
      match a.1 with
      | none =>
        some (w2.set_demux { w2.demux with
          input_mode := upipe_ts_demux_mode.UPIPE_TS_DEMUX_OFF })
      | some _ => upipe_set_output w2 w2.demux.input w2.demux.split

/-- Embeds `upipe_ts_demux_work`: hands a unit to the input pipe. -/
def upipe_ts_demux_work (w : World) (u : uref) : Option World :=
  if w.demux.input_mode = upipe_ts_demux_mode.UPIPE_TS_DEMUX_OFF then some (uref_free w u)
  else upipe_input w w.demux.input u

/-- The accepting branch of `upipe_ts_demux_input` for a flow definition. -/
def input_accept (w : World) (u : uref) (d : String) (input_mode : upipe_ts_demux_mode) :
    Option World :=
  let w1 := w.emit (Action.ulog_debug ("flow definition: " ++ d))
  let w2 := w1.set_demux { w1.demux with flow_def_ok := true }
  (upipe_ts_demux_set_input_mode w2 input_mode).bind (fun w3 => upipe_ts_demux_work w3 u)

/-- Embeds `upipe_ts_demux_input`: receives data. -/
def upipe_ts_demux_input (w : World) (u : uref) : Option World :=
  let w1 := if w.demux.uref_mgr = none then upipe_throw_need_uref_mgr w else w
  if w1.demux.uref_mgr = none then some (uref_free w1 u)
  else
    match (if w1.demux.split = none then upipe_ts_demux_init w1 else some w1) with
    | none => none
    | some w2 =>
      if w2.demux.split = none then some (uref_free w2 u)
      else
        match u.flow_def with
        | some d =>
          if ubase_ncmp d EXPECTED_FLOW_DEF_SYNC = false then
            input_accept w2 u d upipe_ts_demux_mode.UPIPE_TS_DEMUX_SYNC
          else if ubase_ncmp d EXPECTED_FLOW_DEF_CHECK = false then
            input_accept w2 u d upipe_ts_demux_mode.UPIPE_TS_DEMUX_CHECK
          else if ubase_ncmp d EXPECTED_FLOW_DEF = false then
            input_accept w2 u d upipe_ts_demux_mode.UPIPE_TS_DEMUX_SCAN
          else
            let w3 := uref_free w2 u
            some (upipe_throw (w3.set_demux { w3.demux with flow_def_ok := false })
              (thrown.flow_def_error u))
        | none =>
          if w2.demux.flow_def_ok = false then
            some (upipe_throw (uref_free w2 u) (thrown.flow_def_error u))
          else upipe_ts_demux_work w2 u

/-- Embeds `upipe_ts_demux_control`: processes control commands on a ts_demux
pipe. -/
def upipe_ts_demux_control (w : World) (command : upipe_command) :
    Option ((Bool × control_out) × World) :=
  match command with
  | upipe_command.UPIPE_GET_UREF_MGR =>
    some (((upipe_ts_demux_get_uref_mgr w).1,
           control_out.uref_mgr (upipe_ts_demux_get_uref_mgr w).2), w)
  | upipe_command.UPIPE_SET_UREF_MGR uref_mgr =>
    some (((upipe_ts_demux_set_uref_mgr w uref_mgr).1, control_out.nothing),
          (upipe_ts_demux_set_uref_mgr w uref_mgr).2)
  | upipe_command.UPIPE_TS_DEMUX_GET_CONFORMANCE sig =>
    if sig ≠ signature.UPIPE_TS_DEMUX_SIGNATURE then none
    else
      some (((_upipe_ts_demux_get_conformance w).1,
             control_out.conformance (_upipe_ts_demux_get_conformance w).2), w)
  | upipe_command.UPIPE_TS_DEMUX_SET_CONFORMANCE sig conformance =>
    if sig ≠ signature.UPIPE_TS_DEMUX_SIGNATURE then none
    else
      some (((_upipe_ts_demux_set_conformance w conformance).1, control_out.nothing),
            (_upipe_ts_demux_set_conformance w conformance).2)
  | _ => some ((false, control_out.nothing), w)

/-- Embeds `upipe_ts_demux_release` when the reference count of the demux
drops to zero. -/
def upipe_ts_demux_release (w : World) : Option World :=
  let w0 := upipe_throw w thrown.dead
  match (if w0.demux.split ≠ none then do
           let w1 ← upipe_ts_demux_set_input_mode w0 upipe_ts_demux_mode.UPIPE_TS_DEMUX_OFF
           let w2 ← upipe_release w1 w1.demux.psi_split_output_pat
           let w3 ← upipe_ts_demux_psi_pid_release w2 w2.demux.psi_pid_pat
           upipe_release w3 w3.demux.split
         else some w0) with
  | none => none
  | some w4 =>
    match w4.demux.uref_mgr with
    | none => some w4
    | some m => some (w4.emit (Action.uref_mgr_release m))

/-! ## Vocabulary of the properties -/

/-- The part of the demux context the conformance logic reads and writes. -/
def conf_state (w : World) : upipe_ts_demux_conformance × Bool × Nat :=
  (w.demux.conformance, w.demux.auto_conformance, w.demux.nit_pid)

/-- The inference function in the words of the spec: NIT on PID 0x0010 is DVB,
NIT on PID 0x1FFB is ATSC, anything else (0 included, no NIT yet) is ISO. -/
def spec_conformance (P : Nat) : upipe_ts_demux_conformance :=
  if P = 0x0010 then upipe_ts_demux_conformance.CONFORMANCE_DVB
  else if P = 0x1FFB then upipe_ts_demux_conformance.CONFORMANCE_ATSC
  else upipe_ts_demux_conformance.CONFORMANCE_ISO

/-- The four concrete conformances: ISO, DVB, ATSC, ISDB. -/
def concrete_conformance (c : upipe_ts_demux_conformance) : Bool :=
  match c with
  | upipe_ts_demux_conformance.CONFORMANCE_ISO => true
  | upipe_ts_demux_conformance.CONFORMANCE_DVB => true
  | upipe_ts_demux_conformance.CONFORMANCE_ATSC => true
  | upipe_ts_demux_conformance.CONFORMANCE_ISDB => true
  | _ => false

/-- Calls that drive the conformance logic: the setter and an observation of
the NIT PID. -/
inductive conformance_call where
  | set_conformance (c : upipe_ts_demux_conformance)
  | nit_pid (pid : Nat)
  deriving DecidableEq, Repr

/-- Runs one conformance call. -/
def conformance_call.run (w : World) (c : conformance_call) : World :=
  match c with
  | conformance_call.set_conformance c => (_upipe_ts_demux_set_conformance w c).2
  | conformance_call.nit_pid pid => upipe_ts_demux_nit_pid w pid

/-- Runs conformance calls in order. -/
def run_conformance_calls (w : World) (cs : List conformance_call) : World :=
  cs.foldl conformance_call.run w

/-- True on NIT observations. -/
def conformance_call.is_nit (c : conformance_call) : Bool :=
  match c with
  | conformance_call.nit_pid _ => true
  | _ => false

/-- The NIT PID observed last in a sequence of calls (as the `uint16_t` the
demux receives), 0 when there is none. -/
def last_nit_pid (cs : List conformance_call) : Nat :=
  cs.foldl (fun acc c =>
    match c with
    | conformance_call.nit_pid pid => to_uint16 pid
    | _ => acc) 0

/-- Calls on the demux: the conformance setter, an observation of the NIT PID,
and an input unit arriving in surroundings whose coming outcomes are `script`. -/
inductive demux_call where
  | set_conformance (c : upipe_ts_demux_conformance)
  | nit_pid (pid : Nat)
  | input (u : uref) (script : List Bool)
  deriving DecidableEq, Repr

/-- Runs one call on the demux. -/
def demux_call.run (w : World) (c : demux_call) : Option World :=
  match c with
  | demux_call.set_conformance c => some (_upipe_ts_demux_set_conformance w c).2
  | demux_call.nit_pid pid => some (upipe_ts_demux_nit_pid w pid)
  | demux_call.input u script => upipe_ts_demux_input { w with script := script } u

/-- Runs calls on the demux in order. -/
def run_calls (w : World) (cs : List demux_call) : Option World :=
  match cs with
  | [] => some w
  | c :: rest => (c.run w).bind (fun w1 => run_calls w1 rest)

/-- All the fallible collaborator calls to come succeed. -/
def all_succeed (script : List Bool) : Prop := ∀ b ∈ script, b = true

/-- Commands `upipe_ts_demux_control` names. -/
def upipe_command.demux_command (c : upipe_command) : Bool :=
  match c with
  | upipe_command.UPIPE_GET_UREF_MGR => true
  | upipe_command.UPIPE_SET_UREF_MGR _ => true
  | upipe_command.UPIPE_TS_DEMUX_GET_CONFORMANCE _ => true
  | upipe_command.UPIPE_TS_DEMUX_SET_CONFORMANCE _ _ => true
  | _ => false

/-- Commands `upipe_ts_demux_output_control` names. -/
def upipe_command.output_command (c : upipe_command) : Bool :=
  match c with
  | upipe_command.UPIPE_GET_FLOW_DEF => true
  | upipe_command.UPIPE_SET_FLOW_DEF _ => true
  | _ => false

/-- The add-flow events in a stretch of the log, with their thrower. -/
def add_flows (l : List Action) : List (Option Nat × Nat × uref) :=
  l.filterMap (fun a =>
    match a with
    | Action.throw o (thrown.split_add_flow flow_id flow_def) => some (o, flow_id, flow_def)
    | _ => none)

/-- The flow definition errors in a stretch of the log. -/
def flow_def_errors (l : List Action) : List uref :=
  l.filterMap (fun a =>
    match a with
    | Action.throw _ (thrown.flow_def_error u) => some u
    | _ => none)

/-- The units handed to inner pipes in a stretch of the log, with the pipe. -/
def forwarded (l : List Action) : List (Nat × uref) :=
  l.filterMap (fun a =>
    match a with
    | Action.upipe_input p u => some (p, u)
    | _ => none)

/-- The PMT subscription the spec describes for program `p` on PID `pid`:
definition string "block.mpegtspsi.mpegtspmt.", PID attribute, program
attribute (decimal string), and a PSI filter that selects table id PMT, syntax
bit, current bit and table id extension `p` (high byte, low byte) under the
mask ff 80 00 ff ff 01 00 00. -/
def spec_pmt_flow_def (p pid : Nat) : uref :=
  { flow_def := some "block.mpegtspsi.mpegtspmt."
    pid := some pid
    psi_filter := some ([PMT_TABLE_ID, 0x80, 0, p / 256, p % 256, 1, 0, 0],
                        [0xff, 0x80, 0, 0xff, 0xff, 1, 0, 0])
    program := some (toString p)
    block := [] }

/-- Relation between the world before and after a stretch of code that went
well: the outcomes to come are still all successes, no flow definition error
was thrown, and the input side of the demux context and its manager are as
before. -/
def calm (w w1 : World) : Prop :=
  all_succeed w1.script ∧
  flow_def_errors w1.log = flow_def_errors w.log ∧
  w1.demux.input_mode = w.demux.input_mode ∧
  w1.demux.input = w.demux.input ∧
  w1.demux.uref_mgr = w.demux.uref_mgr

/-- A flow definition unit with the given definition string. -/
def flow_def_unit (d : String) : uref :=
  { flow_def := some d, pid := none, psi_filter := none, program := none, block := [] }

/-- A data unit: no flow definition attribute, three bytes of payload. -/
def example_data_unit : uref :=
  { flow_def := none, pid := none, psi_filter := none, program := none,
    block := [0x47, 0x40, 0x00] }

/-- The demux right after `upipe_ts_demux_alloc [] none`: nothing constructed, no
uref manager, and a probe that supplies none. -/
def example_fresh : World :=
  { demux :=
      { uref_mgr := none
        flow_def_ok := false
        input_mode := upipe_ts_demux_mode.UPIPE_TS_DEMUX_OFF
        input := none
        split := none
        psi_pid_pat := none
        psi_split_output_pat := none
        psi_pids := []
        nit_pid := 0
        auto_conformance := true
        conformance := upipe_ts_demux_conformance.CONFORMANCE_ISO }
    outputs := []
    pipes := []
    next := 1
    script := []
    probe_uref_mgr := none
    log := [Action.throw none thrown.ready] }

/-- The fresh demux after a NIT observation on PID 16, an input unit that is
dropped for want of a uref manager, and a setter call with an unknown value. -/
def example_after_calls : World :=
  { example_fresh with
    demux := { example_fresh.demux with
      nit_pid := 16
      conformance := upipe_ts_demux_conformance.CONFORMANCE_DVB }
    log := [Action.throw none thrown.ready, Action.throw none thrown.need_uref_mgr,
            Action.uref_free example_data_unit] }

/-- The flow definition the demux sets on the split output of PID 0. -/
def example_psi_flow_def : uref :=
  { flow_def := some "block.mpegts.mpegtspsi.", pid := some 0, psi_filter := none,
    program := none, block := [] }

/-- The flow definition the demux sets on the PAT output of the PSI split. -/
def example_pat_flow_def : uref :=
  { flow_def := some "block.mpegtspsi.mpegtspat.", pid := some 0,
    psi_filter := some ([0, 128, 0, 0, 0, 1, 0, 0], [255, 128, 0, 0, 0, 1, 0, 0]),
    program := none, block := [] }

/-- A demux that accepted the flow definition "block.mpegts.": allocated with a
probe that supplies uref manager 7, all allocations succeeding. -/
def demux_after_sync_flow_def : Option World :=
  (upipe_ts_demux_alloc [] (some 7)).bind
    (fun w => upipe_ts_demux_input w (flow_def_unit "block.mpegts."))

/-- The value of `demux_after_sync_flow_def`, written out: split pipe 1 (also the
input pipe, mode SYNC), registry entry at address 2 for PID 0 with PSI split 3
and split output 4, PAT output 5. -/
def example_constructed : World :=
  { demux :=
      { uref_mgr := some 7
        flow_def_ok := true
        input_mode := upipe_ts_demux_mode.UPIPE_TS_DEMUX_SYNC
        input := some 1
        split := some 1
        psi_pid_pat := some 2
        psi_split_output_pat := some 5
        psi_pids := [{ addr := 2, pid := 0, psi_split := 3, split_output := 4, refcount := 1 }]
        nit_pid := 0
        auto_conformance := true
        conformance := upipe_ts_demux_conformance.CONFORMANCE_ISO }
    outputs := []
    pipes :=
      [{ id := 1, mgr := pipe_mgr.ts_split_mgr, uprobe := uprobe.plumber,
         output := none, flow_def := none },
       { id := 3, mgr := pipe_mgr.ts_psi_split_mgr, uprobe := uprobe.psi_split_plumber,
         output := none, flow_def := none },
       { id := 4, mgr := pipe_mgr.output_of 1, uprobe := uprobe.plumber,
         output := none, flow_def := some example_psi_flow_def },
       { id := 5, mgr := pipe_mgr.output_of 3, uprobe := uprobe.psi_split_plumber,
         output := none, flow_def := some example_pat_flow_def }]
    next := 6
    script := []
    probe_uref_mgr := some 7
    log :=
      [Action.throw none thrown.ready,
       Action.throw none thrown.need_uref_mgr,
       Action.uref_mgr_use 7,
       Action.upipe_alloc pipe_mgr.ts_split_mgr uprobe.plumber (some 1),
       Action.upipe_alloc pipe_mgr.ts_psi_split_mgr uprobe.psi_split_plumber (some 3),
       Action.upipe_alloc (pipe_mgr.output_of 1) uprobe.plumber (some 4),
       Action.upipe_set_flow_def 4 example_psi_flow_def true,
       Action.uref_free example_psi_flow_def,
       Action.upipe_alloc (pipe_mgr.output_of 3) uprobe.psi_split_plumber (some 5),
       Action.upipe_set_flow_def 5 example_pat_flow_def true,
       Action.uref_free example_pat_flow_def,
       Action.ulog_debug "flow definition: block.mpegts.",
       Action.upipe_use 1,
       Action.upipe_input 1 (flow_def_unit "block.mpegts.")] }

/-! ## Vocabulary of the flow events -/

/-- The elementary stream flow definition the probe on the PMT decoder builds
for stream type 0x02 on PID `pid`. -/
def spec_es_flow_def (pid : Nat) : uref :=
  { flow_def := some "block.mpegts.mpegtspes.mpegtsmp2v"
    pid := some pid
    psi_filter := none
    program := none
    block := [] }

/-- Runs one decoder event through the probe of its decoder: the events of the
PMT decoder go to `upipe_ts_demux_pmtd_probe`, all others to
`upipe_ts_demux_patd_probe`. -/
def decoder_event_run (w : World) (ev : uprobe_event) : Option World :=
  match ev with
  | uprobe_event.UPROBE_TS_PMTD_HEADER _ _ _ _ => (upipe_ts_demux_pmtd_probe w ev).map Prod.snd
  | uprobe_event.UPROBE_TS_PMTD_ADD_ES _ _ _ _ _ => (upipe_ts_demux_pmtd_probe w ev).map Prod.snd
  | uprobe_event.UPROBE_TS_PMTD_DEL_ES _ _ => (upipe_ts_demux_pmtd_probe w ev).map Prod.snd
  | _ => (upipe_ts_demux_patd_probe w ev).map Prod.snd

/-- Runs decoder events in order. -/
def run_decoder_events (w : World) (evs : List uprobe_event) : Option World :=
  match evs with
  | [] => some w
  | ev :: rest => (decoder_event_run w ev).bind (fun w1 => run_decoder_events w1 rest)

/-- One step of the pairing check on the log: an add-flow makes its id live, a
del-flow needs a live id and retires it; `none` when a del-flow has no live
add-flow of the same id before it. -/
def flow_step (live : List Nat) (a : Action) : Option (List Nat) :=
  match a with
  | Action.throw _ (thrown.split_add_flow flow_id _) => some (flow_id :: live)
  | Action.throw _ (thrown.split_del_flow flow_id) =>
    if flow_id ∈ live then some (live.erase flow_id) else none
  | _ => some live

/-- Pairing check on a stretch of the log, starting from the given live ids:
the ids live at the end, or `none` when some del-flow is not preceded by an
add-flow of the same id that has not been deleted yet. -/
def flows_paired_from (live : List Nat) (l : List Action) : Option (List Nat) :=
  match l with
  | [] => some live
  | a :: rest => (flow_step live a).bind (fun live1 => flows_paired_from live1 rest)

/-- What a decoder announced: a program or an elementary stream. -/
inductive flow_key where
  | program (p : Nat)
  | es (pid : Nat)
  deriving DecidableEq, Repr

/-- The assumption on the decoders, as the claim words it: each DEL comes after
the corresponding ADD (any program, any stream type) that has not been deleted
yet.  One step of the check. -/
def decoder_step (live : List flow_key) (ev : uprobe_event) : Option (List flow_key) :=
  match ev with
  | uprobe_event.UPROBE_TS_PATD_ADD_PROGRAM _ p _ => some (flow_key.program p :: live)
  | uprobe_event.UPROBE_TS_PATD_DEL_PROGRAM _ p =>
    if flow_key.program p ∈ live then some (live.erase (flow_key.program p)) else none
  | uprobe_event.UPROBE_TS_PMTD_ADD_ES _ pid _ _ _ => some (flow_key.es pid :: live)
  | uprobe_event.UPROBE_TS_PMTD_DEL_ES _ pid =>
    if flow_key.es pid ∈ live then some (live.erase (flow_key.es pid)) else none
  | _ => some live

/-- The assumption on the decoders over a sequence of events. -/
def decoder_dels_follow_adds (live : List flow_key) (evs : List uprobe_event) :
    Option (List flow_key) :=
  match evs with
  | [] => some live
  | ev :: rest => (decoder_step live ev).bind (fun l1 => decoder_dels_follow_adds l1 rest)

/-- The narrower assumption: only the ADDs that announce a flow count, that is
ADD_PROGRAM with a program other than 0 and ADD_ES with stream type 0x02.  One
step of the check. -/
def decoder_flow_step (live : List flow_key) (ev : uprobe_event) : Option (List flow_key) :=
  match ev with
  | uprobe_event.UPROBE_TS_PATD_ADD_PROGRAM _ p _ =>
    if p = 0 then some live else some (flow_key.program p :: live)
  | uprobe_event.UPROBE_TS_PATD_DEL_PROGRAM _ p =>
    if flow_key.program p ∈ live then some (live.erase (flow_key.program p)) else none
  | uprobe_event.UPROBE_TS_PMTD_ADD_ES _ pid streamtype _ _ =>
    if streamtype = 0x2 then some (flow_key.es pid :: live) else some live
  | uprobe_event.UPROBE_TS_PMTD_DEL_ES _ pid =>
    if flow_key.es pid ∈ live then some (live.erase (flow_key.es pid)) else none
  | _ => some live

/-- The narrower assumption over a sequence of events. -/
def decoder_flow_dels_follow_adds (live : List flow_key) (evs : List uprobe_event) :
    Option (List flow_key) :=
  match evs with
  | [] => some live
  | ev :: rest =>
    (decoder_flow_step live ev).bind (fun l1 => decoder_flow_dels_follow_adds l1 rest)

/-- A decoder event as the decoders really throw it: the signature of its
decoder, a 16-bit program number, a PID that fits 16 bits, a stream type that
fits 8 bits. -/
def decoder_event_ok (ev : uprobe_event) : Bool :=
  match ev with
  | uprobe_event.UPROBE_TS_PATD_ADD_PROGRAM sig p pid =>
    sig = signature.UPIPE_TS_PATD_SIGNATURE && p < 65536 && pid < 65536
  | uprobe_event.UPROBE_TS_PATD_DEL_PROGRAM sig p =>
    sig = signature.UPIPE_TS_PATD_SIGNATURE && p < 65536
  | uprobe_event.UPROBE_TS_PMTD_HEADER sig _ _ _ => sig = signature.UPIPE_TS_PMTD_SIGNATURE
  | uprobe_event.UPROBE_TS_PMTD_ADD_ES sig pid streamtype _ _ =>
    sig = signature.UPIPE_TS_PMTD_SIGNATURE && pid < 65536 && streamtype < 256
  | uprobe_event.UPROBE_TS_PMTD_DEL_ES sig pid =>
    sig = signature.UPIPE_TS_PMTD_SIGNATURE && pid < 65536
  | _ => true

/-- The flow id the demux uses for what a decoder announced. -/
def flow_key.id (k : flow_key) : Nat :=
  match k with
  | flow_key.program p => p
  | flow_key.es pid => pid * 65536

/-- A key the demux makes a flow of: a program from 1 to 65535, or a PID that
fits 16 bits. -/
def flow_key.ok (k : flow_key) : Prop :=
  match k with
  | flow_key.program p => 0 < p ∧ p < 65536
  | flow_key.es pid => pid < 65536

/-! ## Plumbers -/

/-- Modelled from the spec: `uprobe_plumber` of `upipe/uprobe.h` (not in the
sources at hand): it answers true exactly on the event by which an inner pipe
announces a new flow definition and asks for an output, when the flow
definition carries a definition string, and hands out the flow definition and
the string. -/
def uprobe_plumber (event : uprobe_event) : Option (uref × String) :=
  match event with
  | uprobe_event.UPROBE_NEED_OUTPUT flow_def =>
    match flow_def.flow_def with
    | some d => some (flow_def, d)
    | none => none
  | _ => none

/-- The two allocating branches of the plumbers: a pipe is allocated from `mgr`
with `probe`; on failure an allocation error is logged and thrown, otherwise the
pipe becomes the output of `subpipe` and the reference of the caller is
released; the event is caught either way. -/
def plumb (w : World) (subpipe : Nat) (mgr : pipe_mgr) (probe : uprobe) :
    Option (Bool × World) :=
  match upipe_alloc w mgr probe with
  | (none, w1) => some (true, upipe_throw (w1.emit Action.ulog_aerror) thrown.aerror)
  | (some output, w1) =>
    (upipe_set_output w1 (some subpipe) (some output)).bind
      (fun w2 => (upipe_release w2 (some output)).map (fun w3 => (true, w3)))

/-- Embeds `upipe_ts_demux_plumber`: catches need_output events coming from
subpipes. -/
def upipe_ts_demux_plumber (w : World) (subpipe : Nat) (event : uprobe_event) :
    Option (Bool × World) :=
  match uprobe_plumber event with
  | none => some (false, w)
  | some (_, d) =>
    if ubase_ncmp d "block." = true then some (false, w)
    else if ubase_ncmp d "block.mpegts." = false then
      plumb w subpipe pipe_mgr.ts_decaps_mgr uprobe.plumber
    else if ubase_ncmp d "block.mpegtspsi." = false then
      plumb w subpipe pipe_mgr.ts_psim_mgr uprobe.psim_plumber
    else some (false, w)

/-- Embeds `upipe_ts_demux_psi_split_plumber`: catches need_output events
coming from psi_split subpipes. -/
def upipe_ts_demux_psi_split_plumber (w : World) (psi_split : Nat) (event : uprobe_event) :
    Option (Bool × World) :=
  match uprobe_plumber event with
  | none => some (false, w)
  | some (_, d) =>
    if ubase_ncmp d "block.mpegtspsi.mpegtspat." = false then
      plumb w psi_split pipe_mgr.ts_patd_mgr uprobe.patd_probe
    else if ubase_ncmp d "block.mpegtspsi.mpegtspmt." = false then
      plumb w psi_split pipe_mgr.ts_pmtd_mgr uprobe.pmtd_probe
    else some (false, w)

/-- A new flow definition event with the given definition string. -/
def need_output_event (d : String) : uprobe_event :=
  uprobe_event.UPROBE_NEED_OUTPUT (flow_def_unit d)

/-- The world after a pipe was allocated from `mgr` with `probe`, set as the
output of `subpipe`, and the reference of the caller released: the new pipe has
the next fresh address. -/
def plumbed_world (w : World) (subpipe : Nat) (mgr : pipe_mgr) (probe : uprobe) : World :=
  { w with
    script := w.script.tail
    next := w.next + 1
    pipes := (w.pipes ++ [({ id := w.next, mgr := mgr, uprobe := probe,
                             output := none, flow_def := none } : upipe)]).map
      (fun (q : upipe) => if q.id = subpipe then { q with output := some w.next } else q)
    log := w.log ++ [Action.upipe_alloc mgr probe (some w.next),
                     Action.upipe_set_output subpipe (some w.next),
                     Action.upipe_release w.next] }

/-! ## Vocabulary of the registry -/

/-- The addresses of the structures in the registry. -/
def registry_addrs (w : World) : List Nat :=
  w.demux.psi_pids.map (fun e => e.addr)

/-- The PIDs in the registry. -/
def registry_pids (w : World) : List Nat :=
  w.demux.psi_pids.map (fun e => e.pid)

/-- Replaces the registry. -/
def World.set_registry (w : World) (l : List upipe_ts_demux_psi_pid) : World :=
  w.set_demux { w.demux with psi_pids := l }

/-- The largest value of an `unsigned int`. -/
def UINT_MAX : Nat := 4294967295

/-- Relation between the world before and after calls on collaborators only:
the demux context and its outputs are as before and no address was given back. -/
def steady (w w1 : World) : Prop :=
  w1.demux = w.demux ∧ w1.outputs = w.outputs ∧ w.next ≤ w1.next

/-- A constructed demux whose PAT entry has the largest use-count an
`unsigned int` holds. -/
def example_saturated : World :=
  example_constructed.set_registry
    [{ addr := 2, pid := 0, psi_split := 3, split_output := 4, refcount := UINT_MAX }]

/-- Calls on the registry: `psi_pid_use` in surroundings whose coming outcomes
are `script`, and `psi_pid_release` on a handle. -/
inductive registry_call where
  | use (pid : Nat) (script : List Bool)
  | release (handle : Nat)
  deriving DecidableEq, Repr

/-- Runs one call on the registry, keeping the list of the handles held: a
successful `use` adds the handle it returns, a `release` is made on a handle
that is held and gives it back. -/
def registry_call.run (st : World × List Nat) (c : registry_call) :
    Option (World × List Nat) :=
  match c with
  | registry_call.use pid script =>
    match upipe_ts_demux_psi_pid_use { st.1 with script := script } pid with
    | none => none
    | some (none, w1) => some (w1, st.2)
    | some (some a, w1) => some (w1, a :: st.2)
  | registry_call.release handle =>
    if handle ∈ st.2 then
      (upipe_ts_demux_psi_pid_release st.1 (some handle)).map (fun w1 => (w1, st.2.erase handle))
    else none

/-- Runs calls on the registry in order. -/
def run_registry_calls (st : World × List Nat) (cs : List registry_call) :
    Option (World × List Nat) :=
  match cs with
  | [] => some st
  | c :: rest => (c.run st).bind (fun st1 => run_registry_calls st1 rest)

/-- True on `use` calls. -/
def registry_call.is_use (c : registry_call) : Bool :=
  match c with
  | registry_call.use _ _ => true
  | _ => false

/-- The number of `use` calls in a sequence. -/
def registry_uses (cs : List registry_call) : Nat :=
  cs.countP registry_call.is_use

/-- Invariant of the registry with respect to the handles held: the structures
have distinct addresses, below the next fresh address, and distinct PIDs; the
use-count of each is the number of times its address is held, and is at least
1; every handle held is the address of a structure in the registry. -/
structure registry_inv (w : World) (held : List Nat) : Prop where
  addrs_nodup : (registry_addrs w).Nodup
  pids_nodup : (registry_pids w).Nodup
  addrs_lt : ∀ e ∈ w.demux.psi_pids, e.addr < w.next
  counts : ∀ e ∈ w.demux.psi_pids, e.refcount = held.count e.addr ∧ 1 ≤ e.refcount
  held_mem : ∀ h ∈ held, h ∈ registry_addrs w

/-- A constructed demux whose registry is empty. -/
def example_empty_registry : World :=
  example_constructed.set_registry []

/-- A sequence of calls on the registry: two references on PID 0, one on PID
17, one given back, and a reference on PID 5 whose second allocation fails. -/
def example_registry_calls : List registry_call :=
  [registry_call.use 0 [], registry_call.use 0 [], registry_call.use 17 [],
   registry_call.release 6, registry_call.use 5 [true, false]]

/-- The state after `example_registry_calls` on `example_empty_registry`. -/
def example_registry_state : World × List Nat :=
  (run_registry_calls (example_empty_registry, []) example_registry_calls).getD
    (example_empty_registry, [])

/-! ## Vocabulary of the outputs -/

/-- The context of an output that holds nothing. -/
def unbound_output (id : Nat) : upipe_ts_demux_output :=
  { id := id, split_output := none, psi_split_output := none, psi_pid := none }

/-- The references held on structures of the registry: the one the demux keeps
for the PAT, then those of the outputs. -/
def holders (w : World) : List Nat :=
  w.demux.psi_pid_pat.toList ++ w.outputs.filterMap (fun o => o.psi_pid)

/-- An output holds at most one kind of binding, and a reference on the
registry exactly when it holds an output of a PSI split. -/
def output_kind_ok (o : upipe_ts_demux_output) : Prop :=
  (o.split_output = none ∨ o.psi_split_output = none) ∧
  (o.psi_pid ≠ none ↔ o.psi_split_output ≠ none)

/-- Relation between the world before and after a stretch of code that leaves
the outputs and the demux context alone, the registry apart. -/
def same_frame (w w1 : World) : Prop :=
  w1.outputs = w.outputs ∧ w.next ≤ w1.next ∧
  { w1.demux with psi_pids := [] } = { w.demux with psi_pids := [] }

/-- Invariant of the outputs of a constructed demux: the split pipe and the
manager are there, the outputs have distinct addresses below the next fresh
address, and each holds at most one kind of binding. -/
structure outputs_inv (w : World) : Prop where
  split : w.demux.split ≠ none
  uref_mgr : w.demux.uref_mgr ≠ none
  ids_nodup : (w.outputs.map (fun o => o.id)).Nodup
  ids_lt : ∀ o ∈ w.outputs, o.id < w.next
  kind : ∀ o ∈ w.outputs, output_kind_ok o

/-- Calls on the outputs of the demux: the allocation of an output, a flow
definition set on an output, both in surroundings whose coming outcomes are
`script`, and the release of an output. -/
inductive output_call where
  | alloc (script : List Bool)
  | set_flow_def (output : Nat) (flow_def : uref) (script : List Bool)
  | release (output : Nat)
  deriving DecidableEq, Repr

/-- Runs one call on the outputs. -/
def output_call.run (w : World) (c : output_call) : Option World :=
  match c with
  | output_call.alloc script =>
    some (upipe_ts_demux_output_alloc { w with script := script }).2
  | output_call.set_flow_def output flow_def script =>
    (upipe_ts_demux_output_set_flow_def { w with script := script } output flow_def).map
      (fun r => r.2)
  | output_call.release output => upipe_ts_demux_output_release w output

/-- Runs calls on the outputs in order. -/
def run_output_calls (w : World) (cs : List output_call) : Option World :=
  match cs with
  | [] => some w
  | c :: rest => (c.run w).bind (fun w1 => run_output_calls w1 rest)

/-- True on allocations. -/
def output_call.is_alloc (c : output_call) : Bool :=
  match c with
  | output_call.alloc _ => true
  | _ => false

/-- The number of allocations in a sequence of calls. -/
def output_allocs (cs : List output_call) : Nat :=
  cs.countP output_call.is_alloc

/-- The constructed demux with one output allocated, bound to nothing. -/
def example_one_output : World :=
  (upipe_ts_demux_output_alloc example_constructed).2

/-- A sequence of calls on the outputs: an output is allocated, bound to the
PAT of PID 0 through a PSI filter, then bound to PID 0 without a filter. -/
def example_output_calls : List output_call :=
  [output_call.alloc [], output_call.set_flow_def 6 example_pat_flow_def [],
   output_call.set_flow_def 6 example_psi_flow_def []]

/-- The state after `example_output_calls` on `example_constructed`. -/
def example_outputs_state : World :=
  (run_output_calls example_constructed example_output_calls).getD example_constructed

/-- The entries of the registry `l1` were already in `l`, with the same
address and PID, or were allocated at or after address `n`. -/
def entries_kept (n : Nat) (l l1 : List upipe_ts_demux_psi_pid) : Prop :=
  ∀ e1 ∈ l1, (∃ e ∈ l, e.addr = e1.addr ∧ e.pid = e1.pid) ∨ n ≤ e1.addr

/-- Invariant of a constructed demux and its outputs: the invariant of the
outputs, the invariant of the registry with respect to the references held by
the demux and its outputs, and the reference of the demux is on the entry of
PID 0. -/
structure demux_inv (w : World) : Prop where
  outs : outputs_inv w
  registry : registry_inv w (holders w)
  pat : ∃ e ∈ w.demux.psi_pids, w.demux.psi_pid_pat = some e.addr ∧ e.pid = 0

/-- A demux right after its construction succeeded: no output yet, and the
registry holds the entry of PID 0 alone, with the reference of the demux. -/
def freshly_constructed (w : World) : Prop :=
  w.outputs = [] ∧ w.demux.split ≠ none ∧ w.demux.uref_mgr ≠ none ∧
  ∃ e, w.demux.psi_pids = [e] ∧ e.pid = 0 ∧ e.refcount = 1 ∧ e.addr < w.next ∧
    w.demux.psi_pid_pat = some e.addr

/-- The PID an output is bound to through a PSI filter: the PID of the
registry entry it holds a reference on, when it holds an output of a PSI
split. -/
def output_pid (w : World) (o : upipe_ts_demux_output) : Option Nat :=
  match o.psi_split_output, o.psi_pid with
  | some _, some a => (w.demux.psi_pids.find? (fun e => e.addr = a)).map (fun e => e.pid)
  | _, _ => none

/-- The number of outputs bound to a PID through a PSI filter. -/
def bound_outputs (w : World) (pid : Nat) : Nat :=
  w.outputs.countP (fun o => output_pid w o = some pid)

/-- The distinct PIDs that have the internal PAT subscription or at least one
output bound through a PSI filter. -/
def subscribed_pids (w : World) : List Nat :=
  ((if w.demux.psi_pid_pat ≠ none then [0] else []) ++
    w.outputs.filterMap (output_pid w)).dedup

/-- The references held by the demux and by the outputs of two lists. -/
def other_holders (pat : Option Nat) (l1 l2 : List upipe_ts_demux_output) : List Nat :=
  pat.toList ++ l1.filterMap (fun o => o.psi_pid) ++ l2.filterMap (fun o => o.psi_pid)

/-- Calls that allocate `k` outputs, the first at address `id`, and bind each
to the PAT of PID 0 through a PSI filter, every allocation succeeding (an
output and its PSI split output take two addresses). -/
def example_bind_calls : Nat → Nat → List output_call
  | 0, _ => []
  | k + 1, id =>
    output_call.alloc [] :: output_call.set_flow_def id example_pat_flow_def [] ::
      example_bind_calls k (id + 2)

/-- A constructed demux whose registry holds the entry `e` of PID 0 alone, every
output being bound to it through a PSI filter. -/
structure bound_to_pat (w : World) (e : upipe_ts_demux_psi_pid) : Prop where
  registry : w.demux.psi_pids = [e]
  pid : e.pid = 0
  addr_lt : e.addr < w.next
  split : w.demux.split ≠ none
  uref_mgr : w.demux.uref_mgr ≠ none
  outputs : ∀ o ∈ w.outputs,
    o.id < w.next ∧ o.psi_pid = some e.addr ∧ o.psi_split_output ≠ none

/-- The constructed demux with one output, bound to the PAT of PID 0 through a
PSI filter. -/
def example_bound_output : World :=
  (run_output_calls example_constructed
    [output_call.alloc [], output_call.set_flow_def 6 example_pat_flow_def []]).getD
    example_constructed

/-- The output recorded for the inner pipe at address `p`, if the pipe is in
the heap. -/
def pipe_output (w : World) (p : Nat) : Option (Option Nat) :=
  (w.pipes.find? (fun q => q.id = p)).map (fun q => q.output)

/-- A demux allocated with a probe that supplies uref manager 7, which is given
the flow definition "block.mpegts." while the allocation of the split pipe
succeeds and the allocation of the registry structure of PID 0 fails. -/
def example_failed_construction : Option World :=
  (upipe_ts_demux_alloc [true, true, false] (some 7)).bind
    (fun w => upipe_ts_demux_input w (flow_def_unit "block.mpegts."))

/-- The part of the world the wiring of the input reads: mode, input pipe,
split pipe and the heap of inner pipes. -/
def wiring_state (w : World) : upipe_ts_demux_mode × Option Nat × Option Nat × List upipe :=
  (w.demux.input_mode, w.demux.input, w.demux.split, w.pipes)

/-- The input is wired: in mode SYNC the input pipe is the split pipe itself;
in modes CHECK and SCAN the input pipe is in the heap and its output is the
split pipe; in both cases there is a split pipe. -/
def input_wired (w : World) : Prop :=
  match w.demux.input_mode with
  | upipe_ts_demux_mode.UPIPE_TS_DEMUX_OFF => True
  | upipe_ts_demux_mode.UPIPE_TS_DEMUX_SYNC =>
    w.demux.split ≠ none ∧ w.demux.input = w.demux.split
  | upipe_ts_demux_mode.UPIPE_TS_DEMUX_CHECK
  | upipe_ts_demux_mode.UPIPE_TS_DEMUX_SCAN =>
    w.demux.split ≠ none ∧
    ∃ i, w.demux.input = some i ∧ pipe_output w i = some w.demux.split

/-- The allocations made while the call runs succeed. -/
def demux_call.allocations_succeed (c : demux_call) : Prop :=
  match c with
  | demux_call.input _ script => all_succeed script
  | _ => True

/-- A fresh demux, with a probe that supplies uref manager 7, after the flow
definition "block.mpegtsaligned." (mode CHECK), all allocations succeeding. -/
def example_check_state : World :=
  ((upipe_ts_demux_alloc [] (some 7)).bind
    (fun w => run_calls w [demux_call.input (flow_def_unit "block.mpegtsaligned.") []])).getD
    example_fresh

/-! ## Picture flow definitions (`include/upipe/uref_pic_flow.h`)

The attributes of a uref are a dictionary.  An attribute write may fail for
want of memory: a function that writes takes a `script`, whose entry `i` is
the outcome of the `i`-th write the call would make (no entry means
success). -/

/-- Modelled from the spec: the error codes of `enum ubase_err`
(`upipe/ubase.h`, not in the sources at hand) that the two headers name or
that an attribute write returns. -/
inductive ubase_err where
  | UBASE_ERR_NONE
  | UBASE_ERR_UNKNOWN
  | UBASE_ERR_ALLOC
  | UBASE_ERR_UNHANDLED
  | UBASE_ERR_INVALID
  deriving DecidableEq, Repr

namespace PicFlow

deriving instance DecidableEq for Except

/-- Value of `UREF_PIC_FLOW_DEF`. -/
def UREF_PIC_FLOW_DEF : String := "pic."

/-- Names of the attributes the header reads and writes: the flow definition
("f.def"), "p.macropixel", "p.planes" and, for a plane number, "p.hsub[plane]",
"p.vsub[plane]", "p.macropix[plane]" and "p.chroma[plane]". -/
inductive attr_name where
  | flow_def
  | macropixel
  | planes
  | hsubsampling (plane : Nat)
  | vsubsampling (plane : Nat)
  | macropixel_size (plane : Nat)
  | chroma (plane : Nat)
  deriving DecidableEq, Repr

/-- Value of an attribute: a small unsigned (`uint8_t`) or a string. -/
inductive attr_value where
  | small_unsigned (v : Nat)
  | string (s : String)
  deriving DecidableEq, Repr

/-- Modelled from the spec: `struct uref` (`upipe/uref.h`, not in the sources
at hand), reduced to its dictionary of attributes. -/
structure uref where
  udict : List (attr_name × attr_value)
  deriving DecidableEq, Repr

/-- Modelled from the spec: lookup of an attribute in the dictionary
(`upipe/udict.h`, not in the sources at hand). -/
def udict_get (d : List (attr_name × attr_value)) (k : attr_name) : Option attr_value :=
  match d with
  | [] => none
  | e :: rest => if e.1 = k then some e.2 else udict_get rest k

/-- Modelled from the spec: write of an attribute in the dictionary
(`upipe/udict.h`, not in the sources at hand): the value of an attribute that
exists is replaced, otherwise the attribute is added. -/
def udict_set (d : List (attr_name × attr_value)) (k : attr_name) (v : attr_value) :
    List (attr_name × attr_value) :=
  match d with
  | [] => [(k, v)]
  | e :: rest => if e.1 = k then (k, v) :: rest else e :: udict_set rest k v

/-- Outcome of the `i`-th write of a call. -/
def write_ok (script : List Bool) (i : Nat) : Bool := script.getD i true

/-- Modelled from the spec: the setters the `UREF_ATTR` macros generate
(`upipe/uref_attr.h`, not in the sources at hand): the attribute is written,
or `UBASE_ERR_ALLOC` is returned and the uref is untouched. -/
def uref_attr_set (u : uref) (k : attr_name) (v : attr_value) (ok : Bool) : ubase_err × uref :=
  if ok then (ubase_err.UBASE_ERR_NONE, { udict := udict_set u.udict k v })
  else (ubase_err.UBASE_ERR_ALLOC, u)

/-- Modelled from the spec: the getters `UREF_ATTR_SMALL_UNSIGNED` generates
(`upipe/uref_attr.h`, not in the sources at hand): the octet stored, or
`UBASE_ERR_INVALID` when there is no such small unsigned attribute. -/
def uref_attr_get_small_unsigned (u : uref) (k : attr_name) : Except ubase_err Nat :=
  match udict_get u.udict k with
  | some (attr_value.small_unsigned v) => Except.ok (to_uint8 v)
  | _ => Except.error ubase_err.UBASE_ERR_INVALID

/-- Modelled from the spec: the getters `UREF_ATTR_STRING` generates
(`upipe/uref_attr.h`, not in the sources at hand). -/
def uref_attr_get_string (u : uref) (k : attr_name) : Except ubase_err String :=
  match udict_get u.udict k with
  | some (attr_value.string s) => Except.ok s
  | _ => Except.error ubase_err.UBASE_ERR_INVALID

/-- Modelled from the spec: `uref_flow_get_def` (`upipe/uref_flow.h`, not in
the sources at hand). -/
def uref_flow_get_def (u : uref) : Except ubase_err String :=
  uref_attr_get_string u attr_name.flow_def

/-- Modelled from the spec: `uref_flow_set_def` (`upipe/uref_flow.h`, not in
the sources at hand). -/
def uref_flow_set_def (u : uref) (d : String) (ok : Bool) : ubase_err × uref :=
  uref_attr_set u attr_name.flow_def (attr_value.string d) ok

/-- Getter of `UREF_ATTR_SMALL_UNSIGNED(pic_flow, macropixel, ...)`. -/
def uref_pic_flow_get_macropixel (u : uref) : Except ubase_err Nat :=
  uref_attr_get_small_unsigned u attr_name.macropixel

/-- Setter of `UREF_ATTR_SMALL_UNSIGNED(pic_flow, macropixel, ...)`; the
argument is a `uint8_t`. -/
def uref_pic_flow_set_macropixel (u : uref) (v : Nat) (ok : Bool) : ubase_err × uref :=
  uref_attr_set u attr_name.macropixel (attr_value.small_unsigned (to_uint8 v)) ok

/-- Getter of `UREF_ATTR_SMALL_UNSIGNED(pic_flow, planes, ...)`. -/
def uref_pic_flow_get_planes (u : uref) : Except ubase_err Nat :=
  uref_attr_get_small_unsigned u attr_name.planes

/-- Setter of `UREF_ATTR_SMALL_UNSIGNED(pic_flow, planes, ...)`; the argument
is a `uint8_t`. -/
def uref_pic_flow_set_planes (u : uref) (v : Nat) (ok : Bool) : ubase_err × uref :=
  uref_attr_set u attr_name.planes (attr_value.small_unsigned (to_uint8 v)) ok

/-- Getter of `UREF_ATTR_SMALL_UNSIGNED_VA(pic_flow, hsubsampling, ...)`. -/
def uref_pic_flow_get_hsubsampling (u : uref) (plane : Nat) : Except ubase_err Nat :=
  uref_attr_get_small_unsigned u (attr_name.hsubsampling (to_uint8 plane))

/-- Setter of `UREF_ATTR_SMALL_UNSIGNED_VA(pic_flow, hsubsampling, ...)`. -/
def uref_pic_flow_set_hsubsampling (u : uref) (v : Nat) (plane : Nat) (ok : Bool) :
    ubase_err × uref :=
  uref_attr_set u (attr_name.hsubsampling (to_uint8 plane))
    (attr_value.small_unsigned (to_uint8 v)) ok

/-- Getter of `UREF_ATTR_SMALL_UNSIGNED_VA(pic_flow, vsubsampling, ...)`. -/
def uref_pic_flow_get_vsubsampling (u : uref) (plane : Nat) : Except ubase_err Nat :=
  uref_attr_get_small_unsigned u (attr_name.vsubsampling (to_uint8 plane))

/-- Setter of `UREF_ATTR_SMALL_UNSIGNED_VA(pic_flow, vsubsampling, ...)`. -/
def uref_pic_flow_set_vsubsampling (u : uref) (v : Nat) (plane : Nat) (ok : Bool) :
    ubase_err × uref :=
  uref_attr_set u (attr_name.vsubsampling (to_uint8 plane))
    (attr_value.small_unsigned (to_uint8 v)) ok

/-- Getter of `UREF_ATTR_SMALL_UNSIGNED_VA(pic_flow, macropixel_size, ...)`. -/
def uref_pic_flow_get_macropixel_size (u : uref) (plane : Nat) : Except ubase_err Nat :=
  uref_attr_get_small_unsigned u (attr_name.macropixel_size (to_uint8 plane))

/-- Setter of `UREF_ATTR_SMALL_UNSIGNED_VA(pic_flow, macropixel_size, ...)`. -/
def uref_pic_flow_set_macropixel_size (u : uref) (v : Nat) (plane : Nat) (ok : Bool) :
    ubase_err × uref :=
  uref_attr_set u (attr_name.macropixel_size (to_uint8 plane))
    (attr_value.small_unsigned (to_uint8 v)) ok

/-- Getter of `UREF_ATTR_STRING_VA(pic_flow, chroma, ...)`. -/
def uref_pic_flow_get_chroma (u : uref) (plane : Nat) : Except ubase_err String :=
  uref_attr_get_string u (attr_name.chroma (to_uint8 plane))

/-- Setter of `UREF_ATTR_STRING_VA(pic_flow, chroma, ...)`. -/
def uref_pic_flow_set_chroma (u : uref) (chroma : String) (plane : Nat) (ok : Bool) :
    ubase_err × uref :=
  uref_attr_set u (attr_name.chroma (to_uint8 plane)) (attr_value.string chroma) ok

/-- Embeds `UBASE_RETURN` around a write: on an error the function returns it
at once, with the uref as the failed write left it. -/
def ubase_return (r : ubase_err × uref) (k : uref → ubase_err × uref) : ubase_err × uref :=
  match r.1 with
  | ubase_err.UBASE_ERR_NONE => k r.2
  | e => (e, r.2)

/-- Embeds `uref_pic_flow_alloc_def`: allocates a control packet defining a
new picture flow; `none` is `NULL`.  Entry 0 of the script is the outcome of
`uref_alloc_control`, entries 1 to 3 those of the three writes. -/
def uref_pic_flow_alloc_def (script : List Bool) (macropixel : Nat) : Option uref :=
  if write_ok script 0 = false then none
  else
    let r1 := uref_flow_set_def { udict := [] } UREF_PIC_FLOW_DEF (write_ok script 1)
    if r1.1 ≠ ubase_err.UBASE_ERR_NONE then none
    else
      let r2 := uref_pic_flow_set_macropixel r1.2 macropixel (write_ok script 2)
      if r2.1 ≠ ubase_err.UBASE_ERR_NONE then none
      else
        let r3 := uref_pic_flow_set_planes r2.2 0 (write_ok script 3)
        if r3.1 ≠ ubase_err.UBASE_ERR_NONE then none
        else some r3.2

/-- Embeds `uref_pic_flow_add_plane`: registers a new plane.  The three
numbers are `uint8_t` arguments, `chroma` is a pointer; `plane + 1` is
converted to `uint8_t` by the call of the setter. -/
def uref_pic_flow_add_plane (u : uref) (hsub vsub macropixel_size : Nat)
    (chroma : Option String) (script : List Bool) : ubase_err × uref :=
  match chroma with
  | none => (ubase_err.UBASE_ERR_INVALID, u)
  | some c =>
    if to_uint8 hsub = 0 ∨ to_uint8 vsub = 0 ∨ to_uint8 macropixel_size = 0 then
      (ubase_err.UBASE_ERR_INVALID, u)
    else
      match uref_pic_flow_get_planes u with
      | Except.error e => (e, u)
      | Except.ok plane =>
        ubase_return (uref_pic_flow_set_planes u (plane + 1) (write_ok script 0)) fun u1 =>
        ubase_return (uref_pic_flow_set_hsubsampling u1 hsub plane (write_ok script 1)) fun u2 =>
        ubase_return (uref_pic_flow_set_vsubsampling u2 vsub plane (write_ok script 2)) fun u3 =>
        ubase_return (uref_pic_flow_set_macropixel_size u3 macropixel_size plane
          (write_ok script 3)) fun u4 =>
        ubase_return (uref_pic_flow_set_chroma u4 c plane (write_ok script 4)) fun u5 =>
        (ubase_err.UBASE_ERR_NONE, u5)

/-- Loop of `uref_pic_flow_find_chroma` from `plane`, with `remaining` planes
to visit (`planes - plane`); `plane` stays below `planes`, at most 255, so
`plane++` does not wrap. -/
def find_chroma_loop (u : uref) (chroma : String) (plane : Nat) (remaining : Nat) :
    Except ubase_err Nat :=
  match remaining with
  | 0 => Except.error ubase_err.UBASE_ERR_INVALID
  | k + 1 =>
    match uref_pic_flow_get_chroma u plane with
    | Except.error e => Except.error e
    | Except.ok plane_chroma =>
      if chroma = plane_chroma then Except.ok plane
      else find_chroma_loop u chroma (plane + 1) k

/-- Embeds `uref_pic_flow_find_chroma`: finds a plane by its chroma.  The
result is `none` when the `assert` on `chroma` fails, otherwise the error
code or the plane number written to `plane_p`. -/
def uref_pic_flow_find_chroma (u : uref) (chroma : Option String) :
    Option (Except ubase_err Nat) :=
  match chroma with
  | none => none
  | some c =>
    match uref_pic_flow_get_planes u with
    | Except.error e => some (Except.error e)
    | Except.ok planes => some (find_chroma_loop u c 0 planes)

/-- Embeds `uref_pic_flow_check_chroma`: checks if there is a plane with
the given properties.  The three numbers are `uint8_t` arguments. -/
def uref_pic_flow_check_chroma (u : uref) (hsub vsub mpixel_size : Nat)
    (chroma : Option String) : Option ubase_err :=
  match uref_pic_flow_find_chroma u chroma with
  | none => none
  | some (Except.error e) => some e
  | some (Except.ok plane) =>
    match uref_pic_flow_get_hsubsampling u plane with
    | Except.error e => some e
    | Except.ok hsub2 =>
      match uref_pic_flow_get_vsubsampling u plane with
      | Except.error e => some e
      | Except.ok vsub2 =>
        match uref_pic_flow_get_macropixel_size u plane with
        | Except.error e => some e
        | Except.ok mpixel_size2 =>
          if hsub2 = to_uint8 hsub ∧ vsub2 = to_uint8 vsub ∧
              mpixel_size2 = to_uint8 mpixel_size then
            some ubase_err.UBASE_ERR_NONE
          else some ubase_err.UBASE_ERR_INVALID

/-- Loop of `uref_pic_flow_copy_format` from `plane`, with `remaining`
planes to copy; the four writes of plane `p` are the writes `2 + 4 * p` to
`5 + 4 * p` of the call. -/
def copy_format_loop (uref_src : uref) (script : List Bool) (plane : Nat) (remaining : Nat)
    (uref_dst : uref) : ubase_err × uref :=
  match remaining with
  | 0 => (ubase_err.UBASE_ERR_NONE, uref_dst)
  | k + 1 =>
    match uref_pic_flow_get_chroma uref_src plane with
    | Except.error e => (e, uref_dst)
    | Except.ok chroma =>
      ubase_return (uref_pic_flow_set_chroma uref_dst chroma plane
        (write_ok script (2 + 4 * plane))) fun d1 =>
      match uref_pic_flow_get_hsubsampling uref_src plane with
      | Except.error e => (e, d1)
      | Except.ok hsub =>
        ubase_return (uref_pic_flow_set_hsubsampling d1 hsub plane
          (write_ok script (3 + 4 * plane))) fun d2 =>
        match uref_pic_flow_get_vsubsampling uref_src plane with
        | Except.error e => (e, d2)
        | Except.ok vsub =>
          ubase_return (uref_pic_flow_set_vsubsampling d2 vsub plane
            (write_ok script (4 + 4 * plane))) fun d3 =>
          match uref_pic_flow_get_macropixel_size uref_src plane with
          | Except.error e => (e, d3)
          | Except.ok var =>
            ubase_return (uref_pic_flow_set_macropixel_size d3 var plane
              (write_ok script (5 + 4 * plane))) fun d4 =>
            copy_format_loop uref_src script (plane + 1) k d4

/-- Embeds `uref_pic_flow_copy_format`: copies the attributes defining the
ubuf manager format to another uref. -/
def uref_pic_flow_copy_format (uref_dst uref_src : uref) (script : List Bool) :
    ubase_err × uref :=
  match uref_flow_get_def uref_src with
  | Except.error e => (e, uref_dst)
  | Except.ok d =>
    ubase_return (uref_flow_set_def uref_dst d (write_ok script 0)) fun d1 =>
    match uref_pic_flow_get_planes uref_src with
    | Except.error e => (e, d1)
    | Except.ok planes =>
      ubase_return (uref_pic_flow_set_planes d1 planes (write_ok script 1)) fun d2 =>
      copy_format_loop uref_src script 0 planes d2

/-- Picture flow definitions built by `uref_pic_flow_alloc_def` followed by
calls of `uref_pic_flow_add_plane` (any arguments) whose writes succeed. -/
inductive built : uref → Prop where
  | alloc_def (script : List Bool) (macropixel : Nat) (u : uref) :
      uref_pic_flow_alloc_def script macropixel = some u → built u
  | add_plane (u : uref) (hsub vsub macropixel_size : Nat) (chroma : Option String)
      (script : List Bool) :
      built u → all_succeed script →
      built (uref_pic_flow_add_plane u hsub vsub macropixel_size chroma script).2

/-- Every plane below the planes count has its four attributes. -/
def planes_complete (u : uref) : Prop :=
  ∃ planes, uref_pic_flow_get_planes u = Except.ok planes ∧
    ∀ p, p < planes →
      (∃ c, uref_pic_flow_get_chroma u p = Except.ok c) ∧
      (∃ h, uref_pic_flow_get_hsubsampling u p = Except.ok h) ∧
      (∃ v, uref_pic_flow_get_vsubsampling u p = Except.ok v) ∧
      (∃ m, uref_pic_flow_get_macropixel_size u p = Except.ok m)

/-- Calls `uref_pic_flow_add_plane` `n` times with the plane (1, 1, 1, "y8"),
all writes succeeding. -/
def add_planes (u : uref) (n : Nat) : uref :=
  match n with
  | 0 => u
  | k + 1 => (uref_pic_flow_add_plane (add_planes u k) 1 1 1 (some "y8") []).2

/-- Flow definition of macropixel 1 as `uref_pic_flow_alloc_def` returns it. -/
def example_alloc_def : uref :=
  (uref_pic_flow_alloc_def [] 1).getD { udict := [] }

/-- Flow definition with 255 planes. -/
def example_full : uref := add_planes example_alloc_def 255

/-- Flow definition with two planes of the same chroma: (1, 1, 1, "y8") then
(2, 2, 1, "y8"). -/
def example_same_chroma : uref :=
  (uref_pic_flow_add_plane
    (uref_pic_flow_add_plane example_alloc_def 1 1 1 (some "y8") []).2 2 2 1 (some "y8") []).2

/-- Flow definition of macropixel 1 with the planes (1, 1, 1, "y8") and
(2, 2, 1, "u8"). -/
def example_src : uref :=
  (uref_pic_flow_add_plane
    (uref_pic_flow_add_plane example_alloc_def 1 1 1 (some "y8") []).2 2 2 1 (some "u8") []).2

/-- Flow definition of macropixel 4 without plane, as
`uref_pic_flow_alloc_def` returns it. -/
def example_dst : uref :=
  (uref_pic_flow_alloc_def [] 4).getD { udict := [] }

end PicFlow

/-! ## Bin output helper (`include/upipe/upipe_helper_bin_output.h`)

The macro `UPIPE_HELPER_BIN_OUTPUT` is embedded for the structure name
`upipe_foo` of its documentation.  The other pipes are collaborators: the
calls made on them and the events thrown are logged in order, and a function
takes as argument the error code its result-bearing collaborator call
returns. -/

namespace BinOutput

/-- Calls on collaborators and events thrown by the helper. -/
inductive call where
  | upipe_release (pipe : Nat)
  | upipe_use (pipe : Nat)
  | upipe_set_output (pipe : Nat) (output : Option Nat)
  | upipe_register_request (pipe : Nat) (urequest : Nat)
  | upipe_unregister_request (pipe : Nat) (urequest : Nat)
  | upipe_throw_provide_request (urequest : Nat)
  | upipe_throw_proxy (inner : Nat) (event : Nat)
  | upipe_control_va (pipe : Nat) (command : Nat)
  deriving DecidableEq, Repr

/-- Members the helper keeps in the private structure (`LAST_INNER`, `OUTPUT`,
`REQUEST_LIST`), with the log of the calls made. -/
structure upipe_foo where
  last_inner : Option Nat
  output : Option Nat
  request_list : List Nat
  log : List call
  deriving DecidableEq, Repr

/-- Control commands `upipe_foo_control_bin_output` tells apart. -/
inductive command where
  | UPIPE_GET_OUTPUT
  | UPIPE_SET_OUTPUT (output : Option Nat)
  | other (code : Nat)
  deriving DecidableEq, Repr

/-- Appends calls to the log. -/
def upipe_foo.emit (s : upipe_foo) (calls : List call) : upipe_foo :=
  { s with log := s.log ++ calls }

/-- Modelled from the spec: `upipe_release` (`upipe/upipe.h`, not in the
sources at hand), which does nothing on `NULL`. -/
def upipe_release (s : upipe_foo) (pipe : Option Nat) : upipe_foo :=
  match pipe with
  | none => s
  | some p => s.emit [call.upipe_release p]

/-- Modelled from the spec: `upipe_use` (`upipe/upipe.h`, not in the sources
at hand), which returns its argument and does nothing on `NULL`. -/
def upipe_use (s : upipe_foo) (pipe : Option Nat) : Option Nat × upipe_foo :=
  match pipe with
  | none => (none, s)
  | some p => (some p, s.emit [call.upipe_use p])

/-- Embeds `upipe_foo_probe_bin_output`: attaches an event of the last inner
pipe to the bin pipe; `err` is what `upipe_throw_proxy` returns. -/
def upipe_foo_probe_bin_output (s : upipe_foo) (inner : Nat) (event : Nat) (err : ubase_err) :
    ubase_err × upipe_foo :=
  (err, s.emit [call.upipe_throw_proxy inner event])

/-- Embeds `upipe_foo_init_bin_output`. -/
def upipe_foo_init_bin_output : upipe_foo :=
  { last_inner := none, output := none, request_list := [], log := [] }

/-- Embeds `upipe_foo_store_last_inner`. -/
def upipe_foo_store_last_inner (s : upipe_foo) (last_inner : Option Nat) : upipe_foo :=
  let s1 := upipe_release s s.last_inner
  let s2 := { s1 with last_inner := last_inner }
  match last_inner, s2.output with
  | some inner, some o => s2.emit [call.upipe_set_output inner (some o)]
  | _, _ => s2

/-- Embeds `upipe_foo_register_bin_output_request`; `err` is what
`upipe_register_request` or `upipe_throw_provide_request` returns. -/
def upipe_foo_register_bin_output_request (s : upipe_foo) (urequest : Nat) (err : ubase_err) :
    ubase_err × upipe_foo :=
  let s1 := { s with request_list := s.request_list ++ [urequest] }
  match s1.output with
  | some o => (err, s1.emit [call.upipe_register_request o urequest])
  | none => (err, s1.emit [call.upipe_throw_provide_request urequest])

/-- Embeds `upipe_foo_unregister_bin_output_request`; `err` is what
`upipe_unregister_request` returns. -/
def upipe_foo_unregister_bin_output_request (s : upipe_foo) (urequest : Nat)
    (err : ubase_err) : ubase_err × upipe_foo :=
  let s1 := { s with request_list := s.request_list.filter (fun r => r ≠ urequest) }
  match s1.output with
  | some o => (err, s1.emit [call.upipe_unregister_request o urequest])
  | none => (ubase_err.UBASE_ERR_NONE, s1)

/-- Embeds `upipe_foo_set_bin_output`: handles the set_output control command;
`err` is what `upipe_set_output` on the last inner pipe returns. -/
def upipe_foo_set_bin_output (s : upipe_foo) (output : Option Nat) (err : ubase_err) :
    ubase_err × upipe_foo :=
  let s1 := match s.output with
    | some o => s.emit (s.request_list.map (call.upipe_unregister_request o))
    | none => s
  let s2 := upipe_release s1 s1.output
  let s3 := { s2 with output := none }
  let after (s4 : upipe_foo) : ubase_err × upipe_foo :=
    let r := upipe_use s4 output
    let s5 := { r.2 with output := r.1 }
    match s5.output with
    | some o =>
      (ubase_err.UBASE_ERR_NONE, s5.emit (s5.request_list.map (call.upipe_register_request o)))
    | none => (ubase_err.UBASE_ERR_NONE, s5)
  match s3.last_inner with
  | some inner =>
    let s4 := s3.emit [call.upipe_set_output inner output]
    if err ≠ ubase_err.UBASE_ERR_NONE then (err, s4) else after s4
  | none => after s3

/-- Embeds `upipe_foo_control_bin_output`: the error code, the pointer written
to the argument of `UPIPE_GET_OUTPUT` when it is written, and the structure.
The argument `err` is what the collaborator call of the command returns. -/
def upipe_foo_control_bin_output (s : upipe_foo) (c : command) (err : ubase_err) :
    ubase_err × Option (Option Nat) × upipe_foo :=
  match c with
  | command.UPIPE_GET_OUTPUT => (ubase_err.UBASE_ERR_NONE, some s.output, s)
  | command.UPIPE_SET_OUTPUT output =>
    ((upipe_foo_set_bin_output s output err).1, none, (upipe_foo_set_bin_output s output err).2)
  | command.other code =>
    match s.last_inner with
    | none => (ubase_err.UBASE_ERR_UNHANDLED, none, s)
    | some inner => (err, none, s.emit [call.upipe_control_va inner code])

/-- Embeds `upipe_foo_clean_bin_output`. -/
def upipe_foo_clean_bin_output (s : upipe_foo) : upipe_foo :=
  upipe_release (upipe_release s s.last_inner) s.output

/-- Calls `set_bin_output` makes when it succeeds, given the structure before
the call. -/
def replay_calls (s : upipe_foo) (output : Option Nat) : List call :=
  (match s.output with
    | some old => s.request_list.map (call.upipe_unregister_request old) ++
        [call.upipe_release old]
    | none => []) ++
  (match s.last_inner with
    | some inner => [call.upipe_set_output inner output]
    | none => []) ++
  (match output with
    | some new => call.upipe_use new :: s.request_list.map (call.upipe_register_request new)
    | none => [])

/-- Bin with last inner pipe 1, output 2 and the requests 10 and 11, as the
helper builds it. -/
def example_bin : upipe_foo :=
  (upipe_foo_register_bin_output_request
    (upipe_foo_register_bin_output_request
      (upipe_foo_set_bin_output
        (upipe_foo_store_last_inner upipe_foo_init_bin_output (some 1)) (some 2)
        ubase_err.UBASE_ERR_NONE).2 10 ubase_err.UBASE_ERR_NONE).2 11
    ubase_err.UBASE_ERR_NONE).2

end BinOutput

/-! ## Frame lemmas: what the conformance logic reads is untouched elsewhere -/

theorem conf_state_of_demux {w w' : World} (h : w'.demux = w.demux) :
    conf_state w' = conf_state w := by
  simp [conf_state, h]

@[simp]
theorem demux_draw (w : World) : w.draw.2.demux = w.demux := by
  unfold World.draw; split <;> rfl

@[simp]
theorem demux_emit (w : World) (a : Action) : (w.emit a).demux = w.demux := rfl

@[simp]
theorem demux_put_output (w : World) (o) : (w.put_output o).demux = w.demux := rfl

@[simp]
theorem demux_set_demux (w : World) (d) : (w.set_demux d).demux = d := rfl

@[simp]
theorem demux_uref_free (w : World) (u) : (uref_free w u).demux = w.demux := rfl

@[simp]
theorem demux_upipe_throw (w : World) (e) : (upipe_throw w e).demux = w.demux := rfl

@[simp]
theorem demux_upipe_alloc (w : World) (m p) : (upipe_alloc w m p).2.demux = w.demux := by
  unfold upipe_alloc
  by_cases h : w.draw.1 = true <;> simp [h]

@[simp]
theorem demux_set_pid (w : World) (u pid) : (uref_ts_flow_set_pid w u pid).2.demux = w.demux := by
  unfold uref_ts_flow_set_pid
  by_cases h : w.draw.1 = true <;> simp [h]

@[simp]
theorem demux_set_psi_filter (w : World) (u f m n) :
    (uref_ts_flow_set_psi_filter w u f m n).2.demux = w.demux := by
  unfold uref_ts_flow_set_psi_filter
  by_cases h : w.draw.1 = true <;> simp [h]

@[simp]
theorem demux_set_program (w : World) (u n) :
    (uref_flow_set_program_va w u n).2.demux = w.demux := by
  unfold uref_flow_set_program_va
  by_cases h : w.draw.1 = true <;> simp [h]

theorem demux_upipe_alloc_output (w : World) {p q r w'}
    (h : upipe_alloc_output w p q = some (r, w')) :
    w'.demux = w.demux := by
  unfold upipe_alloc_output at h
  split at h
  · simp at h
  · simp at h
    rw [← show (upipe_alloc w _ q).2 = w' from congrArg Prod.snd h]; simp

theorem demux_upipe_release (w : World) {p w'} (h : upipe_release w p = some w') :
    w'.demux = w.demux := by
  unfold upipe_release at h
  split at h <;> simp at h
  subst h; simp

theorem demux_upipe_use (w : World) {p w'} (h : upipe_use w p = some w') :
    w'.demux = w.demux := by
  unfold upipe_use at h
  split at h <;> simp at h
  subst h; simp

theorem demux_upipe_input (w : World) {p u w'} (h : upipe_input w p u = some w') :
    w'.demux = w.demux := by
  unfold upipe_input at h
  split at h <;> simp at h
  subst h; simp

theorem demux_upipe_set_output (w : World) {p o w'} (h : upipe_set_output w p o = some w') :
    w'.demux = w.demux := by
  unfold upipe_set_output at h
  split at h <;> simp at h
  subst h; rfl

theorem demux_upipe_set_flow_def (w : World) {p u r w'}
    (h : upipe_set_flow_def w p u = some (r, w')) :
    w'.demux = w.demux := by
  unfold upipe_set_flow_def at h
  split at h
  · simp at h
  · by_cases hd : w.draw.1 = true <;> simp [hd] at h <;> rw [← h.2] <;> simp

theorem demux_alloc_def (w : World) {m s r w'}
    (h : uref_block_flow_alloc_def w m s = some (r, w')) :
    w'.demux = w.demux := by
  unfold uref_block_flow_alloc_def at h
  split at h
  · simp at h
  · by_cases hd : w.draw.1 = true <;> simp [hd] at h <;> rw [← h.2] <;> simp

theorem demux_psi_pid_alloc_abort (w : World) {a b r w'}
    (h : psi_pid_alloc_abort w a b = some (r, w')) :
    w'.demux = w.demux := by
  simp [psi_pid_alloc_abort, upipe_release, Option.bind] at h
  rw [← h.2]; simp

theorem conf_psi_pid_alloc (w : World) {pid r w'}
    (h : upipe_ts_demux_psi_pid_alloc w pid = some (r, w')) :
    conf_state w' = conf_state w := by
  unfold upipe_ts_demux_psi_pid_alloc at h
  simp only [] at h
  split at h
  · simp at h; rw [← h.2]; exact conf_state_of_demux (by simp)
  · split at h
    · simp at h; rw [← h.2]; exact conf_state_of_demux (by simp)
    · split at h
      · simp at h
      · next h1 =>
        simp [upipe_release] at h
        rw [← h.2]
        exact conf_state_of_demux (by simp [demux_upipe_alloc_output _ h1])
      · next so w1 h1 =>
        have e1 := demux_upipe_alloc_output _ h1
        simp at e1
        split at h
        · simp at h
        · next h2 =>
          have e2 := demux_alloc_def _ h2
          exact conf_state_of_demux (by rw [demux_psi_pid_alloc_abort _ h, e2, e1])
        · next u w2 h2 =>
          have e2 := demux_alloc_def _ h2
          split at h
          · next h3 =>
            have e3 : _ = w2.demux := (congrArg (fun x => x.2.demux) h3).symm.trans (by simp)
            exact conf_state_of_demux (by rw [demux_psi_pid_alloc_abort _ h]; simp at e3 ⊢; rw [e3, e2, e1])
          · next u1 w3 h3 =>
            have e3 : _ = w2.demux := (congrArg (fun x => x.2.demux) h3).symm.trans (by simp)
            simp at e3
            split at h
            · simp at h
            · next h4 =>
              have e4 := demux_upipe_set_flow_def _ h4
              exact conf_state_of_demux (by rw [demux_psi_pid_alloc_abort _ h]; simp; rw [e4, e3, e2, e1])
            · next w4 h4 =>
              have e4 := demux_upipe_set_flow_def _ h4
              simp at h
              rw [← h.2]
              simp [conf_state, e4, e3, e2, e1]

theorem conf_psi_pid_use (w : World) {pid r w'}
    (h : upipe_ts_demux_psi_pid_use w pid = some (r, w')) :
    conf_state w' = conf_state w := by
  unfold upipe_ts_demux_psi_pid_use at h
  split at h
  · exact conf_psi_pid_alloc _ h
  · simp at h; rw [← h.2]; rfl

theorem conf_psi_pid_release (w : World) {p w'} (h : upipe_ts_demux_psi_pid_release w p = some w') :
    conf_state w' = conf_state w := by
  unfold upipe_ts_demux_psi_pid_release at h
  split at h
  · simp at h
  · split at h
    · simp at h
    · simp only [] at h
      split at h
      · simp [upipe_release, Option.bind] at h
        rw [← h]; rfl
      · simp at h; rw [← h]; rfl

theorem conf_init_abort (w : World) {w'}
    (h : init_abort w = some w') : conf_state w' = conf_state w := by
  unfold init_abort at h
  simp at h
  obtain ⟨a, ha, rfl⟩ := h
  exact conf_state_of_demux (by simp [demux_upipe_release _ ha])

theorem conf_init_abort_pat (w : World) {w'} (h : init_abort_pat w = some w') :
    conf_state w' = conf_state w := by
  unfold init_abort_pat at h
  simp [Option.bind_eq_some] at h
  obtain ⟨a, ha, b, hb, hc⟩ := h
  rw [conf_init_abort _ hc, conf_psi_pid_release _ hb]
  exact conf_state_of_demux (demux_upipe_release _ ha)

theorem conf_init (w : World) {w'}
    (h : upipe_ts_demux_init w = some w') : conf_state w' = conf_state w := by
  unfold upipe_ts_demux_init at h
  simp only [] at h
  have e0 : conf_state ((upipe_alloc w pipe_mgr.ts_split_mgr uprobe.plumber).2.set_demux
      { (upipe_alloc w pipe_mgr.ts_split_mgr uprobe.plumber).2.demux with
        split := (upipe_alloc w pipe_mgr.ts_split_mgr uprobe.plumber).1 }) = conf_state w := by
    simp [conf_state]
  split at h
  · simp only [Option.some.injEq] at h; rw [← h, ← e0]; rfl
  · split at h
    · simp at h
    · next pat wu hu =>
      have eu := (conf_psi_pid_use _ hu).trans e0
      have e2 : conf_state (wu.set_demux { wu.demux with psi_pid_pat := pat }) = conf_state w :=
        eu ▸ rfl
      split at h
      · exact (conf_init_abort _ h).trans e2
      · split at h
        · simp at h
        · split at h
          · simp at h
          · next pso wo ho =>
            have eo := demux_upipe_alloc_output _ ho
            have e3 : conf_state (wo.set_demux { wo.demux with psi_split_output_pat := pso })
                = conf_state w := by
              rw [← e2]; simp [conf_state, eo]
            split at h
            · simp [Option.bind_eq_some] at h
              obtain ⟨a, ha, hb⟩ := h
              exact ((conf_init_abort _ hb).trans (conf_psi_pid_release _ ha)).trans e3
            · split at h
              · simp at h
              · next h4 =>
                exact ((conf_init_abort_pat _ h).trans
                  (conf_state_of_demux (demux_alloc_def _ h4))).trans e3
              · next fd w4 h4 =>
                have e4 := (conf_state_of_demux (demux_alloc_def _ h4)).trans e3
                split at h
                · next h5 =>
                  have e5 : _ = w4.demux :=
                    (congrArg (fun x => x.2.demux) h5).symm.trans (by simp)
                  exact ((conf_init_abort_pat _ h).trans
                    (conf_state_of_demux (by simpa using e5))).trans e4
                · next fd1 w5 h5 =>
                  have e5 : _ = w4.demux :=
                    (congrArg (fun x => x.2.demux) h5).symm.trans (by simp)
                  simp at e5
                  split at h
                  · next h6 =>
                    have e6 : _ = w5.demux :=
                      (congrArg (fun x => x.2.demux) h6).symm.trans (by simp)
                    exact (((conf_init_abort_pat _ h).trans
                      (conf_state_of_demux (by simpa using e6))).trans
                      (conf_state_of_demux e5)).trans e4
                  · next fd2 w6 h6 =>
                    have e6 : _ = w5.demux :=
                      (congrArg (fun x => x.2.demux) h6).symm.trans (by simp)
                    simp at e6
                    split at h
                    · simp at h
                    · next h7 =>
                      have e7 := demux_upipe_set_flow_def _ h7
                      exact ((((conf_init_abort_pat _ h).trans
                        (conf_state_of_demux (by simpa using e7))).trans
                        (conf_state_of_demux e6)).trans (conf_state_of_demux e5)).trans e4
                    · next w7 h7 =>
                      have e7 := demux_upipe_set_flow_def _ h7
                      simp at h
                      rw [← h]
                      exact (((conf_state_of_demux (by simpa using e7)).trans
                        (conf_state_of_demux e6)).trans (conf_state_of_demux e5)).trans e4

theorem conf_set_input_mode (w : World) {m w'} (h : upipe_ts_demux_set_input_mode w m = some w') :
    conf_state w' = conf_state w := by
  unfold upipe_ts_demux_set_input_mode at h
  split at h
  · simp at h
  · next w0 h0 =>
    have e0 : conf_state w0 = conf_state w := by
      split at h0
      · exact conf_state_of_demux (demux_upipe_release _ h0)
      · simp at h0; rw [h0]
    simp only [] at h
    split at h
    · simp at h; rw [← h, ← e0]; rfl
    · rw [conf_state_of_demux (demux_upipe_use _ h), ← e0]; rfl
    all_goals
      split at h
      · simp at h; rw [← h, ← e0]; simp [conf_state]
      · rw [conf_state_of_demux (demux_upipe_set_output _ h), ← e0]; simp [conf_state]

theorem conf_work (w : World) {u w'} (h : upipe_ts_demux_work w u = some w') :
    conf_state w' = conf_state w := by
  unfold upipe_ts_demux_work at h
  split at h
  · simp at h; rw [← h]; rfl
  · exact conf_state_of_demux (demux_upipe_input _ h)

theorem conf_input_accept (w : World) {u d m w'} (h : input_accept w u d m = some w') :
    conf_state w' = conf_state w := by
  unfold input_accept at h
  simp [Option.bind_eq_some] at h
  obtain ⟨a, ha, hb⟩ := h
  rw [conf_work _ hb, conf_set_input_mode _ ha]; rfl

@[simp]
theorem conf_set_uref_mgr (w : World) (m) :
    conf_state (upipe_ts_demux_set_uref_mgr w m).2 = conf_state w := by
  unfold upipe_ts_demux_set_uref_mgr
  cases hm : w.demux.uref_mgr <;> cases m <;> simp [conf_state]

@[simp]
theorem conf_need_uref_mgr (w : World) :
    conf_state (upipe_throw_need_uref_mgr w) = conf_state w := by
  unfold upipe_throw_need_uref_mgr
  simp only []
  split
  · rfl
  · rw [conf_set_uref_mgr]; rfl

theorem conf_input (w : World) {u w'} (h : upipe_ts_demux_input w u = some w') :
    conf_state w' = conf_state w := by
  unfold upipe_ts_demux_input at h
  simp only [] at h
  have e1 : conf_state (if w.demux.uref_mgr = none then upipe_throw_need_uref_mgr w else w)
      = conf_state w := by
    split <;> simp
  generalize (if w.demux.uref_mgr = none then upipe_throw_need_uref_mgr w else w) = w1 at h e1
  split at h
  · simp only [Option.some.injEq] at h; rw [← h, ← e1]; rfl
  · split at h
    · simp at h
    · next w2 h2 =>
      have e2 : conf_state w2 = conf_state w := by
        split at h2
        · exact (conf_init _ h2).trans e1
        · simp only [Option.some.injEq] at h2; rw [← h2]; exact e1
      split at h
      · simp at h; rw [← h, ← e2]; rfl
      · split at h
        · split at h
          · exact (conf_input_accept _ h).trans e2
          · split at h
            · exact (conf_input_accept _ h).trans e2
            · split at h
              · exact (conf_input_accept _ h).trans e2
              · simp at h; rw [← h, ← e2]; rfl
        · split at h
          · simp at h; rw [← h, ← e2]; rfl
          · exact (conf_work _ h).trans e2

theorem concrete_guess (w : World) (h : concrete_conformance w.demux.conformance = true) :
    concrete_conformance (upipe_ts_demux_conformance_guess w).demux.conformance = true := by
  unfold upipe_ts_demux_conformance_guess
  split
  · exact h
  · split
    · rfl
    · split <;> rfl

theorem concrete_set_conformance (w : World) (c)
    (h : concrete_conformance w.demux.conformance = true) :
    concrete_conformance (_upipe_ts_demux_set_conformance w c).2.demux.conformance = true := by
  cases c with
  | CONFORMANCE_AUTO => exact concrete_guess _ h
  | unnamed raw => exact h
  | _ => rfl

theorem concrete_nit_pid (w : World) (pid)
    (h : concrete_conformance w.demux.conformance = true) :
    concrete_conformance (upipe_ts_demux_nit_pid w pid).demux.conformance = true :=
  concrete_guess _ h

theorem concrete_run_calls (cs : List demux_call) :
    ∀ (w w' : World), concrete_conformance w.demux.conformance = true →
      run_calls w cs = some w' → concrete_conformance w'.demux.conformance = true := by
  induction cs with
  | nil =>
    intro w w' h hr
    simp [run_calls] at hr
    rw [← hr]; exact h
  | cons c rest ih =>
    intro w w' h hr
    simp [run_calls, Option.bind_eq_some] at hr
    obtain ⟨w1, h1, h2⟩ := hr
    refine ih w1 w' ?_ h2
    cases c with
    | set_conformance v =>
      simp [demux_call.run] at h1
      rw [← h1]; exact concrete_set_conformance _ _ h
    | nit_pid pid =>
      simp [demux_call.run] at h1
      rw [← h1]; exact concrete_nit_pid _ _ h
    | input u script =>
      simp only [demux_call.run] at h1
      have e := conf_input _ h1
      simp [conf_state] at e
      rw [e.1]; exact h

theorem alloc_conf_state {script mgr w0} (h : upipe_ts_demux_alloc script mgr = some w0) :
    conf_state w0 = (upipe_ts_demux_conformance.CONFORMANCE_ISO, true, 0) := by
  unfold upipe_ts_demux_alloc at h
  split at h
  · simp at h
  · simp only [Option.some.injEq] at h
    rw [← h]; rfl

/-- C4: in every state reachable from `upipe_ts_demux_alloc` by calls of the
conformance setter (any argument), NIT PID observations and input units,
`_upipe_ts_demux_get_conformance` succeeds and returns one of ISO, DVB, ATSC,
ISDB, never `CONFORMANCE_AUTO`. -/
theorem C4_get_conformance_is_concrete (script : List Bool) (mgr : Option Nat)
    (w0 : World) (calls : List demux_call) (w : World)
    (h0 : upipe_ts_demux_alloc script mgr = some w0)
    (h : run_calls w0 calls = some w) :
    (_upipe_ts_demux_get_conformance w).1 = true ∧
    ((_upipe_ts_demux_get_conformance w).2 = upipe_ts_demux_conformance.CONFORMANCE_ISO ∨
     (_upipe_ts_demux_get_conformance w).2 = upipe_ts_demux_conformance.CONFORMANCE_DVB ∨
     (_upipe_ts_demux_get_conformance w).2 = upipe_ts_demux_conformance.CONFORMANCE_ATSC ∨
     (_upipe_ts_demux_get_conformance w).2 = upipe_ts_demux_conformance.CONFORMANCE_ISDB) ∧
    (_upipe_ts_demux_get_conformance w).2 ≠ upipe_ts_demux_conformance.CONFORMANCE_AUTO := by
  have hc : concrete_conformance w0.demux.conformance = true := by
    have := alloc_conf_state h0
    simp [conf_state] at this
    rw [this.1]; rfl
  have := concrete_run_calls calls w0 w hc h
  simp only [_upipe_ts_demux_get_conformance]
  cases hw : w.demux.conformance <;> simp [hw, concrete_conformance] at this ⊢

theorem guess_auto (w : World) (h : w.demux.auto_conformance = true) :
    conf_state (upipe_ts_demux_conformance_guess w) =
      (spec_conformance w.demux.nit_pid, true, w.demux.nit_pid) := by
  unfold upipe_ts_demux_conformance_guess spec_conformance conf_state
  by_cases h16 : w.demux.nit_pid = 16
  · simp [h, h16]
  · by_cases hb : w.demux.nit_pid = 0x1ffb
    · simp [h, hb]
    · simp [h, h16, hb]

theorem guess_manual (w : World) (h : w.demux.auto_conformance = false) :
    upipe_ts_demux_conformance_guess w = w := by
  simp [upipe_ts_demux_conformance_guess, h]

theorem nit_pid_conf_state (w : World) (pid : Nat) :
    conf_state (upipe_ts_demux_nit_pid w pid) =
      (if w.demux.auto_conformance = true then spec_conformance (to_uint16 pid)
       else w.demux.conformance, w.demux.auto_conformance, to_uint16 pid) := by
  unfold upipe_ts_demux_nit_pid
  cases ha : w.demux.auto_conformance
  · rw [guess_manual _ (by simpa using ha)]
    simp [conf_state, ha]
  · rw [guess_auto _ (by simpa using ha)]
    simp [ha]

theorem set_auto_conf_state (w : World) :
    conf_state (_upipe_ts_demux_set_conformance w
      upipe_ts_demux_conformance.CONFORMANCE_AUTO).2 =
      (spec_conformance w.demux.nit_pid, true, w.demux.nit_pid) := by
  simp only [_upipe_ts_demux_set_conformance]
  rw [guess_auto _ (by simp)]
  simp

theorem set_concrete_conf_state (w : World) (c : upipe_ts_demux_conformance)
    (hc : concrete_conformance c = true) :
    (_upipe_ts_demux_set_conformance w c).1 = true ∧
    conf_state (_upipe_ts_demux_set_conformance w c).2 = (c, false, w.demux.nit_pid) := by
  cases c <;> simp [concrete_conformance] at hc <;>
    simp [_upipe_ts_demux_set_conformance, conf_state]

theorem set_unnamed (w : World) (raw : Nat) :
    _upipe_ts_demux_set_conformance w (upipe_ts_demux_conformance.unnamed raw) = (false, w) :=
  rfl

theorem run_conformance_calls_append (w : World) (cs : List conformance_call)
    (c : conformance_call) :
    run_conformance_calls w (cs ++ [c]) = c.run (run_conformance_calls w cs) := by
  simp [run_conformance_calls, List.foldl_append]

theorem last_nit_pid_append (cs : List conformance_call) (c : conformance_call) :
    last_nit_pid (cs ++ [c]) =
      (match c with
       | conformance_call.nit_pid pid => to_uint16 pid
       | _ => last_nit_pid cs) := by
  simp [last_nit_pid, List.foldl_append]

/-- Invariant of the conformance logic: the recorded NIT PID is the last one
observed, and under inference the conformance is the inferred one. -/
theorem conformance_invariant (w0 : World)
    (h0 : conf_state w0 = (upipe_ts_demux_conformance.CONFORMANCE_ISO, true, 0))
    (cs : List conformance_call) :
    (run_conformance_calls w0 cs).demux.nit_pid = last_nit_pid cs ∧
    ((run_conformance_calls w0 cs).demux.auto_conformance = true →
      (run_conformance_calls w0 cs).demux.conformance = spec_conformance (last_nit_pid cs)) := by
  induction cs using List.reverseRecOn with
  | nil =>
    simp [conf_state] at h0
    simp [run_conformance_calls, last_nit_pid, h0, spec_conformance]
  | append_singleton cs c ih =>
    rw [run_conformance_calls_append, last_nit_pid_append]
    cases c with
    | nit_pid pid =>
      have e := nit_pid_conf_state (run_conformance_calls w0 cs) pid
      simp only [conf_state, Prod.mk.injEq] at e
      simp only [conformance_call.run]
      refine ⟨e.2.2, fun ha => ?_⟩
      rw [e.2.1] at ha
      rw [e.1, if_pos ha]
    | set_conformance v =>
      simp only [conformance_call.run]
      cases hv : concrete_conformance v
      · cases v <;> simp [concrete_conformance] at hv
        · have e := set_auto_conf_state (run_conformance_calls w0 cs)
          simp only [conf_state, Prod.mk.injEq] at e
          exact ⟨e.2.2.trans ih.1, fun _ => e.1.trans (by rw [ih.1])⟩
        · rw [set_unnamed]; exact ih
      · have e := (set_concrete_conf_state (run_conformance_calls w0 cs) v hv).2
        simp only [conf_state, Prod.mk.injEq] at e
        refine ⟨e.2.2.trans ih.1, fun ha => ?_⟩
        rw [e.2.1] at ha
        exact absurd ha (by simp)

/-- C5: under inference the reported conformance is a fixed function of the
last observed NIT PID.  From a fresh demux, after any sequence `cs` of setter
calls and NIT observations that leaves inference active, the conformance is
`spec_conformance` of the last observed NIT PID (which is the recorded one);
and from any state, after any sequence of calls followed by the setter with
AUTO and a NIT observation on PID `P`, `get_conformance` returns
`spec_conformance P`.  `P < 65536` because the observation is a `uint16_t`. -/
theorem C5_inferred_conformance_is_function_of_nit_pid (script : List Bool)
    (mgr : Option Nat) (w0 : World) (cs : List conformance_call)
    (w : World) (cs2 : List conformance_call) (P : Nat)
    (h0 : upipe_ts_demux_alloc script mgr = some w0) (hP : P < 65536) :
    ((run_conformance_calls w0 cs).demux.nit_pid = last_nit_pid cs ∧
     ((run_conformance_calls w0 cs).demux.auto_conformance = true →
       (_upipe_ts_demux_get_conformance (run_conformance_calls w0 cs)).2 =
         spec_conformance (last_nit_pid cs))) ∧
    _upipe_ts_demux_get_conformance
      (upipe_ts_demux_nit_pid
        (_upipe_ts_demux_set_conformance (run_conformance_calls w cs2)
          upipe_ts_demux_conformance.CONFORMANCE_AUTO).2 P) = (true, spec_conformance P) := by
  refine ⟨conformance_invariant w0 (alloc_conf_state h0) cs, ?_⟩
  have e1 := set_auto_conf_state (run_conformance_calls w cs2)
  simp only [conf_state, Prod.mk.injEq] at e1
  have e2 := nit_pid_conf_state (_upipe_ts_demux_set_conformance (run_conformance_calls w cs2)
          upipe_ts_demux_conformance.CONFORMANCE_AUTO).2 P
  simp only [conf_state, Prod.mk.injEq] at e2
  simp only [_upipe_ts_demux_get_conformance, Prod.mk.injEq, true_and]
  rw [e2.1, if_pos e1.2.1]
  simp [to_uint16, Nat.mod_eq_of_lt hP]

theorem nit_pids_manual (pids : List Nat) :
    ∀ (w : World), w.demux.auto_conformance = false →
      (pids.foldl upipe_ts_demux_nit_pid w).demux.conformance = w.demux.conformance ∧
      (pids.foldl upipe_ts_demux_nit_pid w).demux.auto_conformance = false := by
  induction pids with
  | nil => intro w h; exact ⟨rfl, h⟩
  | cons p rest ih =>
    intro w h
    have e := nit_pid_conf_state w p
    simp only [conf_state, Prod.mk.injEq, h] at e
    simp only [List.foldl_cons]
    have := ih (upipe_ts_demux_nit_pid w p) e.2.1
    refine ⟨this.1.trans ?_, this.2⟩
    rw [e.1]; simp

/-- C6: for every state and every concrete value `c` (ISO, DVB, ATSC, ISDB),
`set_conformance(c)` returns true and switches inference off, and after any
sequence of NIT PID observations (any PIDs) with no further setter call,
`get_conformance` returns `c`. -/
theorem C6_manual_conformance_is_frozen (w : World) (c : upipe_ts_demux_conformance)
    (pids : List Nat) (hc : concrete_conformance c = true) :
    (_upipe_ts_demux_set_conformance w c).1 = true ∧
    (_upipe_ts_demux_set_conformance w c).2.demux.auto_conformance = false ∧
    _upipe_ts_demux_get_conformance
      (pids.foldl upipe_ts_demux_nit_pid (_upipe_ts_demux_set_conformance w c).2) = (true, c) := by
  have e := set_concrete_conf_state w c hc
  simp only [conf_state, Prod.mk.injEq] at e
  refine ⟨e.1, e.2.2.1, ?_⟩
  have := nit_pids_manual pids _ e.2.2.1
  simp only [_upipe_ts_demux_get_conformance, Prod.mk.injEq, true_and]
  rw [this.1, e.2.1]

theorem last_nit_pid_filter (cs : List conformance_call) :
    last_nit_pid (cs.filter conformance_call.is_nit) = last_nit_pid cs := by
  induction cs using List.reverseRecOn with
  | nil => rfl
  | append_singleton cs c ih =>
    rw [List.filter_append, last_nit_pid_append]
    cases c with
    | nit_pid pid =>
      simp only [List.filter_cons, conformance_call.is_nit, List.filter_nil, if_true]
      rw [last_nit_pid_append]
    | set_conformance v =>
      simp only [List.filter_cons, conformance_call.is_nit, List.filter_nil]
      simpa using ih

theorem nit_only_auto (cs : List conformance_call) :
    ∀ (w : World), w.demux.auto_conformance = true →
      (run_conformance_calls w (cs.filter conformance_call.is_nit)).demux.auto_conformance
        = true := by
  induction cs with
  | nil => intro w h; exact h
  | cons c rest ih =>
    intro w h
    cases c with
    | nit_pid pid =>
      simp only [List.filter_cons, conformance_call.is_nit, if_true, run_conformance_calls,
        List.foldl_cons, conformance_call.run]
      have e := nit_pid_conf_state w pid
      simp only [conf_state, Prod.mk.injEq] at e
      exact ih _ (e.2.1.trans h)
    | set_conformance v =>
      simp only [List.filter_cons, conformance_call.is_nit]
      exact ih w h

/-- C7: round trip of the conformance setter.  For every sequence `cs` of NIT
PID observations interleaved with setter calls (to concrete values, and to any
other value as well), running `cs` from a fresh demux and then calling
`set_conformance(AUTO)` gives the same `get_conformance` result as running only
the NIT observations of `cs` from the fresh demux: observations made while
inference was frozen are not lost. -/
theorem C7_set_auto_round_trip (script : List Bool) (mgr : Option Nat) (w0 : World)
    (cs : List conformance_call)
    (h0 : upipe_ts_demux_alloc script mgr = some w0) :
    _upipe_ts_demux_get_conformance
      (_upipe_ts_demux_set_conformance (run_conformance_calls w0 cs)
        upipe_ts_demux_conformance.CONFORMANCE_AUTO).2 =
    _upipe_ts_demux_get_conformance
      (run_conformance_calls w0 (cs.filter conformance_call.is_nit)) := by
  have hf := alloc_conf_state h0
  have e1 := set_auto_conf_state (run_conformance_calls w0 cs)
  simp only [conf_state, Prod.mk.injEq] at e1
  have i1 := conformance_invariant w0 hf cs
  have i2 := conformance_invariant w0 hf (cs.filter conformance_call.is_nit)
  have ha : w0.demux.auto_conformance = true := by
    simp only [conf_state, Prod.mk.injEq] at hf
    exact hf.2.1
  have a2 := nit_only_auto cs w0 ha
  simp only [_upipe_ts_demux_get_conformance, Prod.mk.injEq, true_and]
  rw [e1.1, i1.1, i2.2 a2, last_nit_pid_filter]

/-- C8: configuration errors are rejected without effect.  The conformance
setter returns false on a value outside AUTO, ISO, DVB, ATSC, ISDB;
`upipe_ts_demux_control` returns false on every command other than
GET/SET_UREF_MGR and TS_DEMUX_GET/SET_CONFORMANCE; `upipe_ts_demux_output_control`
returns false on every command other than GET/SET_FLOW_DEF; in each case the
whole state (conformance, auto flag, NIT PID, input mode, registry and all the
rest) is the one before the call. -/
theorem C8_configuration_errors_rejected (w : World) (raw : Nat)
    (c1 c2 : upipe_command) (output : Nat)
    (h1 : c1.demux_command = false) (h2 : c2.output_command = false) :
    _upipe_ts_demux_set_conformance w (upipe_ts_demux_conformance.unnamed raw) = (false, w) ∧
    upipe_ts_demux_control w c1 = some ((false, control_out.nothing), w) ∧
    upipe_ts_demux_output_control w output c2 = some ((false, control_out.nothing), w) := by
  refine ⟨rfl, ?_, ?_⟩
  · cases c1 <;> simp [upipe_command.demux_command] at h1 <;> rfl
  · cases c2 <;> simp [upipe_command.output_command] at h2 <;> rfl

/-- C9: when the probe on the PAT decoder receives ADD_PROGRAM(program = 0,
pid), for every state and every PID value (here every `pid` that fits the
`uint16_t` of the NIT PID, so every 13-bit PID): the event is caught, the NIT
PID is recorded as `pid`, the conformance is inferred again (under inference it
becomes `spec_conformance pid`, DVB for 16; with inference off it stays), and
nothing is thrown or called: the log and everything else are untouched. -/
theorem C9_patd_program_zero_sets_nit_pid (w : World) (pid : Nat) (hpid : pid < 65536) :
    ∃ w1, upipe_ts_demux_patd_probe w
        (uprobe_event.UPROBE_TS_PATD_ADD_PROGRAM signature.UPIPE_TS_PATD_SIGNATURE 0 pid)
        = some (true, w1) ∧
      w1.demux.nit_pid = pid ∧
      w1.demux.conformance =
        (if w.demux.auto_conformance = true then spec_conformance pid
         else w.demux.conformance) ∧
      (w.demux.auto_conformance = true → pid = 16 →
        w1.demux.conformance = upipe_ts_demux_conformance.CONFORMANCE_DVB) ∧
      w1.demux.auto_conformance = w.demux.auto_conformance ∧
      add_flows w1.log = add_flows w.log ∧
      w1.log = w.log ∧
      w1 = { w with demux := { w.demux with
               nit_pid := pid, conformance := w1.demux.conformance } } := by
  have hu : to_uint pid = pid := Nat.mod_eq_of_lt (by omega)
  have h16 : to_uint16 pid = pid := Nat.mod_eq_of_lt hpid
  refine ⟨upipe_ts_demux_nit_pid w pid, ?_, ?_⟩
  · simp [upipe_ts_demux_patd_probe, hu, show to_uint 0 = 0 from rfl]
  · have e := nit_pid_conf_state w pid
    simp only [conf_state, Prod.mk.injEq, h16] at e
    refine ⟨e.2.2, e.1, ?_, e.2.1, ?_, ?_, ?_⟩
    · intro ha hp
      rw [e.1, if_pos ha, hp]; rfl
    all_goals
      unfold upipe_ts_demux_nit_pid upipe_ts_demux_conformance_guess
      simp only [h16]
      split
      · rfl
      · split
        · rfl
        · split <;> rfl

theorem all_succeed_tail {s : List Bool} (h : all_succeed s) : all_succeed s.tail := by
  intro b hb
  exact h b (List.mem_of_mem_tail hb)

theorem draw_of_all_succeed (w : World) (h : all_succeed w.script) :
    w.draw = (true, { w with script := w.script.tail }) := by
  obtain ⟨d, o, p, n, sc, m, l⟩ := w
  cases sc with
  | nil => rfl
  | cons b rest =>
    have : b = true := h b (by simp)
    subst this
    rfl

theorem alloc_def_of_all_succeed (w : World) (m : Nat) (s : String)
    (h : all_succeed w.script) :
    uref_block_flow_alloc_def w (some m) s =
      some (some { flow_def := some ("block." ++ s), pid := none, psi_filter := none,
                   program := none, block := [] },
            { w with script := w.script.tail }) := by
  simp [uref_block_flow_alloc_def, draw_of_all_succeed w h]

theorem set_psi_filter_of_all_succeed (w : World) (u : uref) (f m : List Nat) (n : Nat)
    (h : all_succeed w.script) :
    uref_ts_flow_set_psi_filter w u f m n =
      (some { u with psi_filter := some (f.take n, m.take n) },
       { w with script := w.script.tail }) := by
  simp [uref_ts_flow_set_psi_filter, draw_of_all_succeed w h]

theorem set_pid_of_all_succeed (w : World) (u : uref) (pid : Nat)
    (h : all_succeed w.script) :
    uref_ts_flow_set_pid w u pid =
      (some { u with pid := some pid }, { w with script := w.script.tail }) := by
  simp [uref_ts_flow_set_pid, draw_of_all_succeed w h]

theorem set_program_of_all_succeed (w : World) (u : uref) (n : Nat)
    (h : all_succeed w.script) :
    uref_flow_set_program_va w u n =
      (some { u with program := some (toString n) }, { w with script := w.script.tail }) := by
  simp [uref_flow_set_program_va, draw_of_all_succeed w h]

theorem patd_filter_bytes (p : Nat) (hp : p < 65536) :
    patd_filter p = [PMT_TABLE_ID, 0x80, 0, p / 256, p % 256, 1, 0, 0] := by
  have h16 : to_uint16 p = p := Nat.mod_eq_of_lt hp
  have hand : p &&& 255 = p % 256 := Nat.and_pow_two_sub_one_eq_mod p 8
  simp [patd_filter, psi_set_tableidext, psi_set_current, psi_set_tableid, psi_set_syntax,
    PSI_HEADER_SIZE_SYNTAX1, PMT_TABLE_ID, List.replicate, to_uint8, h16, hand,
    Nat.shiftRight_eq_div_pow]

theorem patd_mask_bytes : patd_mask = [0xff, 0x80, 0, 0xff, 0xff, 1, 0, 0] := by
  decide

/-- C10: when the probe on the PAT decoder receives ADD_PROGRAM(p, pid) with
`p ≠ 0` and the allocations succeed, the event is caught and exactly one
add-flow event is thrown (by the demux, followed only by the release of the
unit); its id is `p` and its flow definition is `spec_pmt_flow_def p pid`:
definition string "block.mpegtspsi.mpegtspmt.", PID attribute `pid`, program
attribute the decimal string of `p`, PSI filter on table id PMT, syntax bit,
current bit and table id extension `p` with mask 0xffff.  The demux context
(NIT PID and conformance included) is unchanged.  `p` is a program number
(16 bits) and `pid` an `unsigned int`. -/
theorem C10_patd_add_program_throws_add_flow (w : World) (m p pid : Nat)
    (hm : w.demux.uref_mgr = some m) (hs : all_succeed w.script)
    (hp0 : p ≠ 0) (hp : p < 65536) (hpid : pid < 4294967296) :
    upipe_ts_demux_patd_probe w
        (uprobe_event.UPROBE_TS_PATD_ADD_PROGRAM signature.UPIPE_TS_PATD_SIGNATURE p pid)
      = some (true,
          { w with
            script := w.script.tail.tail.tail.tail
            log := w.log ++
              [Action.throw none (thrown.split_add_flow p (spec_pmt_flow_def p pid)),
               Action.uref_free (spec_pmt_flow_def p pid)] }) ∧
    add_flows
        [Action.throw none (thrown.split_add_flow p (spec_pmt_flow_def p pid)),
         Action.uref_free (spec_pmt_flow_def p pid)]
      = [(none, p, spec_pmt_flow_def p pid)] ∧
    (spec_pmt_flow_def p pid).flow_def = some "block.mpegtspsi.mpegtspmt." ∧
    (spec_pmt_flow_def p pid).pid = some pid ∧
    (spec_pmt_flow_def p pid).program = some (toString p) ∧
    (spec_pmt_flow_def p pid).psi_filter =
      some ([PMT_TABLE_ID, 0x80, 0, p / 256, p % 256, 1, 0, 0],
            [0xff, 0x80, 0, 0xff, 0xff, 1, 0, 0]) := by
  have hup : to_uint p = p := Nat.mod_eq_of_lt (by omega)
  have hupid : to_uint pid = pid := Nat.mod_eq_of_lt hpid
  have h1 := all_succeed_tail hs
  have h2 := all_succeed_tail h1
  have h3 := all_succeed_tail h2
  have hlen : (patd_filter p).take PSI_HEADER_SIZE_SYNTAX1 = patd_filter p := by
    rw [patd_filter_bytes p hp]; rfl
  refine ⟨?_, rfl, rfl, rfl, rfl, rfl⟩
  simp only [upipe_ts_demux_patd_probe, hup, hupid, hp0, hm, ne_eq, not_true_eq_false,
    if_false]
  rw [alloc_def_of_all_succeed w m _ hs]
  simp only []
  rw [set_psi_filter_of_all_succeed _ _ _ _ _ (by exact h1)]
  simp only []
  rw [set_pid_of_all_succeed _ _ _ (by exact h2)]
  simp only []
  rw [set_program_of_all_succeed _ _ _ (by exact h3)]
  simp only [uref_free, upipe_throw, World.emit, List.append_assoc, List.singleton_append,
    hlen, patd_filter_bytes p hp, patd_mask_bytes, spec_pmt_flow_def]
  rfl

theorem calm_refl (w : World) (h : all_succeed w.script) : calm w w :=
  ⟨h, rfl, rfl, rfl, rfl⟩

theorem calm_trans {a b c : World} (h1 : calm a b) (h2 : calm b c) : calm a c :=
  ⟨h2.1, h2.2.1.trans h1.2.1, h2.2.2.1.trans h1.2.2.1, h2.2.2.2.1.trans h1.2.2.2.1,
   h2.2.2.2.2.trans h1.2.2.2.2⟩

theorem upipe_alloc_of_all_succeed (w : World) (mgr : pipe_mgr) (probe : uprobe)
    (h : all_succeed w.script) :
    upipe_alloc w mgr probe =
      (some w.next,
       { w with
         script := w.script.tail
         next := w.next + 1
         pipes := w.pipes ++ [{ id := w.next, mgr := mgr, uprobe := probe,
                                output := none, flow_def := none }]
         log := w.log ++ [Action.upipe_alloc mgr probe (some w.next)] }) := by
  simp [upipe_alloc, draw_of_all_succeed w h]

theorem upipe_set_flow_def_of_all_succeed (w : World) (p : Nat) (u : uref)
    (h : all_succeed w.script) :
    upipe_set_flow_def w (some p) u =
      some (true,
       { w with
         script := w.script.tail
         pipes := w.pipes.map
           (fun q => if q.id = p then { q with flow_def := some u } else q)
         log := w.log ++ [Action.upipe_set_flow_def p u true] }) := by
  simp [upipe_set_flow_def, draw_of_all_succeed w h]

theorem flow_def_errors_append (l1 l2 : List Action) :
    flow_def_errors (l1 ++ l2) = flow_def_errors l1 ++ flow_def_errors l2 := by
  simp [flow_def_errors, List.filterMap_append]

theorem psi_pid_alloc_ok (w : World) (m s pid : Nat)
    (hm : w.demux.uref_mgr = some m) (hsp : w.demux.split = some s)
    (hs : all_succeed w.script) :
    ∃ a w1, upipe_ts_demux_psi_pid_alloc w pid = some (some a, w1) ∧ calm w w1 ∧
      w1.demux.split = w.demux.split ∧
      ∃ e, w1.demux.psi_pids.find? (fun x => x.addr = a) = some e := by
  have h1 := all_succeed_tail hs
  have h2 := all_succeed_tail h1
  have h3 := all_succeed_tail h2
  have h4 := all_succeed_tail h3
  have h5 := all_succeed_tail h4
  have h6 := all_succeed_tail h5
  unfold upipe_ts_demux_psi_pid_alloc
  simp only [draw_of_all_succeed w hs]
  rw [upipe_alloc_of_all_succeed _ _ _ (by exact h1)]
  simp only [hsp, upipe_alloc_output, Bool.true_eq_false, if_false]
  rw [upipe_alloc_of_all_succeed _ _ _ (by exact h2)]
  simp only [hm]
  rw [alloc_def_of_all_succeed _ m _ (by exact h3)]
  simp only []
  rw [set_pid_of_all_succeed _ _ _ (by exact h4)]
  simp only []
  rw [upipe_set_flow_def_of_all_succeed _ _ _ (by exact h5)]
  simp only []
  refine ⟨_, _, rfl, ⟨h6, ?_, rfl, rfl, hm ▸ rfl⟩, hsp ▸ rfl, ?_⟩
  · simp [uref_free, World.emit, World.set_demux, flow_def_errors_append, flow_def_errors]
  · simp only [uref_free, World.emit, World.set_demux, List.find?_append]
    cases List.find? (fun x => decide (x.addr = w.next)) w.demux.psi_pids with
    | some e => exact ⟨e, rfl⟩
    | none => exact ⟨{ addr := w.next, pid := to_uint16 pid, psi_split := w.next + 1,
                       split_output := w.next + 1 + 1, refcount := 1 }, by simp⟩

theorem psi_pid_use_ok (w : World) (m s pid : Nat)
    (hm : w.demux.uref_mgr = some m) (hsp : w.demux.split = some s)
    (hs : all_succeed w.script) :
    ∃ a w1, upipe_ts_demux_psi_pid_use w pid = some (some a, w1) ∧ calm w w1 ∧
      w1.demux.split = w.demux.split ∧
      ∃ e, w1.demux.psi_pids.find? (fun x => x.addr = a) = some e := by
  unfold upipe_ts_demux_psi_pid_use
  cases hf : upipe_ts_demux_psi_pid_find w pid with
  | none => exact psi_pid_alloc_ok w m s pid hm hsp hs
  | some e =>
    refine ⟨_, _, rfl, ⟨hs, rfl, rfl, rfl, rfl⟩, rfl, ?_⟩
    have hmem : e ∈ w.demux.psi_pids := List.mem_of_find?_eq_some hf
    apply Option.isSome_iff_exists.mp
    rw [List.find?_isSome]
    refine ⟨_, List.mem_map_of_mem _ hmem, ?_⟩
    simp

theorem init_ok (w : World) (m : Nat)
    (hm : w.demux.uref_mgr = some m) (hs : all_succeed w.script) :
    ∃ w2, upipe_ts_demux_init w = some w2 ∧ calm w w2 ∧ w2.demux.split ≠ none := by
  unfold upipe_ts_demux_init
  rw [upipe_alloc_of_all_succeed w _ _ hs]
  simp only []
  obtain ⟨a, wu, hu, hcalm, hsplit, e, he⟩ := psi_pid_use_ok
    (World.set_demux
      { w with
        script := w.script.tail
        next := w.next + 1
        pipes := w.pipes ++ [{ id := w.next, mgr := pipe_mgr.ts_split_mgr,
                               uprobe := uprobe.plumber, output := none, flow_def := none }]
        log := w.log ++ [Action.upipe_alloc pipe_mgr.ts_split_mgr uprobe.plumber
                          (some w.next)] }
      { w.demux with split := some w.next }) m w.next 0 hm rfl (all_succeed_tail hs)
  rw [hu]
  have h0 := hcalm.1
  have h1 := all_succeed_tail h0
  have h2 := all_succeed_tail h1
  have h3 := all_succeed_tail h2
  have h4 := all_succeed_tail h3
  have h5 := all_succeed_tail h4
  have hmu : wu.demux.uref_mgr = some m := hcalm.2.2.2.2.trans hm
  simp only [World.set_demux, he, upipe_alloc_output]
  rw [upipe_alloc_of_all_succeed _ _ _ (by exact h0)]
  simp only [hmu]
  rw [alloc_def_of_all_succeed _ m _ (by exact h1)]
  simp only []
  rw [set_psi_filter_of_all_succeed _ _ _ _ _ (by exact h2)]
  simp only []
  rw [set_pid_of_all_succeed _ _ _ (by exact h3)]
  simp only []
  rw [upipe_set_flow_def_of_all_succeed _ _ _ (by exact h4)]
  simp only []
  refine ⟨_, rfl, ⟨h5, ?_, hcalm.2.2.1, hcalm.2.2.2.1, hm.symm⟩, ?_⟩
  · have hl : flow_def_errors wu.log = flow_def_errors w.log := by
      rw [hcalm.2.1]
      simp [World.set_demux, flow_def_errors_append, flow_def_errors]
    simp only [uref_free, World.emit, flow_def_errors_append, hl]
    simp [flow_def_errors]
  · show wu.demux.split ≠ none
    rw [hsplit]
    simp [World.set_demux]

theorem input_accept_ok (w : World) (u : uref) (d : String) (mode : upipe_ts_demux_mode)
    (s : Nat) (hmode : mode ≠ upipe_ts_demux_mode.UPIPE_TS_DEMUX_OFF)
    (hsp : w.demux.split = some s) (hs : all_succeed w.script)
    (hwf : w.demux.input_mode ≠ upipe_ts_demux_mode.UPIPE_TS_DEMUX_OFF →
      w.demux.input ≠ none) :
    ∃ w3, input_accept w u d mode = some w3 ∧
      w3.demux.input_mode = mode ∧ w3.demux.flow_def_ok = true ∧
      flow_def_errors w3.log = flow_def_errors w.log := by
  have hrel : ∃ w0,
      (if w.demux.input_mode ≠ upipe_ts_demux_mode.UPIPE_TS_DEMUX_OFF
       then upipe_release
         ((w.emit (Action.ulog_debug ("flow definition: " ++ d))).set_demux
           { w.demux with flow_def_ok := true }) w.demux.input
       else some ((w.emit (Action.ulog_debug ("flow definition: " ++ d))).set_demux
           { w.demux with flow_def_ok := true })) = some w0 ∧
      w0.script = w.script ∧ w0.demux.split = some s ∧ w0.demux.flow_def_ok = true ∧
      flow_def_errors w0.log = flow_def_errors w.log := by
    by_cases hoff : w.demux.input_mode = upipe_ts_demux_mode.UPIPE_TS_DEMUX_OFF
    · rw [if_neg (by simpa using hoff)]
      refine ⟨_, rfl, rfl, hsp, rfl, ?_⟩
      simp [World.emit, World.set_demux, flow_def_errors_append, flow_def_errors]
    · obtain ⟨p, hp⟩ := Option.ne_none_iff_exists'.mp (hwf hoff)
      rw [if_pos hoff, hp]
      refine ⟨_, rfl, rfl, hsp, rfl, ?_⟩
      simp [World.emit, World.set_demux, flow_def_errors_append, flow_def_errors]
  obtain ⟨w0, h0, hsc, hsp0, hok0, herr0⟩ := hrel
  have hs0 : all_succeed w0.script := hsc ▸ hs
  unfold input_accept upipe_ts_demux_set_input_mode
  simp only [World.emit, World.set_demux] at h0 ⊢
  rw [h0]
  cases mode with
  | UPIPE_TS_DEMUX_OFF => exact absurd rfl hmode
  | UPIPE_TS_DEMUX_SYNC =>
    simp only [hsp0, upipe_use, World.emit, Option.some_bind, upipe_ts_demux_work]
    simp [upipe_input, World.emit, hok0, flow_def_errors_append, flow_def_errors]
    simpa [flow_def_errors] using herr0
  | UPIPE_TS_DEMUX_CHECK =>
    simp only []
    rw [upipe_alloc_of_all_succeed _ _ _ (by exact hs0)]
    simp only [upipe_set_output, Option.some_bind, upipe_ts_demux_work]
    simp [upipe_input, World.emit, hok0, flow_def_errors_append, flow_def_errors]
    simpa [flow_def_errors] using herr0
  | UPIPE_TS_DEMUX_SCAN =>
    simp only []
    rw [upipe_alloc_of_all_succeed _ _ _ (by exact hs0)]
    simp only [upipe_set_output, Option.some_bind, upipe_ts_demux_work]
    simp [upipe_input, World.emit, hok0, flow_def_errors_append, flow_def_errors]
    simpa [flow_def_errors] using herr0

theorem ubase_ncmp_eq_false_iff (d pre : String) :
    ubase_ncmp d pre = false ↔ pre.data <+: d.data := by
  simp [ubase_ncmp]

theorem need_uref_mgr_ok (w : World)
    (havail : w.demux.uref_mgr ≠ none ∨ w.probe_uref_mgr ≠ none) :
    ∃ m, (if w.demux.uref_mgr = none then upipe_throw_need_uref_mgr w else w).demux.uref_mgr
        = some m ∧
      (if w.demux.uref_mgr = none then upipe_throw_need_uref_mgr w else w).script = w.script ∧
      flow_def_errors (if w.demux.uref_mgr = none then upipe_throw_need_uref_mgr w else w).log
        = flow_def_errors w.log ∧
      (if w.demux.uref_mgr = none then upipe_throw_need_uref_mgr w else w).demux.input_mode
        = w.demux.input_mode ∧
      (if w.demux.uref_mgr = none then upipe_throw_need_uref_mgr w else w).demux.input
        = w.demux.input := by
  cases hm : w.demux.uref_mgr with
  | some m => exact ⟨m, by simp [hm]⟩
  | none =>
    have hp : w.probe_uref_mgr ≠ none := by
      rcases havail with h | h
      · exact absurd hm h
      · exact h
    obtain ⟨m, hpm⟩ := Option.ne_none_iff_exists'.mp hp
    refine ⟨m, ?_⟩
    simp [upipe_throw_need_uref_mgr, upipe_throw, World.emit, hpm,
      upipe_ts_demux_set_uref_mgr, hm, World.set_demux, flow_def_errors_append, flow_def_errors]

/-- C1: a flow definition whose string begins with "block." is accepted.  For
every demux whose uref manager is available (already set, or supplied by the
probe on need-uref-mgr), constructed or not yet, with all allocations
succeeding, `upipe_ts_demux_input` returns and: if the string begins with
"block.mpegts." the input mode becomes SYNC; otherwise if it begins with
"block.mpegtsaligned." it becomes CHECK; otherwise it becomes SCAN; in the three
cases `flow_def_ok` becomes true, no flow definition error is thrown and the
conformance (with the auto flag and the NIT PID) stays what it was.  The state
is one in which an input pipe is recorded whenever the mode is not OFF. -/
theorem C1_flow_def_selects_input_mode (w : World) (u : uref) (d : String)
    (hd : u.flow_def = some d)
    (havail : w.demux.uref_mgr ≠ none ∨ w.probe_uref_mgr ≠ none)
    (hs : all_succeed w.script)
    (hwf : w.demux.input_mode ≠ upipe_ts_demux_mode.UPIPE_TS_DEMUX_OFF →
      w.demux.input ≠ none)
    (hblock : "block.".data <+: d.data) :
    ∃ w1, upipe_ts_demux_input w u = some w1 ∧
      ("block.mpegts.".data <+: d.data →
        w1.demux.input_mode = upipe_ts_demux_mode.UPIPE_TS_DEMUX_SYNC) ∧
      (¬ "block.mpegts.".data <+: d.data → "block.mpegtsaligned.".data <+: d.data →
        w1.demux.input_mode = upipe_ts_demux_mode.UPIPE_TS_DEMUX_CHECK) ∧
      (¬ "block.mpegts.".data <+: d.data → ¬ "block.mpegtsaligned.".data <+: d.data →
        w1.demux.input_mode = upipe_ts_demux_mode.UPIPE_TS_DEMUX_SCAN) ∧
      w1.demux.flow_def_ok = true ∧
      flow_def_errors w1.log = flow_def_errors w.log ∧
      w1.demux.conformance = w.demux.conformance ∧
      w1.demux.auto_conformance = w.demux.auto_conformance ∧
      w1.demux.nit_pid = w.demux.nit_pid := by
  have key : ∃ w1, upipe_ts_demux_input w u = some w1 ∧
      ("block.mpegts.".data <+: d.data →
        w1.demux.input_mode = upipe_ts_demux_mode.UPIPE_TS_DEMUX_SYNC) ∧
      (¬ "block.mpegts.".data <+: d.data → "block.mpegtsaligned.".data <+: d.data →
        w1.demux.input_mode = upipe_ts_demux_mode.UPIPE_TS_DEMUX_CHECK) ∧
      (¬ "block.mpegts.".data <+: d.data → ¬ "block.mpegtsaligned.".data <+: d.data →
        w1.demux.input_mode = upipe_ts_demux_mode.UPIPE_TS_DEMUX_SCAN) ∧
      w1.demux.flow_def_ok = true ∧
      flow_def_errors w1.log = flow_def_errors w.log := by
    obtain ⟨m, hm1, hsc1, herr1, hmode1, hin1⟩ := need_uref_mgr_ok w havail
    unfold upipe_ts_demux_input
    simp only []
    generalize (if w.demux.uref_mgr = none then upipe_throw_need_uref_mgr w else w) = wa
      at hm1 hsc1 herr1 hmode1 hin1
    have hsa : all_succeed wa.script := hsc1 ▸ hs
    rw [if_neg (by simp [hm1])]
    -- lazy construction
    have hcons : ∃ w2 s, (if wa.demux.split = none then upipe_ts_demux_init wa else some wa)
        = some w2 ∧ w2.demux.split = some s ∧ calm wa w2 := by
      cases hsp : wa.demux.split with
      | none =>
        obtain ⟨w2, h2, hc2, hs2⟩ := init_ok wa m hm1 hsa
        obtain ⟨s, hs⟩ := Option.ne_none_iff_exists'.mp hs2
        exact ⟨w2, s, by simpa using h2, hs, hc2⟩
      | some s => exact ⟨wa, s, by simp, hsp, calm_refl wa hsa⟩
    obtain ⟨w2, s, h2, hsp2, hc2⟩ := hcons
    rw [h2]
    simp only [hd]
    rw [if_neg (by simp [hsp2])]
    have hwf2 : w2.demux.input_mode ≠ upipe_ts_demux_mode.UPIPE_TS_DEMUX_OFF →
        w2.demux.input ≠ none := by
      rw [hc2.2.2.1, hc2.2.2.2.1, hmode1, hin1]; exact hwf
    have herr2 : flow_def_errors w2.log = flow_def_errors w.log := hc2.2.1.trans herr1
    simp only [ubase_ncmp_eq_false_iff, EXPECTED_FLOW_DEF_SYNC, EXPECTED_FLOW_DEF_CHECK,
      EXPECTED_FLOW_DEF]
    by_cases h1 : "block.mpegts.".data <+: d.data
    · rw [if_pos h1]
      obtain ⟨w3, h3, hmode3, hok3, herr3⟩ := input_accept_ok w2 u d
        upipe_ts_demux_mode.UPIPE_TS_DEMUX_SYNC s (by decide) hsp2 hc2.1 hwf2
      exact ⟨w3, h3, fun _ => hmode3, fun h => absurd h1 h, fun h => absurd h1 h, hok3,
        herr3.trans herr2⟩
    · rw [if_neg h1]
      by_cases h2 : "block.mpegtsaligned.".data <+: d.data
      · rw [if_pos h2]
        obtain ⟨w3, h3, hmode3, hok3, herr3⟩ := input_accept_ok w2 u d
          upipe_ts_demux_mode.UPIPE_TS_DEMUX_CHECK s (by decide) hsp2 hc2.1 hwf2
        exact ⟨w3, h3, fun h => absurd h h1, fun _ _ => hmode3, fun _ h => absurd h2 h, hok3,
          herr3.trans herr2⟩
      · rw [if_neg h2, if_pos hblock]
        obtain ⟨w3, h3, hmode3, hok3, herr3⟩ := input_accept_ok w2 u d
          upipe_ts_demux_mode.UPIPE_TS_DEMUX_SCAN s (by decide) hsp2 hc2.1 hwf2
        exact ⟨w3, h3, fun h => absurd h h1, fun _ h => absurd h h2, fun _ _ => hmode3, hok3,
          herr3.trans herr2⟩
  obtain ⟨w1, h, ha, hb, hc, hok, herr⟩ := key
  have e := conf_input _ h
  simp only [conf_state, Prod.mk.injEq] at e
  exact ⟨w1, h, ha, hb, hc, hok, herr, e.1, e.2.1, e.2.2⟩

/-- C2, as stated, fails.  A demux that accepted "block.mpegts." (the state
`example_constructed`) has `flow_def_ok` true, and after it is given the flow
definition "pic.", which does not begin with "block.", `flow_def_ok` is false:
the state is not left unchanged.  On a demux that is not constructed yet the
same unit first triggers the lazy construction (the registry gets its PAT
entry), and without a uref manager it is dropped with no flow-def-error. -/
theorem C2_counterexample_flow_def_ok_is_reset :
    demux_after_sync_flow_def = some example_constructed ∧
    example_constructed.demux.flow_def_ok = true ∧
    (upipe_ts_demux_input example_constructed (flow_def_unit "pic.")).map
        (fun w => w.demux.flow_def_ok) = some false ∧
    ((upipe_ts_demux_alloc [] (some 7)).bind
      (fun w => upipe_ts_demux_input w (flow_def_unit "pic."))).map
        (fun w => w.demux.psi_pids.length) = some 1 ∧
    (upipe_ts_demux_input example_fresh (flow_def_unit "pic.")).map
        (fun w => flow_def_errors w.log) = some [] := by
  decide

/-- C2, amended: for every constructed demux (uref manager and split pipe
present) and every flow definition unit whose string does not begin with
"block.", `upipe_ts_demux_input` frees the unit, throws flow-def-error, forwards
nothing, sets `flow_def_ok` to false, and leaves everything else (input mode,
input pipe, conformance, PID registry, inner pipes) as it was. -/
theorem C2_bad_flow_def_rejected (w : World) (u : uref) (d : String) (m s : Nat)
    (hd : u.flow_def = some d) (hm : w.demux.uref_mgr = some m)
    (hsp : w.demux.split = some s) (hnb : ¬ "block.".data <+: d.data) :
    upipe_ts_demux_input w u =
      some { w with
        demux := { w.demux with flow_def_ok := false }
        log := w.log ++ [Action.uref_free u, Action.throw none (thrown.flow_def_error u)] } ∧
    flow_def_errors [Action.uref_free u, Action.throw none (thrown.flow_def_error u)] = [u] ∧
    forwarded [Action.uref_free u, Action.throw none (thrown.flow_def_error u)] = [] := by
  have h1 : ¬ "block.mpegts.".data <+: d.data :=
    fun h => hnb (List.IsPrefix.trans ⟨"mpegts.".data, rfl⟩ h)
  have h2 : ¬ "block.mpegtsaligned.".data <+: d.data :=
    fun h => hnb (List.IsPrefix.trans ⟨"mpegtsaligned.".data, rfl⟩ h)
  refine ⟨?_, rfl, rfl⟩
  unfold upipe_ts_demux_input
  simp only [hm, hsp, hd, ubase_ncmp_eq_false_iff, EXPECTED_FLOW_DEF_SYNC,
    EXPECTED_FLOW_DEF_CHECK, EXPECTED_FLOW_DEF, h1, h2, hnb, if_false, reduceCtorEq]
  simp [uref_free, upipe_throw, World.emit, World.set_demux]
  exact ⟨hm, hsp⟩

/-- C3: for every constructed demux (uref manager and split pipe present, an
input pipe `p` recorded whenever the mode is not OFF) and every data unit (no
flow definition attribute), `upipe_ts_demux_input` returns with the state
unchanged apart from the log, to which it adds: the hand-over of the unit, as
it is, to the input pipe, once, when `flow_def_ok` is true and the mode is not
OFF; the release of the unit and a flow-def-error when `flow_def_ok` is false;
the release of the unit alone when `flow_def_ok` is true and the mode is OFF.
So the unit is forwarded if and only if `flow_def_ok` is true and the mode is
not OFF. -/
theorem C3_data_unit_forwarding (w : World) (u : uref) (m s p : Nat)
    (hu : u.flow_def = none) (hm : w.demux.uref_mgr = some m)
    (hsp : w.demux.split = some s)
    (hwf : w.demux.input_mode ≠ upipe_ts_demux_mode.UPIPE_TS_DEMUX_OFF →
      w.demux.input = some p) :
    ∃ added, upipe_ts_demux_input w u = some { w with log := w.log ++ added } ∧
      (w.demux.flow_def_ok = true →
        w.demux.input_mode ≠ upipe_ts_demux_mode.UPIPE_TS_DEMUX_OFF →
        added = [Action.upipe_input p u]) ∧
      (w.demux.flow_def_ok = false →
        added = [Action.uref_free u, Action.throw none (thrown.flow_def_error u)]) ∧
      (w.demux.flow_def_ok = true →
        w.demux.input_mode = upipe_ts_demux_mode.UPIPE_TS_DEMUX_OFF →
        added = [Action.uref_free u]) ∧
      (forwarded added = [(p, u)] ↔
        (w.demux.flow_def_ok = true ∧
         w.demux.input_mode ≠ upipe_ts_demux_mode.UPIPE_TS_DEMUX_OFF)) ∧
      (forwarded added = [] ↔
        ¬ (w.demux.flow_def_ok = true ∧
           w.demux.input_mode ≠ upipe_ts_demux_mode.UPIPE_TS_DEMUX_OFF)) := by
  unfold upipe_ts_demux_input
  simp only [hm, hsp, hu, reduceCtorEq, if_false]
  cases hok : w.demux.flow_def_ok with
  | false =>
    refine ⟨[Action.uref_free u, Action.throw none (thrown.flow_def_error u)], ?_, ?_⟩
    · simp [uref_free, upipe_throw, World.emit]
    · simp [forwarded]
  | true =>
    by_cases hoff : w.demux.input_mode = upipe_ts_demux_mode.UPIPE_TS_DEMUX_OFF
    · refine ⟨[Action.uref_free u], ?_, ?_⟩
      · simp [upipe_ts_demux_work, hoff, uref_free, World.emit]
      · simp [forwarded, hoff]
    · refine ⟨[Action.upipe_input p u], ?_, ?_⟩
      · simp [upipe_ts_demux_work, hoff, hwf hoff, upipe_input, World.emit]
      · simp [forwarded, hoff]

theorem all_succeed_nil : all_succeed [] := fun _ hb => absurd hb (List.not_mem_nil _)

/-- Witness of C1: the fresh demux whose probe supplies uref manager 7 accepts
"block.mpegts.". -/
theorem C1_witness :
    (flow_def_unit "block.mpegts.").flow_def = some "block.mpegts." ∧
    all_succeed ({ example_fresh with probe_uref_mgr := some 7 } : World).script ∧
    "block.".data <+: "block.mpegts.".data ∧
    ∃ w1, upipe_ts_demux_input { example_fresh with probe_uref_mgr := some 7 }
        (flow_def_unit "block.mpegts.") = some w1 ∧
      ("block.mpegts.".data <+: "block.mpegts.".data →
        w1.demux.input_mode = upipe_ts_demux_mode.UPIPE_TS_DEMUX_SYNC) ∧
      (¬ "block.mpegts.".data <+: "block.mpegts.".data →
        "block.mpegtsaligned.".data <+: "block.mpegts.".data →
        w1.demux.input_mode = upipe_ts_demux_mode.UPIPE_TS_DEMUX_CHECK) ∧
      (¬ "block.mpegts.".data <+: "block.mpegts.".data →
        ¬ "block.mpegtsaligned.".data <+: "block.mpegts.".data →
        w1.demux.input_mode = upipe_ts_demux_mode.UPIPE_TS_DEMUX_SCAN) ∧
      w1.demux.flow_def_ok = true ∧
      flow_def_errors w1.log =
        flow_def_errors ({ example_fresh with probe_uref_mgr := some 7 } : World).log ∧
      w1.demux.conformance =
        ({ example_fresh with probe_uref_mgr := some 7 } : World).demux.conformance ∧
      w1.demux.auto_conformance =
        ({ example_fresh with probe_uref_mgr := some 7 } : World).demux.auto_conformance ∧
      w1.demux.nit_pid =
        ({ example_fresh with probe_uref_mgr := some 7 } : World).demux.nit_pid :=
  ⟨rfl, all_succeed_nil, ⟨"mpegts.".data, rfl⟩,
   C1_flow_def_selects_input_mode { example_fresh with probe_uref_mgr := some 7 }
     (flow_def_unit "block.mpegts.") "block.mpegts." rfl (Or.inr (by decide))
     all_succeed_nil (fun h => absurd rfl h) ⟨"mpegts.".data, rfl⟩⟩

/-- Witness of the amended C2 on `example_constructed` and the unit "pic.". -/
theorem C2_witness :
    ¬ "block.".data <+: "pic.".data ∧
    upipe_ts_demux_input example_constructed (flow_def_unit "pic.") =
      some { example_constructed with
        demux := { example_constructed.demux with flow_def_ok := false }
        log := example_constructed.log ++
          [Action.uref_free (flow_def_unit "pic."),
           Action.throw none (thrown.flow_def_error (flow_def_unit "pic."))] } :=
  ⟨by decide,
   (C2_bad_flow_def_rejected example_constructed (flow_def_unit "pic.") "pic." 7 1 rfl rfl rfl
     (by decide)).1⟩

/-- Witness of C3 on `example_constructed` (mode SYNC, input pipe 1). -/
theorem C3_witness :
    example_data_unit.flow_def = none ∧
    example_constructed.demux.uref_mgr = some 7 ∧
    example_constructed.demux.split = some 1 ∧
    example_constructed.demux.input = some 1 ∧
    upipe_ts_demux_input example_constructed example_data_unit =
      some { example_constructed with
        log := example_constructed.log ++ [Action.upipe_input 1 example_data_unit] } := by
  obtain ⟨added, h, h1, _⟩ := C3_data_unit_forwarding example_constructed example_data_unit
    7 1 1 rfl rfl rfl (fun _ => rfl)
  rw [h1 rfl (by decide)] at h
  exact ⟨rfl, rfl, rfl, rfl, h⟩

/-- Witness of C4: NIT on PID 16, a dropped input unit, a rejected setter call. -/
theorem C4_witness :
    upipe_ts_demux_alloc [] none = some example_fresh ∧
    run_calls example_fresh
      [demux_call.nit_pid 16, demux_call.input example_data_unit [],
       demux_call.set_conformance (upipe_ts_demux_conformance.unnamed 3)]
      = some example_after_calls ∧
    (_upipe_ts_demux_get_conformance example_after_calls).2 ≠
      upipe_ts_demux_conformance.CONFORMANCE_AUTO :=
  ⟨rfl, rfl,
   (C4_get_conformance_is_concrete [] none example_fresh
     [demux_call.nit_pid 16, demux_call.input example_data_unit [],
      demux_call.set_conformance (upipe_ts_demux_conformance.unnamed 3)]
     example_after_calls rfl rfl).2.2⟩

/-- Witness of C5: setters ending in AUTO, then a NIT on PID 0x1FFB, give ATSC. -/
theorem C5_witness :
    upipe_ts_demux_alloc [] none = some example_fresh ∧ 0x1ffb < 65536 ∧
    _upipe_ts_demux_get_conformance
      (upipe_ts_demux_nit_pid
        (_upipe_ts_demux_set_conformance
          (run_conformance_calls example_fresh
            [conformance_call.set_conformance upipe_ts_demux_conformance.CONFORMANCE_DVB])
          upipe_ts_demux_conformance.CONFORMANCE_AUTO).2 0x1ffb)
      = (true, upipe_ts_demux_conformance.CONFORMANCE_ATSC) :=
  ⟨rfl, by decide,
   (C5_inferred_conformance_is_function_of_nit_pid [] none example_fresh
     [conformance_call.nit_pid 16] example_fresh
     [conformance_call.set_conformance upipe_ts_demux_conformance.CONFORMANCE_DVB]
     0x1ffb rfl (by decide)).2⟩

/-- Witness of C6: ISDB set by hand survives NIT observations on 16 and 0x1FFB. -/
theorem C6_witness :
    concrete_conformance upipe_ts_demux_conformance.CONFORMANCE_ISDB = true ∧
    _upipe_ts_demux_get_conformance
      ([16, 0x1ffb, 0].foldl upipe_ts_demux_nit_pid
        (_upipe_ts_demux_set_conformance example_fresh
          upipe_ts_demux_conformance.CONFORMANCE_ISDB).2)
      = (true, upipe_ts_demux_conformance.CONFORMANCE_ISDB) :=
  ⟨rfl,
   (C6_manual_conformance_is_frozen example_fresh
     upipe_ts_demux_conformance.CONFORMANCE_ISDB [16, 0x1ffb, 0] rfl).2.2⟩

/-- Witness of C7: a NIT on PID 16 seen while the conformance was frozen to ISO. -/
theorem C7_witness :
    upipe_ts_demux_alloc [] none = some example_fresh ∧
    _upipe_ts_demux_get_conformance
      (_upipe_ts_demux_set_conformance
        (run_conformance_calls example_fresh
          [conformance_call.set_conformance upipe_ts_demux_conformance.CONFORMANCE_ISO,
           conformance_call.nit_pid 16])
        upipe_ts_demux_conformance.CONFORMANCE_AUTO).2 =
    _upipe_ts_demux_get_conformance
      (run_conformance_calls example_fresh
        ([conformance_call.set_conformance upipe_ts_demux_conformance.CONFORMANCE_ISO,
          conformance_call.nit_pid 16].filter conformance_call.is_nit)) :=
  ⟨rfl,
   C7_set_auto_round_trip [] none example_fresh
     [conformance_call.set_conformance upipe_ts_demux_conformance.CONFORMANCE_ISO,
      conformance_call.nit_pid 16] rfl⟩

/-- Witness of C8: GET_FLOW_DEF on the demux, GET_UREF_MGR on an output. -/
theorem C8_witness :
    upipe_command.UPIPE_GET_FLOW_DEF.demux_command = false ∧
    upipe_command.UPIPE_GET_UREF_MGR.output_command = false ∧
    upipe_ts_demux_control example_constructed upipe_command.UPIPE_GET_FLOW_DEF =
      some ((false, control_out.nothing), example_constructed) ∧
    upipe_ts_demux_output_control example_constructed 3 upipe_command.UPIPE_GET_UREF_MGR =
      some ((false, control_out.nothing), example_constructed) :=
  ⟨rfl, rfl,
   (C8_configuration_errors_rejected example_constructed 77 upipe_command.UPIPE_GET_FLOW_DEF
     upipe_command.UPIPE_GET_UREF_MGR 3 rfl rfl).2⟩

/-- Witness of C9: program 0 on PID 16 turns ISO into DVB. -/
theorem C9_witness :
    (16 : Nat) < 65536 ∧
    ∃ w1, upipe_ts_demux_patd_probe example_constructed
        (uprobe_event.UPROBE_TS_PATD_ADD_PROGRAM signature.UPIPE_TS_PATD_SIGNATURE 0 16)
        = some (true, w1) ∧
      w1.demux.nit_pid = 16 ∧
      w1.demux.conformance = upipe_ts_demux_conformance.CONFORMANCE_DVB ∧
      w1.log = example_constructed.log := by
  obtain ⟨w1, h, hn, _, hd, _, _, hl, _⟩ :=
    C9_patd_program_zero_sets_nit_pid example_constructed 16 (by decide)
  exact ⟨by decide, w1, h, hn, hd rfl rfl, hl⟩

/-- Witness of C10: program 1 on PID 0x100. -/
theorem C10_witness :
    example_constructed.demux.uref_mgr = some 7 ∧
    all_succeed example_constructed.script ∧
    upipe_ts_demux_patd_probe example_constructed
        (uprobe_event.UPROBE_TS_PATD_ADD_PROGRAM signature.UPIPE_TS_PATD_SIGNATURE 1 0x100)
      = some (true,
          { example_constructed with
            script := example_constructed.script.tail.tail.tail.tail
            log := example_constructed.log ++
              [Action.throw none (thrown.split_add_flow 1 (spec_pmt_flow_def 1 0x100)),
               Action.uref_free (spec_pmt_flow_def 1 0x100)] }) :=
  ⟨rfl, all_succeed_nil,
   (C10_patd_add_program_throws_add_flow example_constructed 7 1 0x100 rfl all_succeed_nil
     (by decide) (by decide) (by decide)).1⟩

/-- C11 on the code: ADD_ES(PID 0x200, stream type 0x02) from the PMT of
program 1, all allocations succeeding, throws exactly one add-flow whose flow
definition is "block.mpegts.mpegtspes.mpegtsmp2v" with PID attribute 0x200, and
whose id is `0x200 << 16` = 33554432: the program bits are zero, the id is not
`(0x200 << 16) | 1`. -/
theorem C11_add_es_id_has_no_program_bits :
    upipe_ts_demux_pmtd_probe example_constructed
        (uprobe_event.UPROBE_TS_PMTD_ADD_ES signature.UPIPE_TS_PMTD_SIGNATURE 0x200 0x02 0 0)
      = some (false,
          { example_constructed with
            log := example_constructed.log ++
              [Action.throw none (thrown.split_add_flow 33554432 (spec_es_flow_def 0x200)),
               Action.uref_free (spec_es_flow_def 0x200)] }) ∧
    (33554432 : Nat) = 0x200 <<< 16 ∧
    (33554432 : Nat) ≠ (0x200 <<< 16) ||| 1 := by
  decide
theorem flow_key_id_inj {a b : flow_key} (ha : a.ok) (hb : b.ok) (h : a.id = b.id) : a = b := by
  cases a <;> cases b <;> simp only [flow_key.ok, flow_key.id] at ha hb h
  · rw [h]
  · omega
  · omega
  · congr 1; omega

theorem map_id_erase (L : List flow_key) (k : flow_key) (hL : ∀ x ∈ L, x.ok) (hk : k.ok) :
    (L.erase k).map flow_key.id = (L.map flow_key.id).erase k.id := by
  induction L with
  | nil => rfl
  | cons x rest ih =>
    have hx : x.ok := hL x (by simp)
    have hrest : ∀ y ∈ rest, y.ok := fun y hy => hL y (by simp [hy])
    by_cases hxk : x = k
    · subst hxk; simp
    · have hid : x.id ≠ k.id := fun h => hxk (flow_key_id_inj hx hk h)
      rw [List.erase_cons_tail (by simpa using hxk), List.map_cons, List.map_cons,
        List.erase_cons_tail (by simpa using hid), ih hrest]

theorem ok_of_mem_erase {L : List flow_key} {k : flow_key} (hL : ∀ x ∈ L, x.ok) :
    ∀ x ∈ L.erase k, x.ok :=
  fun x hx => hL x (List.mem_of_mem_erase hx)

theorem flows_paired_from_append (l1 l2 : List Action) :
    ∀ live, flows_paired_from live (l1 ++ l2) =
      (flows_paired_from live l1).bind (fun live1 => flows_paired_from live1 l2) := by
  induction l1 with
  | nil => intro live; rfl
  | cons a rest ih =>
    intro live
    simp only [List.cons_append, flows_paired_from]
    cases flow_step live a with
    | none => rfl
    | some l => simp [ih]

theorem es_flow_id (pid : Nat) (h : pid < 65536) :
    to_uint (to_uint pid <<< 16) = pid * 65536 := by
  have h1 : to_uint pid = pid := Nat.mod_eq_of_lt (by omega)
  rw [h1, Nat.shiftLeft_eq]
  exact Nat.mod_eq_of_lt (by omega)

theorem patd_add_program_result (w : World) (m p pid : Nat)
    (hm : w.demux.uref_mgr = some m) (hs : all_succeed w.script)
    (hp0 : p ≠ 0) (hp : p < 65536) (hpid : pid < 4294967296) :
    upipe_ts_demux_patd_probe w
        (uprobe_event.UPROBE_TS_PATD_ADD_PROGRAM signature.UPIPE_TS_PATD_SIGNATURE p pid)
      = some (true,
          { w with
            script := w.script.tail.tail.tail.tail
            log := w.log ++
              [Action.throw none (thrown.split_add_flow p (spec_pmt_flow_def p pid)),
               Action.uref_free (spec_pmt_flow_def p pid)] }) := by
  have hup : to_uint p = p := Nat.mod_eq_of_lt (by omega)
  have hupid : to_uint pid = pid := Nat.mod_eq_of_lt hpid
  have h1 := all_succeed_tail hs
  have h2 := all_succeed_tail h1
  have h3 := all_succeed_tail h2
  have hlen : (patd_filter p).take PSI_HEADER_SIZE_SYNTAX1 = patd_filter p := by
    rw [patd_filter_bytes p hp]; rfl
  simp only [upipe_ts_demux_patd_probe, hup, hupid, hp0, hm, ne_eq, not_true_eq_false,
    if_false]
  rw [alloc_def_of_all_succeed w m _ hs]
  simp only []
  rw [set_psi_filter_of_all_succeed _ _ _ _ _ (by exact h1)]
  simp only []
  rw [set_pid_of_all_succeed _ _ _ (by exact h2)]
  simp only []
  rw [set_program_of_all_succeed _ _ _ (by exact h3)]
  simp only [uref_free, upipe_throw, World.emit, List.append_assoc, List.singleton_append,
    hlen, patd_filter_bytes p hp, patd_mask_bytes, spec_pmt_flow_def]
  rfl

theorem pmtd_add_es_result (w : World) (m pid a b : Nat)
    (hm : w.demux.uref_mgr = some m) (hs : all_succeed w.script) (hpid : pid < 65536) :
    upipe_ts_demux_pmtd_probe w
        (uprobe_event.UPROBE_TS_PMTD_ADD_ES signature.UPIPE_TS_PMTD_SIGNATURE pid 0x2 a b)
      = some (false,
          { w with
            script := w.script.tail.tail
            log := w.log ++
              [Action.throw none (thrown.split_add_flow (pid * 65536) (spec_es_flow_def pid)),
               Action.uref_free (spec_es_flow_def pid)] }) := by
  have hupid : to_uint pid = pid := Nat.mod_eq_of_lt (by omega)
  have h1 := all_succeed_tail hs
  have hid := es_flow_id pid hpid
  rw [hupid] at hid
  simp only [upipe_ts_demux_pmtd_probe, hupid, hm, ne_eq, not_true_eq_false, if_false,
    show to_uint 2 = 2 from rfl, if_true]
  rw [alloc_def_of_all_succeed w m _ hs]
  simp only []
  rw [set_pid_of_all_succeed _ _ _ (by exact h1)]
  simp only [uref_free, upipe_throw, World.emit, List.append_assoc, List.singleton_append,
    spec_es_flow_def, hid]
  rfl
theorem decoder_event_step (w : World) (m : Nat) (ev : uprobe_event) (L L1 : List flow_key)
    (hm : w.demux.uref_mgr = some m) (hs : all_succeed w.script)
    (hok : decoder_event_ok ev = true) (hL : ∀ k ∈ L, k.ok)
    (hstep : decoder_flow_step L ev = some L1) :
    ∃ w1 added, decoder_event_run w ev = some w1 ∧ w1.demux.uref_mgr = some m ∧
      all_succeed w1.script ∧ w1.log = w.log ++ added ∧
      flows_paired_from (L.map flow_key.id) added = some (L1.map flow_key.id) ∧
      ∀ k ∈ L1, k.ok := by
  cases ev with
  | UPROBE_TS_PATD_ADD_PROGRAM sig p pid =>
    simp only [decoder_event_ok, Bool.and_eq_true, decide_eq_true_eq] at hok
    obtain ⟨⟨hsig, hp⟩, hpid⟩ := hok
    subst hsig
    by_cases hp0 : p = 0
    · subst hp0
      simp only [decoder_flow_step, if_true, Option.some.injEq] at hstep
      subst hstep
      refine ⟨upipe_ts_demux_nit_pid w (to_uint pid), [], ?_, ?_, ?_, ?_, rfl, hL⟩
      · simp [decoder_event_run, upipe_ts_demux_patd_probe, show to_uint 0 = 0 from rfl]
      · have e := nit_pid_conf_state w (to_uint pid)
        unfold upipe_ts_demux_nit_pid upipe_ts_demux_conformance_guess
        simp only [World.set_demux]
        split
        · exact hm
        · split
          · exact hm
          · split <;> exact hm
      · unfold upipe_ts_demux_nit_pid upipe_ts_demux_conformance_guess
        simp only [World.set_demux]
        split
        · exact hs
        · split
          · exact hs
          · split <;> exact hs
      · unfold upipe_ts_demux_nit_pid upipe_ts_demux_conformance_guess
        simp only [World.set_demux]
        split
        · simp
        · split
          · simp
          · split <;> simp
    · simp only [decoder_flow_step, hp0, if_false, Option.some.injEq] at hstep
      subst hstep
      refine ⟨{ w with
            script := w.script.tail.tail.tail.tail
            log := w.log ++
              [Action.throw none (thrown.split_add_flow p (spec_pmt_flow_def p pid)),
               Action.uref_free (spec_pmt_flow_def p pid)] },
          [Action.throw none (thrown.split_add_flow p (spec_pmt_flow_def p pid)),
           Action.uref_free (spec_pmt_flow_def p pid)], ?_, ?_, ?_, rfl, ?_, ?_⟩
      · simp only [decoder_event_run]
        rw [patd_add_program_result w m p pid hm hs hp0 hp (by omega)]
        rfl
      · exact hm
      · exact all_succeed_tail (all_succeed_tail (all_succeed_tail (all_succeed_tail hs)))
      · simp [flows_paired_from, flow_step, flow_key.id]
      · intro k hk
        rcases List.mem_cons.mp hk with h | h
        · subst h; exact ⟨Nat.pos_of_ne_zero hp0, hp⟩
        · exact hL k h
  | UPROBE_TS_PATD_DEL_PROGRAM sig p =>
    simp only [decoder_event_ok, Bool.and_eq_true, decide_eq_true_eq] at hok
    obtain ⟨hsig, hp⟩ := hok
    subst hsig
    simp only [decoder_flow_step] at hstep
    split at hstep
    · next hmem =>
      simp only [Option.some.injEq] at hstep
      subst hstep
      have hk := hL _ hmem
      have hup : to_uint p = p := Nat.mod_eq_of_lt (by omega)
      refine ⟨upipe_throw w (thrown.split_del_flow p), [Action.throw none (thrown.split_del_flow p)],
        ?_, hm, hs, rfl, ?_, ok_of_mem_erase hL⟩
      · simp [decoder_event_run, upipe_ts_demux_patd_probe, hup]
      · have hin : p ∈ L.map flow_key.id := List.mem_map.mpr ⟨_, hmem, rfl⟩
        simp only [flows_paired_from, flow_step, hin, if_true, Option.some_bind]
        rw [map_id_erase L _ hL hk]
        rfl
    · simp at hstep
  | UPROBE_TS_PMTD_HEADER sig x y z =>
    simp only [decoder_event_ok, decide_eq_true_eq] at hok
    subst hok
    simp only [decoder_flow_step, Option.some.injEq] at hstep
    subst hstep
    exact ⟨w.emit (Action.ulog_debug "new PMT header"), [Action.ulog_debug "new PMT header"],
      by simp [decoder_event_run, upipe_ts_demux_pmtd_probe], hm, hs, rfl, rfl, hL⟩
  | UPROBE_TS_PMTD_ADD_ES sig pid streamtype x y =>
    simp only [decoder_event_ok, Bool.and_eq_true, decide_eq_true_eq] at hok
    obtain ⟨⟨hsig, hpid⟩, hst⟩ := hok
    subst hsig
    by_cases h2 : streamtype = 0x2
    · subst h2
      simp only [decoder_flow_step, if_true, Option.some.injEq] at hstep
      subst hstep
      refine ⟨{ w with
            script := w.script.tail.tail
            log := w.log ++
              [Action.throw none (thrown.split_add_flow (pid * 65536) (spec_es_flow_def pid)),
               Action.uref_free (spec_es_flow_def pid)] },
          [Action.throw none (thrown.split_add_flow (pid * 65536) (spec_es_flow_def pid)),
           Action.uref_free (spec_es_flow_def pid)], ?_, ?_, ?_, rfl, ?_, ?_⟩
      · simp only [decoder_event_run]
        rw [pmtd_add_es_result w m pid x y hm hs hpid]
        rfl
      · exact hm
      · exact all_succeed_tail (all_succeed_tail hs)
      · simp [flows_paired_from, flow_step, flow_key.id]
      · intro k hk
        rcases List.mem_cons.mp hk with h | h
        · subst h; exact hpid
        · exact hL k h
    · simp only [decoder_flow_step, h2, if_false, Option.some.injEq] at hstep
      subst hstep
      have hu : to_uint streamtype = streamtype := Nat.mod_eq_of_lt (by omega)
      exact ⟨w, [], by simp [decoder_event_run, upipe_ts_demux_pmtd_probe, hu, h2], hm, hs,
        by simp, rfl, hL⟩
  | UPROBE_TS_PMTD_DEL_ES sig pid =>
    simp only [decoder_event_ok, Bool.and_eq_true, decide_eq_true_eq] at hok
    obtain ⟨hsig, hpid⟩ := hok
    subst hsig
    simp only [decoder_flow_step] at hstep
    split at hstep
    · next hmem =>
      simp only [Option.some.injEq] at hstep
      subst hstep
      have hk := hL _ hmem
      refine ⟨upipe_throw w (thrown.split_del_flow (pid * 65536)),
        [Action.throw none (thrown.split_del_flow (pid * 65536))],
        ?_, hm, hs, rfl, ?_, ok_of_mem_erase hL⟩
      · simp [decoder_event_run, upipe_ts_demux_pmtd_probe, es_flow_id pid hpid]
      · have hin : pid * 65536 ∈ L.map flow_key.id := List.mem_map.mpr ⟨_, hmem, rfl⟩
        simp only [flows_paired_from, flow_step, hin, if_true, Option.some_bind]
        rw [map_id_erase L _ hL hk]
        rfl
    · simp at hstep
  | UPROBE_NEED_OUTPUT fd =>
    simp only [decoder_flow_step, Option.some.injEq] at hstep
    subst hstep
    exact ⟨w, [], by simp [decoder_event_run, upipe_ts_demux_patd_probe], hm, hs, by simp,
      rfl, hL⟩
  | other code =>
    simp only [decoder_flow_step, Option.some.injEq] at hstep
    subst hstep
    exact ⟨w, [], by simp [decoder_event_run, upipe_ts_demux_patd_probe], hm, hs, by simp,
      rfl, hL⟩

theorem decoder_events_run (evs : List uprobe_event) :
    ∀ (w : World) (m : Nat) (L L1 : List flow_key),
      w.demux.uref_mgr = some m → all_succeed w.script →
      (∀ ev ∈ evs, decoder_event_ok ev = true) → (∀ k ∈ L, k.ok) →
      decoder_flow_dels_follow_adds L evs = some L1 →
      ∃ w1 added, run_decoder_events w evs = some w1 ∧ w1.log = w.log ++ added ∧
        flows_paired_from (L.map flow_key.id) added = some (L1.map flow_key.id) := by
  induction evs with
  | nil =>
    intro w m L L1 _ _ _ _ h
    simp only [decoder_flow_dels_follow_adds, Option.some.injEq] at h
    subst h
    exact ⟨w, [], rfl, by simp, rfl⟩
  | cons ev rest ih =>
    intro w m L L1 hm hs hok hL h
    simp only [decoder_flow_dels_follow_adds, Option.bind_eq_some] at h
    obtain ⟨L2, h2, h3⟩ := h
    obtain ⟨w1, added1, hr1, hm1, hs1, hlog1, hp1, hL2⟩ :=
      decoder_event_step w m ev L L2 hm hs (hok ev (by simp)) hL h2
    obtain ⟨w2, added2, hr2, hlog2, hp2⟩ :=
      ih w1 m L2 L1 hm1 hs1 (fun e he => hok e (by simp [he])) hL2 h3
    refine ⟨w2, added1 ++ added2, ?_, ?_, ?_⟩
    · simp only [run_decoder_events, hr1, Option.some_bind, hr2]
    · rw [hlog2, hlog1, List.append_assoc]
    · rw [flows_paired_from_append, hp1, Option.some_bind, hp2]

/-- C12, as stated, fails.  The decoder events ADD_PROGRAM(0, 16), DEL_PROGRAM(0)
have their DEL after the corresponding ADD, and the demux answers with a
del-flow(0) that no add-flow precedes (program 0 is the NIT and announces no
flow).  Likewise ADD_ES(PID 0x201, stream type 0x03), DEL_ES(0x201) gives a
del-flow and no add-flow, and with the allocation of the flow definition
failing ADD_PROGRAM(1, 0x100), DEL_PROGRAM(1) gives a del-flow(1) alone. -/
theorem C12_counterexample_del_flow_without_add_flow :
    (decoder_dels_follow_adds []
      [uprobe_event.UPROBE_TS_PATD_ADD_PROGRAM signature.UPIPE_TS_PATD_SIGNATURE 0 16,
       uprobe_event.UPROBE_TS_PATD_DEL_PROGRAM signature.UPIPE_TS_PATD_SIGNATURE 0]).isSome
      = true ∧
    (run_decoder_events example_constructed
      [uprobe_event.UPROBE_TS_PATD_ADD_PROGRAM signature.UPIPE_TS_PATD_SIGNATURE 0 16,
       uprobe_event.UPROBE_TS_PATD_DEL_PROGRAM signature.UPIPE_TS_PATD_SIGNATURE 0]).map
      (fun w => (w.log.drop example_constructed.log.length,
                 flows_paired_from [] (w.log.drop example_constructed.log.length)))
      = some ([Action.throw none (thrown.split_del_flow 0)], none) ∧
    (decoder_dels_follow_adds []
      [uprobe_event.UPROBE_TS_PMTD_ADD_ES signature.UPIPE_TS_PMTD_SIGNATURE 0x201 0x03 0 0,
       uprobe_event.UPROBE_TS_PMTD_DEL_ES signature.UPIPE_TS_PMTD_SIGNATURE 0x201]).isSome
      = true ∧
    (run_decoder_events example_constructed
      [uprobe_event.UPROBE_TS_PMTD_ADD_ES signature.UPIPE_TS_PMTD_SIGNATURE 0x201 0x03 0 0,
       uprobe_event.UPROBE_TS_PMTD_DEL_ES signature.UPIPE_TS_PMTD_SIGNATURE 0x201]).map
      (fun w => (w.log.drop example_constructed.log.length,
                 flows_paired_from [] (w.log.drop example_constructed.log.length)))
      = some ([Action.throw none (thrown.split_del_flow 33619968)], none) ∧
    (run_decoder_events { example_constructed with script := [false] }
      [uprobe_event.UPROBE_TS_PATD_ADD_PROGRAM signature.UPIPE_TS_PATD_SIGNATURE 1 0x100,
       uprobe_event.UPROBE_TS_PATD_DEL_PROGRAM signature.UPIPE_TS_PATD_SIGNATURE 1]).map
      (fun w => (w.log.drop example_constructed.log.length,
                 flows_paired_from [] (w.log.drop example_constructed.log.length)))
      = some ([Action.throw none (thrown.split_del_flow 1)], none) := by
  decide

/-- C12, amended: for every sequence of decoder events (well-formed: right
signature, 16-bit numbers) in which each DEL_PROGRAM follows an ADD_PROGRAM of
the same program other than 0 that was not deleted yet, and each DEL_ES follows
an ADD_ES of the same PID with stream type 0x02 that was not deleted yet, all
allocations succeeding, the demux handles every event and in what it throws
every del-flow(id) is preceded by an add-flow with the same id that has not
been deleted yet; the ids still live at the end are those of the keys still
announced.  Concretely ADD_PROGRAM(p, pid) with `p ≠ 0` throws add-flow(p) and
DEL_PROGRAM(p) throws exactly one del-flow(p); ADD_ES(pid, 0x02) throws
add-flow(pid * 65536) and DEL_ES(pid) throws exactly one del-flow(pid * 65536). -/
theorem C12_flow_ids_pair_up (w : World) (m : Nat) (evs : List uprobe_event)
    (live : List flow_key) (p pid x y : Nat)
    (hm : w.demux.uref_mgr = some m) (hs : all_succeed w.script)
    (hok : ∀ ev ∈ evs, decoder_event_ok ev = true)
    (hpaired : decoder_flow_dels_follow_adds [] evs = some live)
    (hp0 : p ≠ 0) (hp : p < 65536) (hpid : pid < 65536) :
    (∃ w1 added, run_decoder_events w evs = some w1 ∧ w1.log = w.log ++ added ∧
      flows_paired_from [] added = some (live.map flow_key.id)) ∧
    upipe_ts_demux_patd_probe w
        (uprobe_event.UPROBE_TS_PATD_ADD_PROGRAM signature.UPIPE_TS_PATD_SIGNATURE p pid)
      = some (true,
          { w with
            script := w.script.tail.tail.tail.tail
            log := w.log ++
              [Action.throw none (thrown.split_add_flow p (spec_pmt_flow_def p pid)),
               Action.uref_free (spec_pmt_flow_def p pid)] }) ∧
    upipe_ts_demux_patd_probe w
        (uprobe_event.UPROBE_TS_PATD_DEL_PROGRAM signature.UPIPE_TS_PATD_SIGNATURE p)
      = some (false, { w with log := w.log ++ [Action.throw none (thrown.split_del_flow p)] }) ∧
    upipe_ts_demux_pmtd_probe w
        (uprobe_event.UPROBE_TS_PMTD_ADD_ES signature.UPIPE_TS_PMTD_SIGNATURE pid 0x2 x y)
      = some (false,
          { w with
            script := w.script.tail.tail
            log := w.log ++
              [Action.throw none (thrown.split_add_flow (pid * 65536) (spec_es_flow_def pid)),
               Action.uref_free (spec_es_flow_def pid)] }) ∧
    upipe_ts_demux_pmtd_probe w
        (uprobe_event.UPROBE_TS_PMTD_DEL_ES signature.UPIPE_TS_PMTD_SIGNATURE pid)
      = some (false,
          { w with log := w.log ++ [Action.throw none (thrown.split_del_flow (pid * 65536))] }) := by
  refine ⟨?_, patd_add_program_result w m p pid hm hs hp0 hp (by omega), ?_,
    pmtd_add_es_result w m pid x y hm hs hpid, ?_⟩
  · exact decoder_events_run evs w m [] live hm hs hok (fun _ h => absurd h (List.not_mem_nil _))
      hpaired
  · have hup : to_uint p = p := Nat.mod_eq_of_lt (by omega)
    simp [upipe_ts_demux_patd_probe, hup, upipe_throw, World.emit]
  · simp [upipe_ts_demux_pmtd_probe, es_flow_id pid hpid, upipe_throw, World.emit]

/-- Witness of the amended C12: program 1 announced and deleted around an
elementary stream on PID 0x200. -/
theorem C12_witness :
    example_constructed.demux.uref_mgr = some 7 ∧
    decoder_flow_dels_follow_adds []
      [uprobe_event.UPROBE_TS_PATD_ADD_PROGRAM signature.UPIPE_TS_PATD_SIGNATURE 1 0x100,
       uprobe_event.UPROBE_TS_PMTD_ADD_ES signature.UPIPE_TS_PMTD_SIGNATURE 0x200 0x2 0 0,
       uprobe_event.UPROBE_TS_PATD_DEL_PROGRAM signature.UPIPE_TS_PATD_SIGNATURE 1]
      = some [flow_key.es 0x200] ∧
    ∃ w1 added, run_decoder_events example_constructed
        [uprobe_event.UPROBE_TS_PATD_ADD_PROGRAM signature.UPIPE_TS_PATD_SIGNATURE 1 0x100,
         uprobe_event.UPROBE_TS_PMTD_ADD_ES signature.UPIPE_TS_PMTD_SIGNATURE 0x200 0x2 0 0,
         uprobe_event.UPROBE_TS_PATD_DEL_PROGRAM signature.UPIPE_TS_PATD_SIGNATURE 1]
        = some w1 ∧
      w1.log = example_constructed.log ++ added ∧
      flows_paired_from [] added = some ([flow_key.es 0x200].map flow_key.id) :=
  ⟨rfl, by decide,
   (C12_flow_ids_pair_up example_constructed 7
     [uprobe_event.UPROBE_TS_PATD_ADD_PROGRAM signature.UPIPE_TS_PATD_SIGNATURE 1 0x100,
      uprobe_event.UPROBE_TS_PMTD_ADD_ES signature.UPIPE_TS_PMTD_SIGNATURE 0x200 0x2 0 0,
      uprobe_event.UPROBE_TS_PATD_DEL_PROGRAM signature.UPIPE_TS_PATD_SIGNATURE 1]
     [flow_key.es 0x200] 1 0x100 0 0 rfl all_succeed_nil (by decide) (by decide)
     (by decide) (by decide) (by decide)).1⟩

theorem plumb_of_all_succeed (w : World) (subpipe : Nat) (mgr : pipe_mgr) (probe : uprobe)
    (hs : all_succeed w.script) :
    plumb w subpipe mgr probe = some (true, plumbed_world w subpipe mgr probe) := by
  unfold plumb plumbed_world
  rw [upipe_alloc_of_all_succeed w mgr probe hs]
  simp [upipe_set_output, upipe_release, World.emit]

/-- C20, as stated, fails when the allocation fails: on a new flow definition
"block.mpegts." raised by subpipe 4, with the allocation of the Decaps pipe
failing, the event is caught but no pipe is created and no output is set; an
allocation error is logged and thrown instead. -/
theorem C20_counterexample_allocation_failure :
    upipe_ts_demux_plumber { example_constructed with script := [false] } 4
        (need_output_event "block.mpegts.")
      = some (true,
          { example_constructed with
            log := example_constructed.log ++
              [Action.upipe_alloc pipe_mgr.ts_decaps_mgr uprobe.plumber none,
               Action.ulog_aerror, Action.throw none thrown.aerror] }) := by
  decide

/-- C20, amended: plumber dispatch.  On a new flow definition event with
definition string `d` raised by `subpipe`: if `d` begins with "block.mpegts."
and the allocation succeeds, a Decaps pipe carrying the plumber is created, set
as the output of `subpipe`, and the event is caught; else if `d` begins with
"block.mpegtspsi." and the allocation succeeds, a PSIM pipe carrying the
psim-plumber is created, set as the output of `subpipe`, and the event is
caught; when the allocation fails the event is caught all the same, an
allocation error is thrown and no output is set; for every other `d`, for a
flow definition without a string and for every other event, nothing happens
and the handler returns false. -/
theorem C20_plumber_dispatch (w : World) (subpipe : Nat) (d : String) (event : uprobe_event)
    (hs : all_succeed w.script) :
    ("block.mpegts.".data <+: d.data →
      upipe_ts_demux_plumber w subpipe (need_output_event d) =
        some (true, plumbed_world w subpipe pipe_mgr.ts_decaps_mgr uprobe.plumber)) ∧
    (¬ "block.mpegts.".data <+: d.data → "block.mpegtspsi.".data <+: d.data →
      upipe_ts_demux_plumber w subpipe (need_output_event d) =
        some (true, plumbed_world w subpipe pipe_mgr.ts_psim_mgr uprobe.psim_plumber)) ∧
    (¬ "block.mpegts.".data <+: d.data → ¬ "block.mpegtspsi.".data <+: d.data →
      upipe_ts_demux_plumber w subpipe (need_output_event d) = some (false, w)) ∧
    (uprobe_plumber event = none →
      upipe_ts_demux_plumber w subpipe event = some (false, w)) ∧
    ((∀ fd, event ≠ uprobe_event.UPROBE_NEED_OUTPUT fd) → uprobe_plumber event = none) ∧
    (∀ (sc : List Bool) (mgr : pipe_mgr) (probe : uprobe),
      plumb { w with script := false :: sc } subpipe mgr probe =
        some (true,
          { w with
            script := sc
            log := w.log ++ [Action.upipe_alloc mgr probe none, Action.ulog_aerror,
                             Action.throw none thrown.aerror] })) := by
  have hb1 : "block.mpegts.".data <+: d.data → "block.".data <+: d.data :=
    fun h => List.IsPrefix.trans ⟨"mpegts.".data, rfl⟩ h
  have hb2 : "block.mpegtspsi.".data <+: d.data → "block.".data <+: d.data :=
    fun h => List.IsPrefix.trans ⟨"mpegtspsi.".data, rfl⟩ h
  have hn : ∀ p : String, ubase_ncmp d p = true ↔ ¬ p.data <+: d.data := by
    intro p
    rw [← List.isPrefixOf_iff_prefix, Bool.not_eq_true]
    simp only [ubase_ncmp, Bool.not_eq_true']
  refine ⟨?_, ?_, ?_, ?_, ?_, ?_⟩
  · intro h1
    simp only [upipe_ts_demux_plumber, need_output_event, uprobe_plumber, flow_def_unit,
      hn, ubase_ncmp_eq_false_iff, hb1 h1, h1, not_true_eq_false, if_false, if_true]
    exact plumb_of_all_succeed w subpipe _ _ hs
  · intro h1 h2
    simp only [upipe_ts_demux_plumber, need_output_event, uprobe_plumber, flow_def_unit,
      hn, ubase_ncmp_eq_false_iff, hb2 h2, h1, h2, not_true_eq_false, if_false, if_true]
    exact plumb_of_all_succeed w subpipe _ _ hs
  · intro h1 h2
    simp only [upipe_ts_demux_plumber, need_output_event, uprobe_plumber, flow_def_unit,
      hn, ubase_ncmp_eq_false_iff, h1, h2, if_false]
    split <;> rfl
  · intro h
    simp only [upipe_ts_demux_plumber, h]
  · intro h
    cases event <;> first | rfl | exact absurd rfl (h _)
  · intro sc mgr probe
    simp [plumb, upipe_alloc, World.draw, World.emit, upipe_throw]

/-- Witness of the amended C20: "block.mpegtspsi." raised by the split output
of PID 0 gets a PSIM pipe. -/
theorem C20_witness :
    all_succeed example_constructed.script ∧
    ¬ "block.mpegts.".data <+: "block.mpegtspsi.".data ∧
    upipe_ts_demux_plumber example_constructed 4 (need_output_event "block.mpegtspsi.") =
      some (true, plumbed_world example_constructed 4 pipe_mgr.ts_psim_mgr
        uprobe.psim_plumber) :=
  ⟨all_succeed_nil, by decide,
   (C20_plumber_dispatch example_constructed 4 "block.mpegtspsi."
     (uprobe_event.other 0) all_succeed_nil).2.1 (by decide) ⟨[], rfl⟩⟩

theorem split_of_mem_nodup {α : Type} (key : α → Nat) (l : List α) (e : α)
    (hnd : (l.map key).Nodup) (he : e ∈ l) :
    ∃ l1 l2, l = l1 ++ e :: l2 ∧ (∀ x ∈ l1, key x ≠ key e) ∧ (∀ x ∈ l2, key x ≠ key e) := by
  obtain ⟨l1, l2, rfl⟩ := List.append_of_mem he
  refine ⟨l1, l2, rfl, ?_, ?_⟩
  · intro x hx hk
    rw [List.map_append, List.map_cons, List.nodup_append] at hnd
    exact hnd.2.2 (List.mem_map_of_mem key hx) (by rw [hk]; simp)
  · intro x hx hk
    rw [List.map_append, List.map_cons, List.nodup_append] at hnd
    have h2 := hnd.2.1
    rw [List.nodup_cons] at h2
    exact h2.1 (by rw [← hk]; exact List.mem_map_of_mem key hx)

theorem find_split {α : Type} (key : α → Nat) (l1 l2 : List α) (e : α) (k : Nat)
    (h1 : ∀ x ∈ l1, key x ≠ k) (hk : key e = k) :
    (l1 ++ e :: l2).find? (fun x => decide (key x = k)) = some e := by
  induction l1 with
  | nil => simp [hk]
  | cons a rest ih =>
    have ha : key a ≠ k := h1 a (by simp)
    simp only [List.cons_append, List.find?_cons, ha, decide_False]
    exact ih (fun x hx => h1 x (by simp [hx]))

theorem filter_split {α : Type} (key : α → Nat) (l1 l2 : List α) (e : α) (k : Nat)
    (h1 : ∀ x ∈ l1, key x ≠ k) (h2 : ∀ x ∈ l2, key x ≠ k) (hk : key e = k) :
    (l1 ++ e :: l2).filter (fun x => decide (key x ≠ k)) = l1 ++ l2 := by
  rw [List.filter_append, List.filter_cons]
  have e1 : l1.filter (fun x => decide (key x ≠ k)) = l1 :=
    List.filter_eq_self.mpr (fun x hx => by simpa using h1 x hx)
  have e2 : l2.filter (fun x => decide (key x ≠ k)) = l2 :=
    List.filter_eq_self.mpr (fun x hx => by simpa using h2 x hx)
  rw [e1, e2]
  simp [hk]

theorem filter_of_ne {α : Type} (key : α → Nat) (l : List α) (k : Nat)
    (h : ∀ x ∈ l, key x ≠ k) :
    l.filter (fun x => decide (key x ≠ k)) = l :=
  List.filter_eq_self.mpr (fun x hx => by simpa using h x hx)

theorem map_of_ne {α : Type} (key : α → Nat) (f : α → α) (l : List α) (k : Nat)
    (h : ∀ x ∈ l, key x ≠ k) :
    l.map (fun x => if key x = k then f x else x) = l := by
  induction l with
  | nil => rfl
  | cons a rest ih =>
    have ha : key a ≠ k := h a (by simp)
    simp only [List.map_cons, ha, if_false]
    rw [ih (fun x hx => h x (by simp [hx]))]

theorem map_split {α : Type} (key : α → Nat) (f : α → α) (l1 l2 : List α) (e : α) (k : Nat)
    (h1 : ∀ x ∈ l1, key x ≠ k) (h2 : ∀ x ∈ l2, key x ≠ k) (hk : key e = k) :
    (l1 ++ e :: l2).map (fun x => if key x = k then f x else x) = l1 ++ f e :: l2 := by
  rw [List.map_append, List.map_cons, map_of_ne key f l1 k h1, map_of_ne key f l2 k h2]
  simp [hk]

theorem release_split (w : World) (l1 l2 : List upipe_ts_demux_psi_pid)
    (e : upipe_ts_demux_psi_pid)
    (hreg : w.demux.psi_pids = l1 ++ e :: l2)
    (hd1 : ∀ x ∈ l1, x.addr ≠ e.addr) (hd2 : ∀ x ∈ l2, x.addr ≠ e.addr)
    (h1 : 1 ≤ e.refcount) (h2 : e.refcount < 4294967296) :
    upipe_ts_demux_psi_pid_release w (some e.addr) =
      if e.refcount = 1 then
        some { w.set_registry (l1 ++ l2) with
          log := w.log ++ [Action.upipe_release e.split_output,
                           Action.upipe_release e.psi_split] }
      else
        some (w.set_registry (l1 ++ { e with refcount := e.refcount - 1 } :: l2)) := by
  have hrc : to_uint (e.refcount + 4294967295) = e.refcount - 1 := by
    unfold to_uint; omega
  unfold upipe_ts_demux_psi_pid_release
  simp only [hreg]
  rw [find_split (fun x => x.addr) l1 l2 e e.addr hd1 rfl]
  simp only [hrc]
  by_cases hone : e.refcount = 1
  · have hz : e.refcount - 1 = 0 := by omega
    rw [if_pos hz, if_pos hone]
    rw [filter_split (fun x => x.addr) l1 l2 e e.addr hd1 hd2 rfl]
    simp [upipe_release, World.emit, World.set_registry, World.set_demux, Option.bind]
  · have hz : ¬ e.refcount - 1 = 0 := by omega
    rw [if_neg hz, if_neg hone]
    rw [map_split (fun x => x.addr) (fun x => { x with refcount := e.refcount - 1 }) l1 l2 e
      e.addr hd1 hd2 rfl]
    rfl

/-- C15: `psi_pid_release` on an entry `e` of the registry with use-count `n ≥ 1`
(structures having distinct addresses).  The registry reads `l1 ++ e :: l2`, and
after the call: if `n - 1 > 0` it reads `l1 ++ e' :: l2` with `e'` the entry
with count `n - 1`, and nothing else changed (no release); if `n - 1 = 0` it
reads `l1 ++ l2`, and the split output and the PSI split of `e` were each
released once, in that order.  The other entries (`l1`, `l2`) are unchanged and
in place in both cases. -/
theorem C15_psi_pid_release_effect (w : World) (e : upipe_ts_demux_psi_pid)
    (hnd : (registry_addrs w).Nodup) (he : e ∈ w.demux.psi_pids)
    (h1 : 1 ≤ e.refcount) (h2 : e.refcount < 4294967296) :
    ∃ l1 l2, w.demux.psi_pids = l1 ++ e :: l2 ∧
      (1 < e.refcount →
        upipe_ts_demux_psi_pid_release w (some e.addr) =
          some (w.set_registry (l1 ++ { e with refcount := e.refcount - 1 } :: l2))) ∧
      (e.refcount = 1 →
        upipe_ts_demux_psi_pid_release w (some e.addr) =
          some { w.set_registry (l1 ++ l2) with
            log := w.log ++ [Action.upipe_release e.split_output,
                             Action.upipe_release e.psi_split] }) := by
  obtain ⟨l1, l2, hreg, hd1, hd2⟩ :=
    split_of_mem_nodup (fun (x : upipe_ts_demux_psi_pid) => x.addr) w.demux.psi_pids e hnd he
  have h := release_split w l1 l2 e hreg hd1 hd2 h1 h2
  refine ⟨l1, l2, hreg, ?_, ?_⟩
  · intro hgt
    rw [h, if_neg (by omega)]
  · intro hone
    rw [h, if_pos hone]

/-- Witness of C15 on the PAT entry of `example_constructed` (count 1): the
entry leaves the registry and its two inner pipes are released. -/
theorem C15_witness :
    (registry_addrs example_constructed).Nodup ∧
    upipe_ts_demux_psi_pid_release example_constructed (some 2) =
      some { example_constructed.set_registry [] with
        log := example_constructed.log ++ [Action.upipe_release 4, Action.upipe_release 3] } := by
  obtain ⟨l1, l2, hreg, _, h⟩ := C15_psi_pid_release_effect example_constructed
    { addr := 2, pid := 0, psi_split := 3, split_output := 4, refcount := 1 }
    (by decide) (by decide) (by decide) (by decide)
  refine ⟨by decide, ?_⟩
  have := h rfl
  rw [this]
  have hl : l1 ++ l2 = [] := by
    have hlen := congrArg List.length hreg
    simp [example_constructed] at hlen
    have h1 : l1 = [] := List.eq_nil_of_length_eq_zero (by omega)
    have h2 : l2 = [] := List.eq_nil_of_length_eq_zero (by omega)
    rw [h1, h2]; rfl
  rw [hl]

theorem steady_refl (w : World) : steady w w := ⟨rfl, rfl, Nat.le_refl _⟩

theorem steady_trans {a b c : World} (h1 : steady a b) (h2 : steady b c) : steady a c :=
  ⟨h2.1.trans h1.1, h2.2.1.trans h1.2.1, Nat.le_trans h1.2.2 h2.2.2⟩

theorem draw_fst (w : World) : w.draw.1 = w.script.headD true := by
  unfold World.draw
  cases w.script <;> rfl

theorem draw_script (w : World) : w.draw.2.script = w.script.tail := by
  unfold World.draw
  cases h : w.script <;> simp [h]

theorem steady_draw (w : World) : steady w w.draw.2 := by
  unfold World.draw
  cases w.script <;> exact ⟨rfl, rfl, Nat.le_refl _⟩

theorem steady_emit (w : World) (a : Action) : steady w (w.emit a) := ⟨rfl, rfl, Nat.le_refl _⟩

theorem steady_uref_free (w : World) (u : uref) : steady w (uref_free w u) :=
  ⟨rfl, rfl, Nat.le_refl _⟩

theorem steady_upipe_throw (w : World) (e : thrown) : steady w (upipe_throw w e) :=
  ⟨rfl, rfl, Nat.le_refl _⟩

theorem upipe_alloc_facts (w : World) (mgr : pipe_mgr) (probe : uprobe) :
    steady w (upipe_alloc w mgr probe).2 ∧
    (upipe_alloc w mgr probe).2.script = w.script.tail ∧
    ((upipe_alloc w mgr probe).1 = none → w.script.headD true = false) ∧
    (∀ x, (upipe_alloc w mgr probe).1 = some x →
      w.script.headD true = true ∧ x = w.next ∧ (upipe_alloc w mgr probe).2.next = w.next + 1) := by
  have hd := steady_draw w
  have hf := draw_fst w
  have hsc := draw_script w
  unfold upipe_alloc
  by_cases h : w.draw.1 = true
  · simp only [h, if_true]
    refine ⟨⟨hd.1, hd.2.1, Nat.le_succ_of_le hd.2.2⟩, hsc, by simp, ?_⟩
    intro x hx
    have hn : w.draw.2.next = w.next := by
      unfold World.draw; cases w.script <;> rfl
    simp only [Option.some.injEq] at hx
    exact ⟨hf ▸ h, by rw [← hx, hn], by simp [hn]⟩
  · simp only [h, if_false]
    refine ⟨⟨hd.1, hd.2.1, hd.2.2⟩, hsc, fun _ => by rw [← hf]; simpa using h, ?_⟩
    intro x hx
    simp at hx

theorem upipe_alloc_output_facts (w : World) (parent : Option Nat) (probe : uprobe)
    (r : Option Nat) (w1 : World) (h : upipe_alloc_output w parent probe = some (r, w1)) :
    steady w w1 ∧ w1.script = w.script.tail ∧
    (r = none → w.script.headD true = false) ∧
    (∀ x, r = some x → w.script.headD true = true ∧ x = w.next ∧ w1.next = w.next + 1) := by
  unfold upipe_alloc_output at h
  split at h
  · simp at h
  · next p =>
    simp only [Option.some.injEq] at h
    have hf := upipe_alloc_facts w (pipe_mgr.output_of p) probe
    rw [h] at hf
    exact hf

theorem upipe_release_facts (w : World) (p : Option Nat) (w1 : World)
    (h : upipe_release w p = some w1) : steady w w1 ∧ w1.script = w.script := by
  unfold upipe_release at h
  split at h
  · simp at h
  · simp only [Option.some.injEq] at h
    subst h
    exact ⟨steady_emit _ _, rfl⟩

theorem alloc_def_facts (w : World) (mgr : Option Nat) (s : String)
    (r : Option uref) (w1 : World) (h : uref_block_flow_alloc_def w mgr s = some (r, w1)) :
    steady w w1 ∧ w1.script = w.script.tail ∧
    (r = none → w.script.headD true = false) ∧
    (r ≠ none → w.script.headD true = true) := by
  have hd := steady_draw w
  have hf := draw_fst w
  have hsc := draw_script w
  unfold uref_block_flow_alloc_def at h
  split at h
  · simp at h
  · by_cases hb : w.draw.1 = true
    · simp only [hb, if_true, Option.some.injEq, Prod.mk.injEq] at h
      obtain ⟨rfl, rfl⟩ := h
      exact ⟨hd, hsc, by simp, fun _ => hf ▸ hb⟩
    · simp only [hb, if_false, Option.some.injEq, Prod.mk.injEq] at h
      obtain ⟨rfl, rfl⟩ := h
      exact ⟨hd, hsc, fun _ => by rw [← hf]; simpa using hb, fun hne => absurd rfl hne⟩

theorem set_pid_facts (w : World) (u : uref) (pid : Nat) :
    steady w (uref_ts_flow_set_pid w u pid).2 ∧
    (uref_ts_flow_set_pid w u pid).2.script = w.script.tail ∧
    ((uref_ts_flow_set_pid w u pid).1 = none → w.script.headD true = false) ∧
    ((uref_ts_flow_set_pid w u pid).1 ≠ none → w.script.headD true = true) := by
  have hd := steady_draw w
  have hf := draw_fst w
  have hsc := draw_script w
  unfold uref_ts_flow_set_pid
  by_cases hb : w.draw.1 = true
  · simp only [hb, if_true]
    exact ⟨hd, hsc, by simp, fun _ => hf ▸ hb⟩
  · simp only [hb, if_false]
    exact ⟨hd, hsc, fun _ => by rw [← hf]; simpa using hb, fun hne => absurd rfl hne⟩

theorem set_flow_def_facts (w : World) (p : Option Nat) (u : uref) (r : Bool) (w1 : World)
    (h : upipe_set_flow_def w p u = some (r, w1)) :
    steady w w1 ∧ w1.script = w.script.tail ∧ w.script.headD true = r := by
  have hd := steady_draw w
  have hf := draw_fst w
  have hsc := draw_script w
  unfold upipe_set_flow_def at h
  split at h
  · simp at h
  · by_cases hb : w.draw.1 = true
    · simp only [hb, if_true, Option.some.injEq, Prod.mk.injEq] at h
      obtain ⟨rfl, rfl⟩ := h
      exact ⟨⟨hd.1, hd.2.1, hd.2.2⟩, hsc, hf ▸ hb⟩
    · simp only [hb, if_false, Option.some.injEq, Prod.mk.injEq] at h
      obtain ⟨rfl, rfl⟩ := h
      exact ⟨⟨hd.1, hd.2.1, hd.2.2⟩, hsc, by rw [← hf]; simpa using hb⟩

theorem psi_pid_alloc_abort_facts (w : World) (a b : Nat) (r : Option Nat) (w1 : World)
    (h : psi_pid_alloc_abort w a b = some (r, w1)) :
    r = none ∧ steady w w1 := by
  simp [psi_pid_alloc_abort, upipe_release, Option.bind] at h
  obtain ⟨h1, h2⟩ := h
  subst h1 h2
  exact ⟨rfl, rfl, rfl, Nat.le_refl _⟩

theorem all_succeed_take_succ (s : List Bool) (n : Nat)
    (h0 : s.headD true = true) (h : all_succeed (s.tail.take n)) :
    all_succeed (s.take (n + 1)) := by
  cases s with
  | nil => intro b hb; simp at hb
  | cons a rest =>
    intro b hb
    simp only [List.take_succ_cons, List.mem_cons] at hb
    rcases hb with hb | hb
    · rw [hb]; simpa using h0
    · exact h b hb

theorem not_all_succeed_take (s : List Bool) (n : Nat) (k : Nat) (hk : k < n)
    (h : (s.drop k).headD true = false) : ¬ all_succeed (s.take n) := by
  intro hall
  induction k generalizing s n with
  | zero =>
    cases s with
    | nil => simp at h
    | cons a rest =>
      simp at h
      cases n with
      | zero => omega
      | succ n => have := hall a (by simp); rw [h] at this; exact absurd this (by simp)
  | succ k ih =>
    cases s with
    | nil => simp at h
    | cons a rest =>
      cases n with
      | zero => omega
      | succ n =>
        refine ih rest n (by omega) (by simpa using h) ?_
        intro b hb
        exact hall b (by simp [hb])
theorem nas_head (s : List Bool) (n : Nat) (h : s.headD true = false) :
    ¬ all_succeed (s.take (n + 1)) :=
  not_all_succeed_take s (n + 1) 0 (by omega) (by simpa using h)

theorem nas_tail (s : List Bool) (n : Nat) (h : ¬ all_succeed (s.tail.take n)) :
    ¬ all_succeed (s.take (n + 1)) := by
  intro hall
  apply h
  cases s with
  | nil => intro b hb; simp at hb
  | cons a rest =>
    intro b hb
    exact hall b (by simp at hb ⊢; exact Or.inr hb)

theorem all_succeed_take_zero (s : List Bool) : all_succeed (s.take 0) := by
  intro b hb; simp at hb

theorem tail_eq_drop_one (s : List Bool) : s.tail = s.drop 1 := by
  cases s <;> rfl

theorem psi_pid_alloc_cases (w : World) (pid : Nat) (r : Option Nat) (w1 : World)
    (h : upipe_ts_demux_psi_pid_alloc w pid = some (r, w1)) :
    w1.outputs = w.outputs ∧ w.next ≤ w1.next ∧
    ((r = none ∧ w1.demux = w.demux ∧ ¬ all_succeed (w.script.take 6)) ∨
     (∃ ps so, r = some w.next ∧ w.next < w1.next ∧ ps < w1.next ∧ so < w1.next ∧
       w1.demux = { w.demux with psi_pids := w.demux.psi_pids ++
         [{ addr := w.next, pid := to_uint16 pid, psi_split := ps, split_output := so,
            refcount := 1 }] } ∧
       all_succeed (w.script.take 6) ∧ w1.script = w.script.drop 6)) := by
  unfold upipe_ts_demux_psi_pid_alloc at h
  simp only [] at h
  have hd := steady_draw w
  have hdf := draw_fst w
  have hds := draw_script w
  have hdn : w.draw.2.next = w.next := by
    unfold World.draw; cases w.script <;> rfl
  split at h
  · next hm =>
    simp only [Option.some.injEq, Prod.mk.injEq] at h
    obtain ⟨rfl, rfl⟩ := h
    exact ⟨hd.2.1, hd.2.2, Or.inl ⟨rfl, hd.1, nas_head _ 5 (hdf ▸ hm)⟩⟩
  · next hm =>
    have hm1 : w.script.headD true = true := by
      rw [← hdf]; simpa using hm
    generalize hw0 : ({ w.draw.2 with next := w.draw.2.next + 1 } : World) = w0 at h
    have s0 : steady w w0 := by
      rw [← hw0]; exact ⟨hd.1, hd.2.1, Nat.le_succ_of_le hd.2.2⟩
    have sc0 : w0.script = w.script.tail := by rw [← hw0]; exact hds
    have n0 : w0.next = w.next + 1 := by rw [← hw0]; simp [hdn]
    have fa := upipe_alloc_facts w0 pipe_mgr.ts_psi_split_mgr uprobe.psi_split_plumber
    generalize upipe_alloc w0 pipe_mgr.ts_psi_split_mgr uprobe.psi_split_plumber = a at h fa
    obtain ⟨sa, sca, fan, fas⟩ := fa
    have s1 := steady_trans s0 sa
    split at h
    · next ha =>
      simp only [Option.some.injEq, Prod.mk.injEq] at h
      obtain ⟨rfl, rfl⟩ := h
      refine ⟨s1.2.1, s1.2.2, Or.inl ⟨rfl, s1.1, nas_tail _ 5 (nas_head _ 4 ?_)⟩⟩
      rw [← sc0]; exact fan ha
    · next ps ha =>
      obtain ⟨hps1, hps2, hps3⟩ := fas ps ha
      rw [sc0] at hps1 sca
      split at h
      · simp at h
      · next wb hb =>
        obtain ⟨sb, scb, fbn, _⟩ := upipe_alloc_output_facts _ _ _ _ _ hb
        have s2 := steady_trans s1 sb
        rw [sca] at scb fbn
        simp only [Option.map_eq_some'] at h
        obtain ⟨wc, hc, hcc⟩ := h
        simp only [Prod.mk.injEq] at hcc
        obtain ⟨rfl, rfl⟩ := hcc
        obtain ⟨sc, _⟩ := upipe_release_facts _ _ _ hc
        have s3 := steady_trans s2 sc
        exact ⟨s3.2.1, s3.2.2, Or.inl ⟨rfl, s3.1,
          nas_tail _ 5 (nas_tail _ 4 (nas_head _ 3 (fbn rfl)))⟩⟩
      · next so wb hb =>
        obtain ⟨sb, scb, _, fbs⟩ := upipe_alloc_output_facts _ _ _ _ _ hb
        obtain ⟨hso1, hso2, hso3⟩ := fbs so rfl
        have s2 := steady_trans s1 sb
        rw [sca] at scb hso1
        split at h
        · simp at h
        · next wc hc =>
          obtain ⟨sc, scc, fcn, _⟩ := alloc_def_facts _ _ _ _ _ hc
          rw [scb] at scc fcn
          obtain ⟨hr, sd⟩ := psi_pid_alloc_abort_facts _ _ _ _ _ h
          have s4 := steady_trans (steady_trans s2 sc) sd
          exact ⟨s4.2.1, s4.2.2, Or.inl ⟨hr, s4.1,
            nas_tail _ 5 (nas_tail _ 4 (nas_tail _ 3 (nas_head _ 2 (fcn rfl))))⟩⟩
        · next u wc hc =>
          obtain ⟨sc, scc, _, fcs⟩ := alloc_def_facts _ _ _ _ _ hc
          rw [scb] at scc fcs
          have hc1 := fcs (by simp)
          have s3 := steady_trans s2 sc
          have fd := set_pid_facts wc u (to_uint16 pid)
          rcases hsp : uref_ts_flow_set_pid wc u (to_uint16 pid) with ⟨r3, wd⟩
          rw [hsp] at h fd
          obtain ⟨sd, scd, fdn, fds⟩ := fd
          simp only [] at sd scd fdn fds
          rw [scc] at scd fdn fds
          have s4 := steady_trans s3 sd
          cases r3 with
          | none =>
            simp only [] at h
            obtain ⟨hr, se⟩ := psi_pid_alloc_abort_facts _ _ _ _ _ h
            have s5 := steady_trans (steady_trans s4 (steady_uref_free _ _)) se
            exact ⟨s5.2.1, s5.2.2, Or.inl ⟨hr, s5.1,
              nas_tail _ 5 (nas_tail _ 4 (nas_tail _ 3 (nas_tail _ 2 (nas_head _ 1
                (fdn rfl)))))⟩⟩
          | some u1 =>
            have hd1 := fds (by simp)
            simp only [] at h
            split at h
            · simp at h
            · next we he =>
              obtain ⟨se, sce, fe⟩ := set_flow_def_facts _ _ _ _ _ he
              rw [scd] at sce fe
              obtain ⟨hr, sf⟩ := psi_pid_alloc_abort_facts _ _ _ _ _ h
              have s6 := steady_trans (steady_trans (steady_trans s4 se)
                (steady_uref_free _ _)) sf
              exact ⟨s6.2.1, s6.2.2, Or.inl ⟨hr, s6.1,
                nas_tail _ 5 (nas_tail _ 4 (nas_tail _ 3 (nas_tail _ 2 (nas_tail _ 1
                  (nas_head _ 0 fe)))))⟩⟩
            · next we he =>
              obtain ⟨se, sce, fe⟩ := set_flow_def_facts _ _ _ _ _ he
              rw [scd] at sce fe
              have s5 := steady_trans s4 se
              simp only [Option.some.injEq, Prod.mk.injEq] at h
              obtain ⟨rfl, rfl⟩ := h
              refine ⟨s5.2.1, s5.2.2, Or.inr ⟨ps, so, by rw [hdn], ?_, ?_, ?_, ?_, ?_, ?_⟩⟩
              · have := s5.2.2
                show w.next < we.next
                have h1 := sa.2.2
                have h2 := (steady_trans (steady_trans (steady_trans
                  (steady_trans sb sc) sd) se) (steady_refl _)).2.2
                omega
              · show ps < we.next
                have h2 := (steady_trans (steady_trans (steady_trans
                  (steady_trans sb sc) sd) se) (steady_refl _)).2.2
                omega
              · show so < we.next
                have h2 := (steady_trans (steady_trans sc sd) se).2.2
                omega
              · show _ = _
                simp only [uref_free, World.emit, World.set_demux, hdn]
                rw [s5.1]
              · exact all_succeed_take_succ _ 5 hm1 (all_succeed_take_succ _ 4 hps1
                  (all_succeed_take_succ _ 3 hso1 (all_succeed_take_succ _ 2 hc1
                    (all_succeed_take_succ _ 1 hd1 (all_succeed_take_succ _ 0 fe
                      (all_succeed_take_zero _))))))
              · show we.script = _
                rw [sce]
                simp only [tail_eq_drop_one, List.drop_drop]
theorem find_some_facts (w : World) (pid : Nat) (e : upipe_ts_demux_psi_pid)
    (h : upipe_ts_demux_psi_pid_find w pid = some e) :
    e ∈ w.demux.psi_pids ∧ e.pid = to_uint16 pid := by
  unfold upipe_ts_demux_psi_pid_find at h
  exact ⟨List.mem_of_find?_eq_some h, by simpa using List.find?_some h⟩

theorem find_none_facts (w : World) (pid : Nat)
    (h : upipe_ts_demux_psi_pid_find w pid = none) :
    ∀ e ∈ w.demux.psi_pids, e.pid ≠ to_uint16 pid := by
  unfold upipe_ts_demux_psi_pid_find at h
  rw [List.find?_eq_none] at h
  intro e he
  simpa using h e he

theorem psi_pid_use_found (w : World) (pid : Nat) (e : upipe_ts_demux_psi_pid)
    (hnd : (registry_addrs w).Nodup)
    (h : upipe_ts_demux_psi_pid_find w pid = some e) :
    ∃ l1 l2, w.demux.psi_pids = l1 ++ e :: l2 ∧
      (∀ x ∈ l1, x.addr ≠ e.addr) ∧ (∀ x ∈ l2, x.addr ≠ e.addr) ∧
      upipe_ts_demux_psi_pid_use w pid =
        some (some e.addr,
          w.set_registry (l1 ++ { e with refcount := to_uint (e.refcount + 1) } :: l2)) := by
  obtain ⟨hmem, _⟩ := find_some_facts w pid e h
  obtain ⟨l1, l2, hreg, hd1, hd2⟩ :=
    split_of_mem_nodup (fun (x : upipe_ts_demux_psi_pid) => x.addr) w.demux.psi_pids e hnd hmem
  refine ⟨l1, l2, hreg, hd1, hd2, ?_⟩
  unfold upipe_ts_demux_psi_pid_use
  rw [h]
  simp only [hreg]
  rw [map_split (fun (x : upipe_ts_demux_psi_pid) => x.addr)
    (fun x => { x with refcount := to_uint (x.refcount + 1) }) l1 l2 e e.addr hd1 hd2 rfl]
  rfl

/-- C14, as stated, fails at the largest use-count: on a registry whose entry
for PID 0 has use-count `UINT_MAX`, `psi_pid_use(0)` returns that entry with
its use-count wrapped around to 0, not increased by 1. -/
theorem C14_counterexample_use_count_wraps :
    (upipe_ts_demux_psi_pid_use example_saturated 0).map
        (fun r => (r.1, r.2.demux.psi_pids))
      = some (some 2,
          [{ addr := 2, pid := 0, psi_split := 3, split_output := 4, refcount := 0 }]) ∧
    example_saturated.demux.psi_pids =
      [{ addr := 2, pid := 0, psi_split := 3, split_output := 4, refcount := 4294967295 }] := by
  decide

/-- C14, amended: `psi_pid_use(pid)` on a registry whose structures have
distinct addresses.  If an entry `e` for `pid` exists, with a use-count below
`UINT_MAX`, the call returns it, its use-count is increased by exactly 1, no
entry is added and every other entry is unchanged (the registry goes from
`l1 ++ e :: l2` to `l1 ++ e' :: l2`).  If none exists and the demux is
constructed: when the allocations succeed the call returns a new entry with
PID `pid` and use-count 1, added at the end of the registry, the other entries
unchanged; whenever it returns `NULL` the registry is unchanged; and it returns
`NULL` as soon as one of the six allocations and attribute writes it makes
fails. -/
theorem C14_psi_pid_use_effect (w : World) (pid m s : Nat) (e : upipe_ts_demux_psi_pid)
    (r : Option Nat) (w1 : World)
    (hpid : pid < 65536) (hnd : (registry_addrs w).Nodup) :
    (upipe_ts_demux_psi_pid_find w pid = some e → e.refcount < UINT_MAX →
      e.pid = pid ∧
      ∃ l1 l2, w.demux.psi_pids = l1 ++ e :: l2 ∧
        upipe_ts_demux_psi_pid_use w pid =
          some (some e.addr,
            w.set_registry (l1 ++ { e with refcount := e.refcount + 1 } :: l2))) ∧
    (upipe_ts_demux_psi_pid_find w pid = none → w.demux.uref_mgr = some m →
      w.demux.split = some s → all_succeed w.script →
      ∃ ps so w2, upipe_ts_demux_psi_pid_use w pid = some (some w.next, w2) ∧
        w2.demux.psi_pids = w.demux.psi_pids ++
          [{ addr := w.next, pid := pid, psi_split := ps, split_output := so,
             refcount := 1 }]) ∧
    (upipe_ts_demux_psi_pid_find w pid = none →
      upipe_ts_demux_psi_pid_use w pid = some (r, w1) →
      (r = none → w1.demux.psi_pids = w.demux.psi_pids) ∧
      (¬ all_succeed (w.script.take 6) → r = none)) := by
  have h16 : to_uint16 pid = pid := Nat.mod_eq_of_lt hpid
  refine ⟨?_, ?_, ?_⟩
  · intro hf hrc
    obtain ⟨l1, l2, hreg, _, _, huse⟩ := psi_pid_use_found w pid e hnd hf
    have hu : to_uint (e.refcount + 1) = e.refcount + 1 := by
      unfold UINT_MAX at hrc
      exact Nat.mod_eq_of_lt (by omega)
    rw [hu] at huse
    exact ⟨(find_some_facts w pid e hf).2.trans h16, l1, l2, hreg, huse⟩
  · intro hf hm hsp hs
    obtain ⟨a, w2, h2, _, _, _⟩ := psi_pid_alloc_ok w m s pid hm hsp hs
    have hc := psi_pid_alloc_cases w pid (some a) w2 h2
    rcases hc.2.2 with ⟨hn, _⟩ | ⟨ps, so, hr, _, _, _, hdm, _⟩
    · simp at hn
    · refine ⟨ps, so, w2, ?_, ?_⟩
      · unfold upipe_ts_demux_psi_pid_use
        rw [hf, h2, hr]
      · rw [hdm, h16]
  · intro hf huse
    unfold upipe_ts_demux_psi_pid_use at huse
    rw [hf] at huse
    have hc := psi_pid_alloc_cases w pid r w1 huse
    rcases hc.2.2 with ⟨hn, hdm, _⟩ | ⟨ps, so, hr, _, _, _, _, hall, _⟩
    · exact ⟨fun _ => by rw [hdm], fun _ => hn⟩
    · exact ⟨fun h => by rw [hr] at h; simp at h, fun h => absurd hall h⟩

/-- Witness of the amended C14: a second reference on the PAT entry of
`example_constructed`. -/
theorem C14_witness :
    (0 : Nat) < 65536 ∧ (registry_addrs example_constructed).Nodup ∧
    upipe_ts_demux_psi_pid_find example_constructed 0 =
      some { addr := 2, pid := 0, psi_split := 3, split_output := 4, refcount := 1 } ∧
    ∃ l1 l2, example_constructed.demux.psi_pids =
        l1 ++ { addr := 2, pid := 0, psi_split := 3, split_output := 4, refcount := 1 } :: l2 ∧
      upipe_ts_demux_psi_pid_use example_constructed 0 =
        some (some 2,
          example_constructed.set_registry
            (l1 ++ { addr := 2, pid := 0, psi_split := 3, split_output := 4,
                     refcount := 2 } :: l2)) :=
  ⟨by decide, by decide, rfl,
   ((C14_psi_pid_use_effect example_constructed 0 7 1
      { addr := 2, pid := 0, psi_split := 3, split_output := 4, refcount := 1 }
      none example_constructed (by decide) (by decide)).1 rfl (by decide)).2⟩

theorem registry_inv_script (w : World) (s : List Bool) (held : List Nat)
    (h : registry_inv w held) : registry_inv { w with script := s } held :=
  ⟨h.addrs_nodup, h.pids_nodup, h.addrs_lt, h.counts, h.held_mem⟩

theorem registry_inv_of (w : World) (held : List Nat) (l : List upipe_ts_demux_psi_pid)
    (hl : w.demux.psi_pids = l)
    (h1 : (l.map (fun e => e.addr)).Nodup) (h2 : (l.map (fun e => e.pid)).Nodup)
    (h3 : ∀ e ∈ l, e.addr < w.next)
    (h4 : ∀ e ∈ l, e.refcount = held.count e.addr ∧ 1 ≤ e.refcount)
    (h5 : ∀ h ∈ held, h ∈ l.map (fun e => e.addr)) : registry_inv w held := by
  subst hl
  exact ⟨h1, h2, h3, h4, h5⟩

theorem count_le_of_inv (w : World) (held : List Nat) (h : registry_inv w held)
    (e : upipe_ts_demux_psi_pid) (he : e ∈ w.demux.psi_pids) :
    e.refcount ≤ held.length := by
  rw [(h.counts e he).1]
  exact List.count_le_length _ _

theorem use_inv (w : World) (held : List Nat) (pid : Nat) (r : Option Nat) (w1 : World)
    (hinv : registry_inv w held) (hlen : held.length < 4294967295)
    (h : upipe_ts_demux_psi_pid_use w pid = some (r, w1)) :
    (r = none ∧ registry_inv w1 held) ∨ (∃ a, r = some a ∧ registry_inv w1 (a :: held)) := by
  cases hf : upipe_ts_demux_psi_pid_find w pid with
  | none =>
    have hne := find_none_facts w pid hf
    have hu : upipe_ts_demux_psi_pid_use w pid = upipe_ts_demux_psi_pid_alloc w pid := by
      unfold upipe_ts_demux_psi_pid_use
      rw [hf]
    rw [hu] at h
    obtain ⟨_, hnext, hc⟩ := psi_pid_alloc_cases w pid r w1 h
    rcases hc with ⟨hr, hd, _⟩ | ⟨ps, so, hr, hlt, _, _, hd, _, _⟩
    · left
      refine ⟨hr, registry_inv_of w1 held w.demux.psi_pids (by rw [hd]) hinv.addrs_nodup
        hinv.pids_nodup ?_ hinv.counts hinv.held_mem⟩
      intro e he
      exact Nat.lt_of_lt_of_le (hinv.addrs_lt e he) hnext
    · right
      have hfresh : w.next ∉ w.demux.psi_pids.map (fun e => e.addr) := by
        intro hm
        obtain ⟨x, hx, hxa⟩ := List.mem_map.mp hm
        have := hinv.addrs_lt x hx
        omega
      have hnot : w.next ∉ held := fun hm => hfresh (hinv.held_mem _ hm)
      refine ⟨w.next, hr, registry_inv_of w1 (w.next :: held) _ (by rw [hd]) ?_ ?_ ?_ ?_ ?_⟩
      · rw [List.map_append, List.nodup_append]
        refine ⟨hinv.addrs_nodup, by simp, ?_⟩
        intro a ha hb
        simp only [List.map_cons, List.map_nil, List.mem_singleton] at hb
        subst hb
        exact hfresh ha
      · rw [List.map_append, List.nodup_append]
        refine ⟨hinv.pids_nodup, by simp, ?_⟩
        intro a ha hb
        simp only [List.map_cons, List.map_nil, List.mem_singleton] at hb
        subst hb
        obtain ⟨x, hx, hxa⟩ := List.mem_map.mp ha
        exact hne x hx hxa
      · intro e he
        rcases List.mem_append.mp he with he | he
        · exact Nat.lt_trans (hinv.addrs_lt e he) hlt
        · simp only [List.mem_singleton] at he
          subst he
          exact hlt
      · intro e he
        rcases List.mem_append.mp he with he | he
        · have hlt0 := hinv.addrs_lt e he
          have hne0 : e.addr ≠ w.next := by omega
          rw [List.count_cons_of_ne hne0]
          exact hinv.counts e he
        · simp only [List.mem_singleton] at he
          subst he
          rw [List.count_cons_self, List.count_eq_zero_of_not_mem hnot]
          exact ⟨rfl, Nat.le_refl 1⟩
      · intro a ha
        rw [List.map_append, List.mem_append]
        rcases List.mem_cons.mp ha with ha | ha
        · right
          simp [ha]
        · left
          exact hinv.held_mem a ha
  | some e =>
    obtain ⟨l1, l2, hreg, hd1, hd2, hu⟩ := psi_pid_use_found w pid e hinv.addrs_nodup hf
    rw [hu] at h
    simp only [Option.some.injEq, Prod.mk.injEq] at h
    obtain ⟨rfl, rfl⟩ := h
    right
    have hmem : e ∈ w.demux.psi_pids := by rw [hreg]; simp
    have hce := hinv.counts e hmem
    have hle := count_le_of_inv w held hinv e hmem
    have hrc : to_uint (e.refcount + 1) = e.refcount + 1 := by
      unfold to_uint
      omega
    have ha := hinv.addrs_nodup
    have hp := hinv.pids_nodup
    have hlt := hinv.addrs_lt
    have hcs := hinv.counts
    have hh := hinv.held_mem
    unfold registry_addrs at ha hh
    unfold registry_pids at hp
    rw [hreg] at ha hp hlt hcs hh
    refine ⟨e.addr, rfl, registry_inv_of _ (e.addr :: held)
      (l1 ++ { e with refcount := to_uint (e.refcount + 1) } :: l2) rfl ?_ ?_ ?_ ?_ ?_⟩
    · simpa [List.map_append] using ha
    · simpa [List.map_append] using hp
    · intro x hx
      rcases List.mem_append.mp hx with hx | hx
      · exact hlt x (by simp [hx])
      · rcases List.mem_cons.mp hx with hx | hx
        · subst hx
          exact hlt e (by simp)
        · exact hlt x (by simp [hx])
    · intro x hx
      rcases List.mem_append.mp hx with hx | hx
      · rw [List.count_cons_of_ne (hd1 x hx)]
        exact hcs x (by simp [hx])
      · rcases List.mem_cons.mp hx with hx | hx
        · subst hx
          simp only [hrc, List.count_cons_self]
          omega
        · rw [List.count_cons_of_ne (hd2 x hx)]
          exact hcs x (by simp [hx])
    · intro a ha2
      rcases List.mem_cons.mp ha2 with ha2 | ha2
      · subst ha2
        simp [List.map_append]
      · simpa [List.map_append] using hh a ha2
theorem release_inv (w : World) (held : List Nat) (a : Nat)
    (hinv : registry_inv w held) (hlen : held.length < 4294967296) (ha : a ∈ held) :
    ∃ w1, upipe_ts_demux_psi_pid_release w (some a) = some w1 ∧
      registry_inv w1 (held.erase a) := by
  obtain ⟨e, hmem, hea⟩ := List.mem_map.mp (hinv.held_mem a ha)
  subst hea
  obtain ⟨l1, l2, hreg, hd1, hd2⟩ :=
    split_of_mem_nodup (fun (x : upipe_ts_demux_psi_pid) => x.addr) w.demux.psi_pids e
      hinv.addrs_nodup hmem
  have hce := hinv.counts e hmem
  have hle := count_le_of_inv w held hinv e hmem
  have hrel := release_split w l1 l2 e hreg hd1 hd2 hce.2 (by omega)
  have hnd := hinv.addrs_nodup
  have hp := hinv.pids_nodup
  have hlt := hinv.addrs_lt
  have hcs := hinv.counts
  have hh := hinv.held_mem
  unfold registry_addrs at hnd hh
  unfold registry_pids at hp
  rw [hreg] at hnd hp hlt hcs hh
  rw [List.map_append, List.map_cons] at hnd hp
  have hnd1 := (List.nodup_cons.mp (List.nodup_middle.mp hnd)).2
  have hp1 := (List.nodup_cons.mp (List.nodup_middle.mp hp)).2
  by_cases hone : e.refcount = 1
  · rw [if_pos hone] at hrel
    refine ⟨_, hrel, registry_inv_of _ (held.erase e.addr) (l1 ++ l2) rfl ?_ ?_ ?_ ?_ ?_⟩
    · simpa [List.map_append] using hnd1
    · simpa [List.map_append] using hp1
    · intro x hx
      rcases List.mem_append.mp hx with hx | hx
      · exact hlt x (by simp [hx])
      · exact hlt x (by simp [hx])
    · intro x hx
      have hxne : x.addr ≠ e.addr := by
        rcases List.mem_append.mp hx with hx | hx
        · exact hd1 x hx
        · exact hd2 x hx
      rw [List.count_erase_of_ne hxne]
      rcases List.mem_append.mp hx with hx | hx
      · exact hcs x (by simp [hx])
      · exact hcs x (by simp [hx])
    · intro b hb
      have hbne : b ≠ e.addr := by
        intro hq
        subst hq
        have hc0 : List.count e.addr (held.erase e.addr) = 0 := by
          rw [List.count_erase_self]
          omega
        exact (List.count_eq_zero.mp hc0) hb
      have hb2 := hh b (List.mem_of_mem_erase hb)
      simp only [List.map_append, List.map_cons, List.mem_append, List.mem_cons] at hb2 ⊢
      rcases hb2 with hb2 | hb2 | hb2
      · exact Or.inl hb2
      · exact absurd hb2 hbne
      · exact Or.inr hb2
  · rw [if_neg hone] at hrel
    refine ⟨_, hrel, registry_inv_of _ (held.erase e.addr)
      (l1 ++ { e with refcount := e.refcount - 1 } :: l2) rfl ?_ ?_ ?_ ?_ ?_⟩
    · simpa [List.map_append] using hnd
    · simpa [List.map_append] using hp
    · intro x hx
      rcases List.mem_append.mp hx with hx | hx
      · exact hlt x (by simp [hx])
      · rcases List.mem_cons.mp hx with hx | hx
        · subst hx
          exact hlt e (by simp)
        · exact hlt x (by simp [hx])
    · intro x hx
      rcases List.mem_append.mp hx with hx | hx
      · rw [List.count_erase_of_ne (hd1 x hx)]
        exact hcs x (by simp [hx])
      · rcases List.mem_cons.mp hx with hx | hx
        · subst hx
          simp only [List.count_erase_self]
          omega
        · rw [List.count_erase_of_ne (hd2 x hx)]
          exact hcs x (by simp [hx])
    · intro b hb
      simpa [List.map_append] using hh b (List.mem_of_mem_erase hb)

theorem registry_uses_cons (c : registry_call) (cs : List registry_call) :
    registry_uses (c :: cs) = registry_uses cs + (if c.is_use = true then 1 else 0) := by
  unfold registry_uses
  rw [List.countP_cons]

theorem registry_run_inv (cs : List registry_call) :
    ∀ (st st1 : World × List Nat), registry_inv st.1 st.2 →
      st.2.length + registry_uses cs < 4294967296 →
      run_registry_calls st cs = some st1 → registry_inv st1.1 st1.2 := by
  induction cs with
  | nil =>
    intro st st1 hinv _ h
    simp only [run_registry_calls, Option.some.injEq] at h
    subst h
    exact hinv
  | cons c rest ih =>
    intro st st1 hinv hb h
    rw [registry_uses_cons] at hb
    unfold run_registry_calls at h
    cases hc : c.run st with
    | none => rw [hc] at h; simp at h
    | some st2 =>
      rw [hc] at h
      simp only [Option.some_bind] at h
      cases c with
      | use pid script =>
        simp only [registry_call.is_use, if_true] at hb
        unfold registry_call.run at hc
        simp only at hc
        cases hu : upipe_ts_demux_psi_pid_use { st.1 with script := script } pid with
        | none => rw [hu] at hc; simp at hc
        | some rw1 =>
          obtain ⟨r, w1⟩ := rw1
          rw [hu] at hc
          rcases use_inv _ st.2 pid r w1 (registry_inv_script st.1 script st.2 hinv)
            (by omega) hu with ⟨hr, hi⟩ | ⟨a, hr, hi⟩
          · subst hr
            simp only [Option.some.injEq] at hc
            subst hc
            exact ih _ st1 hi (by simp only; omega) h
          · subst hr
            simp only [Option.some.injEq] at hc
            subst hc
            exact ih _ st1 hi (by simp only [List.length_cons]; omega) h
      | release a =>
        unfold registry_call.run at hc
        simp only at hc
        by_cases hm : a ∈ st.2
        · rw [if_pos hm] at hc
          obtain ⟨w1, hrel, hi⟩ := release_inv st.1 st.2 a hinv (by omega) hm
          rw [hrel] at hc
          simp only [Option.map_some', Option.some.injEq] at hc
          subst hc
          refine ih _ st1 hi ?_ h
          have := List.length_erase_of_mem hm
          simp only
          omega
        · rw [if_neg hm] at hc
          simp at hc
theorem run_registry_calls_cons (st : World × List Nat) (c : registry_call)
    (rest : List registry_call) :
    run_registry_calls st (c :: rest) =
      (c.run st).bind (fun st1 => run_registry_calls st1 rest) := rfl

theorem first_use_example :
    ∃ st, registry_call.run (example_empty_registry, []) (registry_call.use 0 []) = some st ∧
      st.1.demux.psi_pids =
        [{ addr := 6, pid := 0, psi_split := 7, split_output := 8, refcount := 1 }] :=
  ⟨_, rfl, rfl⟩

theorem use_repeat (k : Nat) :
    ∀ (w : World) (held : List Nat) (e : upipe_ts_demux_psi_pid),
      w.demux.psi_pids = [e] → e.pid = 0 → e.refcount < 4294967296 →
      ∃ w1 held1, run_registry_calls (w, held) (List.replicate k (registry_call.use 0 [])) =
          some (w1, held1) ∧
        w1.demux.psi_pids = [{ e with refcount := to_uint (e.refcount + k) }] := by
  induction k with
  | zero =>
    intro w held e hreg _ hrc
    refine ⟨w, held, rfl, ?_⟩
    rw [hreg]
    have : to_uint (e.refcount + 0) = e.refcount := by unfold to_uint; omega
    rw [this]
  | succ k ih =>
    intro w held e hreg hpid hrc
    have hstep : registry_call.run (w, held) (registry_call.use 0 []) =
        some (({ w with script := [] } : World).set_registry
          [{ e with refcount := to_uint (e.refcount + 1) }], e.addr :: held) := by
      simp [registry_call.run, upipe_ts_demux_psi_pid_use, upipe_ts_demux_psi_pid_find, hreg,
        hpid, to_uint16, World.set_registry]
    obtain ⟨w1, held1, hrun, hres⟩ := ih
      (({ w with script := [] } : World).set_registry
          [{ e with refcount := to_uint (e.refcount + 1) }]) (e.addr :: held)
      { e with refcount := to_uint (e.refcount + 1) } rfl hpid
      (Nat.mod_lt _ (by decide))
    refine ⟨w1, held1, ?_, ?_⟩
    · rw [List.replicate_succ, run_registry_calls_cons, hstep]
      exact hrun
    · rw [hres]
      have : to_uint (to_uint (e.refcount + 1) + k) = to_uint (e.refcount + (k + 1)) := by
        unfold to_uint
        omega
      simp only [this]

/-- C13, as stated, fails once a PID is referenced `2^32` times: from a
constructed demux with an empty registry, `2^32` successful calls of
`psi_pid_use(0)` (every handle still held) leave in the registry the entry of
PID 0 with use-count 0. -/
theorem C13_counterexample_use_count_wraps :
    example_empty_registry.demux.psi_pids = [] ∧
    (run_registry_calls (example_empty_registry, [])
        (List.replicate 4294967296 (registry_call.use 0 []))).map
      (fun st => st.1.demux.psi_pids.map (fun e => (e.pid, e.refcount))) = some [(0, 0)] := by
  refine ⟨rfl, ?_⟩
  have hn : (4294967296 : Nat) = 4294967295 + 1 := rfl
  rw [hn, List.replicate_succ]
  obtain ⟨st, hst, hreg⟩ := first_use_example
  obtain ⟨w1, held1, hrun, hres⟩ := use_repeat 4294967295 st.1 st.2 _ hreg rfl
    (Nat.lt_of_sub_eq_succ (rfl : 4294967296 - 1 = 4294967294 + 1))
  rw [run_registry_calls_cons, hst, Option.some_bind, hrun, Option.map_some', hres]
  have hw : to_uint (1 + 4294967295) = 0 := rfl
  simp only [List.map_cons, List.map_nil, hw]

/-- C13, amended: in every state reached from an empty registry by a sequence
of `psi_pid_use` calls (in any surroundings, allocations failing or not) and
`psi_pid_release` calls on handles currently held, with fewer than `2^32`
`psi_pid_use` calls in all, the registry holds at most one entry per PID value,
every entry has a use-count of at least 1 (equal to the number of times its
handle is held), and a structure is in the registry exactly when its handle is
held at least once. -/
theorem C13_registry_invariant (w0 : World) (cs : List registry_call) (w : World)
    (held : List Nat) (h0 : w0.demux.psi_pids = [])
    (hb : registry_uses cs < 4294967296)
    (h : run_registry_calls (w0, []) cs = some (w, held)) :
    (registry_pids w).Nodup ∧
    (∀ e ∈ w.demux.psi_pids, 1 ≤ e.refcount ∧ e.refcount = held.count e.addr) ∧
    (∀ a, a ∈ registry_addrs w ↔ 0 < held.count a) := by
  have hinit : registry_inv w0 [] := by
    refine registry_inv_of w0 [] [] h0 ?_ ?_ ?_ ?_ ?_ <;> simp
  have hinv : registry_inv w held :=
    registry_run_inv cs (w0, []) (w, held) hinit (by simpa using hb) h
  refine ⟨hinv.pids_nodup, fun e he => ⟨(hinv.counts e he).2, (hinv.counts e he).1⟩, ?_⟩
  intro a
  constructor
  · intro ha
    obtain ⟨e, he, hea⟩ := List.mem_map.mp ha
    subst hea
    have := hinv.counts e he
    omega
  · intro ha
    exact hinv.held_mem a (List.count_pos_iff.mp ha)

/-- Witness of the amended C13: `example_registry_calls` from
`example_empty_registry`. -/
theorem C13_witness :
    example_empty_registry.demux.psi_pids = [] ∧
    registry_uses example_registry_calls < 4294967296 ∧
    run_registry_calls (example_empty_registry, []) example_registry_calls =
      some example_registry_state ∧
    registry_pids example_registry_state.1 = [0, 17] ∧
    (registry_pids example_registry_state.1).Nodup :=
  ⟨rfl, by decide, rfl, by decide,
   (C13_registry_invariant example_empty_registry example_registry_calls
      example_registry_state.1 example_registry_state.2 rfl (by decide) rfl).1⟩

theorem same_frame_refl (w : World) : same_frame w w := ⟨rfl, Nat.le_refl _, rfl⟩

theorem same_frame_trans {a b c : World} (h1 : same_frame a b) (h2 : same_frame b c) :
    same_frame a c :=
  ⟨h2.1.trans h1.1, Nat.le_trans h1.2.1 h2.2.1, h2.2.2.trans h1.2.2⟩

theorem same_frame_of_steady {w w1 : World} (h : steady w w1) : same_frame w w1 :=
  ⟨h.2.1, h.2.2, by rw [h.1]⟩

theorem registry_inv_transfer (w w1 : World) (held : List Nat)
    (hreg : w1.demux.psi_pids = w.demux.psi_pids) (hn : w.next ≤ w1.next)
    (h : registry_inv w held) : registry_inv w1 held := by
  refine registry_inv_of w1 held w.demux.psi_pids hreg h.addrs_nodup h.pids_nodup ?_ h.counts
    h.held_mem
  intro e he
  exact Nat.lt_of_lt_of_le (h.addrs_lt e he) hn

theorem registry_inv_steady {w w1 : World} (held : List Nat) (hs : steady w w1)
    (h : registry_inv w held) : registry_inv w1 held :=
  registry_inv_transfer w w1 held (by rw [hs.1]) hs.2.2 h

theorem registry_inv_congr (w : World) (held held1 : List Nat)
    (hc : ∀ a, held1.count a = held.count a) (h : registry_inv w held) :
    registry_inv w held1 := by
  refine ⟨h.addrs_nodup, h.pids_nodup, h.addrs_lt, ?_, ?_⟩
  · intro e he
    rw [hc]
    exact h.counts e he
  · intro a ha
    apply h.held_mem
    rw [← List.count_pos_iff] at ha ⊢
    rw [← hc]
    exact ha

theorem release_frame (w : World) (p : Option Nat) (w1 : World)
    (h : upipe_ts_demux_psi_pid_release w p = some w1) :
    same_frame w w1 ∧ w1.next = w.next ∧ w1.script = w.script := by
  unfold upipe_ts_demux_psi_pid_release at h
  cases p with
  | none => simp at h
  | some addr =>
    simp only at h
    cases hf : w.demux.psi_pids.find? (fun e => e.addr = addr) with
    | none => rw [hf] at h; simp at h
    | some e =>
      rw [hf] at h
      simp only at h
      split at h
      · simp only [upipe_release, World.emit, World.set_demux, Option.bind, Option.some.injEq,
          bind] at h
        subst h
        exact ⟨⟨rfl, Nat.le_refl _, rfl⟩, rfl, rfl⟩
      · simp only [Option.some.injEq] at h
        subst h
        exact ⟨⟨rfl, Nat.le_refl _, rfl⟩, rfl, rfl⟩

theorem not_all_succeed_of_take (s : List Bool) (n : Nat)
    (h : ¬ all_succeed (s.take n)) : ¬ all_succeed s :=
  fun hs => h (fun b hb => hs b (List.mem_of_mem_take hb))

theorem all_succeed_drop (s : List Bool) (n : Nat) (h : all_succeed s) :
    all_succeed (s.drop n) :=
  fun b hb => h b (List.mem_of_mem_drop hb)

theorem not_all_succeed_of_head (s : List Bool) (h : s.headD true = false) :
    ¬ all_succeed s := by
  intro hs
  cases s with
  | nil => simp at h
  | cons b rest =>
    simp only [List.headD_cons] at h
    have := hs b (by simp)
    rw [h] at this
    cases this

theorem use_frame (w : World) (pid : Nat) (r : Option Nat) (w1 : World)
    (h : upipe_ts_demux_psi_pid_use w pid = some (r, w1)) :
    same_frame w w1 ∧ (all_succeed w.script → all_succeed w1.script ∧ r ≠ none) ∧
    (∀ a, r = some a → ∃ e ∈ w1.demux.psi_pids, e.addr = a ∧ e.pid = to_uint16 pid) := by
  cases hf : upipe_ts_demux_psi_pid_find w pid with
  | none =>
    have hu : upipe_ts_demux_psi_pid_use w pid = upipe_ts_demux_psi_pid_alloc w pid := by
      unfold upipe_ts_demux_psi_pid_use
      rw [hf]
    rw [hu] at h
    obtain ⟨hout, hnext, hc⟩ := psi_pid_alloc_cases w pid r w1 h
    rcases hc with ⟨hr, hd, hna⟩ | ⟨ps, so, hr, _, _, _, hd, _, hscr⟩
    · refine ⟨⟨hout, hnext, by rw [hd]⟩, ?_, ?_⟩
      · intro hs
        exact absurd hs (not_all_succeed_of_take _ _ hna)
      · intro a ha
        rw [hr] at ha
        cases ha
    · refine ⟨⟨hout, hnext, by rw [hd]⟩, ?_, ?_⟩
      · intro hs
        rw [hscr, hr]
        exact ⟨all_succeed_drop _ _ hs, by simp⟩
      · intro a ha
        rw [hr] at ha
        simp only [Option.some.injEq] at ha
        subst ha
        refine ⟨{ addr := w.next, pid := to_uint16 pid, psi_split := ps, split_output := so,
                  refcount := 1 }, ?_, rfl, rfl⟩
        rw [hd]
        simp
  | some e =>
    obtain ⟨hmem, hpid⟩ := find_some_facts w pid e hf
    unfold upipe_ts_demux_psi_pid_use at h
    rw [hf] at h
    simp only [Option.some.injEq, Prod.mk.injEq] at h
    obtain ⟨rfl, rfl⟩ := h
    refine ⟨⟨rfl, Nat.le_refl _, rfl⟩, fun hs => ⟨hs, by simp⟩, ?_⟩
    intro a ha
    simp only [Option.some.injEq] at ha
    subst ha
    refine ⟨{ e with refcount := to_uint (e.refcount + 1) }, ?_, rfl, hpid⟩
    simp only [World.set_demux]
    rw [List.mem_map]
    exact ⟨e, hmem, by simp⟩

theorem alloc_def_some (w : World) (m : Nat) (s : String) :
    ∃ r w1, uref_block_flow_alloc_def w (some m) s = some (r, w1) := by
  unfold uref_block_flow_alloc_def
  simp only []
  split
  · exact ⟨_, _, rfl⟩
  · exact ⟨_, _, rfl⟩

theorem set_flow_def_some (w : World) (p : Nat) (u : uref) :
    ∃ r w1, upipe_set_flow_def w (some p) u = some (r, w1) := by
  unfold upipe_set_flow_def
  simp only []
  split
  · exact ⟨_, _, rfl⟩
  · exact ⟨_, _, rfl⟩

theorem abort_some (w : World) (a b : Nat) :
    ∃ w1, psi_pid_alloc_abort w a b = some (none, w1) :=
  ⟨_, rfl⟩

theorem psi_pid_alloc_total (w : World) (pid : Nat)
    (hs : w.demux.split ≠ none) (hm : w.demux.uref_mgr ≠ none) :
    ∃ r w1, upipe_ts_demux_psi_pid_alloc w pid = some (r, w1) := by
  obtain ⟨s, hs⟩ := Option.ne_none_iff_exists'.mp hs
  obtain ⟨m, hm⟩ := Option.ne_none_iff_exists'.mp hm
  unfold upipe_ts_demux_psi_pid_alloc
  simp only []
  have hd := steady_draw w
  split
  · exact ⟨_, _, rfl⟩
  · generalize ha : upipe_alloc { w.draw.2 with next := w.draw.2.next + 1 }
      pipe_mgr.ts_psi_split_mgr uprobe.psi_split_plumber = a
    have haf := (upipe_alloc_facts { w.draw.2 with next := w.draw.2.next + 1 }
      pipe_mgr.ts_psi_split_mgr uprobe.psi_split_plumber).1
    rw [ha] at haf
    have had : a.2.demux = w.demux := by rw [haf.1]; exact hd.1
    obtain ⟨a1, a2⟩ := a
    cases a1 with
    | none => exact ⟨_, _, rfl⟩
    | some psi_split =>
      simp only at had ⊢
      rw [had, hs]
      simp only [upipe_alloc_output]
      generalize hb : upipe_alloc a2 (pipe_mgr.output_of s) uprobe.plumber = b
      have hbf := (upipe_alloc_facts a2 (pipe_mgr.output_of s) uprobe.plumber).1
      rw [hb] at hbf
      have hbd : b.2.demux = w.demux := by rw [hbf.1]; exact had
      obtain ⟨b1, b2⟩ := b
      cases b1 with
      | none =>
        simp only [upipe_release, Option.map_some']
        exact ⟨_, _, rfl⟩
      | some split_output =>
        simp only at hbd ⊢
        rw [hbd, hm]
        obtain ⟨r, w2, hq⟩ := alloc_def_some b2 m "mpegts.mpegtspsi."
        rw [hq]
        cases r with
        | none =>
          obtain ⟨w3, h3⟩ := abort_some w2 split_output psi_split
          exact ⟨_, _, h3⟩
        | some u =>
          simp only []
          rcases hsp : uref_ts_flow_set_pid w2 u (to_uint16 pid) with ⟨_ | u1, w3⟩
          · obtain ⟨w4, h4⟩ := abort_some (uref_free w3 u) split_output psi_split
            exact ⟨_, _, h4⟩
          · simp only []
            obtain ⟨r5, w5, h5⟩ := set_flow_def_some w3 split_output u1
            rw [h5]
            cases r5 with
            | false =>
              obtain ⟨w6, h6⟩ := abort_some (uref_free w5 u1) split_output psi_split
              exact ⟨_, _, h6⟩
            | true => exact ⟨_, _, rfl⟩

theorem use_total (w : World) (pid : Nat)
    (hs : w.demux.split ≠ none) (hm : w.demux.uref_mgr ≠ none) :
    ∃ r w1, upipe_ts_demux_psi_pid_use w pid = some (r, w1) := by
  unfold upipe_ts_demux_psi_pid_use
  cases upipe_ts_demux_psi_pid_find w pid with
  | none => exact psi_pid_alloc_total w pid hs hm
  | some e => exact ⟨_, _, rfl⟩
theorem outputs_find (l1 l2 : List upipe_ts_demux_output) (o : upipe_ts_demux_output)
    (k : Nat) (hk : o.id = k) (hd1 : ∀ x ∈ l1, x.id ≠ k) :
    (l1 ++ o :: l2).find? (fun x => decide (x.id = k)) = some o :=
  find_split (fun (x : upipe_ts_demux_output) => x.id) l1 l2 o k hd1 hk

theorem put_output_split (w : World) (l1 l2 : List upipe_ts_demux_output)
    (ox o : upipe_ts_demux_output) (hout : w.outputs = l1 ++ ox :: l2) (hid : ox.id = o.id)
    (hd1 : ∀ x ∈ l1, x.id ≠ o.id) (hd2 : ∀ x ∈ l2, x.id ≠ o.id) :
    (w.put_output o).outputs = l1 ++ o :: l2 := by
  unfold World.put_output
  simp only [hout]
  exact map_split (fun (x : upipe_ts_demux_output) => x.id) (fun _ => o) l1 l2 ox o.id hd1 hd2 hid

theorem release_pids_sublist (w : World) (p : Option Nat) (w1 : World)
    (h : upipe_ts_demux_psi_pid_release w p = some w1) :
    (registry_pids w1).Sublist (registry_pids w) ∧
    w1.demux.psi_pids.length ≤ w.demux.psi_pids.length := by
  unfold upipe_ts_demux_psi_pid_release at h
  cases p with
  | none => simp at h
  | some addr =>
    simp only at h
    cases hf : w.demux.psi_pids.find? (fun e => e.addr = addr) with
    | none => rw [hf] at h; simp at h
    | some e =>
      rw [hf] at h
      simp only at h
      split at h
      · simp only [upipe_release, World.emit, World.set_demux, Option.bind, Option.some.injEq,
          bind] at h
        subst h
        exact ⟨List.Sublist.map _ (List.filter_sublist _), List.length_filter_le _ _⟩
      · simp only [Option.some.injEq] at h
        subst h
        unfold registry_pids
        simp only [World.set_demux, List.map_map, List.length_map]
        refine ⟨?_, Nat.le_refl _⟩
        have : ((fun (e : upipe_ts_demux_psi_pid) => e.pid) ∘
            fun x => if x.addr = addr then
              { x with refcount := to_uint (e.refcount + 4294967295) } else x) =
            fun e => e.pid := by
          funext x
          simp only [Function.comp]
          split <;> rfl
        rw [this]

theorem drop_split_spec (w : World) (l1 l2 : List upipe_ts_demux_output)
    (o0 : upipe_ts_demux_output) (hout : w.outputs = l1 ++ o0 :: l2)
    (hd1 : ∀ x ∈ l1, x.id ≠ o0.id) (hd2 : ∀ x ∈ l2, x.id ≠ o0.id) :
    ∃ wa, output_drop_split_output w o0 = some (wa, { o0 with split_output := none }) ∧
      wa.outputs = l1 ++ { o0 with split_output := none } :: l2 ∧
      wa.demux = w.demux ∧ wa.next = w.next ∧ wa.script = w.script := by
  unfold output_drop_split_output
  cases hso : o0.split_output with
  | none =>
    have he : ({ o0 with split_output := none } : upipe_ts_demux_output) = o0 := by
      cases o0
      simp only at hso
      subst hso
      rfl
    rw [he]
    exact ⟨w, rfl, hout, rfl, rfl, rfl⟩
  | some p =>
    simp only [upipe_release, Option.map_some']
    refine ⟨_, rfl, ?_, rfl, rfl, rfl⟩
    exact put_output_split (w.emit (Action.upipe_release p)) l1 l2 o0 _ hout rfl hd1 hd2

theorem drop_psi_spec (w : World) (l1 l2 : List upipe_ts_demux_output)
    (o0 : upipe_ts_demux_output) (rest : List Nat)
    (hout : w.outputs = l1 ++ o0 :: l2)
    (hd1 : ∀ x ∈ l1, x.id ≠ o0.id) (hd2 : ∀ x ∈ l2, x.id ≠ o0.id)
    (hso : o0.split_output = none)
    (hkind : o0.psi_pid ≠ none ↔ o0.psi_split_output ≠ none)
    (hinv : registry_inv w (o0.psi_pid.toList ++ rest))
    (hlen : rest.length < 4294967295) :
    ∃ w1, output_drop_psi_split_output w o0 = some (w1, unbound_output o0.id) ∧
      w1.outputs = l1 ++ unbound_output o0.id :: l2 ∧
      registry_inv w1 rest ∧ w1.next = w.next ∧ w1.script = w.script ∧
      { w1.demux with psi_pids := [] } = { w.demux with psi_pids := [] } ∧
      (registry_pids w1).Sublist (registry_pids w) ∧
      w1.demux.psi_pids.length ≤ w.demux.psi_pids.length ∧
      (o0.psi_split_output = none → w1.demux = w.demux) := by
  obtain ⟨id, so, pso, pp⟩ := o0
  simp only at hso hkind hinv hd1 hd2 ⊢
  subst hso
  unfold output_drop_psi_split_output
  cases pso with
  | none =>
    have hpp : pp = none := by
      by_contra hne
      exact (hkind.mp hne) rfl
    subst hpp
    exact ⟨w, rfl, hout, hinv, rfl, rfl, rfl, List.Sublist.refl _, Nat.le_refl _, fun _ => rfl⟩
  | some p =>
    have hne : pp ≠ none := hkind.mpr (by simp)
    obtain ⟨a, ha⟩ := Option.ne_none_iff_exists'.mp hne
    subst ha
    have hinv1 : registry_inv
        ((w.emit (Action.upipe_release p)).put_output
          { id := id, split_output := none, psi_split_output := none, psi_pid := some a })
        (a :: rest) :=
      registry_inv_transfer w _ _ rfl (Nat.le_refl _) hinv
    obtain ⟨w2, hrel, hinv2⟩ := release_inv _ (a :: rest) a hinv1
      (by simp only [List.length_cons]; omega) (by simp)
    obtain ⟨hfr, hnx, hsc⟩ := release_frame _ _ _ hrel
    obtain ⟨hsub, hlen2⟩ := release_pids_sublist _ _ _ hrel
    have ho1 : ((w.emit (Action.upipe_release p)).put_output
        { id := id, split_output := none, psi_split_output := none, psi_pid := some a }).outputs =
        l1 ++ { id := id, split_output := none, psi_split_output := none,
                psi_pid := some a } :: l2 :=
      put_output_split (w.emit (Action.upipe_release p)) l1 l2 _ _ hout rfl hd1 hd2
    simp only [upipe_release, Option.bind, bind, hrel]
    refine ⟨_, rfl, ?_, ?_, ?_, ?_, ?_, hsub, hlen2, ?_⟩
    · exact put_output_split w2 l1 l2 _ (unbound_output id) (hfr.1.trans ho1) rfl hd1 hd2
    · rw [List.erase_cons_head] at hinv2
      exact registry_inv_transfer w2 _ _ rfl (Nat.le_refl _) hinv2
    · exact hnx
    · exact hsc
    · exact hfr.2.2
    · intro hc
      cases hc
theorem kind_unbound (id : Nat) : output_kind_ok (unbound_output id) :=
  ⟨Or.inl rfl, by simp [unbound_output]⟩

theorem find_addr_of_mem (l : List upipe_ts_demux_psi_pid) (a : Nat)
    (h : a ∈ l.map (fun e => e.addr)) :
    ∃ e, l.find? (fun e => decide (e.addr = a)) = some e ∧ e.addr = a ∧ e ∈ l := by
  cases hf : l.find? (fun e => decide (e.addr = a)) with
  | none =>
    rw [List.find?_eq_none] at hf
    obtain ⟨x, hx, hxa⟩ := List.mem_map.mp h
    exact absurd (by simpa using hxa) (hf x hx)
  | some e =>
    exact ⟨e, rfl, by simpa using List.find?_some hf, List.mem_of_find?_eq_some hf⟩

theorem set_flow_def_spec (w : World) (l1 l2 : List upipe_ts_demux_output)
    (o0 : upipe_ts_demux_output) (fd : uref) (rest : List Nat)
    (hout : w.outputs = l1 ++ o0 :: l2)
    (hd1 : ∀ x ∈ l1, x.id ≠ o0.id) (hd2 : ∀ x ∈ l2, x.id ≠ o0.id)
    (hsplit : w.demux.split ≠ none) (hmgr : w.demux.uref_mgr ≠ none)
    (hkind : output_kind_ok o0)
    (hinv : registry_inv w (o0.psi_pid.toList ++ rest))
    (hlen : rest.length < 4294967295) :
    ∃ r w2 o2, upipe_ts_demux_output_set_flow_def w o0.id fd = some (r, w2) ∧
      w2.outputs = l1 ++ o2 :: l2 ∧ o2.id = o0.id ∧ output_kind_ok o2 ∧
      registry_inv w2 (o2.psi_pid.toList ++ rest) ∧ w.next ≤ w2.next ∧
      { w2.demux with psi_pids := [] } = { w.demux with psi_pids := [] } ∧
      (r = false → o2 = unbound_output o0.id) ∧
      (r = true → ∃ pid, fd.pid = some pid ∧ pid < MAX_PIDS ∧
        (fd.psi_filter ≠ none → ∃ a pso e,
          o2 = { id := o0.id, split_output := none, psi_split_output := some pso,
                 psi_pid := some a } ∧
          e ∈ w2.demux.psi_pids ∧ e.addr = a ∧ e.pid = pid) ∧
        (fd.psi_filter = none → ∃ so,
          o2 = { id := o0.id, split_output := some so, psi_split_output := none,
                 psi_pid := none })) ∧
      ((∀ pid, fd.pid = some pid → MAX_PIDS ≤ pid) →
        (registry_pids w2).Sublist (registry_pids w) ∧
        w2.demux.psi_pids.length ≤ w.demux.psi_pids.length ∧
        (o0.psi_split_output = none → w2.demux = w.demux)) ∧
      (all_succeed w.script → (∃ pid, fd.pid = some pid ∧ pid < MAX_PIDS) → r = true) := by
  obtain ⟨wa, hwa, houta, hda, hna, hsa⟩ := drop_split_spec w l1 l2 o0 hout hd1 hd2
  have hinva : registry_inv wa
      (({ o0 with split_output := none } : upipe_ts_demux_output).psi_pid.toList ++ rest) :=
    registry_inv_transfer w wa _ (by rw [hda]) (by omega) hinv
  obtain ⟨w1, hw1, hout1, hinv1, hn1, hs1, hfr1, hsub1, hlen1, hsame1⟩ :=
    drop_psi_spec wa l1 l2 { o0 with split_output := none } rest houta hd1 hd2 rfl hkind.2
      hinva hlen
  have hn1w : w1.next = w.next := hn1.trans hna
  have hs1w : w1.script = w.script := hs1.trans hsa
  have hfr1w : { w1.demux with psi_pids := [] } = { w.demux with psi_pids := [] } := by
    rw [hfr1, hda]
  have hsplit1 : w1.demux.split ≠ none := by
    have := congrArg upipe_ts_demux.split hfr1w
    simp only at this
    rw [this]
    exact hsplit
  have hmgr1 : w1.demux.uref_mgr ≠ none := by
    have := congrArg upipe_ts_demux.uref_mgr hfr1w
    simp only at this
    rw [this]
    exact hmgr
  have hsub1w : (registry_pids w1).Sublist (registry_pids w) := by
    have : registry_pids wa = registry_pids w := by unfold registry_pids; rw [hda]
    rw [← this]
    exact hsub1
  have hlen1w : w1.demux.psi_pids.length ≤ w.demux.psi_pids.length := by
    rw [← hda]
    exact hlen1
  have hsame1w : o0.psi_split_output = none → w1.demux = w.demux :=
    fun h => (hsame1 h).trans hda
  have hrej : ∃ r w2 o2, some (false, w1) = some (r, w2) ∧
      w2.outputs = l1 ++ o2 :: l2 ∧ o2.id = o0.id ∧ output_kind_ok o2 ∧
      registry_inv w2 (o2.psi_pid.toList ++ rest) ∧ w.next ≤ w2.next ∧
      { w2.demux with psi_pids := [] } = { w.demux with psi_pids := [] } ∧
      (r = false → o2 = unbound_output o0.id) ∧
      (r = true → False) ∧
      ((registry_pids w2).Sublist (registry_pids w) ∧
        w2.demux.psi_pids.length ≤ w.demux.psi_pids.length ∧
        (o0.psi_split_output = none → w2.demux = w.demux)) :=
    ⟨false, w1, unbound_output o0.id, rfl, hout1, rfl, kind_unbound _, hinv1,
      by omega, hfr1w, fun _ => rfl, fun h => Bool.noConfusion h, hsub1w, hlen1w, hsame1w⟩
  unfold upipe_ts_demux_output_set_flow_def
  rw [hout, outputs_find l1 l2 o0 o0.id rfl hd1]
  simp only [hwa, hw1]
  cases hp : fd.pid with
  | none =>
    obtain ⟨r, w2, o2, h1, h2, h3, h4, h5, h6, h7, h8, h9, h10⟩ := hrej
    refine ⟨r, w2, o2, h1, h2, h3, h4, h5, h6, h7, h8, fun hr => (h9 hr).elim, fun _ => h10, ?_⟩
    rintro _ ⟨pid, hpid, _⟩
    cases hpid
  | some pid =>
    simp only []
    by_cases hge : pid ≥ MAX_PIDS
    · rw [if_pos hge]
      obtain ⟨r, w2, o2, h1, h2, h3, h4, h5, h6, h7, h8, h9, h10⟩ := hrej
      refine ⟨r, w2, o2, h1, h2, h3, h4, h5, h6, h7, h8, fun hr => (h9 hr).elim,
        fun _ => h10, ?_⟩
      rintro _ ⟨pid1, hpid, hlt⟩
      simp only [Option.some.injEq] at hpid
      subst hpid
      omega
    · rw [if_neg hge]
      have hlt : pid < MAX_PIDS := by omega
      have hnot : ¬ ∀ pid1, some pid = some pid1 → MAX_PIDS ≤ pid1 := by
        intro hall
        have := hall pid rfl
        omega
      by_cases hf : fd.psi_filter ≠ none
      · rw [if_pos hf]
        obtain ⟨ru, wu, hu⟩ := use_total w1 pid hsplit1 hmgr1
        obtain ⟨hfru, hsu, heu⟩ := use_frame w1 pid ru wu hu
        have hpid16 : to_uint16 pid = pid := by
          unfold to_uint16
          unfold MAX_PIDS at hlt
          omega
        rw [hu]
        rcases use_inv w1 rest pid ru wu hinv1 hlen hu with ⟨hr, hi⟩ | ⟨a, hr, hi⟩
        · subst hr
          refine ⟨false, _, unbound_output o0.id, rfl, ?_, rfl, kind_unbound _, ?_, ?_, ?_,
            fun _ => rfl, fun h => Bool.noConfusion h, fun h => (hnot h).elim, ?_⟩
          · exact put_output_split wu l1 l2 _ (unbound_output o0.id) (hfru.1.trans hout1) rfl
              hd1 hd2
          · exact registry_inv_transfer wu _ _ rfl (Nat.le_refl _) hi
          · have := hfru.2.1
            show w.next ≤ wu.next
            omega
          · exact hfru.2.2.trans hfr1w
          · intro hs _
            rw [← hs1w] at hs
            exact absurd rfl (hsu hs).2
        · subst hr
          obtain ⟨e, hfind, hea, hemem⟩ := find_addr_of_mem wu.demux.psi_pids a
            (hi.held_mem a (by simp))
          obtain ⟨e1, he1mem, he1a, he1p⟩ := heu a rfl
          simp only [World.put_output, hfind, upipe_alloc_output, unbound_output]
          generalize hb : upipe_alloc
            { wu with outputs := wu.outputs.map (fun x => if x.id = o0.id then
                ({ id := o0.id, split_output := none, psi_split_output := none,
                   psi_pid := some a } : upipe_ts_demux_output) else x) }
            (pipe_mgr.output_of e.psi_split) uprobe.psi_split_plumber = b
          have hbf := upipe_alloc_facts
            { wu with outputs := wu.outputs.map (fun x => if x.id = o0.id then
                ({ id := o0.id, split_output := none, psi_split_output := none,
                   psi_pid := some a } : upipe_ts_demux_output) else x) }
            (pipe_mgr.output_of e.psi_split) uprobe.psi_split_plumber
          rw [hb] at hbf
          obtain ⟨hbst, hbsc, hbnone, hbsome⟩ := hbf
          obtain ⟨b1, b2⟩ := b
          simp only at hbst hbsc hbnone hbsome
          have hbn : wu.next ≤ b2.next := hbst.2.2
          have hbd : b2.demux = wu.demux := hbst.1
          have hbo : b2.outputs = l1 ++
              ({ id := o0.id, split_output := none, psi_split_output := none, psi_pid := some a } :
                upipe_ts_demux_output) :: l2 := by
            rw [hbst.2.1]
            simp only [hfru.1, hout1]
            exact map_split (fun (x : upipe_ts_demux_output) => x.id) (fun _ => _) l1 l2
              (unbound_output o0.id) o0.id hd1 hd2 rfl
          cases b1 with
          | none =>
            simp only []
            have hinvb : registry_inv
                ({ b2 with outputs := b2.outputs.map (fun x => if x.id = o0.id then
                    ({ id := o0.id, split_output := none, psi_split_output := none,
                       psi_pid := some a } : upipe_ts_demux_output) else x) } : World)
                (a :: rest) :=
              registry_inv_transfer wu _ _ (by rw [← hbd]) hbn hi
            obtain ⟨w4, hrel, hinv4⟩ := release_inv _ (a :: rest) a hinvb
              (by simp only [List.length_cons]; omega) (by simp)
            obtain ⟨hfr4, hn4, hs4⟩ := release_frame _ _ _ hrel
            rw [hrel]
            simp only [Option.map_some']
            refine ⟨false, _, unbound_output o0.id, rfl, ?_, rfl, kind_unbound _, ?_, ?_, ?_,
              fun _ => rfl, fun h => Bool.noConfusion h, fun h => (hnot h).elim, ?_⟩
            · have h4o : w4.outputs = l1 ++
                  ({ id := o0.id, split_output := none, psi_split_output := none,
                     psi_pid := some a } : upipe_ts_demux_output) :: l2 := by
                rw [hfr4.1]
                simp only [hbo]
                exact map_split (fun (x : upipe_ts_demux_output) => x.id) (fun _ => _) l1 l2
                  _ o0.id hd1 hd2 rfl
              simp only [h4o]
              exact map_split (fun (x : upipe_ts_demux_output) => x.id)
                (fun _ => unbound_output o0.id) l1 l2 _ o0.id hd1 hd2 rfl
            · rw [List.erase_cons_head] at hinv4
              exact registry_inv_transfer w4 _ _ rfl (Nat.le_refl _) hinv4
            · have := hfru.2.1
              show w.next ≤ w4.next
              simp only at hn4
              omega
            · have h1 := hfr4.2.2
              simp only at h1
              show { w4.demux with psi_pids := [] } = { w.demux with psi_pids := [] }
              rw [h1, hbd]
              exact hfru.2.2.trans hfr1w
            · intro hs _
              rw [← hs1w] at hs
              have := (hsu hs).1
              exact absurd this (not_all_succeed_of_head _ (hbnone rfl))
          | some pso =>
            simp only []
            obtain ⟨r5, w5, h5⟩ := set_flow_def_some
              ({ b2 with outputs := b2.outputs.map (fun x => if x.id = o0.id then
                    ({ id := o0.id, split_output := none, psi_split_output := some pso,
                       psi_pid := some a } : upipe_ts_demux_output) else x) } : World) pso fd
            obtain ⟨hst5, _, _⟩ := set_flow_def_facts _ _ _ _ _ h5
            rw [h5]
            simp only [Option.map_some']
            have h5o : w5.outputs = l1 ++
                ({ id := o0.id, split_output := none, psi_split_output := some pso,
                   psi_pid := some a } : upipe_ts_demux_output) :: l2 := by
              rw [hst5.2.1]
              simp only [hbo]
              exact map_split (fun (x : upipe_ts_demux_output) => x.id) (fun _ => _) l1 l2
                _ o0.id hd1 hd2 rfl
            have h5d : w5.demux = wu.demux := by
              rw [hst5.1]
              exact hbd
            have h5n : wu.next ≤ w5.next := Nat.le_trans hbn hst5.2.2
            refine ⟨true, w5, _, rfl, h5o, rfl, ⟨Or.inl rfl, by simp⟩, ?_, ?_, ?_,
              fun h => Bool.noConfusion h, ?_, fun h => (hnot h).elim, fun _ _ => rfl⟩
            · exact registry_inv_transfer wu _ _ (by rw [h5d]) h5n hi
            · have := hfru.2.1
              omega
            · rw [h5d]
              exact hfru.2.2.trans hfr1w
            · intro _
              refine ⟨pid, rfl, hlt, fun _ => ⟨a, pso, e1, rfl, ?_, he1a, ?_⟩,
                fun h => absurd h hf⟩
              · rw [h5d]
                exact he1mem
              · rw [he1p, hpid16]
      · rw [if_neg hf]
        have hfn : fd.psi_filter = none := by
          by_contra h
          exact hf h
        obtain ⟨s, hs⟩ := Option.ne_none_iff_exists'.mp hsplit1
        rw [hs]
        simp only [upipe_alloc_output, World.put_output, unbound_output]
        generalize hb : upipe_alloc w1 (pipe_mgr.output_of s) uprobe.plumber = b
        have hbf := upipe_alloc_facts w1 (pipe_mgr.output_of s) uprobe.plumber
        rw [hb] at hbf
        obtain ⟨hbst, hbsc, hbnone, hbsome⟩ := hbf
        obtain ⟨b1, b2⟩ := b
        simp only at hbst hbsc hbnone hbsome
        have hbn : w1.next ≤ b2.next := hbst.2.2
        have hbd : b2.demux = w1.demux := hbst.1
        have hbo : b2.outputs = l1 ++ unbound_output o0.id :: l2 := by
          rw [hbst.2.1]
          exact hout1
        cases b1 with
        | none =>
          simp only []
          refine ⟨false, _, unbound_output o0.id, rfl, ?_, rfl, kind_unbound _, ?_, ?_, ?_,
            fun _ => rfl, fun h => Bool.noConfusion h, fun h => (hnot h).elim, ?_⟩
          · simp only [hbo]
            exact map_split (fun (x : upipe_ts_demux_output) => x.id)
              (fun _ => unbound_output o0.id) l1 l2 _ o0.id hd1 hd2 rfl
          · exact registry_inv_transfer w1 _ _ (by rw [← hbd]) hbn hinv1
          · show w.next ≤ b2.next
            omega
          · show { b2.demux with psi_pids := [] } = { w.demux with psi_pids := [] }
            rw [hbd]
            exact hfr1w
          · intro hsc _
            rw [← hs1w] at hsc
            exact absurd hsc (not_all_succeed_of_head _ (hbnone rfl))
        | some so =>
          simp only []
          obtain ⟨r5, w5, h5⟩ := set_flow_def_some
            ({ b2 with outputs := b2.outputs.map (fun x => if x.id = o0.id then
                  ({ id := o0.id, split_output := some so, psi_split_output := none,
                     psi_pid := none } : upipe_ts_demux_output) else x) } : World) so fd
          obtain ⟨hst5, _, _⟩ := set_flow_def_facts _ _ _ _ _ h5
          rw [h5]
          simp only [Option.map_some']
          have h5o : w5.outputs = l1 ++
              ({ id := o0.id, split_output := some so, psi_split_output := none,
                 psi_pid := none } : upipe_ts_demux_output) :: l2 := by
            rw [hst5.2.1]
            simp only [hbo]
            exact map_split (fun (x : upipe_ts_demux_output) => x.id) (fun _ => _) l1 l2
              _ o0.id hd1 hd2 rfl
          have h5d : w5.demux = w1.demux := by
            rw [hst5.1]
            exact hbd
          have h5n : w1.next ≤ w5.next := Nat.le_trans hbn hst5.2.2
          refine ⟨true, w5, _, rfl, h5o, rfl, ⟨Or.inr rfl, by simp⟩, ?_, ?_, ?_,
            fun h => Bool.noConfusion h, ?_, fun h => (hnot h).elim, fun _ _ => rfl⟩
          · exact registry_inv_transfer w1 _ _ (by rw [h5d]) h5n hinv1
          · omega
          · rw [h5d]
            exact hfr1w
          · intro _
            exact ⟨pid, rfl, hlt, fun h => absurd hfn h, fun _ => ⟨so, rfl⟩⟩

theorem release_total (w : World) (a : Nat) (h : a ∈ registry_addrs w) :
    ∃ w1, upipe_ts_demux_psi_pid_release w (some a) = some w1 := by
  obtain ⟨e, hfind, _, _⟩ := find_addr_of_mem w.demux.psi_pids a h
  unfold upipe_ts_demux_psi_pid_release
  simp only [hfind]
  split
  · exact ⟨_, rfl⟩
  · exact ⟨_, rfl⟩

theorem release_defined (w : World) (p : Option Nat) (w1 : World)
    (h : upipe_ts_demux_psi_pid_release w p = some w1) :
    ∃ a, p = some a ∧ a ∈ registry_addrs w := by
  unfold upipe_ts_demux_psi_pid_release at h
  cases p with
  | none => simp at h
  | some addr =>
    refine ⟨addr, rfl, ?_⟩
    simp only at h
    cases hf : w.demux.psi_pids.find? (fun e => e.addr = addr) with
    | none => rw [hf] at h; simp at h
    | some e =>
      unfold registry_addrs
      rw [List.mem_map]
      exact ⟨e, List.mem_of_find?_eq_some hf, by simpa using List.find?_some hf⟩

theorem drop_psi_shape (w : World) (l1 l2 : List upipe_ts_demux_output)
    (o0 : upipe_ts_demux_output)
    (hout : w.outputs = l1 ++ o0 :: l2)
    (hd1 : ∀ x ∈ l1, x.id ≠ o0.id) (hd2 : ∀ x ∈ l2, x.id ≠ o0.id)
    (hso : o0.split_output = none)
    (hkind : o0.psi_pid ≠ none ↔ o0.psi_split_output ≠ none)
    (href : ∀ a, o0.psi_pid = some a → a ∈ registry_addrs w) :
    ∃ w1, output_drop_psi_split_output w o0 = some (w1, unbound_output o0.id) ∧
      w1.outputs = l1 ++ unbound_output o0.id :: l2 ∧
      w1.next = w.next ∧ w1.script = w.script ∧
      { w1.demux with psi_pids := [] } = { w.demux with psi_pids := [] } ∧
      (registry_pids w1).Sublist (registry_pids w) ∧
      w1.demux.psi_pids.length ≤ w.demux.psi_pids.length ∧
      (o0.psi_split_output = none → w1.demux = w.demux) := by
  obtain ⟨id, so, pso, pp⟩ := o0
  simp only at hso hkind href hd1 hd2 ⊢
  subst hso
  unfold output_drop_psi_split_output
  cases pso with
  | none =>
    have hpp : pp = none := by
      by_contra hne
      exact (hkind.mp hne) rfl
    subst hpp
    exact ⟨w, rfl, hout, rfl, rfl, rfl, List.Sublist.refl _, Nat.le_refl _, fun _ => rfl⟩
  | some p =>
    have hne : pp ≠ none := hkind.mpr (by simp)
    obtain ⟨a, ha⟩ := Option.ne_none_iff_exists'.mp hne
    subst ha
    obtain ⟨w2, hrel⟩ := release_total
      ((w.emit (Action.upipe_release p)).put_output
        { id := id, split_output := none, psi_split_output := none, psi_pid := some a }) a
      (href a rfl)
    obtain ⟨hfr, hnx, hsc⟩ := release_frame _ _ _ hrel
    obtain ⟨hsub, hlen2⟩ := release_pids_sublist _ _ _ hrel
    have ho1 : ((w.emit (Action.upipe_release p)).put_output
        { id := id, split_output := none, psi_split_output := none, psi_pid := some a }).outputs =
        l1 ++ { id := id, split_output := none, psi_split_output := none,
                psi_pid := some a } :: l2 :=
      put_output_split (w.emit (Action.upipe_release p)) l1 l2 _ _ hout rfl hd1 hd2
    simp only [upipe_release, Option.bind, bind, hrel]
    refine ⟨_, rfl, ?_, ?_, ?_, ?_, hsub, hlen2, ?_⟩
    · exact put_output_split w2 l1 l2 _ (unbound_output id) (hfr.1.trans ho1) rfl hd1 hd2
    · exact hnx
    · exact hsc
    · exact hfr.2.2
    · intro hc
      cases hc
theorem set_flow_def_next (w : World) (p : Option Nat) (u : uref) (r : Bool) (w1 : World)
    (h : upipe_set_flow_def w p u = some (r, w1)) : w1.next = w.next := by
  have hn : w.draw.2.next = w.next := by
    unfold World.draw
    split <;> rfl
  unfold upipe_set_flow_def at h
  cases p with
  | none => simp at h
  | some q =>
    simp only at h
    split at h
    · simp only [Option.some.injEq, Prod.mk.injEq] at h
      obtain ⟨_, rfl⟩ := h
      exact hn
    · simp only [Option.some.injEq, Prod.mk.injEq] at h
      obtain ⟨_, rfl⟩ := h
      exact hn

theorem use_none_demux (w : World) (pid : Nat) (w1 : World)
    (h : upipe_ts_demux_psi_pid_use w pid = some (none, w1)) : w1.demux = w.demux := by
  cases hf : upipe_ts_demux_psi_pid_find w pid with
  | none =>
    have hu : upipe_ts_demux_psi_pid_use w pid = upipe_ts_demux_psi_pid_alloc w pid := by
      unfold upipe_ts_demux_psi_pid_use
      rw [hf]
    rw [hu] at h
    obtain ⟨_, _, hc⟩ := psi_pid_alloc_cases w pid none w1 h
    rcases hc with ⟨_, hd, _⟩ | ⟨ps, so, hr, _⟩
    · exact hd
    · cases hr
  | some e =>
    unfold upipe_ts_demux_psi_pid_use at h
    rw [hf] at h
    simp at h

theorem set_flow_def_shape (w : World) (l1 l2 : List upipe_ts_demux_output)
    (o0 : upipe_ts_demux_output) (fd : uref)
    (hout : w.outputs = l1 ++ o0 :: l2)
    (hd1 : ∀ x ∈ l1, x.id ≠ o0.id) (hd2 : ∀ x ∈ l2, x.id ≠ o0.id)
    (hsplit : w.demux.split ≠ none) (hmgr : w.demux.uref_mgr ≠ none)
    (hkind : output_kind_ok o0)
    (href : ∀ a, o0.psi_pid = some a → a ∈ registry_addrs w) :
    ∃ r w2 o2, upipe_ts_demux_output_set_flow_def w o0.id fd = some (r, w2) ∧
      w2.outputs = l1 ++ o2 :: l2 ∧ o2.id = o0.id ∧ output_kind_ok o2 ∧
      w.next ≤ w2.next ∧
      { w2.demux with psi_pids := [] } = { w.demux with psi_pids := [] } ∧
      (r = false → o2 = unbound_output o0.id) ∧
      (r = true → ∃ pid, fd.pid = some pid ∧ pid < MAX_PIDS ∧
        (fd.psi_filter ≠ none → ∃ a pso e,
          o2 = { id := o0.id, split_output := none, psi_split_output := some pso,
                 psi_pid := some a } ∧
          e ∈ w2.demux.psi_pids ∧ e.addr = a ∧ e.pid = pid) ∧
        (fd.psi_filter = none → ∃ so,
          o2 = { id := o0.id, split_output := some so, psi_split_output := none,
                 psi_pid := none })) ∧
      ((∀ pid, fd.pid = some pid → MAX_PIDS ≤ pid) →
        (registry_pids w2).Sublist (registry_pids w) ∧
        w2.demux.psi_pids.length ≤ w.demux.psi_pids.length ∧
        (o0.psi_split_output = none → w2.demux = w.demux)) ∧
      (all_succeed w.script → (∃ pid, fd.pid = some pid ∧ pid < MAX_PIDS) → r = true) ∧
      (∃ w1, w1.next = w.next ∧ (o0.psi_split_output = none → w1.demux = w.demux) ∧
        ((o2.psi_pid = none ∧ w2.demux = w1.demux) ∨
         (∃ pid a wu, fd.pid = some pid ∧
           upipe_ts_demux_psi_pid_use w1 pid = some (some a, wu) ∧
           o2.psi_pid = some a ∧ w2.demux = wu.demux ∧ w2.next = wu.next + 1) ∨
         (∃ pid a wu wx w4, fd.pid = some pid ∧
           upipe_ts_demux_psi_pid_use w1 pid = some (some a, wu) ∧
           wx.demux = wu.demux ∧
           upipe_ts_demux_psi_pid_release wx (some a) = some w4 ∧
           o2.psi_pid = none ∧ w2.demux = w4.demux))) := by
  obtain ⟨wa, hwa, houta, hda, hna, hsa⟩ := drop_split_spec w l1 l2 o0 hout hd1 hd2
  have hrefa : ∀ a, ({ o0 with split_output := none } : upipe_ts_demux_output).psi_pid = some a →
      a ∈ registry_addrs wa := by
    intro a ha
    have := href a ha
    unfold registry_addrs at this ⊢
    rw [hda]
    exact this
  obtain ⟨w1, hw1, hout1, hn1, hs1, hfr1, hsub1, hlen1, hsame1⟩ :=
    drop_psi_shape wa l1 l2 { o0 with split_output := none } houta hd1 hd2 rfl hkind.2 hrefa
  have hn1w : w1.next = w.next := hn1.trans hna
  have hs1w : w1.script = w.script := hs1.trans hsa
  have hfr1w : { w1.demux with psi_pids := [] } = { w.demux with psi_pids := [] } := by
    rw [hfr1, hda]
  have hsplit1 : w1.demux.split ≠ none := by
    have := congrArg upipe_ts_demux.split hfr1w
    simp only at this
    rw [this]
    exact hsplit
  have hmgr1 : w1.demux.uref_mgr ≠ none := by
    have := congrArg upipe_ts_demux.uref_mgr hfr1w
    simp only at this
    rw [this]
    exact hmgr
  have hsub1w : (registry_pids w1).Sublist (registry_pids w) := by
    have : registry_pids wa = registry_pids w := by unfold registry_pids; rw [hda]
    rw [← this]
    exact hsub1
  have hlen1w : w1.demux.psi_pids.length ≤ w.demux.psi_pids.length := by
    rw [← hda]
    exact hlen1
  have hsame1w : o0.psi_split_output = none → w1.demux = w.demux :=
    fun h => (hsame1 h).trans hda
  have hrej : ∃ r w2 o2, some (false, w1) = some (r, w2) ∧
      w2.outputs = l1 ++ o2 :: l2 ∧ o2.id = o0.id ∧ output_kind_ok o2 ∧
      w.next ≤ w2.next ∧
      { w2.demux with psi_pids := [] } = { w.demux with psi_pids := [] } ∧
      (r = false → o2 = unbound_output o0.id) ∧
      (r = true → False) ∧
      ((registry_pids w2).Sublist (registry_pids w) ∧
        w2.demux.psi_pids.length ≤ w.demux.psi_pids.length ∧
        (o0.psi_split_output = none → w2.demux = w.demux)) ∧
      (o2.psi_pid = none ∧ w2.demux = w1.demux) :=
    ⟨false, w1, unbound_output o0.id, rfl, hout1, rfl, kind_unbound _,
      by omega, hfr1w, fun _ => rfl, fun h => Bool.noConfusion h, ⟨hsub1w, hlen1w, hsame1w⟩,
      rfl, rfl⟩
  unfold upipe_ts_demux_output_set_flow_def
  rw [hout, outputs_find l1 l2 o0 o0.id rfl hd1]
  simp only [hwa, hw1]
  cases hp : fd.pid with
  | none =>
    obtain ⟨r, w2, o2, h1, h2, h3, h4, h6, h7, h8, h9, h10, h11⟩ := hrej
    refine ⟨r, w2, o2, h1, h2, h3, h4, h6, h7, h8, fun hr => (h9 hr).elim, fun _ => h10, ?_,
      w1, hn1w, hsame1w, Or.inl h11⟩
    rintro _ ⟨pid, hpid, _⟩
    cases hpid
  | some pid =>
    simp only []
    by_cases hge : pid ≥ MAX_PIDS
    · rw [if_pos hge]
      obtain ⟨r, w2, o2, h1, h2, h3, h4, h6, h7, h8, h9, h10, h11⟩ := hrej
      refine ⟨r, w2, o2, h1, h2, h3, h4, h6, h7, h8, fun hr => (h9 hr).elim,
        fun _ => h10, ?_, w1, hn1w, hsame1w, Or.inl h11⟩
      rintro _ ⟨pid1, hpid, hlt⟩
      simp only [Option.some.injEq] at hpid
      subst hpid
      omega
    · rw [if_neg hge]
      have hlt : pid < MAX_PIDS := by omega
      have hnot : ¬ ∀ pid1, some pid = some pid1 → MAX_PIDS ≤ pid1 := by
        intro hall
        have := hall pid rfl
        omega
      by_cases hf : fd.psi_filter ≠ none
      · rw [if_pos hf]
        obtain ⟨ru, wu, hu⟩ := use_total w1 pid hsplit1 hmgr1
        obtain ⟨hfru, hsu, heu⟩ := use_frame w1 pid ru wu hu
        have hpid16 : to_uint16 pid = pid := by
          unfold to_uint16
          unfold MAX_PIDS at hlt
          omega
        rw [hu]
        cases ru with
        | none =>
          refine ⟨false, _, unbound_output o0.id, rfl, ?_, rfl, kind_unbound _, ?_, ?_,
            fun _ => rfl, fun h => Bool.noConfusion h, fun h => (hnot h).elim, ?_,
            w1, hn1w, hsame1w, Or.inl ⟨rfl, use_none_demux w1 pid wu hu⟩⟩
          · exact put_output_split wu l1 l2 _ (unbound_output o0.id) (hfru.1.trans hout1) rfl
              hd1 hd2
          · have := hfru.2.1
            show w.next ≤ wu.next
            omega
          · exact hfru.2.2.trans hfr1w
          · intro hs _
            rw [← hs1w] at hs
            exact absurd rfl (hsu hs).2
        | some a =>
          obtain ⟨e1, he1mem, he1a, he1p⟩ := heu a rfl
          have hamem : a ∈ registry_addrs wu := by
            unfold registry_addrs
            rw [List.mem_map]
            exact ⟨e1, he1mem, he1a⟩
          obtain ⟨e, hfind, hea, hemem⟩ := find_addr_of_mem wu.demux.psi_pids a hamem
          simp only [World.put_output, hfind, upipe_alloc_output, unbound_output]
          generalize hb : upipe_alloc
            { wu with outputs := wu.outputs.map (fun x => if x.id = o0.id then
                ({ id := o0.id, split_output := none, psi_split_output := none,
                   psi_pid := some a } : upipe_ts_demux_output) else x) }
            (pipe_mgr.output_of e.psi_split) uprobe.psi_split_plumber = b
          have hbf := upipe_alloc_facts
            { wu with outputs := wu.outputs.map (fun x => if x.id = o0.id then
                ({ id := o0.id, split_output := none, psi_split_output := none,
                   psi_pid := some a } : upipe_ts_demux_output) else x) }
            (pipe_mgr.output_of e.psi_split) uprobe.psi_split_plumber
          rw [hb] at hbf
          obtain ⟨hbst, hbsc, hbnone, hbsome⟩ := hbf
          obtain ⟨b1, b2⟩ := b
          simp only at hbst hbsc hbnone hbsome
          have hbn : wu.next ≤ b2.next := hbst.2.2
          have hbd : b2.demux = wu.demux := hbst.1
          have hbo : b2.outputs = l1 ++
              ({ id := o0.id, split_output := none, psi_split_output := none, psi_pid := some a } :
                upipe_ts_demux_output) :: l2 := by
            rw [hbst.2.1]
            simp only [hfru.1, hout1]
            exact map_split (fun (x : upipe_ts_demux_output) => x.id) (fun _ => _) l1 l2
              (unbound_output o0.id) o0.id hd1 hd2 rfl
          cases b1 with
          | none =>
            simp only []
            obtain ⟨w4, hrel⟩ := release_total
                ({ b2 with outputs := b2.outputs.map (fun x => if x.id = o0.id then
                    ({ id := o0.id, split_output := none, psi_split_output := none,
                       psi_pid := some a } : upipe_ts_demux_output) else x) } : World) a
                (by unfold registry_addrs; simp only [hbd]; exact hamem)
            obtain ⟨hfr4, hn4, hs4⟩ := release_frame _ _ _ hrel
            rw [hrel]
            simp only [Option.map_some']
            refine ⟨false, _, unbound_output o0.id, rfl, ?_, rfl, kind_unbound _, ?_, ?_,
              fun _ => rfl, fun h => Bool.noConfusion h, fun h => (hnot h).elim, ?_,
              w1, hn1w, hsame1w, Or.inr (Or.inr ⟨pid, a, wu,
                ({ b2 with outputs := b2.outputs.map (fun x => if x.id = o0.id then
                    ({ id := o0.id, split_output := none, psi_split_output := none,
                       psi_pid := some a } : upipe_ts_demux_output) else x) } : World),
                w4, rfl, hu, hbd, hrel, rfl, rfl⟩)⟩
            · have h4o : w4.outputs = l1 ++
                  ({ id := o0.id, split_output := none, psi_split_output := none,
                     psi_pid := some a } : upipe_ts_demux_output) :: l2 := by
                rw [hfr4.1]
                simp only [hbo]
                exact map_split (fun (x : upipe_ts_demux_output) => x.id) (fun _ => _) l1 l2
                  _ o0.id hd1 hd2 rfl
              simp only [h4o]
              exact map_split (fun (x : upipe_ts_demux_output) => x.id)
                (fun _ => unbound_output o0.id) l1 l2 _ o0.id hd1 hd2 rfl
            · have := hfru.2.1
              show w.next ≤ w4.next
              simp only at hn4
              omega
            · have h1 := hfr4.2.2
              simp only at h1
              show { w4.demux with psi_pids := [] } = { w.demux with psi_pids := [] }
              rw [h1, hbd]
              exact hfru.2.2.trans hfr1w
            · intro hs _
              rw [← hs1w] at hs
              have := (hsu hs).1
              exact absurd this (not_all_succeed_of_head _ (hbnone rfl))
          | some pso =>
            simp only []
            obtain ⟨r5, w5, h5⟩ := set_flow_def_some
              ({ b2 with outputs := b2.outputs.map (fun x => if x.id = o0.id then
                    ({ id := o0.id, split_output := none, psi_split_output := some pso,
                       psi_pid := some a } : upipe_ts_demux_output) else x) } : World) pso fd
            obtain ⟨hst5, _, _⟩ := set_flow_def_facts _ _ _ _ _ h5
            rw [h5]
            simp only [Option.map_some']
            have h5o : w5.outputs = l1 ++
                ({ id := o0.id, split_output := none, psi_split_output := some pso,
                   psi_pid := some a } : upipe_ts_demux_output) :: l2 := by
              rw [hst5.2.1]
              simp only [hbo]
              exact map_split (fun (x : upipe_ts_demux_output) => x.id) (fun _ => _) l1 l2
                _ o0.id hd1 hd2 rfl
            have h5d : w5.demux = wu.demux := by
              rw [hst5.1]
              exact hbd
            have h5n : wu.next ≤ w5.next := Nat.le_trans hbn hst5.2.2
            have h5x : w5.next = wu.next + 1 := by
              rw [set_flow_def_next _ _ _ _ _ h5]
              exact (hbsome pso rfl).2.2
            refine ⟨true, w5, _, rfl, h5o, rfl, ⟨Or.inl rfl, by simp⟩, ?_, ?_,
              fun h => Bool.noConfusion h, ?_, fun h => (hnot h).elim, fun _ _ => rfl,
              w1, hn1w, hsame1w, Or.inr (Or.inl ⟨pid, a, wu, rfl, hu, rfl, h5d, h5x⟩)⟩
            · have := hfru.2.1
              omega
            · rw [h5d]
              exact hfru.2.2.trans hfr1w
            · intro _
              refine ⟨pid, rfl, hlt, fun _ => ⟨a, pso, e1, rfl, ?_, he1a, ?_⟩,
                fun h => absurd h hf⟩
              · rw [h5d]
                exact he1mem
              · rw [he1p, hpid16]
      · rw [if_neg hf]
        have hfn : fd.psi_filter = none := by
          by_contra h
          exact hf h
        obtain ⟨s, hs⟩ := Option.ne_none_iff_exists'.mp hsplit1
        rw [hs]
        simp only [upipe_alloc_output, World.put_output, unbound_output]
        generalize hb : upipe_alloc w1 (pipe_mgr.output_of s) uprobe.plumber = b
        have hbf := upipe_alloc_facts w1 (pipe_mgr.output_of s) uprobe.plumber
        rw [hb] at hbf
        obtain ⟨hbst, hbsc, hbnone, hbsome⟩ := hbf
        obtain ⟨b1, b2⟩ := b
        simp only at hbst hbsc hbnone hbsome
        have hbn : w1.next ≤ b2.next := hbst.2.2
        have hbd : b2.demux = w1.demux := hbst.1
        have hbo : b2.outputs = l1 ++ unbound_output o0.id :: l2 := by
          rw [hbst.2.1]
          exact hout1
        cases b1 with
        | none =>
          simp only []
          refine ⟨false, _, unbound_output o0.id, rfl, ?_, rfl, kind_unbound _, ?_, ?_,
            fun _ => rfl, fun h => Bool.noConfusion h, fun h => (hnot h).elim, ?_,
            w1, hn1w, hsame1w, Or.inl ⟨rfl, hbd⟩⟩
          · simp only [hbo]
            exact map_split (fun (x : upipe_ts_demux_output) => x.id)
              (fun _ => unbound_output o0.id) l1 l2 _ o0.id hd1 hd2 rfl
          · show w.next ≤ b2.next
            omega
          · show { b2.demux with psi_pids := [] } = { w.demux with psi_pids := [] }
            rw [hbd]
            exact hfr1w
          · intro hsc _
            rw [← hs1w] at hsc
            exact absurd hsc (not_all_succeed_of_head _ (hbnone rfl))
        | some so =>
          simp only []
          obtain ⟨r5, w5, h5⟩ := set_flow_def_some
            ({ b2 with outputs := b2.outputs.map (fun x => if x.id = o0.id then
                  ({ id := o0.id, split_output := some so, psi_split_output := none,
                     psi_pid := none } : upipe_ts_demux_output) else x) } : World) so fd
          obtain ⟨hst5, _, _⟩ := set_flow_def_facts _ _ _ _ _ h5
          rw [h5]
          simp only [Option.map_some']
          have h5o : w5.outputs = l1 ++
              ({ id := o0.id, split_output := some so, psi_split_output := none,
                 psi_pid := none } : upipe_ts_demux_output) :: l2 := by
            rw [hst5.2.1]
            simp only [hbo]
            exact map_split (fun (x : upipe_ts_demux_output) => x.id) (fun _ => _) l1 l2
              _ o0.id hd1 hd2 rfl
          have h5d : w5.demux = w1.demux := by
            rw [hst5.1]
            exact hbd
          have h5n : w1.next ≤ w5.next := Nat.le_trans hbn hst5.2.2
          refine ⟨true, w5, _, rfl, h5o, rfl, ⟨Or.inr rfl, by simp⟩, ?_, ?_,
            fun h => Bool.noConfusion h, ?_, fun h => (hnot h).elim, fun _ _ => rfl,
            w1, hn1w, hsame1w, Or.inl ⟨rfl, h5d⟩⟩
          · omega
          · rw [h5d]
            exact hfr1w
          · intro _
            exact ⟨pid, rfl, hlt, fun h => absurd hfn h, fun _ => ⟨so, rfl⟩⟩

theorem outputs_inv_script (w : World) (s : List Bool) (h : outputs_inv w) :
    outputs_inv { w with script := s } :=
  ⟨h.split, h.uref_mgr, h.ids_nodup, h.ids_lt, h.kind⟩

theorem frame_split {w w1 : World}
    (h : { w1.demux with psi_pids := [] } = { w.demux with psi_pids := [] }) :
    w1.demux.split = w.demux.split ∧ w1.demux.uref_mgr = w.demux.uref_mgr ∧
    w1.demux.psi_pid_pat = w.demux.psi_pid_pat := by
  have h1 := congrArg upipe_ts_demux.split h
  have h2 := congrArg upipe_ts_demux.uref_mgr h
  have h3 := congrArg upipe_ts_demux.psi_pid_pat h
  exact ⟨h1, h2, h3⟩

theorem output_alloc_facts (w : World) :
    (upipe_ts_demux_output_alloc w).2.demux = w.demux ∧
    w.next ≤ (upipe_ts_demux_output_alloc w).2.next ∧
    (((upipe_ts_demux_output_alloc w).1 = none ∧
      (upipe_ts_demux_output_alloc w).2.outputs = w.outputs ∧
      w.script.headD true = false) ∨
     ((upipe_ts_demux_output_alloc w).1 = some w.next ∧
      (upipe_ts_demux_output_alloc w).2.outputs = w.outputs ++ [unbound_output w.next] ∧
      (upipe_ts_demux_output_alloc w).2.next = w.next + 1 ∧
      w.script.headD true = true)) := by
  have hd := steady_draw w
  have hf := draw_fst w
  unfold upipe_ts_demux_output_alloc
  simp only []
  by_cases hm : w.draw.1 = false
  · rw [if_pos hm]
    rw [hm] at hf
    exact ⟨hd.1, hd.2.2, Or.inl ⟨rfl, hd.2.1, hf.symm⟩⟩
  · rw [if_neg hm]
    have hn : w.draw.2.next = w.next := by
      unfold World.draw
      split <;> rfl
    have ht : w.draw.1 = true := by
      cases h : w.draw.1
      · exact absurd h hm
      · rfl
    rw [ht] at hf
    simp only [hn, hd.2.1]
    refine ⟨hd.1, by omega, Or.inr ⟨trivial, ?_, trivial, hf.symm⟩⟩
    rfl

theorem outputs_inv_alloc (w : World) (h : outputs_inv w) :
    outputs_inv (upipe_ts_demux_output_alloc w).2 := by
  obtain ⟨hd, hn, hc⟩ := output_alloc_facts w
  rcases hc with ⟨_, ho, _⟩ | ⟨_, ho, hnx, _⟩
  · refine ⟨by rw [hd]; exact h.split, by rw [hd]; exact h.uref_mgr, by rw [ho]; exact h.ids_nodup,
      ?_, by rw [ho]; exact h.kind⟩
    intro o hmem
    rw [ho] at hmem
    exact Nat.lt_of_lt_of_le (h.ids_lt o hmem) hn
  · refine ⟨by rw [hd]; exact h.split, by rw [hd]; exact h.uref_mgr, ?_, ?_, ?_⟩
    · rw [ho, List.map_append, List.nodup_append]
      refine ⟨h.ids_nodup, by simp, ?_⟩
      intro a ha hb
      simp only [List.map_cons, List.map_nil, List.mem_singleton, unbound_output] at hb
      subst hb
      obtain ⟨x, hx, hxa⟩ := List.mem_map.mp ha
      have := h.ids_lt x hx
      omega
    · intro o hmem
      rw [ho] at hmem
      rw [hnx]
      rcases List.mem_append.mp hmem with hmem | hmem
      · exact Nat.lt_succ_of_lt (h.ids_lt o hmem)
      · simp only [List.mem_singleton] at hmem
        subst hmem
        exact Nat.lt_succ_self _
    · intro o hmem
      rw [ho] at hmem
      rcases List.mem_append.mp hmem with hmem | hmem
      · exact h.kind o hmem
      · simp only [List.mem_singleton] at hmem
        subst hmem
        exact kind_unbound _

theorem set_flow_def_found (w : World) (id : Nat) (fd : uref) (x : Bool × World)
    (h : upipe_ts_demux_output_set_flow_def w id fd = some x) :
    ∃ o0, o0 ∈ w.outputs ∧ o0.id = id := by
  unfold upipe_ts_demux_output_set_flow_def at h
  cases hf : w.outputs.find? (fun x => x.id = id) with
  | none => rw [hf] at h; simp at h
  | some o0 => exact ⟨o0, List.mem_of_find?_eq_some hf, by simpa using List.find?_some hf⟩

theorem href_of_defined (w : World) (l1 l2 : List upipe_ts_demux_output)
    (o0 : upipe_ts_demux_output) (fd : uref) (x : Bool × World)
    (hout : w.outputs = l1 ++ o0 :: l2)
    (hd1 : ∀ x ∈ l1, x.id ≠ o0.id) (hd2 : ∀ x ∈ l2, x.id ≠ o0.id)
    (hkind : output_kind_ok o0)
    (h : upipe_ts_demux_output_set_flow_def w o0.id fd = some x) :
    ∀ a, o0.psi_pid = some a → a ∈ registry_addrs w := by
  intro a ha
  obtain ⟨wa, hwa, houta, hda, hna, hsa⟩ := drop_split_spec w l1 l2 o0 hout hd1 hd2
  unfold upipe_ts_demux_output_set_flow_def at h
  rw [hout, outputs_find l1 l2 o0 o0.id rfl hd1] at h
  simp only [hwa] at h
  have hne : o0.psi_split_output ≠ none := hkind.2.mp (by rw [ha]; simp)
  obtain ⟨p, hp⟩ := Option.ne_none_iff_exists'.mp hne
  cases hdp : output_drop_psi_split_output wa { o0 with split_output := none } with
  | none => rw [hdp] at h; simp at h
  | some y =>
    unfold output_drop_psi_split_output at hdp
    simp only [hp, upipe_release, Option.bind, bind, ha] at hdp
    cases hrel : upipe_ts_demux_psi_pid_release
        ((wa.emit (Action.upipe_release p)).put_output
          { id := o0.id, split_output := none, psi_split_output := none, psi_pid := some a })
        (some a) with
    | none => rw [hrel] at hdp; simp at hdp
    | some w2 =>
      obtain ⟨b, hb, hmem⟩ := release_defined _ _ _ hrel
      simp only [Option.some.injEq] at hb
      subst hb
      unfold registry_addrs at hmem ⊢
      rw [← hda]
      exact hmem
theorem output_release_facts (w : World) (id : Nat) (w1 : World)
    (h : upipe_ts_demux_output_release w id = some w1) :
    w1.outputs = w.outputs.filter (fun x => x.id ≠ id) ∧ w1.next = w.next ∧
    { w1.demux with psi_pids := [] } = { w.demux with psi_pids := [] } := by
  unfold upipe_ts_demux_output_release at h
  cases hf : w.outputs.find? (fun x => x.id = id) with
  | none => rw [hf] at h; simp at h
  | some o =>
    rw [hf] at h
    simp only at h
    have h1 : ∃ wa, (match o.split_output with
        | none => some (w.emit (Action.throw (some id) thrown.dead))
        | some p => upipe_release (w.emit (Action.throw (some id) thrown.dead)) (some p)) =
          some wa ∧ wa.outputs = w.outputs ∧ wa.next = w.next ∧ wa.demux = w.demux := by
      cases o.split_output with
      | none => exact ⟨_, rfl, rfl, rfl, rfl⟩
      | some p => exact ⟨_, rfl, rfl, rfl, rfl⟩
    obtain ⟨wa, hwa, hoa, hna, hda⟩ := h1
    rw [hwa] at h
    simp only at h
    cases hpso : o.psi_split_output with
    | none =>
      rw [hpso] at h
      simp only [Option.some.injEq] at h
      subst h
      exact ⟨by simp only [hoa], hna, by simp only [hda]⟩
    | some p =>
      rw [hpso] at h
      simp only [upipe_release, Option.some_bind] at h
      cases hrel : upipe_ts_demux_psi_pid_release (wa.emit (Action.upipe_release p)) o.psi_pid with
      | none => rw [hrel] at h; simp at h
      | some w3 =>
        rw [hrel] at h
        simp only [Option.some.injEq] at h
        subst h
        obtain ⟨hfr, hn3, _⟩ := release_frame _ _ _ hrel
        refine ⟨?_, ?_, ?_⟩
        · simp only [hfr.1]
          show List.filter _ wa.outputs = _
          rw [hoa]
        · simp only [hn3]
          exact hna
        · have h3 := hfr.2.2
          have h4 : (wa.emit (Action.upipe_release p)).demux = w.demux := hda
          rw [h4] at h3
          exact h3

theorem outputs_inv_release (w : World) (id : Nat) (w1 : World) (hK : outputs_inv w)
    (h : upipe_ts_demux_output_release w id = some w1) : outputs_inv w1 := by
  obtain ⟨ho, hn, hfr⟩ := output_release_facts w id w1 h
  obtain ⟨hs, hm, _⟩ := frame_split hfr
  refine ⟨by rw [hs]; exact hK.split, by rw [hm]; exact hK.uref_mgr, ?_, ?_, ?_⟩
  · rw [ho]
    exact List.Nodup.sublist (List.Sublist.map _ (List.filter_sublist _)) hK.ids_nodup
  · intro o hmem
    rw [ho] at hmem
    rw [hn]
    exact hK.ids_lt o (List.mem_of_mem_filter hmem)
  · intro o hmem
    rw [ho] at hmem
    exact hK.kind o (List.mem_of_mem_filter hmem)

theorem outputs_inv_set_flow_def (w : World) (id : Nat) (fd : uref) (r : Bool) (w2 : World)
    (hK : outputs_inv w)
    (h : upipe_ts_demux_output_set_flow_def w id fd = some (r, w2)) :
    outputs_inv w2 ∧ ∃ o2 ∈ w2.outputs, o2.id = id ∧
      (r = false → o2 = unbound_output id) ∧
      (r = true → ∃ pid, fd.pid = some pid ∧ pid < MAX_PIDS ∧
        (fd.psi_filter ≠ none → ∃ a pso e,
          o2 = { id := id, split_output := none, psi_split_output := some pso,
                 psi_pid := some a } ∧
          e ∈ w2.demux.psi_pids ∧ e.addr = a ∧ e.pid = pid) ∧
        (fd.psi_filter = none → ∃ so,
          o2 = { id := id, split_output := some so, psi_split_output := none,
                 psi_pid := none })) := by
  obtain ⟨o0, hmem, hid⟩ := set_flow_def_found w id fd _ h
  subst hid
  obtain ⟨l1, l2, hout, hd1, hd2⟩ :=
    split_of_mem_nodup (fun (x : upipe_ts_demux_output) => x.id) w.outputs o0 hK.ids_nodup hmem
  have href := href_of_defined w l1 l2 o0 fd _ hout hd1 hd2 (hK.kind o0 hmem) h
  obtain ⟨r1, w3, o2, heq, hout2, hid2, hkind2, hn2, hfr2, hfalse, htrue, _, _⟩ :=
    set_flow_def_shape w l1 l2 o0 fd hout hd1 hd2 hK.split hK.uref_mgr (hK.kind o0 hmem) href
  rw [h] at heq
  simp only [Option.some.injEq, Prod.mk.injEq] at heq
  obtain ⟨rfl, rfl⟩ := heq
  obtain ⟨hs, hm, _⟩ := frame_split hfr2
  refine ⟨⟨by rw [hs]; exact hK.split, by rw [hm]; exact hK.uref_mgr, ?_, ?_, ?_⟩,
    o2, by rw [hout2]; simp, hid2, hfalse, htrue⟩
  · have := hK.ids_nodup
    rw [hout] at this
    rw [hout2]
    simpa [List.map_append, hid2] using this
  · intro o hmem2
    rw [hout2] at hmem2
    have hlt := hK.ids_lt
    rw [hout] at hlt
    rcases List.mem_append.mp hmem2 with hx | hx
    · exact Nat.lt_of_lt_of_le (hlt o (by simp [hx])) hn2
    · rcases List.mem_cons.mp hx with hx | hx
      · subst hx
        rw [hid2]
        exact Nat.lt_of_lt_of_le (hlt o0 (by simp)) hn2
      · exact Nat.lt_of_lt_of_le (hlt o (by simp [hx])) hn2
  · intro o hmem2
    rw [hout2] at hmem2
    have hk := hK.kind
    rw [hout] at hk
    rcases List.mem_append.mp hmem2 with hx | hx
    · exact hk o (by simp [hx])
    · rcases List.mem_cons.mp hx with hx | hx
      · subst hx
        exact hkind2
      · exact hk o (by simp [hx])

theorem outputs_inv_run (cs : List output_call) :
    ∀ (w w1 : World), outputs_inv w → run_output_calls w cs = some w1 → outputs_inv w1 := by
  induction cs with
  | nil =>
    intro w w1 hK h
    simp only [run_output_calls, Option.some.injEq] at h
    subst h
    exact hK
  | cons c rest ih =>
    intro w w1 hK h
    unfold run_output_calls at h
    cases hc : c.run w with
    | none => rw [hc] at h; simp at h
    | some w2 =>
      rw [hc] at h
      simp only [Option.some_bind] at h
      refine ih w2 w1 ?_ h
      cases c with
      | alloc script =>
        simp only [output_call.run, Option.some.injEq] at hc
        subst hc
        exact outputs_inv_alloc _ (outputs_inv_script w script hK)
      | set_flow_def id fd script =>
        simp only [output_call.run] at hc
        cases hs : upipe_ts_demux_output_set_flow_def { w with script := script } id fd with
        | none => rw [hs] at hc; simp at hc
        | some x =>
          obtain ⟨r, w3⟩ := x
          rw [hs] at hc
          simp only [Option.map_some', Option.some.injEq] at hc
          subst hc
          exact (outputs_inv_set_flow_def _ id fd r w3 (outputs_inv_script w script hK) hs).1
      | release id =>
        simp only [output_call.run] at hc
        exact outputs_inv_release w id w2 hK hc

/-- C19: in every state reached from a constructed demux without outputs by
allocations of outputs, `set_flow_def` calls on outputs (successful or failed,
repeated) and releases of outputs, no output holds both a split output and an
output of a PSI split, and an output holds a reference on the registry exactly
when it holds an output of a PSI split.  From such a state, after a successful
`set_flow_def` with a PSI filter the output holds an output of a PSI split and
a reference on the registry entry whose PID is the one of the flow definition,
and no split output; after a successful `set_flow_def` without a PSI filter it
holds a split output and neither an output of a PSI split nor a reference on
the registry. -/
theorem C19_output_binding_kind (w0 : World) (cs : List output_call) (w : World)
    (hout : w0.outputs = []) (hsplit : w0.demux.split ≠ none)
    (hmgr : w0.demux.uref_mgr ≠ none)
    (hrun : run_output_calls w0 cs = some w) :
    (∀ o ∈ w.outputs,
      ¬ (o.split_output ≠ none ∧ o.psi_split_output ≠ none) ∧
      (o.psi_pid ≠ none ↔ o.psi_split_output ≠ none)) ∧
    (∀ id fd script w2,
      upipe_ts_demux_output_set_flow_def { w with script := script } id fd = some (true, w2) →
      ∃ o2 ∈ w2.outputs, o2.id = id ∧
        (fd.psi_filter ≠ none →
          o2.split_output = none ∧ o2.psi_split_output ≠ none ∧
          ∃ e ∈ w2.demux.psi_pids, o2.psi_pid = some e.addr ∧ fd.pid = some e.pid) ∧
        (fd.psi_filter = none →
          o2.split_output ≠ none ∧ o2.psi_split_output = none ∧ o2.psi_pid = none)) := by
  have h0 : outputs_inv w0 := by
    refine ⟨hsplit, hmgr, ?_, ?_, ?_⟩ <;> simp [hout]
  have hK := outputs_inv_run cs w0 w h0 hrun
  refine ⟨?_, ?_⟩
  · intro o ho
    obtain ⟨h1, h2⟩ := hK.kind o ho
    refine ⟨?_, h2⟩
    rintro ⟨ha, hb⟩
    rcases h1 with h1 | h1
    · exact ha h1
    · exact hb h1
  · intro id fd script w2 hs
    obtain ⟨_, o2, hmem, hid, _, htrue⟩ :=
      outputs_inv_set_flow_def _ id fd true w2 (outputs_inv_script w script hK) hs
    obtain ⟨pid, hpid, _, hpsi, hnopsi⟩ := htrue rfl
    refine ⟨o2, hmem, hid, ?_, ?_⟩
    · intro hf
      obtain ⟨a, pso, e, ho2, he, hea, hep⟩ := hpsi hf
      subst ho2
      refine ⟨rfl, by simp, e, he, ?_, ?_⟩
      · simp only [hea]
      · rw [hpid, hep]
    · intro hf
      obtain ⟨so, ho2⟩ := hnopsi hf
      subst ho2
      exact ⟨by simp, rfl, rfl⟩

/-- Witness of C19: `example_output_calls` from `example_constructed`. -/
theorem C19_witness :
    example_constructed.outputs = [] ∧ example_constructed.demux.split ≠ none ∧
    example_constructed.demux.uref_mgr ≠ none ∧
    run_output_calls example_constructed example_output_calls = some example_outputs_state ∧
    example_outputs_state.outputs =
      [{ id := 6, split_output := some 8, psi_split_output := none, psi_pid := none }] ∧
    ∀ o ∈ example_outputs_state.outputs,
      ¬ (o.split_output ≠ none ∧ o.psi_split_output ≠ none) ∧
      (o.psi_pid ≠ none ↔ o.psi_split_output ≠ none) :=
  ⟨rfl, by decide, by decide, rfl, by decide,
   (C19_output_binding_kind example_constructed example_output_calls example_outputs_state
      rfl (by decide) (by decide) rfl).1⟩

/-- C18: `set_flow_def` on an output of a constructed demux (the output holds
at most one kind of binding and, if bound through a PSI filter, a reference on
a structure of the registry), when every allocation to come succeeds.  The call
returns, and returns true if and only if the flow definition carries a PID
attribute below 8192.  A flow definition without PID attribute or with a PID
of 8192 or more is rejected: the output is left bound to nothing, and no entry
is added to the registry. -/
theorem C18_set_flow_def_pid_check (w : World) (o : upipe_ts_demux_output) (fd : uref)
    (hids : (w.outputs.map (fun x => x.id)).Nodup) (ho : o ∈ w.outputs)
    (hsplit : w.demux.split ≠ none) (hmgr : w.demux.uref_mgr ≠ none)
    (hkind : output_kind_ok o)
    (href : ∀ a, o.psi_pid = some a → a ∈ registry_addrs w)
    (hs : all_succeed w.script) :
    ∃ r w2, upipe_ts_demux_output_set_flow_def w o.id fd = some (r, w2) ∧
      (r = true ↔ ∃ pid, fd.pid = some pid ∧ pid < MAX_PIDS) ∧
      ((fd.pid = none ∨ ∃ pid, fd.pid = some pid ∧ MAX_PIDS ≤ pid) →
        r = false ∧
        w2.outputs.find? (fun x => x.id = o.id) = some (unbound_output o.id) ∧
        (registry_pids w2).Sublist (registry_pids w) ∧
        w2.demux.psi_pids.length ≤ w.demux.psi_pids.length) := by
  obtain ⟨l1, l2, hout, hd1, hd2⟩ :=
    split_of_mem_nodup (fun (x : upipe_ts_demux_output) => x.id) w.outputs o hids ho
  obtain ⟨r, w2, o2, heq, hout2, hid2, _, _, _, hfalse, htrue, hrej, hok, _⟩ :=
    set_flow_def_shape w l1 l2 o fd hout hd1 hd2 hsplit hmgr hkind href
  refine ⟨r, w2, heq, ⟨?_, hok hs⟩, ?_⟩
  · intro hr
    obtain ⟨pid, hpid, hlt, _⟩ := htrue hr
    exact ⟨pid, hpid, hlt⟩
  · intro hbad
    have hall : ∀ pid, fd.pid = some pid → MAX_PIDS ≤ pid := by
      intro pid hpid
      rcases hbad with hn | ⟨pid1, hp1, hge⟩
      · rw [hn] at hpid
        cases hpid
      · rw [hp1] at hpid
        simp only [Option.some.injEq] at hpid
        subst hpid
        exact hge
    have hr : r = false := by
      cases r with
      | false => rfl
      | true =>
        obtain ⟨pid, hpid, hlt, _⟩ := htrue rfl
        have := hall pid hpid
        omega
    obtain ⟨hsub, hlen, _⟩ := hrej hall
    refine ⟨hr, ?_, hsub, hlen⟩
    rw [hout2, hfalse hr]
    exact outputs_find l1 l2 (unbound_output o.id) o.id rfl hd1

/-- Witness of C18: the PAT flow definition (PID 0, with a PSI filter) set on
the output of `example_one_output` is accepted. -/
theorem C18_witness :
    (example_one_output.outputs.map (fun x => x.id)).Nodup ∧
    unbound_output 6 ∈ example_one_output.outputs ∧
    example_one_output.demux.split ≠ none ∧ example_one_output.demux.uref_mgr ≠ none ∧
    all_succeed example_one_output.script ∧
    ∃ r w2, upipe_ts_demux_output_set_flow_def example_one_output 6 example_pat_flow_def =
        some (r, w2) ∧
      (r = true ↔ ∃ pid, example_pat_flow_def.pid = some pid ∧ pid < MAX_PIDS) := by
  obtain ⟨r, w2, h, hiff, _⟩ := C18_set_flow_def_pid_check example_one_output (unbound_output 6)
    example_pat_flow_def (by decide) (by decide) (by decide) (by decide) (kind_unbound 6)
    (fun a ha => by cases ha) all_succeed_nil
  exact ⟨by decide, by decide, by decide, by decide, all_succeed_nil, r, w2, h, hiff⟩

theorem release_split_gen (w : World) (l1 l2 : List upipe_ts_demux_psi_pid)
    (e : upipe_ts_demux_psi_pid)
    (hreg : w.demux.psi_pids = l1 ++ e :: l2)
    (hd1 : ∀ x ∈ l1, x.addr ≠ e.addr) (hd2 : ∀ x ∈ l2, x.addr ≠ e.addr) :
    upipe_ts_demux_psi_pid_release w (some e.addr) =
      if to_uint (e.refcount + 4294967295) = 0 then
        some { w.set_registry (l1 ++ l2) with
          log := w.log ++ [Action.upipe_release e.split_output,
                           Action.upipe_release e.psi_split] }
      else
        some (w.set_registry
          (l1 ++ { e with refcount := to_uint (e.refcount + 4294967295) } :: l2)) := by
  unfold upipe_ts_demux_psi_pid_release
  simp only [hreg]
  rw [find_split (fun x => x.addr) l1 l2 e e.addr hd1 rfl]
  simp only []
  by_cases hz : to_uint (e.refcount + 4294967295) = 0
  · rw [if_pos hz, if_pos hz]
    rw [filter_split (fun x => x.addr) l1 l2 e e.addr hd1 hd2 rfl]
    simp [upipe_release, World.emit, World.set_registry, World.set_demux, Option.bind]
  · rw [if_neg hz, if_neg hz]
    rw [map_split (fun x => x.addr)
      (fun x => { x with refcount := to_uint (e.refcount + 4294967295) }) l1 l2 e
      e.addr hd1 hd2 rfl]
    rfl

theorem demux_eta (d d1 : upipe_ts_demux) (l : List upipe_ts_demux_psi_pid)
    (h : d1 = { d with psi_pids := l }) : { d1 with psi_pids := d.psi_pids } = d := by
  subst h
  rfl

theorem use_release_cancel (w : World) (pid a : Nat) (wu wx w4 : World)
    (hnd : (registry_addrs w).Nodup)
    (hlt : ∀ e ∈ w.demux.psi_pids, e.addr < w.next)
    (hrc : ∀ e ∈ w.demux.psi_pids, 1 ≤ e.refcount ∧ e.refcount < 4294967296)
    (hu : upipe_ts_demux_psi_pid_use w pid = some (some a, wu))
    (hx : wx.demux = wu.demux)
    (hrel : upipe_ts_demux_psi_pid_release wx (some a) = some w4) :
    w4.demux = w.demux := by
  cases hf : upipe_ts_demux_psi_pid_find w pid with
  | some e =>
    obtain ⟨hmem, _⟩ := find_some_facts w pid e hf
    obtain ⟨l1, l2, hreg, hd1, hd2, hu2⟩ := psi_pid_use_found w pid e hnd hf
    rw [hu2] at hu
    simp only [Option.some.injEq, Prod.mk.injEq] at hu
    obtain ⟨rfl, rfl⟩ := hu
    have hregx : wx.demux.psi_pids =
        l1 ++ { e with refcount := to_uint (e.refcount + 1) } :: l2 := by
      rw [hx]
      rfl
    have hr := release_split_gen wx l1 l2 { e with refcount := to_uint (e.refcount + 1) }
      hregx hd1 hd2
    have hb := hrc e hmem
    have hback : to_uint (to_uint (e.refcount + 1) + 4294967295) = e.refcount := by
      unfold to_uint
      omega
    simp only [hback] at hr
    have hnz : ¬ e.refcount = 0 := by omega
    rw [if_neg hnz] at hr
    rw [hr] at hrel
    simp only [Option.some.injEq] at hrel
    subst hrel
    simp only [World.set_registry, World.set_demux, hx]
    have he : ∀ x : upipe_ts_demux_psi_pid,
        ({ x with refcount := x.refcount } : upipe_ts_demux_psi_pid) = x := fun _ => rfl
    rw [he e, ← hreg]
  | none =>
    have hu1 : upipe_ts_demux_psi_pid_use w pid = upipe_ts_demux_psi_pid_alloc w pid := by
      unfold upipe_ts_demux_psi_pid_use
      rw [hf]
    rw [hu1] at hu
    obtain ⟨_, _, hc⟩ := psi_pid_alloc_cases w pid _ wu hu
    rcases hc with ⟨hr, _⟩ | ⟨ps, so, hr, _, _, _, hd, _, _⟩
    · cases hr
    · simp only [Option.some.injEq] at hr
      subst hr
      have hregx : wx.demux.psi_pids = w.demux.psi_pids ++
          ({ addr := w.next, pid := to_uint16 pid, psi_split := ps, split_output := so,
             refcount := 1 } : upipe_ts_demux_psi_pid) :: [] := by
        rw [hx, hd]
      have hd1 : ∀ x ∈ w.demux.psi_pids, x.addr ≠ w.next := by
        intro x hxm
        have := hlt x hxm
        omega
      have hr := release_split_gen wx w.demux.psi_pids []
        { addr := w.next, pid := to_uint16 pid, psi_split := ps, split_output := so,
          refcount := 1 } hregx hd1 (fun x hxm => by cases hxm)
      have hz : to_uint (1 + 4294967295) = 0 := rfl
      simp only [hz, if_true] at hr
      rw [hr] at hrel
      simp only [Option.some.injEq] at hrel
      subst hrel
      simp only [World.set_registry, World.set_demux, hx, hd, List.append_nil]
theorem output_release_eval (wb : World) (id : Nat) (o : upipe_ts_demux_output)
    (hfind : wb.outputs.find? (fun x => x.id = id) = some o) :
    (o.psi_split_output = none →
      ∃ wc, upipe_ts_demux_output_release wb id = some wc ∧ wc.demux = wb.demux ∧
        wc.outputs = wb.outputs.filter (fun x => x.id ≠ id)) ∧
    (∀ p, o.psi_split_output = some p →
      ∃ wx, wx.demux = wb.demux ∧ wx.outputs = wb.outputs ∧ wx.next = wb.next ∧
        upipe_ts_demux_output_release wb id =
          (upipe_ts_demux_psi_pid_release wx o.psi_pid).map
            (fun w3 => { w3 with outputs := w3.outputs.filter (fun x => x.id ≠ id) })) := by
  obtain ⟨oid, so, pso, pp⟩ := o
  unfold upipe_ts_demux_output_release
  rw [hfind]
  simp only []
  constructor
  · intro hp
    subst hp
    cases so with
    | none => exact ⟨_, rfl, rfl, rfl⟩
    | some q => exact ⟨_, rfl, rfl, rfl⟩
  · intro p hp
    subst hp
    cases so with
    | none =>
      refine ⟨(wb.emit (Action.throw (some id) thrown.dead)).emit (Action.upipe_release p),
        rfl, rfl, rfl, ?_⟩
      simp only [upipe_release, Option.some_bind]
      cases upipe_ts_demux_psi_pid_release
        ((wb.emit (Action.throw (some id) thrown.dead)).emit (Action.upipe_release p)) pp <;> rfl
    | some q =>
      refine ⟨((wb.emit (Action.throw (some id) thrown.dead)).emit
          (Action.upipe_release q)).emit (Action.upipe_release p), rfl, rfl, rfl, ?_⟩
      simp only [upipe_release, Option.some_bind]
      cases upipe_ts_demux_psi_pid_release
        (((wb.emit (Action.throw (some id) thrown.dead)).emit
          (Action.upipe_release q)).emit (Action.upipe_release p)) pp <;> rfl

/-- C17: on a constructed demux (split pipe and manager present, outputs and
registry structures at distinct addresses below the next fresh one, use-counts
between 1 and `UINT_MAX`), for every flow definition and every outcome of the
allocations: once an output is allocated, setting the flow definition on it
returns, releasing the output then returns, and the registry is afterwards
equal to what it was before the allocation (same entries, same PIDs, same
use-counts, same order); the list of outputs is as before too. -/
theorem C17_alloc_set_flow_def_release (w : World) (fd : uref) (id : Nat) (wa : World)
    (hsplit : w.demux.split ≠ none) (hmgr : w.demux.uref_mgr ≠ none)
    (hids : ∀ o ∈ w.outputs, o.id < w.next)
    (hnd : (registry_addrs w).Nodup)
    (hlt : ∀ e ∈ w.demux.psi_pids, e.addr < w.next)
    (hrc : ∀ e ∈ w.demux.psi_pids, 1 ≤ e.refcount ∧ e.refcount < 4294967296)
    (halloc : upipe_ts_demux_output_alloc w = (some id, wa)) :
    ∃ r wb wc, upipe_ts_demux_output_set_flow_def wa id fd = some (r, wb) ∧
      upipe_ts_demux_output_release wb id = some wc ∧
      wc.demux.psi_pids = w.demux.psi_pids ∧ wc.outputs = w.outputs := by
  obtain ⟨hda, _, hc⟩ := output_alloc_facts w
  rw [halloc] at hda hc
  simp only at hda hc
  rcases hc with ⟨hn, _⟩ | ⟨hid, houta, hnexta, _⟩
  · cases hn
  simp only [Option.some.injEq] at hid
  subst hid
  have hd1 : ∀ x ∈ w.outputs, x.id ≠ (unbound_output w.next).id := by
    intro x hx
    have := hids x hx
    show x.id ≠ w.next
    omega
  have hd2 : ∀ x ∈ ([] : List upipe_ts_demux_output), x.id ≠ (unbound_output w.next).id :=
    fun x hx => by cases hx
  obtain ⟨r, wb, o2, heq, hout2, hid2, hkind2, _, _, _, _, _, _, w1, hn1, hsame, htrace⟩ :=
    set_flow_def_shape wa w.outputs [] (unbound_output w.next) fd houta hd1 hd2
      (by rw [hda]; exact hsplit) (by rw [hda]; exact hmgr) (kind_unbound _)
      (fun a ha => by cases ha)
  have hw1d : w1.demux = w.demux := (hsame rfl).trans hda
  have hnd1 : (registry_addrs w1).Nodup := by
    unfold registry_addrs
    rw [hw1d]
    exact hnd
  have hlt1 : ∀ e ∈ w1.demux.psi_pids, e.addr < w1.next := by
    intro e he
    rw [hw1d] at he
    have := hlt e he
    omega
  have hrc1 : ∀ e ∈ w1.demux.psi_pids, 1 ≤ e.refcount ∧ e.refcount < 4294967296 := by
    intro e he
    rw [hw1d] at he
    exact hrc e he
  have hid2n : o2.id = w.next := hid2
  have hfind : wb.outputs.find? (fun x => decide (x.id = w.next)) = some o2 := by
    rw [hout2]
    exact outputs_find w.outputs [] o2 w.next hid2n (fun x hx => hd1 x hx)
  have hfilter : wb.outputs.filter (fun x => decide (x.id ≠ w.next)) = w.outputs := by
    rw [hout2]
    have := filter_split (fun (x : upipe_ts_demux_output) => x.id) w.outputs [] o2 w.next
      (fun x hx => hd1 x hx) (fun x hx => by cases hx) hid2n
    rw [this, List.append_nil]
  obtain ⟨hev1, hev2⟩ := output_release_eval wb w.next o2 hfind
  refine ⟨r, wb, ?_⟩
  have hunbound : o2.psi_pid = none → wb.demux.psi_pids = w.demux.psi_pids →
      ∃ wc, upipe_ts_demux_output_set_flow_def wa w.next fd = some (r, wb) ∧
        upipe_ts_demux_output_release wb w.next = some wc ∧
        wc.demux.psi_pids = w.demux.psi_pids ∧ wc.outputs = w.outputs := by
    intro hpp hreg
    have hpso : o2.psi_split_output = none := by
      by_contra hne
      exact (hkind2.2.mpr hne) hpp
    obtain ⟨wc, hrel, hdc, hoc⟩ := hev1 hpso
    exact ⟨wc, heq, hrel, by rw [hdc, hreg], by rw [hoc, hfilter]⟩
  rcases htrace with ⟨hpp, hdb⟩ | ⟨pid, a, wu, _, hu, hpp, hdb, _⟩ |
    ⟨pid, a, wu, wx, w4, _, hu, hx, hrel, hpp, hdb⟩
  · exact hunbound hpp (by rw [hdb, hw1d])
  · have hne : o2.psi_split_output ≠ none := hkind2.2.mp (by rw [hpp]; simp)
    obtain ⟨p, hp⟩ := Option.ne_none_iff_exists'.mp hne
    obtain ⟨wx, hxd, hxo, _, hrelq⟩ := hev2 p hp
    obtain ⟨_, _, heu⟩ := use_frame w1 pid _ wu hu
    obtain ⟨e1, he1mem, he1a, _⟩ := heu a rfl
    have hamem : a ∈ registry_addrs wx := by
      unfold registry_addrs
      rw [hxd, hdb, List.mem_map]
      exact ⟨e1, he1mem, he1a⟩
    obtain ⟨w4, hrel⟩ := release_total wx a hamem
    have hcancel := use_release_cancel w1 pid a wu wx w4 hnd1 hlt1 hrc1 hu (hxd.trans hdb) hrel
    obtain ⟨hfr4, _, _⟩ := release_frame _ _ _ hrel
    refine ⟨{ w4 with outputs := w4.outputs.filter (fun x => x.id ≠ w.next) }, heq, ?_, ?_, ?_⟩
    · rw [hrelq, hpp, hrel]
      rfl
    · show w4.demux.psi_pids = _
      rw [hcancel, hw1d]
    · show w4.outputs.filter _ = _
      rw [hfr4.1, hxo]
      exact hfilter
  · have hcancel := use_release_cancel w1 pid a wu wx w4 hnd1 hlt1 hrc1 hu hx hrel
    exact hunbound hpp (by rw [hdb, hcancel, hw1d])

/-- Witness of C17: on `example_constructed`, an output is allocated, bound to
the PAT of PID 0 through a PSI filter (the use-count of the entry goes from 1
to 2), and released. -/
theorem C17_witness :
    example_constructed.demux.split ≠ none ∧ example_constructed.demux.uref_mgr ≠ none ∧
    (registry_addrs example_constructed).Nodup ∧
    upipe_ts_demux_output_alloc example_constructed = (some 6, example_one_output) ∧
    ∃ r wb wc, upipe_ts_demux_output_set_flow_def example_one_output 6 example_pat_flow_def =
        some (r, wb) ∧
      upipe_ts_demux_output_release wb 6 = some wc ∧
      wc.demux.psi_pids = example_constructed.demux.psi_pids ∧
      wc.outputs = example_constructed.outputs :=
  ⟨by decide, by decide, by decide, rfl,
   C17_alloc_set_flow_def_release example_constructed example_pat_flow_def 6 example_one_output
     (by decide) (by decide) (by decide) (by decide) (by decide) (by decide) rfl⟩

theorem entries_kept_refl (n : Nat) (l : List upipe_ts_demux_psi_pid) : entries_kept n l l :=
  fun e he => Or.inl ⟨e, he, rfl, rfl⟩

theorem entries_kept_trans {n n1 : Nat} {l l1 l2 : List upipe_ts_demux_psi_pid}
    (h1 : entries_kept n l l1) (h2 : entries_kept n1 l1 l2) (hn : n ≤ n1) :
    entries_kept n l l2 := by
  intro e2 he2
  rcases h2 e2 he2 with ⟨e1, he1, ha, hp⟩ | hge
  · rcases h1 e1 he1 with ⟨e, he, ha1, hp1⟩ | hge
    · exact Or.inl ⟨e, he, ha1.trans ha, hp1.trans hp⟩
    · exact Or.inr (by omega)
  · exact Or.inr (by omega)

theorem release_kept (w : World) (p : Option Nat) (w1 : World) (n : Nat)
    (h : upipe_ts_demux_psi_pid_release w p = some w1) :
    entries_kept n w.demux.psi_pids w1.demux.psi_pids := by
  unfold upipe_ts_demux_psi_pid_release at h
  cases p with
  | none => simp at h
  | some addr =>
    simp only at h
    cases hf : w.demux.psi_pids.find? (fun e => e.addr = addr) with
    | none => rw [hf] at h; simp at h
    | some e =>
      rw [hf] at h
      simp only at h
      split at h
      · simp only [upipe_release, World.emit, World.set_demux, Option.bind, Option.some.injEq,
          bind] at h
        subst h
        intro e1 he1
        exact Or.inl ⟨e1, List.mem_of_mem_filter he1, rfl, rfl⟩
      · simp only [Option.some.injEq] at h
        subst h
        intro e1 he1
        simp only [World.set_demux, List.mem_map] at he1
        obtain ⟨x, hx, hxe⟩ := he1
        refine Or.inl ⟨x, hx, ?_⟩
        split at hxe
        · subst hxe
          exact ⟨rfl, rfl⟩
        · subst hxe
          exact ⟨rfl, rfl⟩

theorem use_kept (w : World) (pid : Nat) (r : Option Nat) (w1 : World)
    (h : upipe_ts_demux_psi_pid_use w pid = some (r, w1)) :
    entries_kept w.next w.demux.psi_pids w1.demux.psi_pids := by
  cases hf : upipe_ts_demux_psi_pid_find w pid with
  | none =>
    have hu : upipe_ts_demux_psi_pid_use w pid = upipe_ts_demux_psi_pid_alloc w pid := by
      unfold upipe_ts_demux_psi_pid_use
      rw [hf]
    rw [hu] at h
    obtain ⟨_, _, hc⟩ := psi_pid_alloc_cases w pid r w1 h
    rcases hc with ⟨_, hd, _⟩ | ⟨ps, so, _, _, _, _, hd, _, _⟩
    · rw [hd]
      exact entries_kept_refl _ _
    · rw [hd]
      intro e1 he1
      simp only [List.mem_append, List.mem_singleton] at he1
      rcases he1 with he1 | he1
      · exact Or.inl ⟨e1, he1, rfl, rfl⟩
      · subst he1
        exact Or.inr (Nat.le_refl _)
  | some e =>
    unfold upipe_ts_demux_psi_pid_use at h
    rw [hf] at h
    simp only [Option.some.injEq, Prod.mk.injEq] at h
    obtain ⟨_, rfl⟩ := h
    intro e1 he1
    simp only [World.set_demux, List.mem_map] at he1
    obtain ⟨x, hx, hxe⟩ := he1
    refine Or.inl ⟨x, hx, ?_⟩
    split at hxe
    · subst hxe
      exact ⟨rfl, rfl⟩
    · subst hxe
      exact ⟨rfl, rfl⟩

theorem set_flow_def_kept (w : World) (l1 l2 : List upipe_ts_demux_output)
    (o0 : upipe_ts_demux_output) (fd : uref) (r : Bool) (w2 : World)
    (hout : w.outputs = l1 ++ o0 :: l2)
    (hd1 : ∀ x ∈ l1, x.id ≠ o0.id) (hd2 : ∀ x ∈ l2, x.id ≠ o0.id)
    (hkind : output_kind_ok o0)
    (h : upipe_ts_demux_output_set_flow_def w o0.id fd = some (r, w2)) :
    entries_kept w.next w.demux.psi_pids w2.demux.psi_pids := by
  obtain ⟨wa, hwa, houta, hda, hna, hsa⟩ := drop_split_spec w l1 l2 o0 hout hd1 hd2
  unfold upipe_ts_demux_output_set_flow_def at h
  rw [hout, outputs_find l1 l2 o0 o0.id rfl hd1] at h
  simp only [hwa] at h
  have hA : ∀ w1 o1, output_drop_psi_split_output wa { o0 with split_output := none } =
      some (w1, o1) → entries_kept w.next w.demux.psi_pids w1.demux.psi_pids ∧
        w1.next = w.next := by
    intro w1 o1 hdp
    unfold output_drop_psi_split_output at hdp
    cases hp : o0.psi_split_output with
    | none =>
      simp only [hp, Option.some.injEq, Prod.mk.injEq] at hdp
      obtain ⟨rfl, _⟩ := hdp
      rw [hda]
      exact ⟨entries_kept_refl _ _, hna⟩
    | some p =>
      simp only [hp, upipe_release, Option.bind, bind] at hdp
      cases hrel : upipe_ts_demux_psi_pid_release
          ((wa.emit (Action.upipe_release p)).put_output
            { id := o0.id, split_output := none, psi_split_output := none,
              psi_pid := o0.psi_pid })
          o0.psi_pid with
      | none => rw [hrel] at hdp; simp at hdp
      | some w3 =>
        rw [hrel] at hdp
        simp only [Option.some.injEq, Prod.mk.injEq] at hdp
        obtain ⟨rfl, _⟩ := hdp
        have hk := release_kept _ _ _ w.next hrel
        obtain ⟨_, hn3, _⟩ := release_frame _ _ _ hrel
        refine ⟨?_, hn3.trans hna⟩
        have hd0 : ((wa.emit (Action.upipe_release p)).put_output
            { id := o0.id, split_output := none, psi_split_output := none,
              psi_pid := o0.psi_pid }).demux = w.demux := hda
        rw [hd0] at hk
        exact hk
  cases hdp : output_drop_psi_split_output wa { o0 with split_output := none } with
  | none => rw [hdp] at h; simp at h
  | some y =>
    obtain ⟨w1, o1⟩ := y
    obtain ⟨hk1, hn1⟩ := hA w1 o1 hdp
    rw [hdp] at h
    simp only at h
    cases hp : fd.pid with
    | none =>
      rw [hp] at h
      simp only [Option.some.injEq, Prod.mk.injEq] at h
      obtain ⟨_, rfl⟩ := h
      exact hk1
    | some pid =>
      rw [hp] at h
      simp only at h
      split at h
      · simp only [Option.some.injEq, Prod.mk.injEq] at h
        obtain ⟨_, rfl⟩ := h
        exact hk1
      · split at h
        · cases hu : upipe_ts_demux_psi_pid_use w1 pid with
          | none => rw [hu] at h; simp at h
          | some z =>
            obtain ⟨ru, wu⟩ := z
            have hku := use_kept w1 pid ru wu hu
            have hk2 : entries_kept w.next w.demux.psi_pids wu.demux.psi_pids :=
              entries_kept_trans hk1 hku (by omega)
            obtain ⟨hfru, _, _⟩ := use_frame w1 pid ru wu hu
            rw [hu] at h
            cases ru with
            | none =>
              simp only [Option.some.injEq, Prod.mk.injEq] at h
              obtain ⟨_, rfl⟩ := h
              exact hk2
            | some a =>
              simp only [World.put_output] at h
              cases hfind : wu.demux.psi_pids.find? (fun e => decide (e.addr = a)) with
              | none => rw [hfind] at h; simp at h
              | some e =>
                rw [hfind] at h
                simp only [upipe_alloc_output] at h
                generalize hb : upipe_alloc
                  { wu with outputs := wu.outputs.map (fun x => if x.id = o1.id then
                      ({ o1 with psi_pid := some a } : upipe_ts_demux_output) else x) }
                  (pipe_mgr.output_of e.psi_split) uprobe.psi_split_plumber = b at h
                have hbf := (upipe_alloc_facts
                  { wu with outputs := wu.outputs.map (fun x => if x.id = o1.id then
                      ({ o1 with psi_pid := some a } : upipe_ts_demux_output) else x) }
                  (pipe_mgr.output_of e.psi_split) uprobe.psi_split_plumber).1
                rw [hb] at hbf
                obtain ⟨b1, b2⟩ := b
                have hbd : b2.demux = wu.demux := hbf.1
                have hbn : wu.next ≤ b2.next := hbf.2.2
                cases b1 with
                | none =>
                  simp only [] at h
                  cases hrel : upipe_ts_demux_psi_pid_release
                      { b2 with outputs := b2.outputs.map (fun x => if x.id = o1.id then
                          ({ o1 with psi_pid := some a, psi_split_output := none } :
                            upipe_ts_demux_output) else x) } (some a) with
                  | none => rw [hrel] at h; simp at h
                  | some w4 =>
                    rw [hrel] at h
                    simp only [Option.map_some', Option.some.injEq, Prod.mk.injEq] at h
                    obtain ⟨_, rfl⟩ := h
                    have hk4 := release_kept _ _ _ wu.next hrel
                    simp only [hbd] at hk4
                    exact entries_kept_trans hk2 hk4 (by have := hfru.2.1; omega)
                | some pso =>
                  simp only [] at h
                  cases h5 : upipe_set_flow_def
                      { b2 with outputs := b2.outputs.map (fun x => if x.id = o1.id then
                          ({ o1 with psi_pid := some a, psi_split_output := some pso } :
                            upipe_ts_demux_output) else x) } (some pso) fd with
                  | none => rw [h5] at h; simp at h
                  | some q =>
                    obtain ⟨r5, w5⟩ := q
                    rw [h5] at h
                    simp only [Option.map_some', Option.some.injEq, Prod.mk.injEq] at h
                    obtain ⟨_, rfl⟩ := h
                    obtain ⟨hst5, _, _⟩ := set_flow_def_facts _ _ _ _ _ h5
                    have : w5.demux = wu.demux := by rw [hst5.1]; exact hbd
                    rw [this]
                    exact hk2
        · cases hao : upipe_alloc_output w1 w1.demux.split uprobe.plumber with
          | none => rw [hao] at h; simp at h
          | some z =>
            obtain ⟨b1, b2⟩ := z
            obtain ⟨hbst, _, _, _⟩ := upipe_alloc_output_facts _ _ _ _ _ hao
            rw [hao] at h
            cases b1 with
            | none =>
              simp only [Option.some.injEq, Prod.mk.injEq] at h
              obtain ⟨_, rfl⟩ := h
              show entries_kept w.next w.demux.psi_pids b2.demux.psi_pids
              rw [hbst.1]
              exact hk1
            | some so =>
              simp only [] at h
              cases h5 : upipe_set_flow_def (b2.put_output { o1 with split_output := some so })
                  (some so) fd with
              | none => rw [h5] at h; simp at h
              | some q =>
                obtain ⟨r5, w5⟩ := q
                rw [h5] at h
                simp only [Option.map_some', Option.some.injEq, Prod.mk.injEq] at h
                obtain ⟨_, rfl⟩ := h
                obtain ⟨hst5, _, _⟩ := set_flow_def_facts _ _ _ _ _ h5
                have : w5.demux = w1.demux := by
                  rw [hst5.1]
                  exact hbst.1
                rw [this]
                exact hk1

theorem holders_count (w : World) (l1 l2 : List upipe_ts_demux_output)
    (o : upipe_ts_demux_output) (hout : w.outputs = l1 ++ o :: l2) (a : Nat) :
    (holders w).count a =
      (o.psi_pid.toList ++ other_holders w.demux.psi_pid_pat l1 l2).count a := by
  unfold holders other_holders
  rw [hout]
  cases hp : o.psi_pid with
  | none =>
    simp only [List.filterMap_append, List.filterMap_cons, hp, Option.toList, List.nil_append,
      List.count_append]
    omega
  | some b =>
    simp only [List.filterMap_append, List.filterMap_cons, hp, Option.toList,
      List.count_append, List.count_cons, List.singleton_append, List.count_nil]
    omega

theorem holders_count_removed (w : World) (l1 l2 : List upipe_ts_demux_output)
    (hout : w.outputs = l1 ++ l2) :
    holders w = other_holders w.demux.psi_pid_pat l1 l2 := by
  unfold holders other_holders
  rw [hout, List.filterMap_append, List.append_assoc]

theorem other_holders_length (pat : Option Nat) (l1 l2 : List upipe_ts_demux_output) :
    (other_holders pat l1 l2).length ≤ 1 + l1.length + l2.length := by
  unfold other_holders
  have h1 := List.length_filterMap_le (fun (o : upipe_ts_demux_output) => o.psi_pid) l1
  have h2 := List.length_filterMap_le (fun (o : upipe_ts_demux_output) => o.psi_pid) l2
  have h3 : pat.toList.length ≤ 1 := by
    cases pat <;> simp [Option.toList]
  simp only [List.length_append]
  omega

theorem entry_of_addr (w : World) (held : List Nat) (hreg : registry_inv w held)
    (e e1 : upipe_ts_demux_psi_pid) (he : e ∈ w.demux.psi_pids) (he1 : e1 ∈ w.demux.psi_pids)
    (h : e.addr = e1.addr) : e = e1 :=
  List.inj_on_of_nodup_map hreg.addrs_nodup he he1 h

theorem entry_of_pid (w : World) (held : List Nat) (hreg : registry_inv w held)
    (e e1 : upipe_ts_demux_psi_pid) (he : e ∈ w.demux.psi_pids) (he1 : e1 ∈ w.demux.psi_pids)
    (h : e.pid = e1.pid) : e = e1 :=
  List.inj_on_of_nodup_map hreg.pids_nodup he he1 h

theorem pat_kept (w w2 : World) (hreg : registry_inv w (holders w))
    (hpat : ∃ e ∈ w.demux.psi_pids, w.demux.psi_pid_pat = some e.addr ∧ e.pid = 0)
    (hreg2 : registry_inv w2 (holders w2))
    (hsame : w2.demux.psi_pid_pat = w.demux.psi_pid_pat)
    (hk : entries_kept w.next w.demux.psi_pids w2.demux.psi_pids) :
    ∃ e ∈ w2.demux.psi_pids, w2.demux.psi_pid_pat = some e.addr ∧ e.pid = 0 := by
  obtain ⟨e0, he0, hp0, hpid0⟩ := hpat
  have hmem : e0.addr ∈ holders w2 := by
    unfold holders
    rw [hsame, hp0]
    simp [Option.toList]
  obtain ⟨e2, he2, ha2⟩ := List.mem_map.mp (hreg2.held_mem _ hmem)
  refine ⟨e2, he2, by rw [hsame, hp0, ha2], ?_⟩
  rcases hk e2 he2 with ⟨e, he, hea, hep⟩ | hge
  · have : e = e0 := entry_of_addr w _ hreg e e0 he he0 (hea.trans ha2)
    subst this
    rw [← hep]
    exact hpid0
  · have := hreg.addrs_lt e0 he0
    omega

theorem demux_inv_script (w : World) (s : List Bool) (h : demux_inv w) :
    demux_inv { w with script := s } :=
  ⟨outputs_inv_script w s h.outs, registry_inv_script w s _ h.registry, h.pat⟩

theorem demux_inv_alloc (w : World) (h : demux_inv w) :
    demux_inv (upipe_ts_demux_output_alloc w).2 ∧
    (upipe_ts_demux_output_alloc w).2.outputs.length ≤ w.outputs.length + 1 := by
  obtain ⟨hd, hn, hc⟩ := output_alloc_facts w
  have hh : holders (upipe_ts_demux_output_alloc w).2 = holders w := by
    unfold holders
    rw [hd]
    rcases hc with ⟨_, ho, _⟩ | ⟨_, ho, _, _⟩
    · rw [ho]
    · rw [ho, List.filterMap_append]
      simp [unbound_output]
  refine ⟨⟨outputs_inv_alloc w h.outs, ?_, by rw [hd]; exact h.pat⟩, ?_⟩
  · rw [hh]
    exact registry_inv_transfer w _ _ (by rw [hd]) hn h.registry
  · rcases hc with ⟨_, ho, _⟩ | ⟨_, ho, _, _⟩
    · rw [ho]
      omega
    · rw [ho]
      simp

theorem demux_inv_set_flow_def (w : World) (id : Nat) (fd : uref) (r : Bool) (w2 : World)
    (hI : demux_inv w) (hlen : w.outputs.length < 4294967295)
    (h : upipe_ts_demux_output_set_flow_def w id fd = some (r, w2)) :
    demux_inv w2 ∧ w2.outputs.length = w.outputs.length := by
  obtain ⟨o0, hmem, hid⟩ := set_flow_def_found w id fd _ h
  subst hid
  obtain ⟨l1, l2, hout, hd1, hd2⟩ :=
    split_of_mem_nodup (fun (x : upipe_ts_demux_output) => x.id) w.outputs o0
      hI.outs.ids_nodup hmem
  have hinv : registry_inv w
      (o0.psi_pid.toList ++ other_holders w.demux.psi_pid_pat l1 l2) :=
    registry_inv_congr w _ _ (fun a => (holders_count w l1 l2 o0 hout a).symm) hI.registry
  have hrl : (other_holders w.demux.psi_pid_pat l1 l2).length < 4294967295 := by
    have h1 := other_holders_length w.demux.psi_pid_pat l1 l2
    have h2 := congrArg List.length hout
    simp only [List.length_append, List.length_cons] at h2
    omega
  obtain ⟨r1, w3, o2, heq, hout2, _, _, hinv2, _, hfr2, _⟩ :=
    set_flow_def_spec w l1 l2 o0 fd _ hout hd1 hd2 hI.outs.split hI.outs.uref_mgr
      (hI.outs.kind o0 hmem) hinv hrl
  rw [h] at heq
  simp only [Option.some.injEq, Prod.mk.injEq] at heq
  obtain ⟨rfl, rfl⟩ := heq
  obtain ⟨_, _, hpat⟩ := frame_split hfr2
  have hreg2 : registry_inv w2 (holders w2) := by
    refine registry_inv_congr w2 _ _ (fun a => ?_) hinv2
    rw [holders_count w2 l1 l2 o2 hout2 a, hpat]
  have hk := set_flow_def_kept w l1 l2 o0 fd r w2 hout hd1 hd2 (hI.outs.kind o0 hmem) h
  refine ⟨⟨(outputs_inv_set_flow_def w o0.id fd r w2 hI.outs h).1, hreg2,
    pat_kept w w2 hI.registry hI.pat hreg2 hpat hk⟩, ?_⟩
  rw [hout, hout2]
  simp

theorem output_release_found (w : World) (id : Nat) (w1 : World)
    (h : upipe_ts_demux_output_release w id = some w1) :
    ∃ o, w.outputs.find? (fun x => x.id = id) = some o ∧ o ∈ w.outputs ∧ o.id = id := by
  unfold upipe_ts_demux_output_release at h
  cases hf : w.outputs.find? (fun x => x.id = id) with
  | none => rw [hf] at h; simp at h
  | some o => exact ⟨o, rfl, List.mem_of_find?_eq_some hf, by simpa using List.find?_some hf⟩

theorem demux_inv_release (w : World) (id : Nat) (w1 : World)
    (hI : demux_inv w) (hlen : w.outputs.length < 4294967295)
    (h : upipe_ts_demux_output_release w id = some w1) :
    demux_inv w1 ∧ w1.outputs.length ≤ w.outputs.length := by
  obtain ⟨o, hfind, hmem, hid⟩ := output_release_found w id w1 h
  subst hid
  obtain ⟨l1, l2, hout, hd1, hd2⟩ :=
    split_of_mem_nodup (fun (x : upipe_ts_demux_output) => x.id) w.outputs o
      hI.outs.ids_nodup hmem
  obtain ⟨ho1, hn1, hfr1⟩ := output_release_facts w o.id w1 h
  obtain ⟨_, _, hpat⟩ := frame_split hfr1
  have hout1 : w1.outputs = l1 ++ l2 := by
    rw [ho1, hout]
    exact filter_split (fun (x : upipe_ts_demux_output) => x.id) l1 l2 o o.id hd1 hd2 rfl
  have hinv : registry_inv w
      (o.psi_pid.toList ++ other_holders w.demux.psi_pid_pat l1 l2) :=
    registry_inv_congr w _ _ (fun a => (holders_count w l1 l2 o hout a).symm) hI.registry
  have hrl : (other_holders w.demux.psi_pid_pat l1 l2).length < 4294967295 := by
    have h1 := other_holders_length w.demux.psi_pid_pat l1 l2
    have h2 := congrArg List.length hout
    simp only [List.length_append, List.length_cons] at h2
    omega
  have hlen1 : w1.outputs.length ≤ w.outputs.length := by
    rw [hout1, hout]
    simp
  obtain ⟨hev1, hev2⟩ := output_release_eval w o.id o hfind
  have hkind := hI.outs.kind o hmem
  have hmain : registry_inv w1 (other_holders w.demux.psi_pid_pat l1 l2) ∧
      entries_kept w.next w.demux.psi_pids w1.demux.psi_pids := by
    cases hp : o.psi_split_output with
    | none =>
      have hpp : o.psi_pid = none := by
        by_contra hne
        exact (hkind.2.mp hne) hp
      obtain ⟨wc, hrel, hdc, _⟩ := hev1 hp
      rw [h] at hrel
      simp only [Option.some.injEq] at hrel
      subst hrel
      rw [hpp] at hinv
      exact ⟨registry_inv_transfer w w1 _ (by rw [hdc]) (by omega) hinv,
        by rw [hdc]; exact entries_kept_refl _ _⟩
    | some p =>
      have hne : o.psi_pid ≠ none := hkind.2.mpr (by rw [hp]; simp)
      obtain ⟨a, ha⟩ := Option.ne_none_iff_exists'.mp hne
      obtain ⟨wx, hxd, hxo, hxn, hrelq⟩ := hev2 p hp
      rw [ha] at hinv hrelq
      have hinvx : registry_inv wx (a :: other_holders w.demux.psi_pid_pat l1 l2) :=
        registry_inv_transfer w wx _ (by rw [hxd]) (by omega) hinv
      obtain ⟨w3, hrel, hinv3⟩ := release_inv wx _ a hinvx
        (by simp only [List.length_cons]; omega) (by simp)
      rw [List.erase_cons_head] at hinv3
      have hk := release_kept _ _ _ w.next hrel
      rw [hxd] at hk
      rw [hrelq, hrel] at h
      simp only [Option.map_some', Option.some.injEq] at h
      subst h
      exact ⟨registry_inv_transfer w3 _ _ rfl (Nat.le_refl _) hinv3, hk⟩
  obtain ⟨hreg1, hk⟩ := hmain
  have hreg2 : registry_inv w1 (holders w1) := by
    rw [holders_count_removed w1 l1 l2 hout1, hpat]
    exact hreg1
  exact ⟨⟨outputs_inv_release w o.id w1 hI.outs h, hreg2,
    pat_kept w w1 hI.registry hI.pat hreg2 hpat hk⟩, hlen1⟩

theorem output_allocs_cons (c : output_call) (cs : List output_call) :
    output_allocs (c :: cs) = output_allocs cs + (if c.is_alloc = true then 1 else 0) := by
  unfold output_allocs
  rw [List.countP_cons]

theorem demux_inv_run (cs : List output_call) :
    ∀ (w w1 : World), demux_inv w → w.outputs.length + output_allocs cs < 4294967295 →
      run_output_calls w cs = some w1 → demux_inv w1 := by
  induction cs with
  | nil =>
    intro w w1 hI _ h
    simp only [run_output_calls, Option.some.injEq] at h
    subst h
    exact hI
  | cons c rest ih =>
    intro w w1 hI hb h
    rw [output_allocs_cons] at hb
    unfold run_output_calls at h
    cases hc : c.run w with
    | none => rw [hc] at h; simp at h
    | some w2 =>
      rw [hc] at h
      simp only [Option.some_bind] at h
      cases c with
      | alloc script =>
        simp only [output_call.is_alloc, if_true] at hb
        simp only [output_call.run, Option.some.injEq] at hc
        subst hc
        obtain ⟨hI2, hl2⟩ := demux_inv_alloc _ (demux_inv_script w script hI)
        exact ih _ w1 hI2 (by simp only at hl2; omega) h
      | set_flow_def id fd script =>
        simp only [output_call.is_alloc] at hb
        simp only [output_call.run] at hc
        cases hs : upipe_ts_demux_output_set_flow_def { w with script := script } id fd with
        | none => rw [hs] at hc; simp at hc
        | some x =>
          obtain ⟨r, w3⟩ := x
          rw [hs] at hc
          simp only [Option.map_some', Option.some.injEq] at hc
          subst hc
          obtain ⟨hI2, hl2⟩ := demux_inv_set_flow_def _ id fd r w3
            (demux_inv_script w script hI) (by simp only; omega) hs
          exact ih _ w1 hI2 (by simp only at hl2; omega) h
      | release id =>
        simp only [output_call.is_alloc] at hb
        simp only [output_call.run] at hc
        obtain ⟨hI2, hl2⟩ := demux_inv_release w id w2 hI (by omega) hc
        exact ih _ w1 hI2 (by omega) h

theorem demux_inv_of_freshly_constructed (w : World) (h : freshly_constructed w) :
    demux_inv w := by
  obtain ⟨hout, hsplit, hmgr, e, hreg, hpid, hrc, hlt, hpat⟩ := h
  have hh : holders w = [e.addr] := by
    unfold holders
    rw [hout, hpat]
    rfl
  refine ⟨⟨hsplit, hmgr, ?_, ?_, ?_⟩, ?_, ⟨e, by rw [hreg]; simp, hpat, hpid⟩⟩
  · rw [hout]; simp
  · rw [hout]; simp
  · rw [hout]; simp
  · rw [hh]
    refine registry_inv_of w _ [e] hreg (by simp) (by simp) ?_ ?_ ?_
    · intro x hx
      simp only [List.mem_singleton] at hx
      subst hx
      exact hlt
    · intro x hx
      simp only [List.mem_singleton] at hx
      subst hx
      rw [hrc]
      simp
    · intro a ha
      simpa using ha

theorem count_filterMap_psi_pid (l : List upipe_ts_demux_output) (a : Nat) :
    (l.filterMap (fun o => o.psi_pid)).count a =
      l.countP (fun o => decide (o.psi_pid = some a)) := by
  induction l with
  | nil => rfl
  | cons o rest ih =>
    cases hp : o.psi_pid with
    | none =>
      rw [List.filterMap_cons_none hp, List.countP_cons, ih]
      simp [hp]
    | some b =>
      rw [List.filterMap_cons_some hp, List.countP_cons, List.count_cons, ih]
      simp only [hp, Option.some.injEq, beq_iff_eq]
      by_cases hba : b = a
      · simp [hba]
      · simp [hba]

theorem output_pid_iff (w : World) (hI : demux_inv w) (e : upipe_ts_demux_psi_pid)
    (he : e ∈ w.demux.psi_pids) (o : upipe_ts_demux_output) (ho : o ∈ w.outputs) :
    output_pid w o = some e.pid ↔ o.psi_pid = some e.addr := by
  have hkind := hI.outs.kind o ho
  unfold output_pid
  cases hpp : o.psi_pid with
  | none =>
    have : o.psi_split_output = none := by
      by_contra hne
      exact (hkind.2.mpr hne) hpp
    rw [this]
    simp
  | some a =>
    have hne : o.psi_split_output ≠ none := hkind.2.mp (by rw [hpp]; simp)
    obtain ⟨p, hp⟩ := Option.ne_none_iff_exists'.mp hne
    rw [hp]
    simp only []
    have hmem : a ∈ holders w := by
      unfold holders
      rw [List.mem_append]
      right
      rw [List.mem_filterMap]
      exact ⟨o, ho, hpp⟩
    obtain ⟨e1, hfind, he1a, he1m⟩ := find_addr_of_mem w.demux.psi_pids a
      (hI.registry.held_mem a hmem)
    rw [hfind]
    simp only [Option.map_some', Option.some.injEq]
    constructor
    · intro hpid
      have := entry_of_pid w _ hI.registry e1 e he1m he hpid
      rw [← this, he1a]
    · intro ha
      have := entry_of_addr w _ hI.registry e1 e he1m he (he1a.trans ha)
      rw [this]

theorem pat_iff (w : World) (hI : demux_inv w) (e : upipe_ts_demux_psi_pid)
    (he : e ∈ w.demux.psi_pids) :
    w.demux.psi_pid_pat = some e.addr ↔ e.pid = 0 := by
  obtain ⟨e0, he0, hp0, hpid0⟩ := hI.pat
  constructor
  · intro h
    rw [hp0] at h
    simp only [Option.some.injEq] at h
    have := entry_of_addr w _ hI.registry e0 e he0 he h
    rw [← this]
    exact hpid0
  · intro h
    have := entry_of_pid w _ hI.registry e0 e he0 he (hpid0.trans h.symm)
    rw [← this]
    exact hp0

theorem accounting_of_inv (w : World) (hI : demux_inv w) :
    (∀ e ∈ w.demux.psi_pids,
      e.refcount = bound_outputs w e.pid + (if e.pid = 0 then 1 else 0)) ∧
    (registry_pids w).Perm (subscribed_pids w) := by
  constructor
  · intro e he
    rw [(hI.registry.counts e he).1]
    unfold holders bound_outputs
    rw [List.count_append, count_filterMap_psi_pid]
    have h1 : w.outputs.countP (fun o => decide (o.psi_pid = some e.addr)) =
        w.outputs.countP (fun o => decide (output_pid w o = some e.pid)) := by
      apply List.countP_congr
      intro o ho
      simp only [decide_eq_true_eq]
      exact (output_pid_iff w hI e he o ho).symm
    rw [h1]
    have h2 : w.demux.psi_pid_pat.toList.count e.addr = if e.pid = 0 then 1 else 0 := by
      have hiff := pat_iff w hI e he
      by_cases hz : e.pid = 0
      · rw [if_pos hz, hiff.mpr hz]
        simp [Option.toList]
      · rw [if_neg hz]
        have hn : w.demux.psi_pid_pat ≠ some e.addr := fun h => hz (hiff.mp h)
        cases hp : w.demux.psi_pid_pat with
        | none => simp [Option.toList]
        | some b =>
          rw [hp] at hn
          have hb : b ≠ e.addr := fun h => hn (by rw [h])
          simp [Option.toList, List.count_cons, hb]
    rw [h2]
    omega
  · unfold subscribed_pids
    rw [List.perm_ext_iff_of_nodup hI.registry.pids_nodup (List.nodup_dedup _)]
    intro p
    rw [List.mem_dedup, List.mem_append, List.mem_filterMap]
    obtain ⟨e0, he0, hp0, hpid0⟩ := hI.pat
    constructor
    · intro hp
      obtain ⟨e, he, hep⟩ := List.mem_map.mp hp
      subst hep
      have hc := hI.registry.counts e he
      have hpos : 0 < (holders w).count e.addr := by omega
      have hmem := List.count_pos_iff.mp hpos
      unfold holders at hmem
      rcases List.mem_append.mp hmem with hm | hm
      · left
        have hpat : w.demux.psi_pid_pat = some e.addr := by
          cases hq : w.demux.psi_pid_pat with
          | none => rw [hq] at hm; simp [Option.toList] at hm
          | some b =>
            rw [hq] at hm
            simp only [Option.toList, List.mem_singleton] at hm
            rw [hm]
        have hz := (pat_iff w hI e he).mp hpat
        rw [hz, hpat]
        simp
      · right
        obtain ⟨o, ho, hop⟩ := List.mem_filterMap.mp hm
        exact ⟨o, ho, (output_pid_iff w hI e he o ho).mpr hop⟩
    · intro hp
      rcases hp with hp | ⟨o, ho, hop⟩
      · rw [hp0] at hp
        simp only [ne_eq, not_false_eq_true, if_true, List.mem_singleton, reduceCtorEq] at hp
        subst hp
        exact List.mem_map.mpr ⟨e0, he0, hpid0⟩
      · unfold output_pid at hop
        split at hop
        · rename_i q a _ _
          cases hf : w.demux.psi_pids.find? (fun e => decide (e.addr = a)) with
          | none => rw [hf] at hop; simp at hop
          | some e1 =>
            rw [hf] at hop
            simp only [Option.map_some', Option.some.injEq] at hop
            exact List.mem_map.mpr ⟨e1, List.mem_of_find?_eq_some hf, hop⟩
        · cases hop

theorem bind_step (w : World) (e : upipe_ts_demux_psi_pid) (hQ : bound_to_pat w e) :
    ∃ w2, run_output_calls w
        [output_call.alloc [], output_call.set_flow_def w.next example_pat_flow_def []] =
          some w2 ∧
      w2.next = w.next + 2 ∧ w2.outputs.length = w.outputs.length + 1 ∧
      bound_to_pat w2 { e with refcount := to_uint (e.refcount + 1) } := by
  obtain ⟨hda, _, hc⟩ := output_alloc_facts { w with script := [] }
  rcases hc with ⟨_, _, hbad⟩ | ⟨_, houta, hnexta, _⟩
  · simp at hbad
  generalize hwa : (upipe_ts_demux_output_alloc { w with script := [] }).2 = wa at *
  simp only at hda houta hnexta
  have hd1 : ∀ x ∈ w.outputs, x.id ≠ (unbound_output w.next).id := by
    intro x hx
    have := (hQ.outputs x hx).1
    show x.id ≠ w.next
    omega
  have hd2 : ∀ x ∈ ([] : List upipe_ts_demux_output), x.id ≠ (unbound_output w.next).id :=
    fun x hx => by cases hx
  obtain ⟨r, wb, o2, heq, hout2, hid2, _, _, hfr, _, htrue, _, hok, w1, hn1, hsame, htrace⟩ :=
    set_flow_def_shape { wa with script := [] } w.outputs [] (unbound_output w.next)
      example_pat_flow_def houta hd1 hd2
      (by show wa.demux.split ≠ none; rw [hda]; exact hQ.split)
      (by show wa.demux.uref_mgr ≠ none; rw [hda]; exact hQ.uref_mgr) (kind_unbound _)
      (fun a ha => by cases ha)
  have hr : r = true := hok all_succeed_nil ⟨0, rfl, by decide⟩
  subst hr
  obtain ⟨pid, hpid, _, hpsi, _⟩ := htrue rfl
  obtain ⟨a, pso, e1, ho2, _, _, _⟩ := hpsi (by decide)
  have hw1d : w1.demux = w.demux := (hsame rfl).trans hda
  have hn1w : w1.next = w.next + 1 := hn1.trans hnexta
  rcases htrace with ⟨hpp, _⟩ | ⟨pid1, a1, wu, hp1, hu, hpp, hdb, hnb⟩ |
    ⟨_, _, _, _, _, _, _, _, _, hpp, _⟩
  · rw [ho2] at hpp
    cases hpp
  · have hp0 : pid1 = 0 := by
      have : example_pat_flow_def.pid = some 0 := rfl
      rw [this] at hp1
      simp only [Option.some.injEq] at hp1
      exact hp1.symm
    subst hp0
    have huse : upipe_ts_demux_psi_pid_use w1 0 =
        some (some e.addr, w1.set_demux { w1.demux with
          psi_pids := [{ e with refcount := to_uint (e.refcount + 1) }] }) := by
      unfold upipe_ts_demux_psi_pid_use upipe_ts_demux_psi_pid_find
      rw [hw1d, hQ.registry]
      simp [hQ.pid, to_uint16]
    rw [huse] at hu
    simp only [Option.some.injEq, Prod.mk.injEq] at hu
    obtain ⟨rfl, rfl⟩ := hu
    have hnb2 : wb.next = w.next + 2 := by
      rw [hnb]
      show w1.next + 1 = _
      omega
    obtain ⟨hsp, hmg, _⟩ := frame_split hfr
    refine ⟨wb, ?_, hnb2, ?_, ⟨?_, hQ.pid, ?_, ?_, ?_, ?_⟩⟩
    · have heq2 : upipe_ts_demux_output_set_flow_def { wa with script := [] } w.next
          example_pat_flow_def = some (true, wb) := heq
      simp only [run_output_calls, output_call.run, Option.some_bind, hwa, heq2,
        Option.map_some']
    · rw [hout2]
      simp
    · rw [hdb]
      rfl
    · have := hQ.addr_lt
      show e.addr < wb.next
      omega
    · rw [hsp]
      show wa.demux.split ≠ none
      rw [hda]
      exact hQ.split
    · rw [hmg]
      show wa.demux.uref_mgr ≠ none
      rw [hda]
      exact hQ.uref_mgr
    · intro o ho
      rw [hout2] at ho
      simp only [List.mem_append, List.mem_singleton] at ho
      rcases ho with ho | ho
      · obtain ⟨h1, h2, h3⟩ := hQ.outputs o ho
        exact ⟨by omega, h2, h3⟩
      · subst ho
        refine ⟨?_, hpp, ?_⟩
        · rw [hid2]
          show w.next < wb.next
          omega
        · rw [ho2]
          simp
  · rw [ho2] at hpp
    cases hpp

theorem run_bind_calls (k : Nat) :
    ∀ (w : World) (e : upipe_ts_demux_psi_pid), bound_to_pat w e →
      e.refcount < 4294967296 →
      ∃ wk, run_output_calls w (example_bind_calls k w.next) = some wk ∧
        wk.outputs.length = w.outputs.length + k ∧
        bound_to_pat wk { e with refcount := to_uint (e.refcount + k) } := by
  induction k with
  | zero =>
    intro w e hQ hrc
    have : to_uint (e.refcount + 0) = e.refcount := by unfold to_uint; omega
    rw [this]
    exact ⟨w, rfl, rfl, hQ⟩
  | succ k ih =>
    intro w e hQ hrc
    obtain ⟨w2, hrun2, hn2, hl2, hQ2⟩ := bind_step w e hQ
    obtain ⟨wk, hrunk, hlk, hQk⟩ := ih w2 _ hQ2 (Nat.mod_lt _ (by decide))
    have hmod : to_uint (to_uint (e.refcount + 1) + k) = to_uint (e.refcount + (k + 1)) := by
      unfold to_uint
      omega
    simp only [hmod] at hQk
    refine ⟨wk, ?_, by omega, hQk⟩
    simp only [run_output_calls, Option.some_bind] at hrun2
    cases hc1 : (output_call.alloc []).run w with
    | none => rw [hc1] at hrun2; simp at hrun2
    | some wa =>
      rw [hc1] at hrun2
      simp only [Option.some_bind] at hrun2
      cases hc2 : (output_call.set_flow_def w.next example_pat_flow_def []).run wa with
      | none => rw [hc2] at hrun2; simp at hrun2
      | some wb =>
        rw [hc2] at hrun2
        simp only [Option.some_bind, Option.some.injEq] at hrun2
        subst hrun2
        show run_output_calls w (output_call.alloc [] ::
          output_call.set_flow_def w.next example_pat_flow_def [] ::
            example_bind_calls k (w.next + 2)) = some wk
        rw [← hn2]
        simp only [run_output_calls, hc1, hc2, Option.some_bind]
        exact hrunk

theorem bound_outputs_of_bound_to_pat (w : World) (e : upipe_ts_demux_psi_pid)
    (hQ : bound_to_pat w e) : bound_outputs w 0 = w.outputs.length := by
  unfold bound_outputs
  rw [List.countP_eq_length]
  intro o ho
  obtain ⟨_, hpp, hne⟩ := hQ.outputs o ho
  obtain ⟨p, hp⟩ := Option.ne_none_iff_exists'.mp hne
  simp only [decide_eq_true_eq]
  unfold output_pid
  rw [hp, hpp]
  simp [hQ.registry, hQ.pid]
theorem example_constructed_fresh : freshly_constructed example_constructed :=
  ⟨rfl, by decide, by decide,
   { addr := 2, pid := 0, psi_split := 3, split_output := 4, refcount := 1 },
   rfl, rfl, rfl, by decide, rfl⟩

/-- C16, as stated, fails once `2^32 - 1` outputs are bound to PID 0 through a
PSI filter: from the constructed demux, `2^32 - 1` outputs are allocated and
each bound to the PAT of PID 0, every allocation succeeding; the entry of PID
0 is then the only one of the registry and its use-count is 0, while
`2^32 - 1` outputs are bound to its PID (with the reference of the demux, the
count should be `2^32`, which an `unsigned int` does not hold). -/
theorem C16_counterexample_use_count_wraps :
    freshly_constructed example_constructed ∧
    (run_output_calls example_constructed (example_bind_calls 4294967295 6)).map
        (fun w => (w.demux.psi_pids.map (fun e => (e.pid, e.refcount)), bound_outputs w 0))
      = some ([(0, 0)], 4294967295) := by
  refine ⟨example_constructed_fresh, ?_⟩
  have hQ : bound_to_pat example_constructed
      { addr := 2, pid := 0, psi_split := 3, split_output := 4, refcount := 1 } :=
    ⟨rfl, rfl, by decide, by decide, by decide, fun o ho => by cases ho⟩
  obtain ⟨wk, hrun, hlen, hQk⟩ := run_bind_calls 4294967295 example_constructed _ hQ
    (Nat.lt_of_sub_eq_succ (rfl : 4294967296 - 1 = 4294967294 + 1))
  have hnext : example_constructed.next = 6 := rfl
  rw [hnext] at hrun
  rw [hrun, Option.map_some', bound_outputs_of_bound_to_pat wk _ hQk, hQk.registry, hlen]
  have hw : to_uint (1 + 4294967295) = 0 := rfl
  have hl : example_constructed.outputs.length = 0 := rfl
  simp only [List.map_cons, List.map_nil, hw, hl, Nat.zero_add]

/-- C16, amended: in every state reached from a freshly constructed demux by
allocations of outputs, `set_flow_def` calls on outputs (successful or failed)
and releases of outputs, with fewer than `2^32 - 1` allocations of outputs in
all: each entry of the registry has a use-count equal to the number of outputs
bound to its PID through a PSI filter, plus 1 for PID 0 (the reference of the
demux on the PAT); and the PIDs of the registry are, up to order, the distinct
PIDs that have the PAT subscription or at least one output bound through a PSI
filter, so that the number of entries is the number of these PIDs. -/
theorem C16_registry_accounting (w0 : World) (cs : List output_call) (w : World)
    (h0 : freshly_constructed w0) (hb : output_allocs cs < 4294967295)
    (hrun : run_output_calls w0 cs = some w) :
    (∀ e ∈ w.demux.psi_pids,
      e.refcount = bound_outputs w e.pid + (if e.pid = 0 then 1 else 0)) ∧
    (registry_pids w).Perm (subscribed_pids w) ∧
    w.demux.psi_pids.length = (subscribed_pids w).length := by
  have hI0 := demux_inv_of_freshly_constructed w0 h0
  have hlen0 : w0.outputs.length = 0 := by rw [h0.1]; rfl
  have hI := demux_inv_run cs w0 w hI0 (by omega) hrun
  obtain ⟨h1, h2⟩ := accounting_of_inv w hI
  refine ⟨h1, h2, ?_⟩
  have := h2.length_eq
  unfold registry_pids at this
  rw [List.length_map] at this
  exact this

/-- Witness of the amended C16: `example_output_calls` from
`example_constructed`. -/
theorem C16_witness :
    freshly_constructed example_constructed ∧
    output_allocs example_output_calls < 4294967295 ∧
    run_output_calls example_constructed example_output_calls = some example_outputs_state ∧
    example_outputs_state.demux.psi_pids.length = (subscribed_pids example_outputs_state).length :=
  ⟨example_constructed_fresh, by decide, rfl,
   (C16_registry_accounting example_constructed example_output_calls example_outputs_state
      example_constructed_fresh (by decide) rfl).2.2⟩

theorem fresh_of_demux (w w1 : World) (h : freshly_constructed w)
    (hout : w1.outputs = w.outputs) (hn : w.next ≤ w1.next)
    (hd : { w1.demux with psi_split_output_pat := none } =
          { w.demux with psi_split_output_pat := none }) :
    freshly_constructed w1 := by
  obtain ⟨ho, hs, hm, e, hreg, hpid, hrc, hlt, hpat⟩ := h
  have h1 := congrArg upipe_ts_demux.split hd
  have h2 := congrArg upipe_ts_demux.uref_mgr hd
  have h3 := congrArg upipe_ts_demux.psi_pids hd
  have h4 := congrArg upipe_ts_demux.psi_pid_pat hd
  simp only at h1 h2 h3 h4
  exact ⟨hout.trans ho, by rw [h1]; exact hs, by rw [h2]; exact hm, e, h3.trans hreg, hpid, hrc,
    by omega, h4.trans hpat⟩

theorem fresh_steady (w w1 : World) (h : freshly_constructed w) (hs : steady w w1) :
    freshly_constructed w1 :=
  fresh_of_demux w w1 h hs.2.1 hs.2.2 (by rw [hs.1])

theorem release_empties (w w1 : World) (h : freshly_constructed w)
    (hrel : upipe_ts_demux_psi_pid_release w w.demux.psi_pid_pat = some w1) :
    w1.demux.psi_pids = [] := by
  obtain ⟨_, _, _, e, hreg, _, hrc, _, hpat⟩ := h
  rw [hpat] at hrel
  have hr := release_split_gen w [] [] e hreg (fun x hx => by cases hx)
    (fun x hx => by cases hx)
  have hz : to_uint (e.refcount + 4294967295) = 0 := by
    rw [hrc]
    rfl
  rw [if_pos hz] at hr
  rw [hr] at hrel
  simp only [Option.some.injEq] at hrel
  subst hrel
  rfl

theorem init_abort_registry (w w1 : World) (h : init_abort w = some w1) :
    w1.demux.psi_pids = w.demux.psi_pids := by
  unfold init_abort at h
  cases hr : upipe_release w w.demux.split with
  | none => rw [hr] at h; simp at h
  | some w2 =>
    rw [hr] at h
    simp only [Option.map_some', Option.some.injEq] at h
    subst h
    obtain ⟨hst, _⟩ := upipe_release_facts _ _ _ hr
    show w2.demux.psi_pids = _
    rw [hst.1]

theorem init_abort_pat_empties (w w1 : World) (h : freshly_constructed w)
    (ha : init_abort_pat w = some w1) : w1.demux.psi_pids = [] := by
  unfold init_abort_pat at ha
  cases hr : upipe_release w w.demux.psi_split_output_pat with
  | none => rw [hr] at ha; simp [bind] at ha
  | some w2 =>
    obtain ⟨hst, _⟩ := upipe_release_facts _ _ _ hr
    rw [hr] at ha
    simp only [bind, Option.bind] at ha
    cases hrel : upipe_ts_demux_psi_pid_release w2 w2.demux.psi_pid_pat with
    | none => rw [hrel] at ha; simp at ha
    | some w3 =>
      rw [hrel] at ha
      simp only at ha
      rw [init_abort_registry _ _ ha]
      exact release_empties w2 w3 (fresh_steady w w2 h hst) hrel

theorem set_psi_filter_steady (w : World) (u : uref) (f m : List Nat) (s : Nat) :
    steady w (uref_ts_flow_set_psi_filter w u f m s).2 := by
  have hd := steady_draw w
  unfold uref_ts_flow_set_psi_filter
  simp only []
  split <;> exact hd

theorem init_freshly_constructed (w wf : World)
    (hreg : w.demux.psi_pids = []) (hout : w.outputs = [])
    (hmgr : w.demux.uref_mgr ≠ none)
    (h : upipe_ts_demux_init w = some wf) (hne : wf.demux.psi_pids ≠ []) :
    freshly_constructed wf := by
  unfold upipe_ts_demux_init at h
  simp only [] at h
  obtain ⟨hast, _, _, hasome⟩ := upipe_alloc_facts w pipe_mgr.ts_split_mgr uprobe.plumber
  generalize upipe_alloc w pipe_mgr.ts_split_mgr uprobe.plumber = a at h hast hasome
  obtain ⟨a1, a2⟩ := a
  simp only at h hast hasome
  cases a1 with
  | none =>
    simp only [Option.some.injEq] at h
    subst h
    exfalso
    apply hne
    show a2.demux.psi_pids = []
    rw [hast.1]
    exact hreg
  | some s =>
    simp only [] at h
    have hfind : upipe_ts_demux_psi_pid_find
        (a2.set_demux { a2.demux with split := some s }) 0 = none := by
      unfold upipe_ts_demux_psi_pid_find
      show a2.demux.psi_pids.find? _ = none
      rw [hast.1, hreg]
      rfl
    have hu : upipe_ts_demux_psi_pid_use (a2.set_demux { a2.demux with split := some s }) 0 =
        upipe_ts_demux_psi_pid_alloc (a2.set_demux { a2.demux with split := some s }) 0 := by
      unfold upipe_ts_demux_psi_pid_use
      rw [hfind]
    rw [hu] at h
    cases hal : upipe_ts_demux_psi_pid_alloc (a2.set_demux { a2.demux with split := some s }) 0 with
    | none => rw [hal] at h; simp at h
    | some x =>
      obtain ⟨pat, wu⟩ := x
      rw [hal] at h
      simp only [] at h
      obtain ⟨huo, hun, hc⟩ := psi_pid_alloc_cases _ 0 pat wu hal
      rcases hc with ⟨hp, hd, _⟩ | ⟨ps, so, hp, hlt, _, _, hd, _, _⟩
      · subst hp
        simp only [] at h
        exfalso
        apply hne
        rw [init_abort_registry _ _ h]
        show wu.demux.psi_pids = []
        rw [hd]
        show a2.demux.psi_pids = []
        rw [hast.1]
        exact hreg
      · subst hp
        simp only [] at h
        have hf2 : freshly_constructed
            (wu.set_demux { wu.demux with
              psi_pid_pat := some (a2.set_demux { a2.demux with split := some s }).next }) := by
          refine ⟨?_, ?_, ?_, (⟨a2.next, to_uint16 0, ps, so, 1⟩ : upipe_ts_demux_psi_pid),
            ?_, rfl, rfl, hlt, rfl⟩
          · show wu.outputs = []
            rw [huo]
            show a2.outputs = []
            rw [hast.2.1]
            exact hout
          · show wu.demux.split ≠ none
            rw [hd]
            simp [World.set_demux]
          · show wu.demux.uref_mgr ≠ none
            rw [hd]
            show a2.demux.uref_mgr ≠ none
            rw [hast.1]
            exact hmgr
          · show wu.demux.psi_pids = _
            rw [hd]
            show a2.demux.psi_pids ++ _ = _
            rw [hast.1, hreg]
            rfl
        generalize wu.set_demux { wu.demux with
              psi_pid_pat := some (a2.set_demux { a2.demux with split := some s }).next } = w2
          at h hf2
        split at h
        · simp at h
        · next e he =>
          split at h
          · simp at h
          · next pso wo ho =>
            obtain ⟨hsto, _⟩ := upipe_alloc_output_facts _ _ _ _ _ ho
            have hf3 : freshly_constructed
                (wo.set_demux { wo.demux with psi_split_output_pat := pso }) :=
              fresh_of_demux w2 _ hf2 hsto.2.1 hsto.2.2 (by
                show { wo.demux with psi_split_output_pat := none } = _
                rw [hsto.1])
            generalize wo.set_demux { wo.demux with psi_split_output_pat := pso } = w3
              at h hf3
            split at h
            · exfalso
              apply hne
              cases hrel : upipe_ts_demux_psi_pid_release w3 w3.demux.psi_pid_pat with
              | none => rw [hrel] at h; simp at h
              | some w4 =>
                rw [hrel] at h
                simp only [Option.some_bind] at h
                rw [init_abort_registry _ _ h]
                exact release_empties w3 w4 hf3 hrel
            · split at h
              · simp at h
              · next w4 h4 =>
                obtain ⟨hst4, _⟩ := alloc_def_facts _ _ _ _ _ h4
                exact absurd (init_abort_pat_empties _ _ (fresh_steady _ _ hf3 hst4) h) hne
              · next fd w4 h4 =>
                obtain ⟨hst4, _⟩ := alloc_def_facts _ _ _ _ _ h4
                have hf4 := fresh_steady _ _ hf3 hst4
                have hst5 := set_psi_filter_steady w4 fd pat_filter pat_mask
                  PSI_HEADER_SIZE_SYNTAX1
                split at h
                · next w5 h5 =>
                  rw [h5] at hst5
                  have hf5 := fresh_steady _ _ hf4 hst5
                  exact absurd (init_abort_pat_empties _ _
                    (fresh_steady _ _ hf5 (steady_uref_free _ _)) h) hne
                · next fd1 w5 h5 =>
                  rw [h5] at hst5
                  have hf5 := fresh_steady _ _ hf4 hst5
                  have hst6 := (set_pid_facts w5 fd1 0).1
                  split at h
                  · next w6 h6 =>
                    rw [h6] at hst6
                    have hf6 := fresh_steady _ _ hf5 hst6
                    exact absurd (init_abort_pat_empties _ _
                      (fresh_steady _ _ hf6 (steady_uref_free _ _)) h) hne
                  · next fd2 w6 h6 =>
                    rw [h6] at hst6
                    have hf6 := fresh_steady _ _ hf5 hst6
                    split at h
                    · simp at h
                    · next w7 h7 =>
                      obtain ⟨hst7, _⟩ := set_flow_def_facts _ _ _ _ _ h7
                      have hf7 := fresh_steady _ _ hf6 hst7
                      exact absurd (init_abort_pat_empties _ _
                        (fresh_steady _ _ hf7 (steady_uref_free _ _)) h) hne
                    · next w7 h7 =>
                      obtain ⟨hst7, _⟩ := set_flow_def_facts _ _ _ _ _ h7
                      have hf7 := fresh_steady _ _ hf6 hst7
                      simp only [Option.some.injEq] at h
                      subst h
                      exact fresh_steady _ _ hf7 (steady_uref_free _ _)

theorem set_flow_def_rejected_registry (w : World) (l1 l2 : List upipe_ts_demux_output)
    (o0 : upipe_ts_demux_output) (fd : uref) (r : Bool) (w2 : World) (a p : Nat)
    (hout : w.outputs = l1 ++ o0 :: l2)
    (hd1 : ∀ x ∈ l1, x.id ≠ o0.id) (hd2 : ∀ x ∈ l2, x.id ≠ o0.id)
    (hpso : o0.psi_split_output = some p) (hpp : o0.psi_pid = some a)
    (hbad : ∀ pid, fd.pid = some pid → MAX_PIDS ≤ pid)
    (h : upipe_ts_demux_output_set_flow_def w o0.id fd = some (r, w2)) :
    ∃ wx w3, wx.demux = w.demux ∧
      upipe_ts_demux_psi_pid_release wx (some a) = some w3 ∧ w2.demux = w3.demux := by
  obtain ⟨wa, hwa, houta, hda, hna, hsa⟩ := drop_split_spec w l1 l2 o0 hout hd1 hd2
  unfold upipe_ts_demux_output_set_flow_def at h
  rw [hout, outputs_find l1 l2 o0 o0.id rfl hd1] at h
  simp only [hwa] at h
  cases hdp : output_drop_psi_split_output wa { o0 with split_output := none } with
  | none => rw [hdp] at h; simp at h
  | some y =>
    obtain ⟨w1, o1⟩ := y
    rw [hdp] at h
    simp only at h
    unfold output_drop_psi_split_output at hdp
    simp only [hpso, upipe_release, Option.bind, bind, hpp] at hdp
    cases hrel : upipe_ts_demux_psi_pid_release
        ((wa.emit (Action.upipe_release p)).put_output
          { id := o0.id, split_output := none, psi_split_output := none, psi_pid := some a })
        (some a) with
    | none => rw [hrel] at hdp; simp at hdp
    | some w3 =>
      rw [hrel] at hdp
      simp only [Option.some.injEq, Prod.mk.injEq] at hdp
      obtain ⟨rfl, _⟩ := hdp
      refine ⟨(wa.emit (Action.upipe_release p)).put_output
          { id := o0.id, split_output := none, psi_split_output := none, psi_pid := some a },
        w3, hda, hrel, ?_⟩
      cases hp : fd.pid with
      | none =>
        rw [hp] at h
        simp only [Option.some.injEq, Prod.mk.injEq] at h
        obtain ⟨_, rfl⟩ := h
        rfl
      | some pid =>
        rw [hp] at h
        have hge := hbad pid hp
        simp only [ge_iff_le, hge, if_true, Option.some.injEq, Prod.mk.injEq] at h
        obtain ⟨_, rfl⟩ := h
        rfl

/-- C29: `set_flow_def` on an output of a constructed demux that is already
bound (to a split output, or to an output of a PSI split with a reference on
the registry entry `e`, of use-count at least 1), with a flow definition whose
PID attribute is missing or is 8192 or more.  The call returns false, and
afterwards the output holds no split output, no output of a PSI split and no
reference on the registry.  If it was bound through a PSI filter, the registry
which read `l1 ++ e :: l2` reads `l1 ++ e' :: l2` with the use-count of `e`
decremented, or `l1 ++ l2` when that was the last reference; if it was bound to
a split output the demux context is as before. -/
theorem C29_set_flow_def_releases_before_validating (w : World)
    (o : upipe_ts_demux_output) (fd : uref)
    (hids : (w.outputs.map (fun x => x.id)).Nodup) (ho : o ∈ w.outputs)
    (hsplit : w.demux.split ≠ none) (hmgr : w.demux.uref_mgr ≠ none)
    (hkind : output_kind_ok o)
    (hbound : o.split_output ≠ none ∨ o.psi_split_output ≠ none)
    (hnd : (registry_addrs w).Nodup)
    (href : ∀ a, o.psi_pid = some a →
      ∃ e ∈ w.demux.psi_pids, e.addr = a ∧ 1 ≤ e.refcount ∧ e.refcount < 4294967296)
    (hbad : ∀ pid, fd.pid = some pid → MAX_PIDS ≤ pid) :
    ∃ w2, upipe_ts_demux_output_set_flow_def w o.id fd = some (false, w2) ∧
      w2.outputs.find? (fun x => x.id = o.id) = some (unbound_output o.id) ∧
      (o.psi_split_output = none → w2.demux = w.demux) ∧
      (∀ e ∈ w.demux.psi_pids, o.psi_pid = some e.addr →
        ∃ l1 l2, w.demux.psi_pids = l1 ++ e :: l2 ∧
          w2.demux.psi_pids =
            if e.refcount = 1 then l1 ++ l2
            else l1 ++ { e with refcount := e.refcount - 1 } :: l2) := by
  obtain ⟨l1, l2, hout, hd1, hd2⟩ :=
    split_of_mem_nodup (fun (x : upipe_ts_demux_output) => x.id) w.outputs o hids ho
  have href1 : ∀ a, o.psi_pid = some a → a ∈ registry_addrs w := by
    intro a ha
    obtain ⟨e, he, hea, _⟩ := href a ha
    exact List.mem_map.mpr ⟨e, he, hea⟩
  obtain ⟨r, w2, o2, heq, hout2, hid2, _, _, _, hfalse, htrue, hrej, _, _⟩ :=
    set_flow_def_shape w l1 l2 o fd hout hd1 hd2 hsplit hmgr hkind href1
  have hr : r = false := by
    cases r with
    | false => rfl
    | true =>
      obtain ⟨pid, hpid, hlt, _⟩ := htrue rfl
      have := hbad pid hpid
      omega
  subst hr
  obtain ⟨_, _, hsame⟩ := hrej hbad
  refine ⟨w2, heq, ?_, hsame, ?_⟩
  · rw [hout2, hfalse rfl]
    exact outputs_find l1 l2 (unbound_output o.id) o.id rfl hd1
  · intro e he hpp
    have hne : o.psi_split_output ≠ none := hkind.2.mp (by rw [hpp]; simp)
    obtain ⟨p, hp⟩ := Option.ne_none_iff_exists'.mp hne
    obtain ⟨wx, w3, hxd, hrel, hd3⟩ :=
      set_flow_def_rejected_registry w l1 l2 o fd false w2 e.addr p hout hd1 hd2 hp hpp hbad heq
    obtain ⟨e1, he1, he1a, hrc1, hrc2⟩ := href e.addr hpp
    have hee : e1 = e := List.inj_on_of_nodup_map hnd he1 he he1a
    subst hee
    obtain ⟨r1, r2, hreg, hr1, hr2⟩ :=
      split_of_mem_nodup (fun (x : upipe_ts_demux_psi_pid) => x.addr) w.demux.psi_pids e1 hnd he
    refine ⟨r1, r2, hreg, ?_⟩
    have hs := release_split wx r1 r2 e1 (by rw [hxd]; exact hreg) hr1 hr2 hrc1 hrc2
    rw [hs] at hrel
    rw [hd3]
    by_cases hone : e1.refcount = 1
    · rw [if_pos hone] at hrel ⊢
      simp only [Option.some.injEq] at hrel
      subst hrel
      rfl
    · rw [if_neg hone] at hrel ⊢
      simp only [Option.some.injEq] at hrel
      subst hrel
      rfl

/-- Witness of C29: the output of `example_bound_output`, bound to the PAT of
PID 0 through a PSI filter (use-count 2), is given a flow definition without
PID attribute. -/
theorem C29_witness :
    (example_bound_output.outputs.map (fun x => x.id)).Nodup ∧
    example_bound_output.outputs =
      [{ id := 6, split_output := none, psi_split_output := some 7, psi_pid := some 2 }] ∧
    example_bound_output.demux.psi_pids =
      [{ addr := 2, pid := 0, psi_split := 3, split_output := 4, refcount := 2 }] ∧
    (flow_def_unit "block.").pid = none ∧
    ∃ w2, upipe_ts_demux_output_set_flow_def example_bound_output 6 (flow_def_unit "block.") =
        some (false, w2) ∧
      w2.outputs.find? (fun x => x.id = 6) = some (unbound_output 6) := by
  obtain ⟨w2, h, hf, _, _⟩ := C29_set_flow_def_releases_before_validating example_bound_output
    { id := 6, split_output := none, psi_split_output := some 7, psi_pid := some 2 }
    (flow_def_unit "block.") (by decide) (by decide) (by decide) (by decide)
    ⟨Or.inl rfl, by decide⟩ (Or.inr (by decide)) (by decide)
    (fun a ha => ⟨{ addr := 2, pid := 0, psi_split := 3, split_output := 4, refcount := 2 },
      by decide, by simpa using ha, by decide, by decide⟩)
    (fun pid hpid => by cases hpid)
  exact ⟨by decide, by decide, by decide, rfl, w2, h, hf⟩

/-- C22, as stated, fails: the constructed demux is in mode SYNC with the split
(pipe 1) as input; the flow definition "block.mpegtsaligned." selects mode
CHECK, and the allocation of the check pipe fails.  After
`upipe_ts_demux_input` the mode is OFF and there is no input pipe (pipe 1 was
released), not SYNC and pipe 1, and no allocation error is thrown. -/
theorem C22_counterexample_input_switched_off :
    example_constructed.demux.input_mode = upipe_ts_demux_mode.UPIPE_TS_DEMUX_SYNC ∧
    example_constructed.demux.input = some 1 ∧
    (upipe_ts_demux_input { example_constructed with script := [false] }
        (flow_def_unit "block.mpegtsaligned.")).map
      (fun w => (w.demux.input_mode, w.demux.input,
        w.log.drop example_constructed.log.length)) =
      some (upipe_ts_demux_mode.UPIPE_TS_DEMUX_OFF, none,
        [Action.ulog_debug "flow definition: block.mpegtsaligned.",
         Action.upipe_release 1,
         Action.upipe_alloc pipe_mgr.ts_check_mgr uprobe.outer none,
         Action.uref_free (flow_def_unit "block.mpegtsaligned.")]) := by
  decide

/-- C22, amended: on a constructed demux (uref manager and split pipe present,
an input pipe recorded whenever the mode is not OFF), when a flow definition
that selects mode CHECK or SCAN arrives (its string begins with "block." and
not with "block.mpegts.") and the allocation of the new input pipe fails,
`upipe_ts_demux_input` returns with the input switched off: the mode is OFF and
there is no input pipe, the previous input pipe having been released;
`flow_def_ok` is true and the unit is freed, nothing being forwarded. -/
theorem C22_input_alloc_failure_switches_off (w : World) (u : uref) (d : String)
    (m s : Nat) (rest : List Bool)
    (hd : u.flow_def = some d) (hm : w.demux.uref_mgr = some m)
    (hsp : w.demux.split = some s)
    (hblock : "block.".data <+: d.data) (hnsync : ¬ "block.mpegts.".data <+: d.data)
    (hscript : w.script = false :: rest)
    (hwf : w.demux.input_mode ≠ upipe_ts_demux_mode.UPIPE_TS_DEMUX_OFF →
      w.demux.input ≠ none) :
    ∃ w1 released mgr, upipe_ts_demux_input w u = some w1 ∧
      w1.demux.input_mode = upipe_ts_demux_mode.UPIPE_TS_DEMUX_OFF ∧
      w1.demux.input = none ∧ w1.demux.flow_def_ok = true ∧
      w1.log = w.log ++ [Action.ulog_debug ("flow definition: " ++ d)] ++ released ++
        [Action.upipe_alloc mgr uprobe.outer none, Action.uref_free u] ∧
      (w.demux.input_mode = upipe_ts_demux_mode.UPIPE_TS_DEMUX_OFF → released = []) ∧
      (∀ p, w.demux.input_mode ≠ upipe_ts_demux_mode.UPIPE_TS_DEMUX_OFF →
        w.demux.input = some p → released = [Action.upipe_release p]) := by
  have hrel : ∃ released : List Action,
      (w.demux.input_mode = upipe_ts_demux_mode.UPIPE_TS_DEMUX_OFF → released = []) ∧
      (∀ p, w.demux.input_mode ≠ upipe_ts_demux_mode.UPIPE_TS_DEMUX_OFF →
        w.demux.input = some p → released = [Action.upipe_release p]) := by
    by_cases hoff : w.demux.input_mode = upipe_ts_demux_mode.UPIPE_TS_DEMUX_OFF
    · exact ⟨[], fun _ => rfl, fun p h => absurd hoff h⟩
    · obtain ⟨p, hp⟩ := Option.ne_none_iff_exists'.mp (hwf hoff)
      refine ⟨[Action.upipe_release p], fun h => absurd h hoff, fun q _ hq => ?_⟩
      rw [hp] at hq
      simp only [Option.some.injEq] at hq
      rw [hq]
  obtain ⟨released, hr1, hr2⟩ := hrel
  have hacc : ∀ mode, mode = upipe_ts_demux_mode.UPIPE_TS_DEMUX_CHECK ∨
      mode = upipe_ts_demux_mode.UPIPE_TS_DEMUX_SCAN →
      input_accept w u d mode = some
        { w with
          script := rest
          demux := { w.demux with
            flow_def_ok := true
            input_mode := upipe_ts_demux_mode.UPIPE_TS_DEMUX_OFF
            input := none }
          log := w.log ++ [Action.ulog_debug ("flow definition: " ++ d)] ++ released ++
            [Action.upipe_alloc
              (if mode = upipe_ts_demux_mode.UPIPE_TS_DEMUX_CHECK then pipe_mgr.ts_check_mgr
               else pipe_mgr.ts_sync_mgr) uprobe.outer none,
             Action.uref_free u] } := by
    intro mode hmode
    by_cases hoff : w.demux.input_mode = upipe_ts_demux_mode.UPIPE_TS_DEMUX_OFF
    · rw [hr1 hoff]
      rcases hmode with rfl | rfl <;>
        simp [input_accept, upipe_ts_demux_set_input_mode, hoff, World.emit, World.set_demux,
          upipe_alloc, World.draw, hscript, upipe_ts_demux_work, uref_free]
    · obtain ⟨p, hp⟩ := Option.ne_none_iff_exists'.mp (hwf hoff)
      rw [hr2 p hoff hp]
      rcases hmode with rfl | rfl <;>
        simp [input_accept, upipe_ts_demux_set_input_mode, hoff, hp, World.emit,
          World.set_demux, upipe_alloc, World.draw, hscript, upipe_ts_demux_work, uref_free,
          upipe_release]
  by_cases hcheck : "block.mpegtsaligned.".data <+: d.data
  · have key : upipe_ts_demux_input w u =
        input_accept w u d upipe_ts_demux_mode.UPIPE_TS_DEMUX_CHECK := by
      unfold upipe_ts_demux_input
      simp only [hm, hsp, hd, ubase_ncmp_eq_false_iff, EXPECTED_FLOW_DEF_SYNC,
        EXPECTED_FLOW_DEF_CHECK, hnsync, hcheck, if_false, if_true, reduceCtorEq]
    rw [key, hacc _ (Or.inl rfl)]
    exact ⟨_, released, pipe_mgr.ts_check_mgr, rfl, rfl, rfl, rfl, rfl, hr1, hr2⟩
  · have key : upipe_ts_demux_input w u =
        input_accept w u d upipe_ts_demux_mode.UPIPE_TS_DEMUX_SCAN := by
      unfold upipe_ts_demux_input
      simp only [hm, hsp, hd, ubase_ncmp_eq_false_iff, EXPECTED_FLOW_DEF_SYNC,
        EXPECTED_FLOW_DEF_CHECK, EXPECTED_FLOW_DEF, hnsync, hcheck, hblock, if_false, if_true,
        reduceCtorEq]
    rw [key, hacc _ (Or.inr rfl)]
    exact ⟨_, released, pipe_mgr.ts_sync_mgr, rfl, rfl, rfl, rfl, rfl, hr1, hr2⟩

/-- Witness of the amended C22: the constructed demux (mode SYNC, input pipe 1)
receives "block.mpegtsaligned." while the allocation of the check pipe fails. -/
theorem C22_witness :
    (flow_def_unit "block.mpegtsaligned.").flow_def = some "block.mpegtsaligned." ∧
    "block.".data <+: "block.mpegtsaligned.".data ∧
    ¬ "block.mpegts.".data <+: "block.mpegtsaligned.".data ∧
    ∃ w1, upipe_ts_demux_input { example_constructed with script := [false] }
        (flow_def_unit "block.mpegtsaligned.") = some w1 ∧
      w1.demux.input_mode = upipe_ts_demux_mode.UPIPE_TS_DEMUX_OFF ∧
      w1.demux.input = none := by
  obtain ⟨w1, _, _, h, h1, h2, _⟩ := C22_input_alloc_failure_switches_off
    { example_constructed with script := [false] } (flow_def_unit "block.mpegtsaligned.")
    "block.mpegtsaligned." 7 1 [] rfl rfl rfl (by decide) (by decide) rfl
    (fun _ => by decide)
  exact ⟨rfl, by decide, by decide, w1, h, h1, h2⟩

/-- C23, as the code has it: when a step of `upipe_ts_demux_init` after the
allocation of the split pipe fails, the split pipe is released but its address
stays recorded in `split`, so that `upipe_ts_demux_input` takes the demux for
constructed.  On a fresh demux given "block.mpegts." while the allocation of
the registry structure of PID 0 fails: an allocation error is thrown and the
registry is empty, but `split` holds pipe 1, which was released; the flow
definition is accepted, the mode becomes SYNC with pipe 1 as input, and the
unit is handed to pipe 1 instead of being dropped. -/
theorem C23_failed_init_keeps_released_split :
    example_failed_construction.map
      (fun w => (w.demux.split, w.demux.input_mode, w.demux.input)) =
      some (some 1, upipe_ts_demux_mode.UPIPE_TS_DEMUX_SYNC, some 1) ∧
    example_failed_construction.map (fun w => (w.demux.flow_def_ok, w.demux.psi_pids)) =
      some (true, []) ∧
    example_failed_construction.map (fun w => w.log) =
    some
      [Action.throw none thrown.ready,
       Action.throw none thrown.need_uref_mgr,
       Action.uref_mgr_use 7,
       Action.upipe_alloc pipe_mgr.ts_split_mgr uprobe.plumber (some 1),
       Action.upipe_release 1,
       Action.ulog_aerror,
       Action.throw none thrown.aerror,
       Action.ulog_debug "flow definition: block.mpegts.",
       Action.upipe_use 1,
       Action.upipe_input 1 (flow_def_unit "block.mpegts.")] := by
  decide

theorem wired_of_wiring_state {w w1 : World} (h : wiring_state w1 = wiring_state w)
    (hw : input_wired w) : input_wired w1 := by
  unfold wiring_state at h
  simp only [Prod.mk.injEq] at h
  obtain ⟨h1, h2, h3, h4⟩ := h
  unfold input_wired pipe_output at hw ⊢
  rw [h1, h2, h3, h4]
  exact hw

theorem find_map_set_output (l : List upipe) (i : Nat) (o : Option Nat) (q : upipe)
    (h : l.find? (fun q => decide (q.id = i)) = some q) :
    ((l.map (fun q => if q.id = i then { q with output := o } else q)).find?
      (fun q => decide (q.id = i))).map (fun q => q.output) = some o := by
  induction l with
  | nil => simp at h
  | cons a rest ih =>
    by_cases ha : a.id = i
    · simp [List.find?_cons, ha]
    · simp only [List.find?_cons, ha, decide_False] at h
      simp only [List.map_cons, ha, if_false, List.find?_cons, decide_False]
      exact ih h

theorem alloc_in_heap (w : World) (mgr : pipe_mgr) (probe : uprobe) (i : Nat)
    (h : (upipe_alloc w mgr probe).1 = some i) :
    ∃ q, (upipe_alloc w mgr probe).2.pipes.find? (fun q => decide (q.id = i)) = some q := by
  unfold upipe_alloc at h ⊢
  simp only [] at h ⊢
  split at h
  · next hd =>
    simp only [Option.some.injEq] at h
    rw [if_pos hd]
    simp only [List.find?_append]
    cases w.draw.2.pipes.find? (fun q => decide (q.id = i)) with
    | some q => exact ⟨q, rfl⟩
    | none =>
      refine ⟨{ id := i, mgr := mgr, uprobe := probe, output := none, flow_def := none }, ?_⟩
      simp [h]
  · cases h

theorem wired_set_input_mode (w : World) (m : upipe_ts_demux_mode) (w1 : World)
    (hsp : w.demux.split ≠ none)
    (h : upipe_ts_demux_set_input_mode w m = some w1) :
    input_wired w1 := by
  unfold upipe_ts_demux_set_input_mode at h
  split at h
  · simp at h
  · next w0 h0 =>
    have e0 : w0.demux.split = w.demux.split := by
      split at h0
      · rw [demux_upipe_release _ h0]
      · simp only [Option.some.injEq] at h0
        rw [h0]
    have hsp0 : w0.demux.split ≠ none := by rw [e0]; exact hsp
    obtain ⟨s, hs⟩ := Option.ne_none_iff_exists'.mp hsp0
    simp only [] at h
    cases m with
    | UPIPE_TS_DEMUX_OFF =>
      simp only [Option.some.injEq] at h
      subst h
      simp [input_wired, World.set_demux]
    | UPIPE_TS_DEMUX_SYNC =>
      simp only [] at h
      unfold upipe_use at h
      simp only [World.set_demux, hs] at h
      simp only [Option.some.injEq] at h
      subst h
      simp [input_wired, World.emit, hs]
    | UPIPE_TS_DEMUX_CHECK =>
      simp only [if_true] at h
      have hd := demux_upipe_alloc (w0.set_demux { w0.demux with
        input_mode := upipe_ts_demux_mode.UPIPE_TS_DEMUX_CHECK }) pipe_mgr.ts_check_mgr uprobe.outer
      have hheap := alloc_in_heap (w0.set_demux { w0.demux with
        input_mode := upipe_ts_demux_mode.UPIPE_TS_DEMUX_CHECK }) pipe_mgr.ts_check_mgr uprobe.outer
      generalize upipe_alloc (w0.set_demux { w0.demux with
        input_mode := upipe_ts_demux_mode.UPIPE_TS_DEMUX_CHECK }) pipe_mgr.ts_check_mgr
        uprobe.outer = a at h hd hheap
      obtain ⟨a1, a2⟩ := a
      simp only [World.set_demux] at hd
      cases a1 with
      | none =>
        simp only [Option.some.injEq] at h
        subst h
        simp [input_wired, World.set_demux]
      | some i =>
        obtain ⟨q, hq⟩ := hheap i rfl
        simp only [World.set_demux, upipe_set_output, Option.some.injEq] at h
        subst h
        have hpo := find_map_set_output a2.pipes i w0.demux.split q hq
        simp only [input_wired, hd]
        exact ⟨hsp0, i, rfl, hpo⟩
    | UPIPE_TS_DEMUX_SCAN =>
      simp only [reduceCtorEq, if_false] at h
      have hd := demux_upipe_alloc (w0.set_demux { w0.demux with
        input_mode := upipe_ts_demux_mode.UPIPE_TS_DEMUX_SCAN }) pipe_mgr.ts_sync_mgr uprobe.outer
      have hheap := alloc_in_heap (w0.set_demux { w0.demux with
        input_mode := upipe_ts_demux_mode.UPIPE_TS_DEMUX_SCAN }) pipe_mgr.ts_sync_mgr uprobe.outer
      generalize upipe_alloc (w0.set_demux { w0.demux with
        input_mode := upipe_ts_demux_mode.UPIPE_TS_DEMUX_SCAN }) pipe_mgr.ts_sync_mgr
        uprobe.outer = a at h hd hheap
      obtain ⟨a1, a2⟩ := a
      simp only [World.set_demux] at hd
      cases a1 with
      | none =>
        simp only [Option.some.injEq] at h
        subst h
        simp [input_wired, World.set_demux]
      | some i =>
        obtain ⟨q, hq⟩ := hheap i rfl
        simp only [World.set_demux, upipe_set_output, Option.some.injEq] at h
        subst h
        have hpo := find_map_set_output a2.pipes i w0.demux.split q hq
        simp only [input_wired, hd]
        exact ⟨hsp0, i, rfl, hpo⟩

theorem wired_work (w : World) (u : uref) (w1 : World) (hw : input_wired w)
    (h : upipe_ts_demux_work w u = some w1) : input_wired w1 := by
  refine wired_of_wiring_state ?_ hw
  unfold upipe_ts_demux_work at h
  split at h
  · simp only [Option.some.injEq] at h
    subst h
    rfl
  · unfold upipe_input at h
    split at h
    · simp at h
    · simp only [Option.some.injEq] at h
      subst h
      rfl

theorem wired_input_accept (w : World) (u : uref) (d : String) (m : upipe_ts_demux_mode)
    (w1 : World) (hsp : w.demux.split ≠ none)
    (h : input_accept w u d m = some w1) : input_wired w1 := by
  unfold input_accept at h
  simp only [Option.bind_eq_some] at h
  obtain ⟨w3, hs, hwk⟩ := h
  refine wired_work w3 u w1 (wired_set_input_mode _ m w3 ?_ hs) hwk
  exact hsp

theorem need_uref_mgr_wiring (w : World) :
    wiring_state (upipe_throw_need_uref_mgr w) = wiring_state w ∧
    (upipe_throw_need_uref_mgr w).script = w.script := by
  unfold upipe_throw_need_uref_mgr
  simp only []
  split
  · exact ⟨rfl, rfl⟩
  · unfold upipe_ts_demux_set_uref_mgr
    simp only []
    split <;> exact ⟨rfl, rfl⟩

theorem wiring_need_uref_mgr (w : World) :
    wiring_state (if w.demux.uref_mgr = none then upipe_throw_need_uref_mgr w else w) =
      wiring_state w := by
  split
  · exact (need_uref_mgr_wiring w).1
  · rfl

theorem wired_input (w : World) (u : uref) (w1 : World)
    (hs : all_succeed w.script) (hw : input_wired w)
    (h : upipe_ts_demux_input w u = some w1) : input_wired w1 := by
  unfold upipe_ts_demux_input at h
  simp only [] at h
  have e1 := wiring_need_uref_mgr w
  have hs1 : (if w.demux.uref_mgr = none then upipe_throw_need_uref_mgr w else w).script =
      w.script := by
    split
    · exact (need_uref_mgr_wiring w).2
    · rfl
  generalize (if w.demux.uref_mgr = none then upipe_throw_need_uref_mgr w else w) = wm
    at h e1 hs1
  have hwm : input_wired wm := wired_of_wiring_state e1 hw
  split at h
  · simp only [Option.some.injEq] at h
    subst h
    exact wired_of_wiring_state rfl hwm
  · next hmgr =>
    obtain ⟨mg, hmg⟩ := Option.ne_none_iff_exists'.mp hmgr
    split at h
    · simp at h
    · next w2 h2 =>
      have hw2 : input_wired w2 ∧ (w2.demux.split = none → w2.demux.input_mode =
          upipe_ts_demux_mode.UPIPE_TS_DEMUX_OFF) := by
        split at h2
        · next hnone =>
          obtain ⟨w2b, hinit, hcalm, hsplit⟩ := init_ok wm mg hmg (by rw [hs1]; exact hs)
          rw [hinit] at h2
          simp only [Option.some.injEq] at h2
          subst h2
          have hoff : wm.demux.input_mode = upipe_ts_demux_mode.UPIPE_TS_DEMUX_OFF := by
            unfold input_wired at hwm
            cases hm : wm.demux.input_mode with
            | UPIPE_TS_DEMUX_OFF => rfl
            | UPIPE_TS_DEMUX_SYNC => rw [hm] at hwm; exact absurd hnone hwm.1
            | UPIPE_TS_DEMUX_CHECK => rw [hm] at hwm; exact absurd hnone hwm.1
            | UPIPE_TS_DEMUX_SCAN => rw [hm] at hwm; exact absurd hnone hwm.1
          have hoff2 : w2b.demux.input_mode = upipe_ts_demux_mode.UPIPE_TS_DEMUX_OFF := by
            rw [hcalm.2.2.1]
            exact hoff
          refine ⟨?_, fun _ => hoff2⟩
          unfold input_wired
          rw [hoff2]
          trivial
        · simp only [Option.some.injEq] at h2
          subst h2
          refine ⟨hwm, fun hn => ?_⟩
          unfold input_wired at hwm
          cases hm : wm.demux.input_mode with
          | UPIPE_TS_DEMUX_OFF => rfl
          | UPIPE_TS_DEMUX_SYNC => rw [hm] at hwm; exact absurd hn hwm.1
          | UPIPE_TS_DEMUX_CHECK => rw [hm] at hwm; exact absurd hn hwm.1
          | UPIPE_TS_DEMUX_SCAN => rw [hm] at hwm; exact absurd hn hwm.1
      obtain ⟨hw2a, _⟩ := hw2
      split at h
      · simp only [Option.some.injEq] at h
        subst h
        exact wired_of_wiring_state rfl hw2a
      · next hsp2 =>
        split at h
        · split at h
          · exact wired_input_accept _ _ _ _ _ hsp2 h
          · split at h
            · exact wired_input_accept _ _ _ _ _ hsp2 h
            · split at h
              · exact wired_input_accept _ _ _ _ _ hsp2 h
              · simp only [Option.some.injEq] at h
                subst h
                exact wired_of_wiring_state rfl hw2a
        · split at h
          · simp only [Option.some.injEq] at h
            subst h
            exact wired_of_wiring_state rfl hw2a
          · exact wired_work _ _ _ hw2a h

theorem wiring_guess (w : World) :
    wiring_state (upipe_ts_demux_conformance_guess w) = wiring_state w := by
  unfold upipe_ts_demux_conformance_guess
  split
  · rfl
  · split
    · rfl
    · split <;> rfl

theorem wired_run (cs : List demux_call) :
    ∀ (w w1 : World), input_wired w → (∀ c ∈ cs, c.allocations_succeed) →
      run_calls w cs = some w1 → input_wired w1 := by
  induction cs with
  | nil =>
    intro w w1 hw _ h
    simp only [run_calls, Option.some.injEq] at h
    subst h
    exact hw
  | cons c rest ih =>
    intro w w1 hw hs h
    unfold run_calls at h
    cases hc : c.run w with
    | none => rw [hc] at h; simp at h
    | some w2 =>
      rw [hc] at h
      simp only [Option.some_bind] at h
      refine ih w2 w1 ?_ (fun c1 hc1 => hs c1 (List.mem_cons_of_mem _ hc1)) h
      have hsc := hs c (List.mem_cons_self _ _)
      cases c with
      | set_conformance cf =>
        simp only [demux_call.run, Option.some.injEq] at hc
        subst hc
        refine wired_of_wiring_state ?_ hw
        unfold _upipe_ts_demux_set_conformance
        cases cf <;> first | rfl | exact wiring_guess _
      | nit_pid pid =>
        simp only [demux_call.run, Option.some.injEq] at hc
        subst hc
        refine wired_of_wiring_state ?_ hw
        unfold upipe_ts_demux_nit_pid
        exact wiring_guess _
      | input u script =>
        simp only [demux_call.run] at hc
        have hsc2 : all_succeed script := hsc
        exact wired_input { w with script := script } u w2 hsc2
          (wired_of_wiring_state rfl hw) hc

/-- C24, as stated, fails in mode SYNC: after a fresh demux accepted the flow
definition "block.mpegts.", all allocations succeeding, the mode is SYNC and
the input pipe is the split pipe itself (pipe 1), whose output was never set. -/
theorem C24_counterexample_sync_input_is_split :
    demux_after_sync_flow_def.map
      (fun w => (w.demux.input_mode, w.demux.input, w.demux.split, pipe_output w 1)) =
    some (upipe_ts_demux_mode.UPIPE_TS_DEMUX_SYNC, some 1, some 1, some none) := by
  decide

/-- C24, amended: in every state reached from `upipe_ts_demux_alloc` by input
units (any flow definitions) and conformance calls, the allocations made while
the inputs are handled succeeding: when the input mode is CHECK or SCAN there
is a split pipe, the input pipe is in the heap and its output is set to the
split pipe; when the input mode is SYNC the input pipe is the split pipe
itself. -/
theorem C24_input_pipe_wiring (script : List Bool) (probe : Option Nat)
    (cs : List demux_call) (w0 w : World)
    (h0 : upipe_ts_demux_alloc script probe = some w0)
    (hs : ∀ c ∈ cs, c.allocations_succeed)
    (hrun : run_calls w0 cs = some w) :
    ((w.demux.input_mode = upipe_ts_demux_mode.UPIPE_TS_DEMUX_CHECK ∨
      w.demux.input_mode = upipe_ts_demux_mode.UPIPE_TS_DEMUX_SCAN) →
      w.demux.split ≠ none ∧
      ∃ i, w.demux.input = some i ∧ pipe_output w i = some w.demux.split) ∧
    (w.demux.input_mode = upipe_ts_demux_mode.UPIPE_TS_DEMUX_SYNC →
      w.demux.split ≠ none ∧ w.demux.input = w.demux.split) := by
  have hw0 : input_wired w0 := by
    unfold upipe_ts_demux_alloc at h0
    split at h0
    · cases h0
    · simp only [Option.some.injEq] at h0
      subst h0
      simp [input_wired]
  have hw := wired_run cs w0 w hw0 hs hrun
  unfold input_wired at hw
  constructor
  · rintro (hm | hm)
    · rw [hm] at hw
      exact hw
    · rw [hm] at hw
      exact hw
  · intro hm
    rw [hm] at hw
    exact hw

/-- Witness of the amended C24: a fresh demux given "block.mpegtsaligned." is
in mode CHECK, with the check pipe (pipe 6) wired to the split pipe (pipe 1). -/
theorem C24_witness :
    upipe_ts_demux_alloc [] (some 7) = some { example_fresh with probe_uref_mgr := some 7 } ∧
    run_calls { example_fresh with probe_uref_mgr := some 7 }
      [demux_call.input (flow_def_unit "block.mpegtsaligned.") []] = some example_check_state ∧
    example_check_state.demux.input_mode = upipe_ts_demux_mode.UPIPE_TS_DEMUX_CHECK ∧
    example_check_state.demux.input = some 6 ∧
    example_check_state.demux.split ≠ none ∧
    ∃ i, example_check_state.demux.input = some i ∧
      pipe_output example_check_state i = some example_check_state.demux.split :=
  ⟨rfl, rfl, by decide, by decide,
   ((C24_input_pipe_wiring [] (some 7)
      [demux_call.input (flow_def_unit "block.mpegtsaligned.") []]
      { example_fresh with probe_uref_mgr := some 7 } example_check_state rfl
      (fun c hc => by
        simp only [List.mem_singleton] at hc
        subst hc
        exact all_succeed_nil) rfl).1 (Or.inl (by decide)))⟩

namespace PicFlow

theorem to_uint8_of_lt {n : Nat} (h : n < 256) : to_uint8 n = n := Nat.mod_eq_of_lt h

theorem to_uint8_lt (n : Nat) : to_uint8 n < 256 := Nat.mod_lt _ (by decide)

theorem to_uint8_idem (n : Nat) : to_uint8 (to_uint8 n) = to_uint8 n :=
  to_uint8_of_lt (to_uint8_lt n)

theorem write_ok_of_all_succeed {script : List Bool} (h : all_succeed script) (i : Nat) :
    write_ok script i = true := by
  unfold write_ok
  by_cases hi : i < script.length
  · rw [List.getD_eq_getElem _ _ hi]
    exact h _ (List.getElem_mem hi)
  · rw [List.getD_eq_default _ _ (Nat.le_of_not_lt hi)]

theorem udict_get_set_same (d : List (attr_name × attr_value)) (k : attr_name)
    (v : attr_value) : udict_get (udict_set d k v) k = some v := by
  induction d with
  | nil => simp [udict_set, udict_get]
  | cons e rest ih =>
    unfold udict_set
    by_cases h : e.1 = k
    · simp [h, udict_get]
    · simp [h, udict_get, ih]

theorem udict_get_set_other (d : List (attr_name × attr_value)) (k k1 : attr_name)
    (v : attr_value) (hk : k1 ≠ k) : udict_get (udict_set d k v) k1 = udict_get d k1 := by
  induction d with
  | nil => simp [udict_set, udict_get, Ne.symm hk]
  | cons e rest ih =>
    unfold udict_set
    by_cases h : e.1 = k
    · have h1 : ¬ e.1 = k1 := fun h2 => hk (h2.symm.trans h)
      simp [h, udict_get, h1, Ne.symm hk]
    · simp [h, udict_get, ih]

/-- The dictionary after the five writes of a successful `add_plane`. -/
theorem add_plane_eq (u : uref) (n hsub vsub macropixel_size : Nat) (c : String)
    (script : List Bool) (hn : uref_pic_flow_get_planes u = Except.ok n)
    (hh : to_uint8 hsub ≠ 0) (hv : to_uint8 vsub ≠ 0) (hm : to_uint8 macropixel_size ≠ 0)
    (hs : all_succeed script) :
    uref_pic_flow_add_plane u hsub vsub macropixel_size (some c) script =
      (ubase_err.UBASE_ERR_NONE,
        { udict := udict_set (udict_set (udict_set (udict_set (udict_set u.udict
            attr_name.planes (attr_value.small_unsigned (to_uint8 (n + 1))))
            (attr_name.hsubsampling (to_uint8 n)) (attr_value.small_unsigned (to_uint8 hsub)))
            (attr_name.vsubsampling (to_uint8 n)) (attr_value.small_unsigned (to_uint8 vsub)))
            (attr_name.macropixel_size (to_uint8 n))
              (attr_value.small_unsigned (to_uint8 macropixel_size)))
            (attr_name.chroma (to_uint8 n)) (attr_value.string c) }) := by
  unfold uref_pic_flow_add_plane
  simp only [hn, hh, hv, hm, or_self, if_false, write_ok_of_all_succeed hs]
  rfl

theorem get_planes_lt {u : uref} {n : Nat} (hn : uref_pic_flow_get_planes u = Except.ok n) :
    n < 256 := by
  unfold uref_pic_flow_get_planes uref_attr_get_small_unsigned at hn
  split at hn
  · simp only [Except.ok.injEq] at hn
    rw [← hn]
    exact to_uint8_lt _
  · cases hn

theorem add_plane_invalid (u : uref) (hsub vsub macropixel_size : Nat)
    (chroma : Option String) (script : List Bool)
    (h : to_uint8 hsub = 0 ∨ to_uint8 vsub = 0 ∨ to_uint8 macropixel_size = 0 ∨ chroma = none) :
    uref_pic_flow_add_plane u hsub vsub macropixel_size chroma script =
      (ubase_err.UBASE_ERR_INVALID, u) := by
  unfold uref_pic_flow_add_plane
  cases chroma with
  | none => rfl
  | some c =>
    have h1 : to_uint8 hsub = 0 ∨ to_uint8 vsub = 0 ∨ to_uint8 macropixel_size = 0 := by
      rcases h with h | h | h | h
      · exact Or.inl h
      · exact Or.inr (Or.inl h)
      · exact Or.inr (Or.inr h)
      · cases h
    simp only [h1, if_true]

/-- What the getters read after a successful `add_plane` on a flow definition
of `n` planes. -/
theorem add_plane_gets (u : uref) (n hsub vsub macropixel_size : Nat) (c : String)
    (script : List Bool) (hn : uref_pic_flow_get_planes u = Except.ok n)
    (hh : to_uint8 hsub ≠ 0) (hv : to_uint8 vsub ≠ 0) (hm : to_uint8 macropixel_size ≠ 0)
    (hs : all_succeed script) :
    (uref_pic_flow_add_plane u hsub vsub macropixel_size (some c) script).1 =
      ubase_err.UBASE_ERR_NONE ∧
    uref_pic_flow_get_planes
      (uref_pic_flow_add_plane u hsub vsub macropixel_size (some c) script).2 =
      Except.ok (to_uint8 (n + 1)) ∧
    uref_pic_flow_get_hsubsampling
      (uref_pic_flow_add_plane u hsub vsub macropixel_size (some c) script).2 n =
      Except.ok (to_uint8 hsub) ∧
    uref_pic_flow_get_vsubsampling
      (uref_pic_flow_add_plane u hsub vsub macropixel_size (some c) script).2 n =
      Except.ok (to_uint8 vsub) ∧
    uref_pic_flow_get_macropixel_size
      (uref_pic_flow_add_plane u hsub vsub macropixel_size (some c) script).2 n =
      Except.ok (to_uint8 macropixel_size) ∧
    uref_pic_flow_get_chroma
      (uref_pic_flow_add_plane u hsub vsub macropixel_size (some c) script).2 n =
      Except.ok c ∧
    uref_pic_flow_get_macropixel
      (uref_pic_flow_add_plane u hsub vsub macropixel_size (some c) script).2 =
      uref_pic_flow_get_macropixel u ∧
    uref_flow_get_def
      (uref_pic_flow_add_plane u hsub vsub macropixel_size (some c) script).2 =
      uref_flow_get_def u ∧
    ∀ p, p < 256 → p ≠ n →
      uref_pic_flow_get_hsubsampling
        (uref_pic_flow_add_plane u hsub vsub macropixel_size (some c) script).2 p =
        uref_pic_flow_get_hsubsampling u p ∧
      uref_pic_flow_get_vsubsampling
        (uref_pic_flow_add_plane u hsub vsub macropixel_size (some c) script).2 p =
        uref_pic_flow_get_vsubsampling u p ∧
      uref_pic_flow_get_macropixel_size
        (uref_pic_flow_add_plane u hsub vsub macropixel_size (some c) script).2 p =
        uref_pic_flow_get_macropixel_size u p ∧
      uref_pic_flow_get_chroma
        (uref_pic_flow_add_plane u hsub vsub macropixel_size (some c) script).2 p =
        uref_pic_flow_get_chroma u p := by
  rw [add_plane_eq u n hsub vsub macropixel_size c script hn hh hv hm hs]
  have hn256 := get_planes_lt hn
  refine ⟨rfl, ?_, ?_, ?_, ?_, ?_, ?_, ?_, ?_⟩
  · simp [uref_pic_flow_get_planes, uref_attr_get_small_unsigned, udict_get_set_other,
      udict_get_set_same, to_uint8_idem]
  · simp [uref_pic_flow_get_hsubsampling, uref_attr_get_small_unsigned, udict_get_set_other,
      udict_get_set_same, to_uint8_idem]
  · simp [uref_pic_flow_get_vsubsampling, uref_attr_get_small_unsigned, udict_get_set_other,
      udict_get_set_same, to_uint8_idem]
  · simp [uref_pic_flow_get_macropixel_size, uref_attr_get_small_unsigned,
      udict_get_set_other, udict_get_set_same, to_uint8_idem]
  · simp [uref_pic_flow_get_chroma, uref_attr_get_string, udict_get_set_other,
      udict_get_set_same]
  · simp [uref_pic_flow_get_macropixel, uref_attr_get_small_unsigned, udict_get_set_other]
  · simp [uref_flow_get_def, uref_attr_get_string, udict_get_set_other]
  · intro p hp hpn
    have hne : to_uint8 p ≠ to_uint8 n := by
      rw [to_uint8_of_lt hp, to_uint8_of_lt hn256]
      exact hpn
    refine ⟨?_, ?_, ?_, ?_⟩
    · simp [uref_pic_flow_get_hsubsampling, uref_attr_get_small_unsigned,
        udict_get_set_other, hne]
    · simp [uref_pic_flow_get_vsubsampling, uref_attr_get_small_unsigned,
        udict_get_set_other, hne]
    · simp [uref_pic_flow_get_macropixel_size, uref_attr_get_small_unsigned,
        udict_get_set_other, hne]
    · simp [uref_pic_flow_get_chroma, uref_attr_get_string, udict_get_set_other, hne]

theorem alloc_def_eq (script : List Bool) (macropixel : Nat) (u : uref)
    (h : uref_pic_flow_alloc_def script macropixel = some u) :
    u = { udict := [(attr_name.flow_def, attr_value.string UREF_PIC_FLOW_DEF),
      (attr_name.macropixel, attr_value.small_unsigned (to_uint8 macropixel)),
      (attr_name.planes, attr_value.small_unsigned 0)] } := by
  unfold uref_pic_flow_alloc_def at h
  cases h0 : write_ok script 0 <;> cases h1 : write_ok script 1 <;>
    cases h2 : write_ok script 2 <;> cases h3 : write_ok script 3 <;>
    simp [h0, h1, h2, h3, uref_flow_set_def, uref_pic_flow_set_macropixel,
      uref_pic_flow_set_planes, uref_attr_set] at h
  rw [← h]
  rfl

theorem add_planes_planes (u : uref) (n : Nat) (hn : uref_pic_flow_get_planes u = Except.ok n)
    (k : Nat) : uref_pic_flow_get_planes (add_planes u k) = Except.ok (to_uint8 (n + k)) := by
  induction k with
  | zero =>
    rw [Nat.add_zero, to_uint8_of_lt (get_planes_lt hn)]
    exact hn
  | succ k ih =>
    have h := (add_plane_gets (add_planes u k) (to_uint8 (n + k)) 1 1 1 "y8" [] ih
      (by decide) (by decide) (by decide) all_succeed_nil).2.1
    show uref_pic_flow_get_planes
      (uref_pic_flow_add_plane (add_planes u k) 1 1 1 (some "y8") []).2 = _
    rw [h]
    unfold to_uint8
    rw [Nat.mod_add_mod]
    rfl

/-- C25, as stated, fails for n = 255: on the flow definition built by
`uref_pic_flow_alloc_def` and 255 calls of `uref_pic_flow_add_plane`, whose
planes attribute is 255, one more call with valid arguments returns
`UBASE_ERR_NONE` and leaves the planes attribute at 0, not 256. -/
theorem C25_counterexample_planes_wrap :
    uref_pic_flow_get_planes example_full = Except.ok 255 ∧
    (uref_pic_flow_add_plane example_full 1 1 1 (some "y8") []).1 =
      ubase_err.UBASE_ERR_NONE ∧
    uref_pic_flow_get_planes (uref_pic_flow_add_plane example_full 1 1 1 (some "y8") []).2 =
      Except.ok 0 := by
  have h255 : uref_pic_flow_get_planes example_full = Except.ok 255 :=
    add_planes_planes example_alloc_def 0 (by decide) 255
  have h := add_plane_gets example_full 255 1 1 1 "y8" [] h255
    (by decide) (by decide) (by decide) all_succeed_nil
  exact ⟨h255, h.1, h.2.1⟩

/-- C25, amended with n < 255: for every uref whose planes attribute is
n < 255 and every hsub, vsub, macropixel_size other than 0 (octets) and
non-NULL chroma, the attribute writes succeeding, `uref_pic_flow_add_plane`
returns `UBASE_ERR_NONE`, the planes attribute becomes n + 1, plane n gets
exactly the given hsub, vsub, macropixel_size and chroma, and the attributes
of the planes below n (as well as macropixel and the flow definition string)
are unchanged; if hsub, vsub or macropixel_size is 0 or chroma is NULL it
returns `UBASE_ERR_INVALID` and the uref is unchanged. -/
theorem C25_add_plane_registers_plane (u : uref) (n hsub vsub macropixel_size : Nat)
    (chroma : Option String) (script : List Bool)
    (hh : hsub < 256) (hv : vsub < 256) (hm : macropixel_size < 256) :
    ((hsub = 0 ∨ vsub = 0 ∨ macropixel_size = 0 ∨ chroma = none) →
      uref_pic_flow_add_plane u hsub vsub macropixel_size chroma script =
        (ubase_err.UBASE_ERR_INVALID, u)) ∧
    (∀ c, chroma = some c → hsub ≠ 0 → vsub ≠ 0 → macropixel_size ≠ 0 →
      uref_pic_flow_get_planes u = Except.ok n → n < 255 → all_succeed script →
      (uref_pic_flow_add_plane u hsub vsub macropixel_size chroma script).1 =
        ubase_err.UBASE_ERR_NONE ∧
      uref_pic_flow_get_planes
        (uref_pic_flow_add_plane u hsub vsub macropixel_size chroma script).2 =
        Except.ok (n + 1) ∧
      uref_pic_flow_get_hsubsampling
        (uref_pic_flow_add_plane u hsub vsub macropixel_size chroma script).2 n =
        Except.ok hsub ∧
      uref_pic_flow_get_vsubsampling
        (uref_pic_flow_add_plane u hsub vsub macropixel_size chroma script).2 n =
        Except.ok vsub ∧
      uref_pic_flow_get_macropixel_size
        (uref_pic_flow_add_plane u hsub vsub macropixel_size chroma script).2 n =
        Except.ok macropixel_size ∧
      uref_pic_flow_get_chroma
        (uref_pic_flow_add_plane u hsub vsub macropixel_size chroma script).2 n =
        Except.ok c ∧
      uref_pic_flow_get_macropixel
        (uref_pic_flow_add_plane u hsub vsub macropixel_size chroma script).2 =
        uref_pic_flow_get_macropixel u ∧
      uref_flow_get_def
        (uref_pic_flow_add_plane u hsub vsub macropixel_size chroma script).2 =
        uref_flow_get_def u ∧
      ∀ p, p < n →
        uref_pic_flow_get_hsubsampling
          (uref_pic_flow_add_plane u hsub vsub macropixel_size chroma script).2 p =
          uref_pic_flow_get_hsubsampling u p ∧
        uref_pic_flow_get_vsubsampling
          (uref_pic_flow_add_plane u hsub vsub macropixel_size chroma script).2 p =
          uref_pic_flow_get_vsubsampling u p ∧
        uref_pic_flow_get_macropixel_size
          (uref_pic_flow_add_plane u hsub vsub macropixel_size chroma script).2 p =
          uref_pic_flow_get_macropixel_size u p ∧
        uref_pic_flow_get_chroma
          (uref_pic_flow_add_plane u hsub vsub macropixel_size chroma script).2 p =
          uref_pic_flow_get_chroma u p) := by
  constructor
  · intro h
    apply add_plane_invalid
    rw [to_uint8_of_lt hh, to_uint8_of_lt hv, to_uint8_of_lt hm]
    exact h
  · intro c hc hh0 hv0 hm0 hn hn255 hs
    subst hc
    have h := add_plane_gets u n hsub vsub macropixel_size c script hn
      (by rw [to_uint8_of_lt hh]; exact hh0) (by rw [to_uint8_of_lt hv]; exact hv0)
      (by rw [to_uint8_of_lt hm]; exact hm0) hs
    rw [to_uint8_of_lt hh, to_uint8_of_lt hv, to_uint8_of_lt hm,
      to_uint8_of_lt (show n + 1 < 256 by omega)] at h
    obtain ⟨h1, h2, h3, h4, h5, h6, h7, h8, h9⟩ := h
    exact ⟨h1, h2, h3, h4, h5, h6, h7, h8, fun p hp => h9 p (by omega) (by omega)⟩

/-- Witness of the amended C25: the first plane (1, 1, 1, "y8") added to the
flow definition `uref_pic_flow_alloc_def` returns. -/
theorem C25_witness :
    uref_pic_flow_get_planes example_alloc_def = Except.ok 0 ∧
    (uref_pic_flow_add_plane example_alloc_def 1 1 1 (some "y8") []).1 =
      ubase_err.UBASE_ERR_NONE ∧
    uref_pic_flow_get_planes
      (uref_pic_flow_add_plane example_alloc_def 1 1 1 (some "y8") []).2 = Except.ok 1 ∧
    uref_pic_flow_get_chroma
      (uref_pic_flow_add_plane example_alloc_def 1 1 1 (some "y8") []).2 0 = Except.ok "y8" :=
  have h := (C25_add_plane_registers_plane example_alloc_def 0 1 1 1 (some "y8") []
    (by decide) (by decide) (by decide)).2 "y8" rfl (by decide) (by decide) (by decide)
    (by decide) (by decide) all_succeed_nil
  ⟨by decide, h.1, h.2.1, h.2.2.2.2.2.1⟩

theorem built_complete (u : uref) (hb : built u) : planes_complete u := by
  induction hb with
  | alloc_def script macropixel u h =>
    rw [alloc_def_eq script macropixel u h]
    exact ⟨0, rfl, fun p hp => absurd hp (Nat.not_lt_zero p)⟩
  | add_plane u hsub vsub macropixel_size chroma script _ hs ih =>
    by_cases hinv : to_uint8 hsub = 0 ∨ to_uint8 vsub = 0 ∨ to_uint8 macropixel_size = 0 ∨
        chroma = none
    · rw [add_plane_invalid u hsub vsub macropixel_size chroma script hinv]
      exact ih
    · simp only [not_or] at hinv
      obtain ⟨hh, hv, hm, hc⟩ := hinv
      obtain ⟨c, hc⟩ := Option.ne_none_iff_exists'.mp hc
      subst hc
      obtain ⟨n, hn, hall⟩ := ih
      have hn256 := get_planes_lt hn
      obtain ⟨_, h2, h3, h4, h5, h6, _, _, h9⟩ :=
        add_plane_gets u n hsub vsub macropixel_size c script hn hh hv hm hs
      refine ⟨to_uint8 (n + 1), h2, fun p hp => ?_⟩
      have hle : to_uint8 (n + 1) ≤ n + 1 := Nat.mod_le _ _
      by_cases hpn : p = n
      · subst hpn
        exact ⟨⟨_, h6⟩, ⟨_, h3⟩, ⟨_, h4⟩, ⟨_, h5⟩⟩
      · obtain ⟨e1, e2, e3, e4⟩ := h9 p (by omega) hpn
        rw [e1, e2, e3, e4]
        exact hall p (by omega)

/-- The loop of `find_chroma` returns the first plane of the range carrying
the chroma, when every plane of the range has a chroma. -/
theorem find_chroma_loop_spec (u : uref) (chroma : String) (k : Nat) :
    ∀ plane, (∀ p, plane ≤ p → p < plane + k → ∃ c, uref_pic_flow_get_chroma u p = Except.ok c) →
      (find_chroma_loop u chroma plane k = Except.error ubase_err.UBASE_ERR_INVALID ∧
        ∀ p, plane ≤ p → p < plane + k → uref_pic_flow_get_chroma u p ≠ Except.ok chroma) ∨
      (∃ p, find_chroma_loop u chroma plane k = Except.ok p ∧ plane ≤ p ∧ p < plane + k ∧
        uref_pic_flow_get_chroma u p = Except.ok chroma ∧
        ∀ q, plane ≤ q → q < p → uref_pic_flow_get_chroma u q ≠ Except.ok chroma) := by
  induction k with
  | zero =>
    intro plane _
    exact Or.inl ⟨rfl, fun p h1 h2 => absurd h2 (by omega)⟩
  | succ k ih =>
    intro plane hall
    obtain ⟨c, hc⟩ := hall plane (Nat.le_refl _) (by omega)
    unfold find_chroma_loop
    simp only [hc]
    by_cases heq : chroma = c
    · subst heq
      simp only [if_true]
      exact Or.inr ⟨plane, rfl, Nat.le_refl _, by omega, hc, fun q h1 h2 => absurd h2 (by omega)⟩
    · simp only [heq, if_false]
      have hne : uref_pic_flow_get_chroma u plane ≠ Except.ok chroma := by
        rw [hc]
        intro h
        simp only [Except.ok.injEq] at h
        exact heq h.symm
      rcases ih (plane + 1) (fun p h1 h2 => hall p (by omega) (by omega)) with
        ⟨he, hno⟩ | ⟨p, he, h1, h2, h3, h4⟩
      · refine Or.inl ⟨he, fun p h1 h2 => ?_⟩
        by_cases hp : p = plane
        · subst hp
          exact hne
        · exact hno p (by omega) (by omega)
      · refine Or.inr ⟨p, he, by omega, by omega, h3, fun q hq1 hq2 => ?_⟩
        by_cases hq : q = plane
        · subst hq
          exact hne
        · exact h4 q (by omega) hq2

/-- C26, as stated, fails when two planes carry the same chroma: on the flow
definition built by `uref_pic_flow_alloc_def` and the planes (1, 1, 1, "y8")
and (2, 2, 1, "y8"), plane 1 (below the planes count 2) has chroma "y8",
hsub 2, vsub 2 and macropixel_size 1, and `uref_pic_flow_check_chroma`
returns `UBASE_ERR_INVALID` for (2, 2, 1, "y8"). -/
theorem C26_counterexample_same_chroma :
    uref_pic_flow_get_planes example_same_chroma = Except.ok 2 ∧
    uref_pic_flow_get_chroma example_same_chroma 1 = Except.ok "y8" ∧
    uref_pic_flow_get_hsubsampling example_same_chroma 1 = Except.ok 2 ∧
    uref_pic_flow_get_vsubsampling example_same_chroma 1 = Except.ok 2 ∧
    uref_pic_flow_get_macropixel_size example_same_chroma 1 = Except.ok 1 ∧
    uref_pic_flow_check_chroma example_same_chroma 2 2 1 (some "y8") =
      some ubase_err.UBASE_ERR_INVALID := by
  decide

/-- C26, amended to the first plane of the chroma: for every picture flow
definition built by `uref_pic_flow_alloc_def` followed by any sequence of
`uref_pic_flow_add_plane` calls (attribute writes succeeding), and every
hsub, vsub, mpixel_size (octets) and chroma, `uref_pic_flow_check_chroma`
returns `UBASE_ERR_NONE` if and only if the lowest plane index below the
planes count that has that chroma has that hsub, vsub and macropixel_size;
otherwise it returns `UBASE_ERR_INVALID`. -/
theorem C26_check_chroma_first_plane (u : uref) (hsub vsub mpixel_size : Nat)
    (chroma : String) (hb : built u)
    (hh : hsub < 256) (hv : vsub < 256) (hm : mpixel_size < 256) :
    ∃ planes, uref_pic_flow_get_planes u = Except.ok planes ∧
      (uref_pic_flow_check_chroma u hsub vsub mpixel_size (some chroma) =
          some ubase_err.UBASE_ERR_NONE ↔
        ∃ p, p < planes ∧ uref_pic_flow_get_chroma u p = Except.ok chroma ∧
          (∀ q, q < p → uref_pic_flow_get_chroma u q ≠ Except.ok chroma) ∧
          uref_pic_flow_get_hsubsampling u p = Except.ok hsub ∧
          uref_pic_flow_get_vsubsampling u p = Except.ok vsub ∧
          uref_pic_flow_get_macropixel_size u p = Except.ok mpixel_size) ∧
      (uref_pic_flow_check_chroma u hsub vsub mpixel_size (some chroma) =
          some ubase_err.UBASE_ERR_NONE ∨
        uref_pic_flow_check_chroma u hsub vsub mpixel_size (some chroma) =
          some ubase_err.UBASE_ERR_INVALID) := by
  obtain ⟨planes, hn, hall⟩ := built_complete u hb
  refine ⟨planes, hn, ?_⟩
  have hfind : uref_pic_flow_find_chroma u (some chroma) =
      some (find_chroma_loop u chroma 0 planes) := by
    unfold uref_pic_flow_find_chroma
    simp only [hn]
  unfold uref_pic_flow_check_chroma
  rw [hfind, to_uint8_of_lt hh, to_uint8_of_lt hv, to_uint8_of_lt hm]
  rcases find_chroma_loop_spec u chroma planes 0
      (fun p _ h2 => (hall p (by omega)).1) with ⟨he, hno⟩ | ⟨p, he, _, h2, h3, h4⟩
  · rw [he]
    simp only []
    refine ⟨⟨fun h => ?_, fun h => ?_⟩, Or.inr trivial⟩
    · cases h
    · obtain ⟨p, hp, hc, _⟩ := h
      exact absurd hc (hno p (Nat.zero_le _) (by omega))
  · rw [he]
    simp only []
    obtain ⟨_, ⟨h1, hh1⟩, ⟨v1, hv1⟩, ⟨m1, hm1⟩⟩ := hall p (by omega)
    rw [hh1, hv1, hm1]
    simp only []
    have hfirst : ∀ p1, p1 < planes → uref_pic_flow_get_chroma u p1 = Except.ok chroma →
        (∀ q, q < p1 → uref_pic_flow_get_chroma u q ≠ Except.ok chroma) → p1 = p := by
      intro p1 _ hc1 hq1
      rcases Nat.lt_trichotomy p1 p with hlt | heq | hgt
      · exact absurd hc1 (h4 p1 (Nat.zero_le _) hlt)
      · exact heq
      · exact absurd h3 (hq1 p hgt)
    by_cases hcond : h1 = hsub ∧ v1 = vsub ∧ m1 = mpixel_size
    · simp only [hcond, and_self, if_true]
      obtain ⟨e1, e2, e3⟩ := hcond
      subst e1 e2 e3
      exact ⟨⟨fun _ => ⟨p, by omega, h3, fun q hq => h4 q (Nat.zero_le _) hq, hh1, hv1, hm1⟩,
        fun _ => trivial⟩, Or.inl trivial⟩
    · simp only [hcond, if_false]
      refine ⟨⟨fun h => ?_, fun h => ?_⟩, Or.inr trivial⟩
      · cases h
      · obtain ⟨p1, hp1, hc1, hq1, e1, e2, e3⟩ := h
        have := hfirst p1 hp1 hc1 hq1
        subst this
        rw [hh1] at e1
        rw [hv1] at e2
        rw [hm1] at e3
        simp only [Except.ok.injEq] at e1 e2 e3
        exact absurd ⟨e1, e2, e3⟩ hcond

/-- Witness of the amended C26: on the flow definition with the planes
(1, 1, 1, "y8") and (2, 2, 1, "u8"), the check of (2, 2, 1, "u8") succeeds. -/
theorem C26_witness :
    built example_src ∧
    uref_pic_flow_check_chroma example_src 2 2 1 (some "u8") =
      some ubase_err.UBASE_ERR_NONE ∧
    ∃ planes, uref_pic_flow_get_planes example_src = Except.ok planes ∧
      (uref_pic_flow_check_chroma example_src 2 2 1 (some "u8") =
          some ubase_err.UBASE_ERR_NONE ↔
        ∃ p, p < planes ∧ uref_pic_flow_get_chroma example_src p = Except.ok "u8" ∧
          (∀ q, q < p → uref_pic_flow_get_chroma example_src q ≠ Except.ok "u8") ∧
          uref_pic_flow_get_hsubsampling example_src p = Except.ok 2 ∧
          uref_pic_flow_get_vsubsampling example_src p = Except.ok 2 ∧
          uref_pic_flow_get_macropixel_size example_src p = Except.ok 1) :=
  have hb : built example_src :=
    built.add_plane _ 2 2 1 (some "u8") []
      (built.add_plane _ 1 1 1 (some "y8") []
        (built.alloc_def [] 1 example_alloc_def rfl) all_succeed_nil) all_succeed_nil
  ⟨hb, by decide,
    (C26_check_chroma_first_plane example_src 2 2 1 "u8" hb (by decide) (by decide)
      (by decide)).imp (fun _ h => ⟨h.1, h.2.1⟩)⟩

end PicFlow

namespace PicFlow

theorem ubase_return_inv (P : uref → Prop) (r : ubase_err × uref)
    (f : uref → ubase_err × uref) (hr : P r.2) (hf : P r.2 → P (f r.2).2) :
    P (ubase_return r f).2 := by
  unfold ubase_return
  split
  · exact hf hr
  · exact hr

theorem set_keeps_macropixel (u0 u : uref) (k : attr_name) (v : attr_value) (ok : Bool)
    (hk : attr_name.macropixel ≠ k)
    (h : udict_get u.udict attr_name.macropixel = udict_get u0.udict attr_name.macropixel) :
    udict_get (uref_attr_set u k v ok).2.udict attr_name.macropixel =
      udict_get u0.udict attr_name.macropixel := by
  unfold uref_attr_set
  cases ok with
  | false => exact h
  | true =>
    simp only [if_true]
    rw [udict_get_set_other _ _ _ _ hk]
    exact h

theorem copy_loop_keeps_macropixel (uref_src u0 : uref) (script : List Bool) (k : Nat) :
    ∀ plane uref_dst,
      udict_get uref_dst.udict attr_name.macropixel =
        udict_get u0.udict attr_name.macropixel →
      udict_get (copy_format_loop uref_src script plane k uref_dst).2.udict
        attr_name.macropixel = udict_get u0.udict attr_name.macropixel := by
  induction k with
  | zero =>
    intro plane uref_dst h
    exact h
  | succ k ih =>
    intro plane uref_dst h
    unfold copy_format_loop
    cases uref_pic_flow_get_chroma uref_src plane with
    | error e => exact h
    | ok c =>
      simp only []
      refine ubase_return_inv
        (fun x => udict_get x.udict attr_name.macropixel =
          udict_get u0.udict attr_name.macropixel) _ _
        (set_keeps_macropixel u0 _ _ _ _ (by simp) h) (fun h1 => ?_)
      cases uref_pic_flow_get_hsubsampling uref_src plane with
      | error e => exact h1
      | ok hsub =>
        simp only []
        refine ubase_return_inv
          (fun x => udict_get x.udict attr_name.macropixel =
            udict_get u0.udict attr_name.macropixel) _ _
          (set_keeps_macropixel u0 _ _ _ _ (by simp) h1) (fun h2 => ?_)
        cases uref_pic_flow_get_vsubsampling uref_src plane with
        | error e => exact h2
        | ok vsub =>
          simp only []
          refine ubase_return_inv
            (fun x => udict_get x.udict attr_name.macropixel =
              udict_get u0.udict attr_name.macropixel) _ _
            (set_keeps_macropixel u0 _ _ _ _ (by simp) h2) (fun h3 => ?_)
          cases uref_pic_flow_get_macropixel_size uref_src plane with
          | error e => exact h3
          | ok var =>
            simp only []
            refine ubase_return_inv
              (fun x => udict_get x.udict attr_name.macropixel =
                udict_get u0.udict attr_name.macropixel) _ _
              (set_keeps_macropixel u0 _ _ _ _ (by simp) h3) (fun h4 => ?_)
            exact ih _ _ h4

/-- The call `uref_pic_flow_copy_format` never writes the macropixel attribute
of the destination. -/
theorem copy_format_keeps_macropixel (uref_dst uref_src : uref) (script : List Bool) :
    uref_pic_flow_get_macropixel (uref_pic_flow_copy_format uref_dst uref_src script).2 =
      uref_pic_flow_get_macropixel uref_dst := by
  have key : udict_get (uref_pic_flow_copy_format uref_dst uref_src script).2.udict
      attr_name.macropixel = udict_get uref_dst.udict attr_name.macropixel := by
    unfold uref_pic_flow_copy_format
    cases uref_flow_get_def uref_src with
    | error e => rfl
    | ok d =>
      simp only []
      refine ubase_return_inv
        (fun x => udict_get x.udict attr_name.macropixel =
          udict_get uref_dst.udict attr_name.macropixel) _ _
        (set_keeps_macropixel uref_dst _ _ _ _ (by simp) rfl) (fun h1 => ?_)
      cases uref_pic_flow_get_planes uref_src with
      | error e => exact h1
      | ok planes =>
        simp only []
        refine ubase_return_inv
          (fun x => udict_get x.udict attr_name.macropixel =
            udict_get uref_dst.udict attr_name.macropixel) _ _
          (set_keeps_macropixel uref_dst _ _ _ _ (by simp) h1) (fun h2 => ?_)
        exact copy_loop_keeps_macropixel uref_src uref_dst script planes 0 _ h2
  unfold uref_pic_flow_get_macropixel uref_attr_get_small_unsigned
  rw [key]

theorem ubase_return_set_ok (u : uref) (k : attr_name) (v : attr_value) (ok : Bool)
    (f : uref → ubase_err × uref) (d : uref)
    (h : ubase_return (uref_attr_set u k v ok) f = (ubase_err.UBASE_ERR_NONE, d)) :
    f { udict := udict_set u.udict k v } = (ubase_err.UBASE_ERR_NONE, d) := by
  cases ok with
  | false =>
    simp only [uref_attr_set, ubase_return, Bool.false_eq_true, if_false, Prod.mk.injEq] at h
    exact absurd h.1 (by decide)
  | true =>
    simpa only [uref_attr_set, ubase_return, if_true] using h

theorem get_string_of_udict {u : uref} {k : attr_name} {c : String}
    (h : udict_get u.udict k = some (attr_value.string c)) :
    uref_attr_get_string u k = Except.ok c := by
  unfold uref_attr_get_string
  rw [h]

theorem get_small_of_udict {u : uref} {k : attr_name} {v : Nat}
    (h : udict_get u.udict k = some (attr_value.small_unsigned v)) :
    uref_attr_get_small_unsigned u k = Except.ok (to_uint8 v) := by
  unfold uref_attr_get_small_unsigned
  rw [h]

theorem get_small_fix {u : uref} {k : attr_name} {v : Nat}
    (h : uref_attr_get_small_unsigned u k = Except.ok v) : to_uint8 v = v := by
  unfold uref_attr_get_small_unsigned at h
  split at h
  · simp only [Except.ok.injEq] at h
    rw [← h]
    exact to_uint8_idem _
  · cases h

theorem get_small_error {u : uref} {k : attr_name} {e : ubase_err}
    (h : uref_attr_get_small_unsigned u k = Except.error e) :
    e = ubase_err.UBASE_ERR_INVALID := by
  unfold uref_attr_get_small_unsigned at h
  split at h
  · cases h
  · simp only [Except.error.injEq] at h
    exact h.symm

theorem get_string_error {u : uref} {k : attr_name} {e : ubase_err}
    (h : uref_attr_get_string u k = Except.error e) :
    e = ubase_err.UBASE_ERR_INVALID := by
  unfold uref_attr_get_string at h
  split at h
  · cases h
  · simp only [Except.error.injEq] at h
    exact h.symm

/-- A successful run of the loop of `copy_format` over the planes
`plane .. plane + k - 1` copies their four attributes and writes nothing else. -/
theorem copy_loop_spec (uref_src : uref) (script : List Bool) (k : Nat) :
    ∀ plane uref_dst d, plane + k ≤ 256 →
      copy_format_loop uref_src script plane k uref_dst = (ubase_err.UBASE_ERR_NONE, d) →
      (∀ key, (∀ p, plane ≤ p → p < plane + k →
          key ≠ attr_name.chroma p ∧ key ≠ attr_name.hsubsampling p ∧
          key ≠ attr_name.vsubsampling p ∧ key ≠ attr_name.macropixel_size p) →
        udict_get d.udict key = udict_get uref_dst.udict key) ∧
      (∀ p, plane ≤ p → p < plane + k →
        uref_pic_flow_get_chroma d p = uref_pic_flow_get_chroma uref_src p ∧
        uref_pic_flow_get_hsubsampling d p = uref_pic_flow_get_hsubsampling uref_src p ∧
        uref_pic_flow_get_vsubsampling d p = uref_pic_flow_get_vsubsampling uref_src p ∧
        uref_pic_flow_get_macropixel_size d p =
          uref_pic_flow_get_macropixel_size uref_src p) := by
  induction k with
  | zero =>
    intro plane uref_dst d _ h
    simp only [copy_format_loop, Prod.mk.injEq, true_and] at h
    subst h
    exact ⟨fun _ _ => rfl, fun p h1 h2 => absurd h2 (by omega)⟩
  | succ k ih =>
    intro plane uref_dst d hle h
    have hP : to_uint8 plane = plane := to_uint8_of_lt (by omega)
    unfold copy_format_loop at h
    cases hc : uref_pic_flow_get_chroma uref_src plane with
    | error e =>
      rw [hc] at h
      simp only [Prod.mk.injEq] at h
      have := get_string_error hc
      rw [h.1] at this
      cases this
    | ok c =>
    rw [hc] at h
    simp only [] at h
    have h := ubase_return_set_ok _ _ _ _ _ _ h
    cases hh : uref_pic_flow_get_hsubsampling uref_src plane with
    | error e =>
      rw [hh] at h
      simp only [Prod.mk.injEq] at h
      have := get_small_error hh
      rw [h.1] at this
      cases this
    | ok hsub =>
    rw [hh] at h
    simp only [] at h
    have h := ubase_return_set_ok _ _ _ _ _ _ h
    cases hv : uref_pic_flow_get_vsubsampling uref_src plane with
    | error e =>
      rw [hv] at h
      simp only [Prod.mk.injEq] at h
      have := get_small_error hv
      rw [h.1] at this
      cases this
    | ok vsub =>
    rw [hv] at h
    simp only [] at h
    have h := ubase_return_set_ok _ _ _ _ _ _ h
    cases hm : uref_pic_flow_get_macropixel_size uref_src plane with
    | error e =>
      rw [hm] at h
      simp only [Prod.mk.injEq] at h
      have := get_small_error hm
      rw [h.1] at this
      cases this
    | ok var =>
    rw [hm] at h
    simp only [] at h
    have h := ubase_return_set_ok _ _ _ _ _ _ h
    rw [hP] at h
    obtain ⟨hF, hE⟩ := ih (plane + 1) _ d (by omega) h
    have frame : ∀ key, (∀ p, plane + 1 ≤ p → p < plane + 1 + k →
          key ≠ attr_name.chroma p ∧ key ≠ attr_name.hsubsampling p ∧
          key ≠ attr_name.vsubsampling p ∧ key ≠ attr_name.macropixel_size p) →
        udict_get d.udict key =
          udict_get (udict_set (udict_set (udict_set (udict_set uref_dst.udict
            (attr_name.chroma plane) (attr_value.string c))
            (attr_name.hsubsampling plane) (attr_value.small_unsigned (to_uint8 hsub)))
            (attr_name.vsubsampling plane) (attr_value.small_unsigned (to_uint8 vsub)))
            (attr_name.macropixel_size plane) (attr_value.small_unsigned (to_uint8 var)))
            key := fun key hkey => hF key hkey
    refine ⟨fun key hkey => ?_, fun p hp1 hp2 => ?_⟩
    · rw [frame key (fun p h1 h2 => hkey p (by omega) (by omega))]
      obtain ⟨k1, k2, k3, k4⟩ := hkey plane (Nat.le_refl _) (by omega)
      rw [udict_get_set_other _ _ _ _ k4, udict_get_set_other _ _ _ _ k3,
        udict_get_set_other _ _ _ _ k2, udict_get_set_other _ _ _ _ k1]
    · by_cases hp : p = plane
      · subst hp
        have hne : ∀ q, p + 1 ≤ q → ¬ p = q := fun q hq heq => by omega
        refine ⟨?_, ?_, ?_, ?_⟩
        · rw [hc]
          unfold uref_pic_flow_get_chroma
          rw [hP]
          apply get_string_of_udict
          rw [frame _ (fun q h1 _ => by simp [hne q h1])]
          simp [udict_get_set_other, udict_get_set_same]
        · rw [hh, ← get_small_fix hh, ← to_uint8_idem hsub]
          unfold uref_pic_flow_get_hsubsampling
          rw [hP]
          apply get_small_of_udict
          rw [frame _ (fun q h1 _ => by simp [hne q h1])]
          simp [udict_get_set_other, udict_get_set_same]
        · rw [hv, ← get_small_fix hv, ← to_uint8_idem vsub]
          unfold uref_pic_flow_get_vsubsampling
          rw [hP]
          apply get_small_of_udict
          rw [frame _ (fun q h1 _ => by simp [hne q h1])]
          simp [udict_get_set_other, udict_get_set_same]
        · rw [hm, ← get_small_fix hm, ← to_uint8_idem var]
          unfold uref_pic_flow_get_macropixel_size
          rw [hP]
          apply get_small_of_udict
          rw [frame _ (fun q h1 _ => by simp [hne q h1])]
          simp [udict_get_set_other, udict_get_set_same]
      · exact hE p (by omega) (by omega)

/-- The attributes a successful `uref_pic_flow_copy_format` does copy: the flow
definition string, the planes count and the four attributes of every plane
below it. -/
theorem copy_format_copies (uref_dst uref_src : uref) (script : List Bool) (d : uref)
    (h : uref_pic_flow_copy_format uref_dst uref_src script = (ubase_err.UBASE_ERR_NONE, d)) :
    uref_flow_get_def d = uref_flow_get_def uref_src ∧
    uref_pic_flow_get_planes d = uref_pic_flow_get_planes uref_src ∧
    ∀ planes, uref_pic_flow_get_planes uref_src = Except.ok planes → ∀ p, p < planes →
      uref_pic_flow_get_chroma d p = uref_pic_flow_get_chroma uref_src p ∧
      uref_pic_flow_get_hsubsampling d p = uref_pic_flow_get_hsubsampling uref_src p ∧
      uref_pic_flow_get_vsubsampling d p = uref_pic_flow_get_vsubsampling uref_src p ∧
      uref_pic_flow_get_macropixel_size d p =
        uref_pic_flow_get_macropixel_size uref_src p := by
  unfold uref_pic_flow_copy_format at h
  cases hd : uref_flow_get_def uref_src with
  | error e =>
    rw [hd] at h
    simp only [Prod.mk.injEq] at h
    have := get_string_error hd
    rw [h.1] at this
    cases this
  | ok fd =>
  rw [hd] at h
  simp only [] at h
  have h := ubase_return_set_ok _ _ _ _ _ _ h
  cases hn : uref_pic_flow_get_planes uref_src with
  | error e =>
    rw [hn] at h
    simp only [Prod.mk.injEq] at h
    have := get_small_error hn
    rw [h.1] at this
    cases this
  | ok planes =>
  rw [hn] at h
  simp only [] at h
  have h := ubase_return_set_ok _ _ _ _ _ _ h
  have hlt := get_planes_lt hn
  obtain ⟨hF, hE⟩ := copy_loop_spec uref_src script planes 0 _ d (by omega) h
  refine ⟨?_, ?_, fun planes1 h1 p hp => ?_⟩
  · unfold uref_flow_get_def
    apply get_string_of_udict
    rw [hF _ (fun q _ _ => by simp)]
    simp [udict_get_set_other, udict_get_set_same]
  · rw [← get_small_fix hn, ← to_uint8_idem planes]
    unfold uref_pic_flow_get_planes
    apply get_small_of_udict
    rw [hF _ (fun q _ _ => by simp)]
    simp [udict_get_set_other, udict_get_set_same]
  · simp only [Except.ok.injEq] at h1
    subst h1
    exact hE p (Nat.zero_le _) (by omega)

/-- C27 fails on the macropixel attribute: `uref_pic_flow_copy_format` never
writes the macropixel of the destination (first conjunct, for every
destination, source and outcome of the writes).  Copying the format of a flow
definition of macropixel 1 with the planes (1, 1, 1, "y8") and (2, 2, 1, "u8")
to a flow definition of macropixel 4 returns `UBASE_ERR_NONE`; the flow
definition string, the planes count and the attributes of the two planes of
the destination then equal those of the source, and its macropixel is still 4. -/
theorem C27_copy_format_leaves_macropixel :
    (∀ (uref_dst uref_src : uref) (script : List Bool),
      uref_pic_flow_get_macropixel (uref_pic_flow_copy_format uref_dst uref_src script).2 =
        uref_pic_flow_get_macropixel uref_dst) ∧
    (uref_pic_flow_copy_format example_dst example_src []).1 = ubase_err.UBASE_ERR_NONE ∧
    uref_pic_flow_get_macropixel example_src = Except.ok 1 ∧
    uref_pic_flow_get_macropixel (uref_pic_flow_copy_format example_dst example_src []).2 =
      Except.ok 4 ∧
    uref_flow_get_def (uref_pic_flow_copy_format example_dst example_src []).2 =
      uref_flow_get_def example_src ∧
    uref_pic_flow_get_planes (uref_pic_flow_copy_format example_dst example_src []).2 =
      Except.ok 2 ∧
    uref_pic_flow_get_planes example_src = Except.ok 2 ∧
    (∀ p, p < 2 →
      uref_pic_flow_get_chroma (uref_pic_flow_copy_format example_dst example_src []).2 p =
        uref_pic_flow_get_chroma example_src p ∧
      uref_pic_flow_get_hsubsampling
        (uref_pic_flow_copy_format example_dst example_src []).2 p =
        uref_pic_flow_get_hsubsampling example_src p ∧
      uref_pic_flow_get_vsubsampling
        (uref_pic_flow_copy_format example_dst example_src []).2 p =
        uref_pic_flow_get_vsubsampling example_src p ∧
      uref_pic_flow_get_macropixel_size
        (uref_pic_flow_copy_format example_dst example_src []).2 p =
        uref_pic_flow_get_macropixel_size example_src p) := by
  refine ⟨copy_format_keeps_macropixel, by decide, by decide, by decide, by decide, by decide,
    by decide, ?_⟩
  have h : uref_pic_flow_copy_format example_dst example_src [] =
      (ubase_err.UBASE_ERR_NONE, (uref_pic_flow_copy_format example_dst example_src []).2) := by
    decide
  exact (copy_format_copies _ _ _ _ h).2.2 2 (by decide)

end PicFlow

namespace BinOutput

/-- A call of `set_bin_output` that succeeds records the new output and makes
exactly the calls of `replay_calls`. -/
theorem set_bin_output_ok (s : upipe_foo) (output : Option Nat) (err : ubase_err)
    (s1 : upipe_foo)
    (h : upipe_foo_set_bin_output s output err = (ubase_err.UBASE_ERR_NONE, s1)) :
    s1 = { s with output := output, log := s.log ++ replay_calls s output } := by
  obtain ⟨li, o, rl, lg⟩ := s
  cases li <;> cases o <;> cases output <;> cases err <;>
    simp [upipe_foo_set_bin_output, upipe_release, upipe_use, upipe_foo.emit,
      replay_calls] at h ⊢ <;> rw [← h]

/-- A call of `set_bin_output` whose `upipe_set_output` on the last inner pipe
fails returns the error and leaves no output recorded. -/
theorem set_bin_output_failed (s : upipe_foo) (output : Option Nat) (err : ubase_err)
    (inner : Nat) (hli : s.last_inner = some inner) (herr : err ≠ ubase_err.UBASE_ERR_NONE) :
    upipe_foo_set_bin_output s output err =
      (err, { s with
        output := none,
        log := s.log ++ ((match s.output with
          | some old => s.request_list.map (call.upipe_unregister_request old) ++
              [call.upipe_release old]
          | none => []) ++ [call.upipe_set_output inner output]) }) := by
  obtain ⟨li, o, rl, lg⟩ := s
  simp only at hli
  subst hli
  cases o <;>
    simp [upipe_foo_set_bin_output, upipe_release, upipe_use, upipe_foo.emit, herr]

theorem count_register_unregisters (old new r : Nat) (l : List Nat) :
    (l.map (call.upipe_unregister_request old)).count (call.upipe_register_request new r) = 0 := by
  apply List.count_eq_zero_of_not_mem
  simp

theorem count_register_registers (new r : Nat) (l : List Nat) (hnd : l.Nodup) (hr : r ∈ l) :
    (l.map (call.upipe_register_request new)).count (call.upipe_register_request new r) = 1 := by
  apply List.count_eq_one_of_mem
  · exact hnd.map (fun a b h => by simpa using h)
  · exact List.mem_map_of_mem _ hr

theorem replay_register_count (s : upipe_foo) (new r : Nat) (hnd : s.request_list.Nodup)
    (hr : r ∈ s.request_list) :
    (replay_calls s (some new)).count (call.upipe_register_request new r) = 1 := by
  unfold replay_calls
  simp only [List.count_append, List.count_cons, count_register_registers new r _ hnd hr]
  cases s.output <;> cases s.last_inner <;>
    simp [count_register_unregisters]

theorem replay_register_mem (s : upipe_foo) (output : Option Nat) (p r : Nat)
    (h : call.upipe_register_request p r ∈ replay_calls s output) :
    output = some p ∧ r ∈ s.request_list := by
  unfold replay_calls at h
  cases ho : s.output <;> cases hl : s.last_inner <;> cases output <;>
    simp [ho, hl] at h ⊢
  all_goals exact ⟨h.2, h.1⟩

theorem replay_unregister_mem (s : upipe_foo) (output : Option Nat) (old r : Nat)
    (ho : s.output = some old) (hr : r ∈ s.request_list) :
    call.upipe_unregister_request old r ∈ replay_calls s output := by
  unfold replay_calls
  rw [ho]
  simp only [List.mem_append]
  exact Or.inl (Or.inl (Or.inl (List.mem_map_of_mem _ hr)))

/-- C28: `register_bin_output_request` adds the request at the end of the
request list of the bin, registers it on the current output if there is one
and otherwise throws a provide-request event, returning what that call
returns.  After a `set_bin_output` that succeeds, on a bin whose request list
has no request twice, the list is unchanged, the output recorded and returned
by `UPIPE_GET_OUTPUT` is the new one, and the calls made are those of
`replay_calls`: every request of the list was unregistered from the previous
output, if any, and, when the new output is not NULL, registered exactly once
on it, after these unregistrations; nothing was registered on another pipe. -/
theorem C28_bin_output_request_forwarding (s : upipe_foo) (urequest : Nat)
    (err err1 err2 : ubase_err) (output : Option Nat) (s1 : upipe_foo)
    (hnd : s.request_list.Nodup)
    (h : upipe_foo_set_bin_output s output err1 = (ubase_err.UBASE_ERR_NONE, s1)) :
    ((upipe_foo_register_bin_output_request s urequest err).2.request_list =
        s.request_list ++ [urequest] ∧
      (upipe_foo_register_bin_output_request s urequest err).1 = err ∧
      (upipe_foo_register_bin_output_request s urequest err).2.output = s.output ∧
      (∀ o, s.output = some o →
        (upipe_foo_register_bin_output_request s urequest err).2.log =
          s.log ++ [call.upipe_register_request o urequest]) ∧
      (s.output = none →
        (upipe_foo_register_bin_output_request s urequest err).2.log =
          s.log ++ [call.upipe_throw_provide_request urequest])) ∧
    (s1.request_list = s.request_list ∧
      s1.last_inner = s.last_inner ∧
      s1.output = output ∧
      upipe_foo_control_bin_output s1 command.UPIPE_GET_OUTPUT err2 =
        (ubase_err.UBASE_ERR_NONE, some output, s1) ∧
      s1.log = s.log ++ replay_calls s output ∧
      (∀ old, s.output = some old → ∀ r, r ∈ s.request_list →
        call.upipe_unregister_request old r ∈ replay_calls s output) ∧
      (∀ new, output = some new → ∀ r, r ∈ s.request_list →
        (replay_calls s output).count (call.upipe_register_request new r) = 1) ∧
      (∀ p r, call.upipe_register_request p r ∈ replay_calls s output →
        output = some p ∧ r ∈ s.request_list)) := by
  constructor
  · obtain ⟨li, o, rl, lg⟩ := s
    cases o with
    | none =>
      exact ⟨rfl, rfl, rfl, fun o h1 => Option.noConfusion h1, fun _ => rfl⟩
    | some o =>
      refine ⟨rfl, rfl, rfl, fun o1 h1 => ?_, fun h1 => Option.noConfusion h1⟩
      simp only [Option.some.injEq] at h1
      subst h1
      rfl
  · have hs1 := set_bin_output_ok s output err1 s1 h
    subst hs1
    refine ⟨rfl, rfl, rfl, rfl, rfl, fun old ho r hr => replay_unregister_mem s output old r ho hr,
      fun new hn r hr => ?_, fun p r hm => replay_register_mem s output p r hm⟩
    subst hn
    exact replay_register_count s new r hnd hr

/-- Witness of C28: the bin with last inner pipe 1, output 2 and the requests
10 and 11 is given the output 3. -/
theorem C28_witness :
    (upipe_foo_set_bin_output example_bin (some 3) ubase_err.UBASE_ERR_NONE).2.output = some 3 ∧
    (upipe_foo_set_bin_output example_bin (some 3) ubase_err.UBASE_ERR_NONE).2.log =
      example_bin.log ++
        [call.upipe_unregister_request 2 10, call.upipe_unregister_request 2 11,
         call.upipe_release 2, call.upipe_set_output 1 (some 3), call.upipe_use 3,
         call.upipe_register_request 3 10, call.upipe_register_request 3 11] :=
  have h := (C28_bin_output_request_forwarding example_bin 12 ubase_err.UBASE_ERR_NONE
    ubase_err.UBASE_ERR_NONE ubase_err.UBASE_ERR_NONE (some 3)
    (upipe_foo_set_bin_output example_bin (some 3) ubase_err.UBASE_ERR_NONE).2
    (by decide) (by decide)).2
  ⟨h.2.2.1, h.2.2.2.2.1⟩

/-- C30: on a bin with a last inner pipe and a current output `old`, when
`upipe_set_output` on the last inner pipe returns an error for the new
output, `set_bin_output` returns that error; afterwards the output recorded
(and returned by `UPIPE_GET_OUTPUT`) is NULL, the last inner pipe and the
request list are unchanged, and the calls made are the unregistration of
every request of the list from `old`, the release of `old` and the failed
`upipe_set_output`: no request was registered on any pipe. -/
theorem C30_set_bin_output_failure (s : upipe_foo) (output : Option Nat)
    (err err2 : ubase_err) (inner old : Nat)
    (hli : s.last_inner = some inner) (ho : s.output = some old)
    (herr : err ≠ ubase_err.UBASE_ERR_NONE) :
    (upipe_foo_set_bin_output s output err).1 = err ∧
    (upipe_foo_set_bin_output s output err).2.output = none ∧
    upipe_foo_control_bin_output (upipe_foo_set_bin_output s output err).2
      command.UPIPE_GET_OUTPUT err2 =
      (ubase_err.UBASE_ERR_NONE, some none, (upipe_foo_set_bin_output s output err).2) ∧
    (upipe_foo_set_bin_output s output err).2.last_inner = some inner ∧
    (upipe_foo_set_bin_output s output err).2.request_list = s.request_list ∧
    (upipe_foo_set_bin_output s output err).2.log =
      s.log ++ (s.request_list.map (call.upipe_unregister_request old) ++
        [call.upipe_release old, call.upipe_set_output inner output]) ∧
    (∀ r, r ∈ s.request_list → call.upipe_unregister_request old r ∈
      s.request_list.map (call.upipe_unregister_request old) ++
        [call.upipe_release old, call.upipe_set_output inner output]) ∧
    (∀ p r, call.upipe_register_request p r ∉
      s.request_list.map (call.upipe_unregister_request old) ++
        [call.upipe_release old, call.upipe_set_output inner output]) := by
  rw [set_bin_output_failed s output err inner hli herr]
  refine ⟨rfl, rfl, rfl, hli, rfl, ?_, fun r hr => ?_, fun p r => ?_⟩
  · simp only [ho, List.append_assoc, List.singleton_append]
  · exact List.mem_append_left _ (List.mem_map_of_mem _ hr)
  · simp

/-- Witness of C30: the bin with last inner pipe 1, output 2 and the requests
10 and 11 is given the output 3, which the last inner pipe refuses. -/
theorem C30_witness :
    (upipe_foo_set_bin_output example_bin (some 3) ubase_err.UBASE_ERR_INVALID).1 =
      ubase_err.UBASE_ERR_INVALID ∧
    (upipe_foo_set_bin_output example_bin (some 3) ubase_err.UBASE_ERR_INVALID).2.output =
      none ∧
    (upipe_foo_set_bin_output example_bin (some 3) ubase_err.UBASE_ERR_INVALID).2.log =
      example_bin.log ++
        [call.upipe_unregister_request 2 10, call.upipe_unregister_request 2 11,
         call.upipe_release 2, call.upipe_set_output 1 (some 3)] :=
  have h := C30_set_bin_output_failure example_bin (some 3) ubase_err.UBASE_ERR_INVALID
    ubase_err.UBASE_ERR_NONE 1 2 (by decide) (by decide) (by decide)
  ⟨h.1, h.2.1, h.2.2.2.2.2.1⟩

end BinOutput

end TsDemux
